import Mathlib

/-!
# Vulkan compute-graph runtime and primitive operators

A shallow embedding of

* `backends/vulkan/runtime/vk_api/Command.cpp` (`CommandBuffer`, `CommandPool`),
* `backends/vulkan/runtime/graph/ComputeGraph.cpp` (`ComputeGraph`, borrow handles,
  `TmpTensor`),
* `kernels/prim_ops/register_prim_ops.cpp` (entries of the primitive operator table),

followed by theorems about the embedded definitions.

Conventions.  Vulkan handles are natural numbers and `VK_NULL_HANDLE` is `0`.
A member function that can throw returns the value of the object after the call
together with the outcome, so that the state left behind by a failed check is
visible.  Calls into the GPU API are returned as a list of `VkCall`s in the
order in which they are issued.
-/

namespace vkcompute

namespace utils

/-- Three unsigned components, as `utils::uvec3` (also `utils::WorkgroupSize`). -/
structure uvec3 where
  data0 : Nat
  data1 : Nat
  data2 : Nat
deriving DecidableEq, Repr

/-- Component access `v[i]` for an index in range. -/
def uvec3.get (v : uvec3) (i : Fin 3) : Nat :=
  match i with
  | 0 => v.data0
  | 1 => v.data1
  | 2 => v.data2

/-- Component update `v[i] = x`. -/
def uvec3.set (v : uvec3) (i : Fin 3) (x : Nat) : uvec3 :=
  match i with
  | 0 => { v with data0 := x }
  | 1 => { v with data1 := x }
  | 2 => { v with data2 := x }

/-- Modelled from the spec: `utils::div_up`, whose definition lives in a header
outside the sources.  The spec describes the dispatched work-group count as
`ceil_div(global[i], local[i])`: the quotient rounded up.  The operands are
`uint32_t` values, and the rounded-up quotient of two of them is one as well.
A zero denominator is an integer division by zero, which C++ leaves undefined:
the result is `none`. -/
def div_up (numerator denominator : Nat) : Option Nat :=
  if denominator = 0 then none else some ((numerator + denominator - 1) / denominator)

end utils

namespace vkapi

/-- A Vulkan object handle. -/
abbrev VkHandle := Nat

/-- The null handle. -/
def VK_NULL_HANDLE : VkHandle := 0

/-- A `VkResult` status code. -/
abbrev VkResult := Int

/-- The status of a GPU API call that succeeded. -/
def VK_SUCCESS : VkResult := 0

/-- The usage flag bit of a command buffer that is submitted once. -/
def VK_COMMAND_BUFFER_USAGE_ONE_TIME_SUBMIT_BIT : Nat := 1

/-- The ways a member function fails: a `VK_CHECK_COND` whose condition is
false, a `VK_CHECK` of a GPU API call that did not return `VK_SUCCESS`, an
access `at(i)` outside a vector, and a `VK_THROW`. -/
inductive Error where
  | check_cond
  | vk_check (status : VkResult)
  | out_of_range
  | vk_throw
deriving DecidableEq, Repr

/-- Outcome of a member function: normal return with a value, or a throw. -/
inductive Outcome (α : Type) where
  | returned (value : α)
  | thrown (err : Error)
deriving DecidableEq, Repr

/-- The enumeration `CommandBuffer::State`. -/
inductive State where
  | INVALID
  | NEW
  | RECORDING
  | PIPELINE_BOUND
  | DESCRIPTORS_BOUND
  | BARRIERS_INSERTED
  | READY
  | SUBMITTED
deriving DecidableEq, Repr

/-- The record `CommandBuffer::Bound`: what is currently bound to the command buffer. -/
structure Bound where
  pipeline : VkHandle
  pipeline_layout : VkHandle
  local_workgroup_size : utils.uvec3
  descriptors : VkHandle
deriving DecidableEq, Repr

/-- The value-initialised record `bound_{}`, which is also what `Bound::reset`
leaves behind. -/
def Bound.reset : Bound :=
  { pipeline := VK_NULL_HANDLE
    pipeline_layout := VK_NULL_HANDLE
    local_workgroup_size := ⟨0, 0, 0⟩
    descriptors := VK_NULL_HANDLE }

/-- The data members of `CommandBuffer`. -/
structure CommandBuffer where
  handle_ : VkHandle
  signal_semaphore_ : VkHandle
  flags_ : Nat
  state_ : State
  bound_ : Bound
deriving DecidableEq, Repr

/-- A buffer or image memory barrier, identified by its barrier `handle`. -/
structure MemoryBarrier where
  handle : Nat
deriving DecidableEq, Repr

/-- The fields of `PipelineBarrier`.  `active` is the truth value of its `operator bool`,
which is declared outside the sources. -/
structure PipelineBarrier where
  stage_src : Nat
  stage_dst : Nat
  buffers : List MemoryBarrier
  buffer_barrier_handles : List Nat
  images : List MemoryBarrier
  image_barrier_handles : List Nat
  active : Bool
deriving DecidableEq, Repr

/-- What `blit` reads from a `VulkanImage`. -/
structure VulkanImage where
  width : Nat
  height : Nat
  depth : Nat
  handle : VkHandle
  layout : Nat
deriving DecidableEq, Repr

/-- The conversion `static_cast<int32_t>` of an unsigned 32-bit value. -/
def to_int32 (n : Nat) : Int :=
  if n % 2 ^ 32 < 2 ^ 31 then ((n % 2 ^ 32 : Nat) : Int) else ((n % 2 ^ 32 : Nat) : Int) - 2 ^ 32

/-- The GPU API calls issued by `CommandBuffer`, with the arguments that vary. -/
inductive VkCall where
  | vkBeginCommandBuffer (handle : VkHandle) (flags : Nat)
  | vkEndCommandBuffer (handle : VkHandle)
  | vkCmdBindPipeline (handle pipeline : VkHandle)
  | vkCmdBindDescriptorSets (handle layout descriptors : VkHandle)
  | vkCmdPushConstants (handle layout : VkHandle) (size data : Nat)
  | vkCmdPipelineBarrier (handle : VkHandle) (src dst : Nat)
      (buffer_count : Nat) (buffer_barriers : Option (List Nat))
      (image_count : Nat) (image_barriers : Option (List Nat))
  | vkCmdDispatch (handle : VkHandle) (x y z : Nat)
  | vkCmdBlitImage (handle src : VkHandle) (src_layout : Nat) (dst : VkHandle)
      (dst_layout : Nat) (src_corner dst_corner : Int × Int × Int)
  | vkCmdWriteTimestamp (handle querypool : VkHandle) (idx : Nat)
  | vkCmdResetQueryPool (handle querypool : VkHandle) (first_idx count : Nat)
deriving DecidableEq, Repr

/-- Result of running a member function on a command buffer: the outcome, the
command buffer as the call leaves it, and the GPU API calls it issued. -/
structure Step (α : Type) where
  outcome : Outcome α
  cb : CommandBuffer
  calls : List VkCall
deriving DecidableEq, Repr

namespace CommandBuffer

/-- The constructor `CommandBuffer(handle, semaphore, flags)`. -/
def mk_new (handle semaphore : VkHandle) (flags : Nat) : CommandBuffer :=
  { handle_ := handle
    signal_semaphore_ := semaphore
    flags_ := flags
    state_ := State.NEW
    bound_ := Bound.reset }

/-- The move constructor `CommandBuffer(CommandBuffer&& other)`: the new object
first, then `other` as it is left. -/
def move_construct (other : CommandBuffer) : CommandBuffer × CommandBuffer :=
  ( { handle_ := other.handle_
      signal_semaphore_ := other.signal_semaphore_
      flags_ := other.flags_
      state_ := other.state_
      bound_ := other.bound_ },
    { other with
      handle_ := VK_NULL_HANDLE
      signal_semaphore_ := VK_NULL_HANDLE
      bound_ := Bound.reset } )

/-- The move assignment `operator=(CommandBuffer&& other)`: the assigned-to
object first, then `other` as it is left. -/
def move_assign (_self other : CommandBuffer) : CommandBuffer × CommandBuffer :=
  ( { handle_ := other.handle_
      signal_semaphore_ := other.signal_semaphore_
      flags_ := other.flags_
      state_ := other.state_
      bound_ := other.bound_ },
    { other with
      handle_ := VK_NULL_HANDLE
      signal_semaphore_ := VK_NULL_HANDLE
      bound_ := Bound.reset
      state_ := State.INVALID } )

/-- The member function `CommandBuffer::begin`; `status` is what `vkBeginCommandBuffer` returns. -/
def begin (status : VkResult) (cb : CommandBuffer) : Step Unit :=
  if cb.state_ = State.NEW then
    if status = VK_SUCCESS then
      { outcome := .returned ()
        cb := { cb with state_ := State.RECORDING }
        calls := [.vkBeginCommandBuffer cb.handle_ cb.flags_] }
    else
      { outcome := .thrown (.vk_check status)
        cb := cb
        calls := [.vkBeginCommandBuffer cb.handle_ cb.flags_] }
  else
    { outcome := .thrown .check_cond, cb := cb, calls := [] }

/-- The member function `CommandBuffer::end`; `status` is what `vkEndCommandBuffer` returns when it
is called. -/
def end_ (status : VkResult) (cb : CommandBuffer) : Step Unit :=
  if cb.state_ = State.RECORDING ∨ cb.state_ = State.SUBMITTED then
    if cb.state_ = State.RECORDING then
      if status = VK_SUCCESS then
        { outcome := .returned ()
          cb := { cb with state_ := State.READY }
          calls := [.vkEndCommandBuffer cb.handle_] }
      else
        { outcome := .thrown (.vk_check status)
          cb := cb
          calls := [.vkEndCommandBuffer cb.handle_] }
    else
      { outcome := .returned (), cb := { cb with state_ := State.READY }, calls := [] }
  else
    { outcome := .thrown .check_cond, cb := cb, calls := [] }

/-- The member function `CommandBuffer::bind_pipeline`. -/
def bind_pipeline (pipeline pipeline_layout : VkHandle)
    (local_workgroup_size : utils.uvec3) (cb : CommandBuffer) : Step Unit :=
  if cb.state_ = State.RECORDING then
    let rebind := pipeline ≠ cb.bound_.pipeline
    let bound1 : Bound := if rebind then { cb.bound_ with pipeline := pipeline } else cb.bound_
    { outcome := .returned ()
      cb := { cb with
        bound_ := { bound1 with
          pipeline_layout := pipeline_layout
          local_workgroup_size := local_workgroup_size }
        state_ := State.PIPELINE_BOUND }
      calls := if rebind then [.vkCmdBindPipeline cb.handle_ pipeline] else [] }
  else
    { outcome := .thrown .check_cond, cb := cb, calls := [] }

/-- The member function `CommandBuffer::bind_descriptors`. -/
def bind_descriptors (descriptors : VkHandle) (cb : CommandBuffer) : Step Unit :=
  if cb.state_ = State.PIPELINE_BOUND then
    { outcome := .returned ()
      cb := { cb with
        bound_ := { cb.bound_ with descriptors := descriptors }
        state_ := State.DESCRIPTORS_BOUND }
      calls :=
        if descriptors ≠ cb.bound_.descriptors then
          [.vkCmdBindDescriptorSets cb.handle_ cb.bound_.pipeline_layout descriptors]
        else [] }
  else
    { outcome := .thrown .check_cond, cb := cb, calls := [] }

/-- The member function `CommandBuffer::set_push_constants`; `push_constants_data` is the address
passed, `0` for `nullptr`. -/
def set_push_constants (pipeline_layout : VkHandle) (push_constants_data : Nat)
    (push_constants_size : Nat) (cb : CommandBuffer) : Step Unit :=
  { outcome := .returned ()
    cb := cb
    calls :=
      if push_constants_data ≠ 0 ∧ push_constants_size > 0 then
        [.vkCmdPushConstants cb.handle_ pipeline_layout push_constants_size push_constants_data]
      else [] }

/-- The barrier argument of `insert_barrier` as the call leaves it when the
barrier is active: both handle lists are rebuilt from the barriers. -/
def refresh_barrier_handles (pipeline_barrier : PipelineBarrier) : PipelineBarrier :=
  { pipeline_barrier with
    buffer_barrier_handles := pipeline_barrier.buffers.map (fun b => b.handle)
    image_barrier_handles := pipeline_barrier.images.map (fun b => b.handle) }

/-- The member function `CommandBuffer::insert_barrier`; returns the barrier argument as updated. -/
def insert_barrier (pipeline_barrier : PipelineBarrier) (cb : CommandBuffer) :
    Step PipelineBarrier :=
  if cb.state_ = State.DESCRIPTORS_BOUND ∨ cb.state_ = State.RECORDING then
    if pipeline_barrier.active then
      let pb := refresh_barrier_handles pipeline_barrier
      { outcome := .returned pb
        cb := { cb with state_ := State.BARRIERS_INSERTED }
        calls := [.vkCmdPipelineBarrier cb.handle_ pb.stage_src pb.stage_dst
          pb.buffers.length
          (if pb.buffers.isEmpty then none else some pb.buffer_barrier_handles)
          pb.images.length
          (if pb.images.isEmpty then none else some pb.image_barrier_handles)] }
    else
      { outcome := .returned pipeline_barrier
        cb := { cb with state_ := State.BARRIERS_INSERTED }
        calls := [] }
  else
    { outcome := .thrown .check_cond, cb := cb, calls := [] }

/-- The member function `CommandBuffer::dispatch`.  The three group counts are
arguments of `vkCmdDispatch`: they are computed after the state check, before
the GPU call is made and before the state is assigned.  When a component of the
bound local work-group size is 0 this computation divides by zero, which C++
leaves undefined; the result is then `none`: the call does not return, nothing
is recorded and the state is not assigned. -/
def dispatch (global_workgroup_size : utils.uvec3) (cb : CommandBuffer) : Option (Step Unit) :=
  if cb.state_ = State.BARRIERS_INSERTED then
    match utils.div_up (global_workgroup_size.get 0) (cb.bound_.local_workgroup_size.get 0),
      utils.div_up (global_workgroup_size.get 1) (cb.bound_.local_workgroup_size.get 1),
      utils.div_up (global_workgroup_size.get 2) (cb.bound_.local_workgroup_size.get 2) with
    | some x, some y, some z =>
      some
        { outcome := .returned ()
          cb := { cb with state_ := State.RECORDING }
          calls := [.vkCmdDispatch cb.handle_ x y z] }
    | _, _, _ => none
  else
    some { outcome := .thrown .check_cond, cb := cb, calls := [] }

/-- The member function `CommandBuffer::blit`. -/
def blit (src dst : VulkanImage) (cb : CommandBuffer) : Step Unit :=
  if cb.state_ = State.BARRIERS_INSERTED then
    { outcome := .returned ()
      cb := { cb with state_ := State.RECORDING }
      calls := [.vkCmdBlitImage cb.handle_ src.handle src.layout dst.handle dst.layout
        (to_int32 src.width, to_int32 src.height, to_int32 src.depth)
        (to_int32 dst.width, to_int32 dst.height, to_int32 dst.depth)] }
  else
    { outcome := .thrown .check_cond, cb := cb, calls := [] }

/-- The member function `CommandBuffer::write_timestamp`. -/
def write_timestamp (querypool : VkHandle) (idx : Nat) (cb : CommandBuffer) : Step Unit :=
  if cb.state_ = State.RECORDING then
    { outcome := .returned ()
      cb := cb
      calls := [.vkCmdWriteTimestamp cb.handle_ querypool idx] }
  else
    { outcome := .thrown .check_cond, cb := cb, calls := [] }

/-- The member function `CommandBuffer::reset_querypool`. -/
def reset_querypool (querypool : VkHandle) (first_idx count : Nat) (cb : CommandBuffer) :
    Step Unit :=
  if cb.state_ = State.RECORDING then
    { outcome := .returned ()
      cb := cb
      calls := [.vkCmdResetQueryPool cb.handle_ querypool first_idx count] }
  else
    { outcome := .thrown .check_cond, cb := cb, calls := [] }

/-- Modelled from the spec: `is_reusable`, declared outside the sources.  A
buffer is flagged `ONE_TIME_SUBMIT` exactly when it is not reusable. -/
def is_reusable (cb : CommandBuffer) : Bool :=
  cb.flags_ % 2 = 0

/-- Modelled from the spec: `invalidate`, declared outside the sources.  The
handle of the buffer is invalidated. -/
def invalidate (cb : CommandBuffer) : CommandBuffer :=
  { cb with handle_ := VK_NULL_HANDLE }

/-- The member function `CommandBuffer::get_submit_handle`. -/
def get_submit_handle (final_use : Bool) (cb : CommandBuffer) : Step VkHandle :=
  if cb.state_ = State.READY then
    let handle := cb.handle_
    let cb1 := if !cb.is_reusable || final_use then cb.invalidate else cb
    { outcome := .returned handle
      cb := { cb1 with state_ := State.SUBMITTED }
      calls := [] }
  else
    { outcome := .thrown .check_cond, cb := cb, calls := [] }

end CommandBuffer

/-- The command buffer that a call leaves when it returns normally; `none` when
it throws. -/
def Step.returned_cb {α : Type} (s : Step α) : Option CommandBuffer :=
  match s.outcome with
  | .returned _ => some s.cb
  | .thrown _ => none

/-- A call of a member function of `CommandBuffer` with its arguments; for
`begin` and `end` also the status that the GPU API call reports. -/
inductive Op where
  | begin (status : VkResult)
  | end_ (status : VkResult)
  | bind_pipeline (pipeline pipeline_layout : VkHandle) (local_workgroup_size : utils.uvec3)
  | bind_descriptors (descriptors : VkHandle)
  | set_push_constants (pipeline_layout : VkHandle) (data size : Nat)
  | insert_barrier (pipeline_barrier : PipelineBarrier)
  | dispatch (global_workgroup_size : utils.uvec3)
  | blit (src dst : VulkanImage)
  | write_timestamp (querypool : VkHandle) (idx : Nat)
  | reset_querypool (querypool : VkHandle) (first_idx count : Nat)
  | get_submit_handle (final_use : Bool)
deriving DecidableEq, Repr

/-- The condition on the state that the `VK_CHECK_COND` of the call tests;
`set_push_constants` makes no such check. -/
def Op.state_check : Op → CommandBuffer → Bool
  | .begin _, cb => cb.state_ = State.NEW
  | .end_ _, cb => cb.state_ = State.RECORDING ∨ cb.state_ = State.SUBMITTED
  | .bind_pipeline _ _ _, cb => cb.state_ = State.RECORDING
  | .bind_descriptors _, cb => cb.state_ = State.PIPELINE_BOUND
  | .set_push_constants _ _ _, _ => true
  | .insert_barrier _, cb => cb.state_ = State.DESCRIPTORS_BOUND ∨ cb.state_ = State.RECORDING
  | .dispatch _, cb => cb.state_ = State.BARRIERS_INSERTED
  | .blit _ _, cb => cb.state_ = State.BARRIERS_INSERTED
  | .write_timestamp _ _, cb => cb.state_ = State.RECORDING
  | .reset_querypool _ _ _, cb => cb.state_ = State.RECORDING
  | .get_submit_handle _, cb => cb.state_ = State.READY

/-- The command buffer that the call leaves when it returns normally; `none`
when it throws and when it is undefined. -/
def Op.run : Op → CommandBuffer → Option CommandBuffer
  | .begin status, cb => (cb.begin status).returned_cb
  | .end_ status, cb => (cb.end_ status).returned_cb
  | .bind_pipeline pipeline pipeline_layout l, cb =>
    (cb.bind_pipeline pipeline pipeline_layout l).returned_cb
  | .bind_descriptors descriptors, cb => (cb.bind_descriptors descriptors).returned_cb
  | .set_push_constants pipeline_layout data size, cb =>
    (cb.set_push_constants pipeline_layout data size).returned_cb
  | .insert_barrier pipeline_barrier, cb => (cb.insert_barrier pipeline_barrier).returned_cb
  | .dispatch g, cb => (cb.dispatch g).bind Step.returned_cb
  | .blit src dst, cb => (cb.blit src dst).returned_cb
  | .write_timestamp querypool idx, cb => (cb.write_timestamp querypool idx).returned_cb
  | .reset_querypool querypool first_idx count, cb =>
    (cb.reset_querypool querypool first_idx count).returned_cb
  | .get_submit_handle final_use, cb => (cb.get_submit_handle final_use).returned_cb

/-- The command buffer left by a sequence of calls that all return normally, in
order; `none` as soon as one of them does not. -/
def run_ops : List Op → CommandBuffer → Option CommandBuffer
  | [], cb => some cb
  | op :: rest, cb => (op.run cb).bind (run_ops rest)

/-- Whether the call is a call of `bind_pipeline`. -/
def Op.is_bind_pipeline : Op → Bool
  | .bind_pipeline _ _ _ => true
  | _ => false

end vkapi

/-! ## The compute graph: configuration, values and the value store -/

namespace utils

/-- The storage modes of a tensor, `utils::StorageType`. -/
inductive StorageType where
  | kBuffer
  | kTexture3D
  | kTexture2D
deriving DecidableEq, Repr

/-- The packed-dimension layouts, `utils::GPUMemoryLayout`. -/
inductive GPUMemoryLayout where
  | kWidthPacked
  | kHeightPacked
  | kChannelsPacked
deriving DecidableEq, Repr

/-- Modelled from the spec: `utils::val_at` at index `-3`, defined outside the
sources: the extent of the channels dimension, the third from the end. -/
def val_at_minus3 (sizes : List Int) : Int :=
  sizes.getD (sizes.length - 3) 1

end utils

/-- An index into the value store.  `ValueRef` is a signed 32-bit integer. -/
abbrev ValueRef := Int

/-- The conversion `static_cast<int>(values_.size())` of a store size. -/
def static_cast_int (n : Nat) : Int :=
  vkapi.to_int32 n

/-- The options of `GraphConfig` read by the functions embedded here. -/
structure GraphConfig where
  enable_storage_type_override : Bool
  storage_type_override : utils.StorageType
  enable_memory_layout_override : Bool
  memory_layout_override : utils.GPUMemoryLayout
  enable_local_wg_size_override : Bool
  local_wg_size_override : utils.uvec3
  prepack_threshold_nbytes : Nat
  prepack_initial_threshold_nbytes : Nat
  enable_querypool : Bool
deriving DecidableEq, Repr

/-- The members of `vkapi::DescriptorPoolConfig`: the five counters named in
the sources and the sixth member, which `prepare` initialises with `1u`.  The
counters are 32-bit; they are kept as natural numbers. -/
structure DescriptorPoolConfig where
  descriptor_pool_max_sets : Nat
  descriptor_uniform_buffer_count : Nat
  descriptor_storage_buffer_count : Nat
  descriptor_combined_sampler_count : Nat
  descriptor_storage_image_count : Nat
  descriptor_pile_sizes : Nat
deriving DecidableEq, Repr

/-- What the graph records of an `api::vTensor`: the constructor arguments, or
the image it wraps, or the tensor it is a view of. -/
structure vTensor where
  sizes : List Int
  strides : Option (List Int)
  dtype : Nat
  storage_type : Option utils.StorageType
  memory_layout : Option utils.GPUMemoryLayout
  allocate_memory : Bool
  axis_map_layout : Nat
  image : Option vkapi.VkHandle
deriving DecidableEq, Repr

/-- The copy `api::vTensor(*t)`: a view sharing the storage of `t`. -/
def vTensor.view (t : vTensor) : vTensor :=
  { t with allocate_memory := false }

/-- The view `api::vTensor(*t, sizes, strides)`. -/
def vTensor.view_sized (t : vTensor) (sizes strides : List Int) : vTensor :=
  { t with sizes := sizes, strides := some strides, allocate_memory := false }

/-- A `TensorRef`: sizes, dtype and the address of the host data. -/
structure TensorRef where
  sizes : List Int
  dtype : Nat
  data : Nat
deriving DecidableEq, Repr

/-- The byte count `TensorRef::nbytes()`: number of elements times the element
size, `element_size` being the table `vkapi::element_size`. -/
def TensorRef.nbytes (element_size : Nat → Nat) (r : TensorRef) : Nat :=
  (r.sizes.foldl (fun acc s => acc * s.toNat) 1) * element_size r.dtype

/-- An `api::StagingBuffer`: dtype and element count. -/
structure StagingBuffer where
  dtype : Nat
  numel : Nat
deriving DecidableEq, Repr

/-- A `SymInt`: the host value of a symbolic integer. -/
structure SymInt where
  value : Int
deriving DecidableEq, Repr

/-- A `Value` of the store, one constructor per type tag.  A double is kept as
its 64-bit pattern. -/
inductive Value where
  | NONE
  | INT (v : Int)
  | DOUBLE (bits : Nat)
  | BOOL (v : Bool)
  | TENSOR (t : vTensor)
  | STAGING (s : StagingBuffer)
  | TENSORREF (r : TensorRef)
  | INTLIST (l : List Int)
  | DOUBLELIST (l : List Nat)
  | BOOLLIST (l : List Bool)
  | VALUELIST (l : List ValueRef)
  | STRING (s : String)
  | SYMINT (s : SymInt)
deriving DecidableEq, Repr

/-- Modelled from the spec: a `SharedObject`, defined outside the sources, keeps
the list of tensors that use it. -/
structure SharedObject where
  users : List ValueRef
deriving DecidableEq, Repr

/-- Modelled from the spec: `SharedObject::add_user` records the tensor as a
user of the region. -/
def SharedObject.add_user (so : SharedObject) (idx : ValueRef) : SharedObject :=
  { users := so.users ++ [idx] }

/-- Modelled from the spec: a `PrepackNode`, defined outside the sources.
Encoding the node accumulates `staging_nbytes` bytes into
`staging_nbytes_in_cmd_`. -/
structure PrepackNode where
  staging_nbytes : Nat
deriving DecidableEq, Repr

/-- The data members of `ComputeGraph` used by the functions embedded here.
`descriptor_pool_` is the descriptor pool of the context: `none` until it is
initialised, then the configuration it was initialised with.
`tmp_shared_object_idxs_` is a stack of 64-bit indices, kept as a list with the
top of the stack at the head. -/
structure ComputeGraph where
  config_ : GraphConfig
  prepack_descriptor_counts_ : DescriptorPoolConfig
  execute_descriptor_counts_ : DescriptorPoolConfig
  descriptor_pool_ : Option DescriptorPoolConfig
  shared_objects_ : List SharedObject
  tmp_shared_object_idxs_ : List Int
  values_ : List Value
  values_in_use_ : Nat
  total_constant_nbytes_ : Nat
  staging_nbytes_in_cmd_ : Nat
  prepack_nodes_ : List PrepackNode
  deferred_cmd_list_ : List vkapi.CommandBuffer
  execute_count_ : Nat
deriving DecidableEq, Repr

/-- Result of a graph member function: the outcome and the graph as the call
leaves it. -/
structure GStep (α : Type) where
  outcome : vkapi.Outcome α
  graph : ComputeGraph
deriving DecidableEq, Repr

/-- Modelled from the spec: the constant `MB`, defined outside the sources: one
mebibyte, as in the default thresholds of 10 MiB. -/
def MB : Nat := 1024 * 1024

namespace ComputeGraph

/-- The constructor `ComputeGraph(config)`: counters at zero, empty containers,
and the default prepack thresholds when none is configured. -/
def mk_new (config : GraphConfig) : ComputeGraph :=
  { config_ :=
      if config.prepack_threshold_nbytes = 0 then
        { config with
          prepack_threshold_nbytes := 10 * MB
          prepack_initial_threshold_nbytes := 10 * MB }
      else config
    prepack_descriptor_counts_ := ⟨0, 0, 0, 0, 0, 0⟩
    execute_descriptor_counts_ := ⟨0, 0, 0, 0, 0, 0⟩
    descriptor_pool_ := none
    shared_objects_ := []
    tmp_shared_object_idxs_ := []
    values_ := []
    values_in_use_ := 0
    total_constant_nbytes_ := 0
    staging_nbytes_in_cmd_ := 0
    prepack_nodes_ := []
    deferred_cmd_list_ := []
    execute_count_ := 0 }

/-- The access `values_.at(idx)`: `none` when `idx`, converted to an unsigned
size, is not below the size of the store. -/
def values_at (g : ComputeGraph) (idx : ValueRef) : Option Value :=
  if idx < 0 then none else g.values_[idx.toNat]?

/-- The function `suggested_storage_type`. -/
def suggested_storage_type (g : ComputeGraph) : utils.StorageType :=
  if g.config_.enable_storage_type_override then g.config_.storage_type_override
  else utils.StorageType.kTexture3D

/-- The function `suggested_memory_layout`. -/
def suggested_memory_layout (g : ComputeGraph) (sizes : List Int) : utils.GPUMemoryLayout :=
  if g.config_.enable_memory_layout_override then g.config_.memory_layout_override
  else if sizes.length < 3 then utils.GPUMemoryLayout.kWidthPacked
  else if utils.val_at_minus3 sizes = 1 then utils.GPUMemoryLayout.kWidthPacked
  else utils.GPUMemoryLayout.kChannelsPacked

/-- The condition tested by `check_no_active_value_ptrs`. -/
def check_no_active_value_ptrs (g : ComputeGraph) : Bool :=
  g.values_in_use_ = 0

/-- The function `get_shared_object` followed by `add_user(this, user)` on the
object it returns: the list of shared objects is first grown to `idx + 1`
entries when `idx` is not below its size. -/
def get_shared_object_add_user (idx : Nat) (user : ValueRef) (g : ComputeGraph) :
    ComputeGraph :=
  let objs :=
    if idx ≥ g.shared_objects_.length then
      g.shared_objects_ ++ List.replicate (idx + 1 - g.shared_objects_.length) ⟨[]⟩
    else g.shared_objects_
  { g with shared_objects_ := objs.set idx ((objs.getD idx ⟨[]⟩).add_user user) }

end ComputeGraph

/-- The eight borrow-handle classes generated by `VALUE_PTR_CLASS_IMPL`. -/
inductive PtrKind where
  | vTensorPtr
  | TensorRefPtr
  | StagingPtr
  | IntListPtr
  | DoubleListPtr
  | BoolListPtr
  | ValueListPtr
  | SymIntPtr
deriving DecidableEq, Repr

/-- The type test of the accessor `to##type_name()` used by the handle class. -/
def PtrKind.accepts : PtrKind → Value → Bool
  | .vTensorPtr, .TENSOR _ => true
  | .TensorRefPtr, .TENSORREF _ => true
  | .StagingPtr, .STAGING _ => true
  | .IntListPtr, .INTLIST _ => true
  | .DoubleListPtr, .DOUBLELIST _ => true
  | .BoolListPtr, .BOOLLIST _ => true
  | .ValueListPtr, .VALUELIST _ => true
  | .SymIntPtr, .SYMINT _ => true
  | _, _ => false

/-- A live borrow handle: its class and the index of the value `ptr_` points
into. -/
structure ValuePtr where
  kind : PtrKind
  idx : ValueRef
deriving DecidableEq, Repr

/-- The constructor `classname(graph, idx)`: `values_.at(idx)` and the typed
accessor are evaluated first, then `values_in_use_` is incremented.  The counter
is a `size_t` counting live handle objects; it is kept as a natural number. -/
def ValuePtr.construct (kind : PtrKind) (idx : ValueRef) (g : ComputeGraph) :
    GStep ValuePtr :=
  match g.values_at idx with
  | none => { outcome := .thrown .out_of_range, graph := g }
  | some v =>
    if kind.accepts v then
      { outcome := .returned ⟨kind, idx⟩
        graph := { g with values_in_use_ := g.values_in_use_ + 1 } }
    else
      { outcome := .thrown .check_cond, graph := g }

/-- The destructor of a handle class: `values_in_use_` is decremented. -/
def ValuePtr.destroy (_p : ValuePtr) (g : ComputeGraph) : ComputeGraph :=
  { g with values_in_use_ := g.values_in_use_ - 1 }

namespace ComputeGraph

/-- The full overload of `add_tensor`. -/
def add_tensor (sizes : List Int) (dtype : Nat) (storage_type : utils.StorageType)
    (memory_layout : utils.GPUMemoryLayout) (shared_object_idx : Int)
    (axis_map_layout : Nat) (g : ComputeGraph) : GStep ValueRef :=
  let allocate_memory : Bool := shared_object_idx < 0
  let idx := static_cast_int g.values_.length
  if g.check_no_active_value_ptrs then
    let g1 := { g with values_ := g.values_ ++ [Value.TENSOR
      { sizes := sizes
        strides := none
        dtype := dtype
        storage_type := some storage_type
        memory_layout := some memory_layout
        allocate_memory := allocate_memory
        axis_map_layout := axis_map_layout
        image := none }] }
    { outcome := .returned idx
      graph :=
        if !allocate_memory then g1.get_shared_object_add_user shared_object_idx.toNat idx
        else g1 }
  else
    { outcome := .thrown .check_cond, graph := g }

/-- The overload of `add_tensor` without a memory layout. -/
def add_tensor_storage (sizes : List Int) (dtype : Nat) (storage_type : utils.StorageType)
    (shared_object_idx : Int) (axis_map_layout : Nat) (g : ComputeGraph) : GStep ValueRef :=
  g.add_tensor sizes dtype storage_type (g.suggested_memory_layout sizes)
    shared_object_idx axis_map_layout

/-- The overload of `add_tensor` without a storage type. -/
def add_tensor_layout (sizes : List Int) (dtype : Nat)
    (memory_layout : utils.GPUMemoryLayout) (shared_object_idx : Int)
    (axis_map_layout : Nat) (g : ComputeGraph) : GStep ValueRef :=
  g.add_tensor sizes dtype g.suggested_storage_type memory_layout
    shared_object_idx axis_map_layout

/-- The overload of `add_tensor` with neither storage type nor memory layout. -/
def add_tensor_default (sizes : List Int) (dtype : Nat) (shared_object_idx : Int)
    (axis_map_layout : Nat) (g : ComputeGraph) : GStep ValueRef :=
  g.add_tensor_layout sizes dtype (g.suggested_memory_layout sizes)
    shared_object_idx axis_map_layout

/-- The overload `add_tensor(const vkapi::VulkanImage&)`. -/
def add_tensor_image (image : vkapi.VulkanImage) (g : ComputeGraph) : GStep ValueRef :=
  let idx := static_cast_int g.values_.length
  if g.check_no_active_value_ptrs then
    { outcome := .returned idx
      graph := { g with values_ := g.values_ ++ [Value.TENSOR
        { sizes := []
          strides := none
          dtype := 0
          storage_type := none
          memory_layout := none
          allocate_memory := false
          axis_map_layout := 0
          image := some image.handle }] } }
  else
    { outcome := .thrown .check_cond, graph := g }

/-- The tensor a `vTensorPtr` constructed at `vref` dereferences to. -/
def deref_tensor (g : ComputeGraph) (vref : ValueRef) : vTensor :=
  match g.values_at vref with
  | some (.TENSOR t) => t
  | _ => ⟨[], none, 0, none, none, false, 0, none⟩

/-- The function `add_tensor_view(vref)`: the handle `t` is constructed first
and destroyed on return; the value is appended in between. -/
def add_tensor_view (vref : ValueRef) (g : ComputeGraph) : GStep ValueRef :=
  let t := ValuePtr.construct .vTensorPtr vref g
  match t.outcome with
  | .thrown e => { outcome := .thrown e, graph := t.graph }
  | .returned p =>
    let g1 := t.graph
    let idx := static_cast_int g1.values_.length
    let g2 := { g1 with values_ := g1.values_ ++ [Value.TENSOR (g1.deref_tensor vref).view] }
    { outcome := .returned idx, graph := p.destroy g2 }

/-- The function `add_tensor_view(vref, sizes, strides)`. -/
def add_tensor_view_sized (vref : ValueRef) (sizes strides : List Int) (g : ComputeGraph) :
    GStep ValueRef :=
  let t := ValuePtr.construct .vTensorPtr vref g
  match t.outcome with
  | .thrown e => { outcome := .thrown e, graph := t.graph }
  | .returned p =>
    let g1 := t.graph
    let idx := static_cast_int g1.values_.length
    let g2 := { g1 with values_ := g1.values_ ++
      [Value.TENSOR ((g1.deref_tensor vref).view_sized sizes strides)] }
    { outcome := .returned idx, graph := p.destroy g2 }

/-- The function `add_tensorref`; `element_size` is `vkapi::element_size`. -/
def add_tensorref (element_size : Nat → Nat) (sizes : List Int) (dtype : Nat) (data : Nat)
    (g : ComputeGraph) : GStep ValueRef :=
  let idx := static_cast_int g.values_.length
  if g.check_no_active_value_ptrs then
    let r : TensorRef := { sizes := sizes, dtype := dtype, data := data }
    { outcome := .returned idx
      graph := { g with
        values_ := g.values_ ++ [Value.TENSORREF r]
        total_constant_nbytes_ := g.total_constant_nbytes_ + r.nbytes element_size } }
  else
    { outcome := .thrown .check_cond, graph := g }

/-- The function `add_staging`. -/
def add_staging (dtype : Nat) (numel : Nat) (g : ComputeGraph) : GStep ValueRef :=
  let idx := static_cast_int g.values_.length
  if g.check_no_active_value_ptrs then
    { outcome := .returned idx
      graph := { g with values_ := g.values_ ++ [Value.STAGING ⟨dtype, numel⟩] } }
  else
    { outcome := .thrown .check_cond, graph := g }

/-- The function `add_none`. -/
def add_none (g : ComputeGraph) : GStep ValueRef :=
  let idx := static_cast_int g.values_.length
  if g.check_no_active_value_ptrs then
    { outcome := .returned idx
      graph := { g with values_ := g.values_ ++ [Value.NONE] } }
  else
    { outcome := .thrown .check_cond, graph := g }

/-- The function `add_value_list`. -/
def add_value_list (value : List ValueRef) (g : ComputeGraph) : GStep ValueRef :=
  let idx := static_cast_int g.values_.length
  if g.check_no_active_value_ptrs then
    { outcome := .returned idx
      graph := { g with values_ := g.values_ ++ [Value.VALUELIST value] } }
  else
    { outcome := .thrown .check_cond, graph := g }

/-- The function `add_string`. -/
def add_string (str : String) (g : ComputeGraph) : GStep ValueRef :=
  let idx := static_cast_int g.values_.length
  if g.check_no_active_value_ptrs then
    { outcome := .returned idx
      graph := { g with values_ := g.values_ ++ [Value.STRING str] } }
  else
    { outcome := .thrown .check_cond, graph := g }

/-- The function `add_symint`. -/
def add_symint (val : Int) (g : ComputeGraph) : GStep ValueRef :=
  let idx := static_cast_int g.values_.length
  if g.check_no_active_value_ptrs then
    { outcome := .returned idx
      graph := { g with values_ := g.values_ ++ [Value.SYMINT ⟨val⟩] } }
  else
    { outcome := .thrown .check_cond, graph := g }

/-- The three `(axis index, global extent)` pairs of `global_wg_size_desc` after
the three compare-and-swap steps that sort them by descending extent. -/
def global_wg_size_desc (global_wg_size : utils.uvec3) :
    (Fin 3 × Nat) × (Fin 3 × Nat) × (Fin 3 × Nat) :=
  let d0 : Fin 3 × Nat := (0, global_wg_size.get 0)
  let d1 : Fin 3 × Nat := (1, global_wg_size.get 1)
  let d2 : Fin 3 × Nat := (2, global_wg_size.get 2)
  let (d0, d1) := if d0.2 < d1.2 then (d1, d0) else (d0, d1)
  let (d1, d2) := if d1.2 < d2.2 then (d2, d1) else (d1, d2)
  let (d0, d1) := if d0.2 < d1.2 then (d1, d0) else (d0, d1)
  (d0, d1, d2)

/-- The value of `local_group_size` in `create_local_wg_size` just before the
return statement, computed from the sorted pairs. -/
def local_group_size (desc : (Fin 3 × Nat) × (Fin 3 × Nat) × (Fin 3 × Nat)) : utils.uvec3 :=
  let l : utils.uvec3 := ⟨8, max 1 (min 4 desc.2.1.2), max 1 (min 2 desc.2.2.2)⟩
  if desc.2.2.2 = 1 then
    if desc.2.1.2 = 1 then (l.set 0 64).set 1 1
    else if desc.2.1.2 % 4 = 0 then (l.set 0 16).set 1 4
    else (l.set 0 32).set 1 2
  else l

/-- The function `create_local_wg_size(global_wg_size)`. -/
def create_local_wg_size (g : ComputeGraph) (global_wg_size : utils.uvec3) : utils.uvec3 :=
  if g.config_.enable_local_wg_size_override then g.config_.local_wg_size_override
  else
    let desc := global_wg_size_desc global_wg_size
    let l := local_group_size desc
    ⟨l.get desc.1.1, l.get desc.2.1.1, l.get desc.2.2.1⟩

end ComputeGraph

/-- A call of one of the functions that append to the value store, with its
arguments. -/
inductive AddCall where
  | add_tensor (sizes : List Int) (dtype : Nat) (storage_type : utils.StorageType)
      (memory_layout : utils.GPUMemoryLayout) (shared_object_idx : Int) (axis_map_layout : Nat)
  | add_tensor_storage (sizes : List Int) (dtype : Nat) (storage_type : utils.StorageType)
      (shared_object_idx : Int) (axis_map_layout : Nat)
  | add_tensor_layout (sizes : List Int) (dtype : Nat)
      (memory_layout : utils.GPUMemoryLayout) (shared_object_idx : Int) (axis_map_layout : Nat)
  | add_tensor_default (sizes : List Int) (dtype : Nat) (shared_object_idx : Int)
      (axis_map_layout : Nat)
  | add_tensor_image (image : vkapi.VulkanImage)
  | add_tensor_view (vref : ValueRef)
  | add_tensor_view_sized (vref : ValueRef) (sizes strides : List Int)
  | add_tensorref (sizes : List Int) (dtype : Nat) (data : Nat)
  | add_staging (dtype : Nat) (numel : Nat)
  | add_none
  | add_value_list (value : List ValueRef)
  | add_string (str : String)
  | add_symint (val : Int)
deriving DecidableEq, Repr

/-- Run one call on a graph. -/
def AddCall.run (element_size : Nat → Nat) : AddCall → ComputeGraph → GStep ValueRef
  | .add_tensor sizes dtype st ml so am, g => g.add_tensor sizes dtype st ml so am
  | .add_tensor_storage sizes dtype st so am, g => g.add_tensor_storage sizes dtype st so am
  | .add_tensor_layout sizes dtype ml so am, g => g.add_tensor_layout sizes dtype ml so am
  | .add_tensor_default sizes dtype so am, g => g.add_tensor_default sizes dtype so am
  | .add_tensor_image image, g => g.add_tensor_image image
  | .add_tensor_view vref, g => g.add_tensor_view vref
  | .add_tensor_view_sized vref sizes strides, g => g.add_tensor_view_sized vref sizes strides
  | .add_tensorref sizes dtype data, g => g.add_tensorref element_size sizes dtype data
  | .add_staging dtype numel, g => g.add_staging dtype numel
  | .add_none, g => g.add_none
  | .add_value_list value, g => g.add_value_list value
  | .add_string str, g => g.add_string str
  | .add_symint val, g => g.add_symint val

/-- The constant data that a call adds: `nbytes()` of the tensor reference for
`add_tensorref`, nothing for the other calls. -/
def AddCall.constant_nbytes (element_size : Nat → Nat) : AddCall → Nat
  | .add_tensorref sizes dtype data => TensorRef.nbytes element_size ⟨sizes, dtype, data⟩
  | _ => 0

/-- Run a sequence of calls in order.  The result is `some` exactly when every
call returns normally: the returned indices in call order and the final graph. -/
def run_calls (element_size : Nat → Nat) :
    List AddCall → ComputeGraph → Option (List ValueRef × ComputeGraph)
  | [], g => some ([], g)
  | c :: cs, g =>
    match (c.run element_size g).outcome with
    | .thrown _ => none
    | .returned idx =>
      match run_calls element_size cs (c.run element_size g).graph with
      | none => none
      | some (refs, g1) => some (idx :: refs, g1)

/-- A graph together with the borrow handles that are alive. -/
structure HandleState where
  graph : ComputeGraph
  live : List ValuePtr
deriving DecidableEq, Repr

/-- What client code can do with a graph and its borrow handles: construct a
handle, destroy the live handle at a position, or call an appending function. -/
inductive HandleEvent where
  | construct (kind : PtrKind) (idx : ValueRef)
  | destroy (pos : Nat)
  | add (call : AddCall)
deriving DecidableEq, Repr

/-- The effect of one event.  A constructor that throws creates no handle;
`destroy` of a position that holds no live handle is not an event of the
program and changes nothing. -/
def HandleEvent.apply (element_size : Nat → Nat) : HandleEvent → HandleState → HandleState
  | .construct kind idx, s =>
    match (ValuePtr.construct kind idx s.graph).outcome with
    | .returned p => { graph := (ValuePtr.construct kind idx s.graph).graph, live := p :: s.live }
    | .thrown _ => { graph := (ValuePtr.construct kind idx s.graph).graph, live := s.live }
  | .destroy pos, s =>
    match s.live[pos]? with
    | some p => { graph := p.destroy s.graph, live := s.live.eraseIdx pos }
    | none => s
  | .add call, s => { graph := (call.run element_size s.graph).graph, live := s.live }

/-- The state reached from a freshly constructed graph by a list of events. -/
def HandleState.reach (element_size : Nat → Nat) (config : GraphConfig)
    (events : List HandleEvent) : HandleState :=
  events.foldl (fun s e => e.apply element_size s) { graph := ComputeGraph.mk_new config, live := [] }

end vkcompute

/-! ## Descriptor counts and `prepare` -/

namespace vkcompute

namespace vkapi

/-- The descriptor types of a shader layout: the four that
`update_descriptor_counts` names, and every other value of `VkDescriptorType`
by its code. -/
inductive VkDescriptorType where
  | VK_DESCRIPTOR_TYPE_UNIFORM_BUFFER
  | VK_DESCRIPTOR_TYPE_STORAGE_BUFFER
  | VK_DESCRIPTOR_TYPE_COMBINED_IMAGE_SAMPLER
  | VK_DESCRIPTOR_TYPE_STORAGE_IMAGE
  | other (code : Nat)
deriving DecidableEq, Repr

/-- What `update_descriptor_counts` reads of a `ShaderInfo`. -/
structure ShaderInfo where
  kernel_layout : List VkDescriptorType
deriving DecidableEq, Repr

end vkapi

/-- Calls that the graph makes into its context, the adapter, a fence or a
node, in the order in which they are made. -/
inductive ContextCall where
  | descriptor_pool_init (config : DescriptorPoolConfig)
  | initialize_querypool
  | shared_object_allocate (idx : Nat)
  | shared_object_bind_users (idx : Nat)
  | set_cmd (reusable : Bool)
  | get_fence
  | submit_cmd_to_gpu (with_fence : Bool) (final_use : Bool)
  | fence_wait
  | return_fence
  | flush
  | encode_prepack_node (i : Nat)
  | recorded (call : vkapi.VkCall)
  | adapter_submit_cmd (cmd fence wait_semaphore signal_semaphore : vkapi.VkHandle)
deriving DecidableEq, Repr

/-- The body of the `switch` in `update_descriptor_counts` for one descriptor
type; `none` is the `default` branch, which throws. -/
def DescriptorPoolConfig.count_descriptor (config : DescriptorPoolConfig) :
    vkapi.VkDescriptorType → Option DescriptorPoolConfig
  | .VK_DESCRIPTOR_TYPE_UNIFORM_BUFFER =>
    some { config with
      descriptor_uniform_buffer_count := config.descriptor_uniform_buffer_count + 1 }
  | .VK_DESCRIPTOR_TYPE_STORAGE_BUFFER =>
    some { config with
      descriptor_storage_buffer_count := config.descriptor_storage_buffer_count + 1 }
  | .VK_DESCRIPTOR_TYPE_COMBINED_IMAGE_SAMPLER =>
    some { config with
      descriptor_combined_sampler_count := config.descriptor_combined_sampler_count + 1 }
  | .VK_DESCRIPTOR_TYPE_STORAGE_IMAGE =>
    some { config with
      descriptor_storage_image_count := config.descriptor_storage_image_count + 1 }
  | .other _ => none

/-- The loop of `update_descriptor_counts` over the kernel layout: the outcome
and the counters as the loop leaves them, which on a throw are the counters
reached before the unsupported type. -/
def DescriptorPoolConfig.count_layout :
    List vkapi.VkDescriptorType → DescriptorPoolConfig →
      vkapi.Outcome Unit × DescriptorPoolConfig
  | [], config => (.returned (), config)
  | arg_type :: rest, config =>
    match config.count_descriptor arg_type with
    | none => (.thrown .vk_throw, config)
    | some config1 => DescriptorPoolConfig.count_layout rest config1

namespace ComputeGraph

/-- The function `update_descriptor_counts`. -/
def update_descriptor_counts (shader_info : vkapi.ShaderInfo) (execute : Bool)
    (g : ComputeGraph) : GStep Unit :=
  let config := if execute then g.execute_descriptor_counts_ else g.prepack_descriptor_counts_
  let r := DescriptorPoolConfig.count_layout shader_info.kernel_layout
    { config with descriptor_pool_max_sets := config.descriptor_pool_max_sets + 1 }
  { outcome := r.1
    graph :=
      if execute then { g with execute_descriptor_counts_ := r.2 }
      else { g with prepack_descriptor_counts_ := r.2 } }

/-- The descriptor-pool configuration that `prepare` builds.  `scale n` stands
for `static_cast<uint32_t>(std::ceil(n * config_.descriptor_pool_safety_factor))`,
which the program computes in floating point; `MERGE_FIELD(field)` is `scale`
of the larger of the execute and prepack counts. -/
def merged_descriptor_config (scale : Nat → Nat) (g : ComputeGraph) : DescriptorPoolConfig :=
  let max_sets := scale (max g.execute_descriptor_counts_.descriptor_pool_max_sets
    g.prepack_descriptor_counts_.descriptor_pool_max_sets)
  { descriptor_pool_max_sets := max_sets
    descriptor_uniform_buffer_count :=
      max (scale (max g.execute_descriptor_counts_.descriptor_uniform_buffer_count
        g.prepack_descriptor_counts_.descriptor_uniform_buffer_count)) max_sets
    descriptor_storage_buffer_count :=
      max (scale (max g.execute_descriptor_counts_.descriptor_storage_buffer_count
        g.prepack_descriptor_counts_.descriptor_storage_buffer_count)) max_sets
    descriptor_combined_sampler_count :=
      max (scale (max g.execute_descriptor_counts_.descriptor_combined_sampler_count
        g.prepack_descriptor_counts_.descriptor_combined_sampler_count)) max_sets
    descriptor_storage_image_count :=
      max (scale (max g.execute_descriptor_counts_.descriptor_storage_image_count
        g.prepack_descriptor_counts_.descriptor_storage_image_count)) max_sets
    descriptor_pile_sizes := 1 }

/-- Modelled from the spec: the descriptor pool of the context, defined outside
the sources.  Its `operator bool` is false until `init`; `init(config)`
initialises the pool with `config`. -/
def descriptor_pool_init (config : DescriptorPoolConfig) (g : ComputeGraph) : ComputeGraph :=
  { g with descriptor_pool_ := some config }

/-- The function `prepare`: the graph it leaves and the calls it makes.  The
allocation and binding of the shared objects act on GPU memory and appear as
calls only. -/
def prepare (scale : Nat → Nat) (g : ComputeGraph) : ComputeGraph × List ContextCall :=
  let config := g.merged_descriptor_config scale
  let uninitialised := g.descriptor_pool_.isNone
  let g1 := if uninitialised then g.descriptor_pool_init config else g
  let calls_pool := if uninitialised then [ContextCall.descriptor_pool_init config] else []
  let calls_query :=
    if g.config_.enable_querypool then [ContextCall.initialize_querypool] else []
  let calls_shared := (List.range g.shared_objects_.length).flatMap
    (fun idx => [ContextCall.shared_object_allocate idx, ContextCall.shared_object_bind_users idx])
  (g1, calls_pool ++ calls_query ++ calls_shared)

end ComputeGraph

end vkcompute

/-! ## `prepack`, `execute` and integer deduplication -/

namespace vkcompute

/-- The variables of the loop of `prepack`: the node index `i`, the flag
`submitted`, the running `staging_nbytes_in_cmd_`, and the calls made so far. -/
structure PrepackLoop where
  i : Nat
  submitted : Bool
  staging_nbytes_in_cmd_ : Nat
  calls : List ContextCall
deriving DecidableEq, Repr

namespace ComputeGraph

/-- The calls of `submit_current_cmd(final_use)`: a submission without fence. -/
def submit_current_cmd (final_use : Bool) : List ContextCall :=
  [ContextCall.submit_cmd_to_gpu false final_use]

/-- The calls of `submit_current_cmd_and_wait(final_use)`: a submission with a
fence, then the wait on that fence. -/
def submit_current_cmd_and_wait (final_use : Bool) : List ContextCall :=
  [ContextCall.get_fence, ContextCall.submit_cmd_to_gpu true final_use, ContextCall.fence_wait,
    ContextCall.return_fence]

/-- The value of `reduce_peak_memory` in `prepack`. -/
def reduce_peak_memory (g : ComputeGraph) : Bool :=
  g.total_constant_nbytes_ > 500 * MB

/-- The calls made inside the `if` of the loop of `prepack`, up to and including
the `set_cmd` that opens the next command buffer.  The arguments left out in the
sources (`final_use`, `reusable`) have the default `false`. -/
def prepack_split_calls (g : ComputeGraph) : List ContextCall :=
  (if g.reduce_peak_memory then submit_current_cmd_and_wait false ++ [ContextCall.flush]
    else submit_current_cmd false) ++ [ContextCall.set_cmd false]

/-- The condition of the `if` in the loop of `prepack`, for the loop variables
`st`: `not_terminal && staging_nbytes_in_cmd_ > threshold`.  The loop runs only
over a non-empty list, where `prepack_nodes_.size() - 1` does not wrap.  The
loop index, an `int` in the source, is a natural number here; the two agree for
lists of fewer than 2^31 nodes. -/
def prepack_splits (g : ComputeGraph) (st : PrepackLoop) : Bool :=
  let not_terminal : Bool := st.i ≠ 0 && st.i ≠ g.prepack_nodes_.length - 1
  let threshold :=
    if st.submitted then g.config_.prepack_threshold_nbytes
    else g.config_.prepack_initial_threshold_nbytes
  not_terminal && st.staging_nbytes_in_cmd_ > threshold

/-- One iteration of the loop of `prepack` on `node`. -/
def prepack_body (g : ComputeGraph) (st : PrepackLoop) (node : PrepackNode) : PrepackLoop :=
  let st1 : PrepackLoop :=
    if g.prepack_splits st then
      { st with
        staging_nbytes_in_cmd_ := 0
        submitted := true
        calls := st.calls ++ g.prepack_split_calls }
    else st
  { i := st1.i + 1
    submitted := st1.submitted
    staging_nbytes_in_cmd_ := st1.staging_nbytes_in_cmd_ + node.staging_nbytes
    calls := st1.calls ++ [ContextCall.encode_prepack_node st1.i] }

/-- The loop variables of `prepack` after the nodes `nodes` have been processed,
starting from the first node. -/
def prepack_loop (g : ComputeGraph) (nodes : List PrepackNode) : PrepackLoop :=
  nodes.foldl g.prepack_body
    { i := 0
      submitted := false
      staging_nbytes_in_cmd_ := g.staging_nbytes_in_cmd_
      calls := [ContextCall.set_cmd false] }

/-- The function `prepack`: the graph it leaves and the calls it makes. -/
def prepack (g : ComputeGraph) : ComputeGraph × List ContextCall :=
  ({ g with staging_nbytes_in_cmd_ := 0 },
   (g.prepack_loop g.prepack_nodes_).calls ++ submit_current_cmd_and_wait true ++
     [ContextCall.flush])

end ComputeGraph

/-- Modelled from the spec: `operator bool` of `CommandBuffer`, declared outside
the sources: a command buffer is valid while it holds a handle. -/
def vkapi.CommandBuffer.is_valid (cb : vkapi.CommandBuffer) : Bool :=
  cb.handle_ ≠ vkapi.VK_NULL_HANDLE

/-- Modelled from the spec: `get_signal_semaphore`, declared outside the
sources: the signal semaphore that the buffer owns. -/
def vkapi.CommandBuffer.get_signal_semaphore (cb : vkapi.CommandBuffer) : vkapi.VkHandle :=
  cb.signal_semaphore_

/-- Result of a submission: the outcome, the command buffers as they are left,
and the calls made. -/
structure SubmitStep (β : Type) where
  outcome : vkapi.Outcome Unit
  cmds : β
  calls : List ContextCall
deriving DecidableEq, Repr

namespace ComputeGraph

/-- The function `submit_cmd`; `status` is what `vkEndCommandBuffer` returns if
`end` calls it. -/
def submit_cmd (status : vkapi.VkResult) (cmd_buf : vkapi.CommandBuffer)
    (wait_semaphore signal_semaphore fence : vkapi.VkHandle) :
    SubmitStep vkapi.CommandBuffer :=
  if cmd_buf.is_valid then
    let e := cmd_buf.end_ status
    match e.outcome with
    | .thrown err =>
      { outcome := .thrown err, cmds := e.cb, calls := e.calls.map ContextCall.recorded }
    | .returned _ =>
      let h := e.cb.get_submit_handle false
      match h.outcome with
      | .thrown err =>
        { outcome := .thrown err, cmds := h.cb, calls := e.calls.map ContextCall.recorded }
      | .returned handle =>
        { outcome := .returned ()
          cmds := h.cb
          calls := e.calls.map ContextCall.recorded ++
            [ContextCall.adapter_submit_cmd handle fence wait_semaphore signal_semaphore] }
  else
    { outcome := .returned (), cmds := cmd_buf, calls := [] }

/-- The loop of `submit_deferred_cmds_and_wait` from index `i` on, over the
command buffers not yet visited, with `prev_semaphore` as it stands.
`end_status i` is the status of `vkEndCommandBuffer` for the buffer at `i`,
`fence` the submit handle of the fence and `size` is
`deferred_cmd_list_.size()`.  The loop index, a `uint32_t` in the source, is a
natural number here; the two agree for lists of fewer than 2^32 buffers. -/
def submit_deferred_loop (end_status : Nat → vkapi.VkResult) (fence : vkapi.VkHandle)
    (size : Nat) :
    List vkapi.CommandBuffer → Nat → vkapi.VkHandle → SubmitStep (List vkapi.CommandBuffer)
  | [], _, _ => { outcome := .returned (), cmds := [], calls := [] }
  | cmd :: rest, i, prev_semaphore =>
    let wait_semaphore := prev_semaphore
    let signal_semaphore := cmd.get_signal_semaphore
    let r := submit_cmd (end_status i) cmd wait_semaphore signal_semaphore
      (if i = size - 1 then fence else vkapi.VK_NULL_HANDLE)
    match r.outcome with
    | .thrown err => { outcome := .thrown err, cmds := r.cmds :: rest, calls := r.calls }
    | .returned _ =>
      let t := submit_deferred_loop end_status fence size rest (i + 1) signal_semaphore
      { outcome := t.outcome, cmds := r.cmds :: t.cmds, calls := r.calls ++ t.calls }

/-- The function `submit_deferred_cmds_and_wait`. -/
def submit_deferred_cmds_and_wait (end_status : Nat → vkapi.VkResult)
    (fence : vkapi.VkHandle) (g : ComputeGraph) : GStep Unit × List ContextCall :=
  let r := submit_deferred_loop end_status fence g.deferred_cmd_list_.length
    g.deferred_cmd_list_ 0 vkapi.VK_NULL_HANDLE
  ({ outcome := r.outcome, graph := { g with deferred_cmd_list_ := r.cmds } },
   [ContextCall.get_fence] ++ r.calls ++
     (match r.outcome with
      | .returned _ => [ContextCall.fence_wait, ContextCall.return_fence]
      | .thrown _ => []))

/-- The function `execute`. -/
def execute (end_status : Nat → vkapi.VkResult) (fence : vkapi.VkHandle)
    (g : ComputeGraph) : GStep Unit × List ContextCall :=
  let r := g.submit_deferred_cmds_and_wait end_status fence
  match r.1.outcome with
  | .returned _ =>
    ({ outcome := .returned ()
       graph := { r.1.graph with execute_count_ := r.1.graph.execute_count_ + 1 } }, r.2)
  | .thrown err => ({ outcome := .thrown err, graph := r.1.graph }, r.2)

end ComputeGraph

/-- The test `isInt()` of a value. -/
def Value.isInt : Value → Bool
  | .INT _ => true
  | _ => false

/-- The accessor `toInt()`, called on values that pass `isInt()`. -/
def Value.toInt : Value → Int
  | .INT v => v
  | _ => 0

namespace ComputeGraph

/-- Modelled from the spec: `add_scalar`, a template defined outside the
sources, for an integer argument.  Like every function that may grow the store
it asserts `values_in_use_ == 0`, then appends the value and returns its
index. -/
def add_scalar (val : Int) (g : ComputeGraph) : GStep ValueRef :=
  let idx := static_cast_int g.values_.length
  if g.check_no_active_value_ptrs then
    { outcome := .returned idx
      graph := { g with values_ := g.values_ ++ [Value.INT val] } }
  else
    { outcome := .thrown .check_cond, graph := g }

/-- The loop of `get_or_add_value_for_int` from index `i` on, over the values
from `i` to the end: the first index whose value is an Int equal to `val`.  The
loop index of the source is an `int`; the index here is a natural number and
agrees with it below 2^31, the range the statements about this loop are
restricted to. -/
def find_value_for_int (val : Int) : List Value → Nat → Option Nat
  | [], _ => none
  | v :: rest, i =>
    if v.isInt && v.toInt == val then some i
    else find_value_for_int val rest (i + 1)

/-- The function `get_or_add_value_for_int`. -/
def get_or_add_value_for_int (val : Int) (g : ComputeGraph) : GStep ValueRef :=
  match find_value_for_int val g.values_ 0 with
  | some i => { outcome := .returned (i : Int), graph := g }
  | none => g.add_scalar val

end ComputeGraph

end vkcompute

/-! ## Observations on call lists -/

namespace vkcompute

/-- A submission to the queue: the command buffer handle, the fence, the
semaphore waited on and the semaphore signalled, `VK_NULL_HANDLE` for none. -/
structure Submission where
  cmd : vkapi.VkHandle
  fence : vkapi.VkHandle
  wait_semaphore : vkapi.VkHandle
  signal_semaphore : vkapi.VkHandle
deriving DecidableEq, Repr

/-- The submission made by a call, if the call is `adapter_submit_cmd`. -/
def ContextCall.submission : ContextCall → Option Submission
  | .adapter_submit_cmd cmd fence wait_semaphore signal_semaphore =>
    some ⟨cmd, fence, wait_semaphore, signal_semaphore⟩
  | _ => none

/-- The submissions among a list of calls, in order. -/
def submissions (calls : List ContextCall) : List Submission :=
  calls.filterMap ContextCall.submission

end vkcompute

/-! ## Queries on stored values -/

namespace vkcompute

/-- The test `isIntList()` of a value. -/
def Value.isIntList : Value → Bool
  | .INTLIST _ => true
  | _ => false

/-- The test `isValueList()` of a value. -/
def Value.isValueList : Value → Bool
  | .VALUELIST _ => true
  | _ => false

/-- The test `isSymInt()` of a value. -/
def Value.isSymInt : Value → Bool
  | .SYMINT _ => true
  | _ => false

/-- The test `isTensor()` of a value. -/
def Value.isTensor : Value → Bool
  | .TENSOR _ => true
  | _ => false

/-- The test `isTensorRef()` of a value. -/
def Value.isTensorRef : Value → Bool
  | .TENSORREF _ => true
  | _ => false

/-- The test `isBool()` of a value. -/
def Value.isBool : Value → Bool
  | .BOOL _ => true
  | _ => false

/-- The test `isDouble()` of a value. -/
def Value.isDouble : Value → Bool
  | .DOUBLE _ => true
  | _ => false

/-- Modelled from the spec: the enumerator `vkapi::ScalarType::Bool`.  The
enumeration is defined outside the sources; a data type is kept as a natural
number and the three enumerators named in `dtype_of` are three distinct
codes. -/
def vkapi.ScalarType.Bool : Nat := 1

/-- Modelled from the spec: the enumerator `vkapi::ScalarType::Int`. -/
def vkapi.ScalarType.Int : Nat := 2

/-- Modelled from the spec: the enumerator `vkapi::ScalarType::Float`. -/
def vkapi.ScalarType.Float : Nat := 3

/-- Modelled from the spec: `SymInt::get()`, defined outside the sources: the
current host value of the symbolic integer. -/
def SymInt.get (s : SymInt) : Int :=
  s.value

/-- Modelled from the spec: `api::vTensor::dim()`, defined outside the sources:
the number of sizes of the tensor. -/
def vTensor.dim (t : vTensor) : Int :=
  t.sizes.length

namespace ComputeGraph

/-- The function `read_symint(idx)`, which is `get_symint(idx)->get()`.
`get_symint`, declared outside the sources, is modelled from the spec as the
construction of a `SymIntPtr` at `idx`; the handle is a temporary and is
destroyed when the value has been read. -/
def read_symint (idx : ValueRef) (g : ComputeGraph) : GStep Int :=
  let p := ValuePtr.construct .SymIntPtr idx g
  match p.outcome with
  | .thrown e => { outcome := .thrown e, graph := p.graph }
  | .returned h =>
    let v :=
      match p.graph.values_at idx with
      | some (.SYMINT s) => s.get
      | _ => 0
    { outcome := .returned v, graph := h.destroy p.graph }

/-- The loop of `extract_int_or_symint_list` over the references not yet
visited, with `result` as filled so far. -/
def extract_elements : List ValueRef → List Int → ComputeGraph → GStep (List Int)
  | [], result, g => { outcome := .returned result, graph := g }
  | ref :: rest, result, g =>
    match g.values_at ref with
    | none => { outcome := .thrown .out_of_range, graph := g }
    | some element =>
      if element.isInt then extract_elements rest (result ++ [element.toInt]) g
      else if element.isSymInt then
        let r := g.read_symint ref
        match r.outcome with
        | .thrown e => { outcome := .thrown e, graph := r.graph }
        | .returned v => extract_elements rest (result ++ [v]) r.graph
      else { outcome := .thrown .vk_throw, graph := g }

/-- The function `extract_int_or_symint_list(idx)`. -/
def extract_int_or_symint_list (idx : ValueRef) (g : ComputeGraph) : GStep (List Int) :=
  match g.values_at idx with
  | none => { outcome := .thrown .out_of_range, graph := g }
  | some val =>
    match val with
    | .INTLIST l => { outcome := .returned l, graph := g }
    | .VALUELIST value_list => extract_elements value_list [] g
    | _ => { outcome := .thrown .vk_throw, graph := g }

/-- The function `sizes_of(idx)`. -/
def sizes_of (g : ComputeGraph) (idx : ValueRef) : vkapi.Outcome (List Int) :=
  match g.values_at idx with
  | none => .thrown .out_of_range
  | some val =>
    match val with
    | .TENSOR t => .returned t.sizes
    | .TENSORREF r => .returned r.sizes
    | _ => .thrown .vk_throw

/-- The function `dim_of(idx)`. -/
def dim_of (g : ComputeGraph) (idx : ValueRef) : vkapi.Outcome Int :=
  match g.values_at idx with
  | none => .thrown .out_of_range
  | some val =>
    match val with
    | .TENSOR t => .returned t.dim
    | .TENSORREF r => .returned (r.sizes.length : Int)
    | _ => .thrown .vk_throw

/-- The function `dim_order_of(idx)`; `dim_order` is the accessor
`api::vTensor::dim_order()`, defined outside the sources. -/
def dim_order_of (dim_order : vTensor → List Int) (g : ComputeGraph) (idx : ValueRef) :
    vkapi.Outcome (List Int) :=
  match g.values_at idx with
  | none => .thrown .out_of_range
  | some val =>
    match val with
    | .TENSOR t => .returned (dim_order t)
    | _ => .thrown .vk_throw

/-- The function `strides_of(idx)`; `strides` is the accessor
`api::vTensor::strides()`, defined outside the sources. -/
def strides_of (strides : vTensor → List Int) (g : ComputeGraph) (idx : ValueRef) :
    vkapi.Outcome (List Int) :=
  match g.values_at idx with
  | none => .thrown .out_of_range
  | some val =>
    match val with
    | .TENSOR t => .returned (strides t)
    | _ => .thrown .vk_throw

/-- The function `dtype_of(idx)`. -/
def dtype_of (g : ComputeGraph) (idx : ValueRef) : vkapi.Outcome Nat :=
  match g.values_at idx with
  | none => .thrown .out_of_range
  | some val =>
    match val with
    | .TENSOR t => .returned t.dtype
    | .TENSORREF r => .returned r.dtype
    | .BOOL _ => .returned vkapi.ScalarType.Bool
    | .DOUBLE _ => .returned vkapi.ScalarType.Float
    | .INT _ => .returned vkapi.ScalarType.Int
    | _ => .thrown .vk_throw

end ComputeGraph

end vkcompute

/-! ## Temporary tensors -/

namespace vkcompute

/-- The data members of a live `TmpTensor` besides the graph pointer: the index
of its shared object and the reference of its tensor. -/
structure TmpTensor where
  sobj_idx : Int
  vref : ValueRef
deriving DecidableEq, Repr

/-- The arguments of the four constructors of `TmpTensor`: the storage type and
the memory layout are each given or left out. -/
structure TmpTensorArgs where
  sizes : List Int
  dtype : Nat
  storage_type : Option utils.StorageType
  memory_layout : Option utils.GPUMemoryLayout
deriving DecidableEq, Repr

namespace TmpTensor

/-- The function `TmpTensor::get_sobj_idx`: the number of shared objects when
the stack of free indices is empty, else the top of the stack, which is
popped. -/
def get_sobj_idx (g : ComputeGraph) : Int × ComputeGraph :=
  match g.tmp_shared_object_idxs_ with
  | [] => ((g.shared_objects_.length : Int), g)
  | top :: rest => (top, { g with tmp_shared_object_idxs_ := rest })

/-- The constructors of `TmpTensor`: `sobj_idx` is initialised by
`get_sobj_idx()`, then `vref` by the overload of `add_tensor` that takes the
arguments given.  `axis_map_layout` is the default argument of `add_tensor`,
declared outside the sources.  When `add_tensor` throws no `TmpTensor` comes
into being. -/
def construct (args : TmpTensorArgs) (axis_map_layout : Nat) (g : ComputeGraph) :
    GStep TmpTensor :=
  let s := get_sobj_idx g
  let r :=
    match args.storage_type, args.memory_layout with
    | some storage_type, some memory_layout =>
      s.2.add_tensor args.sizes args.dtype storage_type memory_layout s.1 axis_map_layout
    | some storage_type, none =>
      s.2.add_tensor_storage args.sizes args.dtype storage_type s.1 axis_map_layout
    | none, some memory_layout =>
      s.2.add_tensor_layout args.sizes args.dtype memory_layout s.1 axis_map_layout
    | none, none => s.2.add_tensor_default args.sizes args.dtype s.1 axis_map_layout
  match r.outcome with
  | .thrown e => { outcome := .thrown e, graph := r.graph }
  | .returned vref => { outcome := .returned { sobj_idx := s.1, vref := vref }, graph := r.graph }

/-- The destructor `~TmpTensor`: the index is pushed on the stack of free
indices when it is not negative. -/
def destroy (t : TmpTensor) (g : ComputeGraph) : ComputeGraph :=
  if t.sobj_idx ≥ 0 then
    { g with tmp_shared_object_idxs_ := t.sobj_idx :: g.tmp_shared_object_idxs_ }
  else g

end TmpTensor

/-- A graph together with the `TmpTensor`s that are alive, the newest first. -/
structure TmpTensorState where
  graph : ComputeGraph
  live : List TmpTensor
deriving DecidableEq, Repr

/-- Creation of a `TmpTensor`, or destruction of the live one at a position. -/
inductive TmpTensorEvent where
  | create (args : TmpTensorArgs) (axis_map_layout : Nat)
  | destroy (pos : Nat)
deriving DecidableEq, Repr

/-- The effect of one event.  A constructor that throws creates no `TmpTensor`;
a live `TmpTensor` leaves the list when it is destroyed, so that it is destroyed
once; `destroy` of a position that holds none changes nothing. -/
def TmpTensorEvent.apply : TmpTensorEvent → TmpTensorState → TmpTensorState
  | .create args axis_map_layout, s =>
    match (TmpTensor.construct args axis_map_layout s.graph).outcome with
    | .returned t =>
      { graph := (TmpTensor.construct args axis_map_layout s.graph).graph, live := t :: s.live }
    | .thrown _ =>
      { graph := (TmpTensor.construct args axis_map_layout s.graph).graph, live := s.live }
  | .destroy pos, s =>
    match s.live[pos]? with
    | some t => { graph := t.destroy s.graph, live := s.live.eraseIdx pos }
    | none => s

/-- The state reached from the graph `g`, with no `TmpTensor` alive, by a list
of events. -/
def TmpTensorState.reach (g : ComputeGraph) (events : List TmpTensorEvent) : TmpTensorState :=
  events.foldl (fun s e => e.apply s) { graph := g, live := [] }

end vkcompute

/-! ## The command pool -/

namespace vkcompute

namespace vkapi

/-- The two members of `CommandPoolConfig` read by the pool. -/
structure CommandPoolConfig where
  cmd_pool_initial_size : Nat
  cmd_pool_batch_size : Nat
deriving DecidableEq, Repr

/-- The data members of `CommandPool` besides the mutex.  `in_use_` is a 32-bit
counter, kept as a natural number. -/
structure CommandPool where
  device_ : VkHandle
  queue_family_idx_ : Nat
  pool_ : VkHandle
  config_ : CommandPoolConfig
  buffers_ : List VkHandle
  semaphores_ : List VkHandle
  in_use_ : Nat
deriving DecidableEq, Repr

/-- The calls into the GPU API made by the pool.  For the two calls that write
handles, `offset` is the position in the array at which the call starts to
write. -/
inductive PoolCall where
  | vkCreateCommandPool (device : VkHandle) (queue_family_idx : Nat)
  | vkAllocateCommandBuffers (pool : VkHandle) (count : Nat) (offset : Nat)
  | vkCreateSemaphore (device : VkHandle) (offset : Nat)
  | vkResetCommandPool (device : VkHandle) (pool : VkHandle)
deriving DecidableEq, Repr

/-- What the driver hands back to one run of `allocate_new_batch`: the status of
`vkAllocateCommandBuffers` and the handles it writes, and for the `i`-th call of
`vkCreateSemaphore` its status and the handle it writes. -/
structure BatchResult where
  alloc_status : VkResult
  buffers : Nat → VkHandle
  semaphore_status : Nat → VkResult
  semaphores : Nat → VkHandle

/-- Every call of the batch returns `VK_SUCCESS`. -/
def BatchResult.ok (r : BatchResult) : Prop :=
  r.alloc_status = VK_SUCCESS ∧ ∀ i, r.semaphore_status i = VK_SUCCESS

/-- Result of a member function of the pool: the outcome, the pool after the
call and the GPU calls issued. -/
structure PoolStep (α : Type) where
  outcome : Outcome α
  pool : CommandPool
  calls : List PoolCall

/-- The effect of `std::vector::resize(n)` on a vector of handles: the first `n`
elements are kept and new elements are null handles. -/
def resize (l : List VkHandle) (n : Nat) : List VkHandle :=
  l.take n ++ List.replicate (n - l.length) VK_NULL_HANDLE

/-- The `count` handles that a GPU call writes to an array from position
`offset` on. -/
def write_handles (handles : Nat → VkHandle) (offset : Nat) : Nat → List VkHandle → List VkHandle
  | 0, l => l
  | count + 1, l => (write_handles handles offset count l).set (offset + count) (handles count)

/-- The state of the loop of `allocate_new_batch` that creates the semaphores:
the outcome, the array `semaphores_` and the calls issued. -/
structure SemaphoreLoop where
  outcome : Outcome Unit
  semaphores : List VkHandle
  calls : List PoolCall

/-- The loop `for (i = 0; i < count; i++) VK_CHECK(vkCreateSemaphore(...,
semaphores_.data() + in_use_ + i))` from `i` on, with `remaining` iterations
left: the loop stops at the first call that does not return `VK_SUCCESS`. -/
def create_semaphores (r : BatchResult) (device : VkHandle) (in_use : Nat) :
    Nat → Nat → List VkHandle → SemaphoreLoop
  | 0, _, semaphores => { outcome := .returned (), semaphores := semaphores, calls := [] }
  | remaining + 1, i, semaphores =>
    let semaphores1 := semaphores.set (in_use + i) (r.semaphores i)
    if r.semaphore_status i = VK_SUCCESS then
      let t := create_semaphores r device in_use remaining (i + 1) semaphores1
      { outcome := t.outcome
        semaphores := t.semaphores
        calls := PoolCall.vkCreateSemaphore device (in_use + i) :: t.calls }
    else
      { outcome := .thrown (.vk_check (r.semaphore_status i))
        semaphores := semaphores1
        calls := [PoolCall.vkCreateSemaphore device (in_use + i)] }

namespace CommandPool

/-- The function `allocate_new_batch(count)`; `r` is what the driver hands back
when the batch is allocated. -/
def allocate_new_batch (count : Nat) (r : BatchResult) (p : CommandPool) : PoolStep Unit :=
  if p.in_use_ < p.buffers_.length then
    { outcome := .returned (), pool := p, calls := [] }
  else
    let buffers1 := resize p.buffers_ (p.buffers_.length + count)
    let semaphores1 := resize p.semaphores_ (buffers1.length + count)
    let buffers2 := write_handles r.buffers p.in_use_ count buffers1
    let alloc_call := PoolCall.vkAllocateCommandBuffers p.pool_ count p.in_use_
    if r.alloc_status = VK_SUCCESS then
      let t := create_semaphores r p.device_ p.in_use_ count 0 semaphores1
      { outcome := t.outcome
        pool := { p with buffers_ := buffers2, semaphores_ := t.semaphores }
        calls := alloc_call :: t.calls }
    else
      { outcome := .thrown (.vk_check r.alloc_status)
        pool := { p with buffers_ := buffers2, semaphores_ := semaphores1 }
        calls := [alloc_call] }

/-- The constructor `CommandPool(device, queue_family_idx, config)`;
`create_status` and `pool_handle` are the status of `vkCreateCommandPool` and
the handle it writes. -/
def construct (device : VkHandle) (queue_family_idx : Nat) (config : CommandPoolConfig)
    (create_status : VkResult) (pool_handle : VkHandle) (r : BatchResult) : PoolStep Unit :=
  let p : CommandPool :=
    { device_ := device
      queue_family_idx_ := queue_family_idx
      pool_ := pool_handle
      config_ := config
      buffers_ := []
      semaphores_ := []
      in_use_ := 0 }
  let create_call := PoolCall.vkCreateCommandPool device queue_family_idx
  if create_status = VK_SUCCESS then
    let a := p.allocate_new_batch config.cmd_pool_initial_size r
    { outcome := a.outcome, pool := a.pool, calls := create_call :: a.calls }
  else
    { outcome := .thrown (.vk_check create_status), pool := p, calls := [create_call] }

/-- The function `get_new_cmd(reusable)`.  The two reads `buffers_[in_use_]` and
`semaphores_[in_use_]` are unchecked in the source; a read outside the array is
reported here as `out_of_range`. -/
def get_new_cmd (reusable : Bool) (r : BatchResult) (p : CommandPool) :
    PoolStep CommandBuffer :=
  let a := p.allocate_new_batch p.config_.cmd_pool_batch_size r
  match a.outcome with
  | .thrown e => { outcome := .thrown e, pool := a.pool, calls := a.calls }
  | .returned _ =>
    match a.pool.buffers_[a.pool.in_use_]?, a.pool.semaphores_[a.pool.in_use_]? with
    | some handle, some semaphore =>
      let cmd_flags := if !reusable then VK_COMMAND_BUFFER_USAGE_ONE_TIME_SUBMIT_BIT else 0
      { outcome := .returned (CommandBuffer.mk_new handle semaphore cmd_flags)
        pool := { a.pool with in_use_ := a.pool.in_use_ + 1 }
        calls := a.calls }
    | _, _ => { outcome := .thrown .out_of_range, pool := a.pool, calls := a.calls }

/-- The function `flush()`; `status` is what `vkResetCommandPool` returns. -/
def flush (status : VkResult) (p : CommandPool) : PoolStep Unit :=
  let reset_call := PoolCall.vkResetCommandPool p.device_ p.pool_
  if status = VK_SUCCESS then
    { outcome := .returned (), pool := { p with in_use_ := 0 }, calls := [reset_call] }
  else
    { outcome := .thrown (.vk_check status), pool := p, calls := [reset_call] }

end CommandPool

/-- A call of `get_new_cmd` or of `flush`, with what the driver hands back. -/
inductive PoolEvent where
  | get_new_cmd (reusable : Bool) (r : BatchResult)
  | flush (status : VkResult)

/-- Every GPU call of the event returns `VK_SUCCESS`. -/
def PoolEvent.ok : PoolEvent → Prop
  | .get_new_cmd _ r => r.ok
  | .flush status => status = VK_SUCCESS

/-- The pool after an event and the GPU calls issued so far. -/
def PoolEvent.apply : PoolEvent → CommandPool × List PoolCall → CommandPool × List PoolCall
  | .get_new_cmd reusable r, s =>
    ((s.1.get_new_cmd reusable r).pool, s.2 ++ (s.1.get_new_cmd reusable r).calls)
  | .flush status, s => ((s.1.flush status).pool, s.2 ++ (s.1.flush status).calls)

/-- The pool after a list of events, in order, and the GPU calls issued. -/
def CommandPool.run (events : List PoolEvent) (s : CommandPool × List PoolCall) :
    CommandPool × List PoolCall :=
  events.foldl (fun s e => e.apply s) s

/-- Successive calls of `get_new_cmd`, one for each pair of the argument
`reusable` and what the driver hands back: the outcomes of the calls in order
and the pool after the last one. -/
def CommandPool.get_new_cmds :
    List (Bool × BatchResult) → CommandPool → List (Outcome CommandBuffer) × CommandPool
  | [], p => ([], p)
  | a :: rest, p =>
    ((p.get_new_cmd a.1 a.2).outcome ::
        (CommandPool.get_new_cmds rest (p.get_new_cmd a.1 a.2).pool).1,
      (CommandPool.get_new_cmds rest (p.get_new_cmd a.1 a.2).pool).2)

/-- The number of semaphores a GPU call creates. -/
def PoolCall.semaphores_created : PoolCall → Nat
  | .vkCreateSemaphore _ _ => 1
  | _ => 0

/-- The number of command buffers a GPU call allocates. -/
def PoolCall.buffers_allocated : PoolCall → Nat
  | .vkAllocateCommandBuffers _ count _ => count
  | _ => 0

end vkapi

end vkcompute

/-! ## The primitive operator table: values and arithmetic

`kernels/prim_ops/register_prim_ops.cpp`.  The entries of the table work on
`EValue`s that hold 64-bit integers and `double`s.  A `double` is an IEEE 754
binary64 value and the arithmetic on it rounds to nearest, ties to even. -/

namespace torch.executor.function

/-- The number of binary digits of `n`, with at most `fuel` halvings. -/
def bit_length : Nat → Nat → Nat
  | 0, _ => 0
  | fuel + 1, n => if n = 0 then 0 else bit_length fuel (n / 2) + 1

/-- A `double`, unpacked.  A finite value is `±mant * 2 ^ exp` with
`mant < 2 ^ 53` and `-1074 ≤ exp ≤ 971`, where `mant ≥ 2 ^ 52` unless
`exp = -1074`; the sign is set for a negative value.  Zero is
`finite sign 0 (-1074)`.  A NaN keeps its sign bit and no payload. -/
inductive Double where
  | finite (sign : Bool) (mant : Nat) (exp : Int)
  | inf (sign : Bool)
  | nan (sign : Bool)
deriving DecidableEq, Repr

namespace Double

/-- The exponent of the unit in the last place of the `double` nearest to
`(num / den) * 2 ^ exp`, for positive `num` and `den`: 52 below the binary
logarithm of the value, rounded down, and not below -1074. -/
def result_exp (num den : Nat) (exp : Int) : Int :=
  let d : Int := (bit_length num num : Int) - (bit_length den den : Int)
  let ge : Bool := if d ≥ 0 then num ≥ den * 2 ^ d.toNat else num * 2 ^ (-d).toNat ≥ den
  let l : Int := (if ge then d else d - 1) + exp
  max (l - 52) (-1074)

/-- The integer nearest to `(num / den) * 2 ^ s`, ties to even; `den` is
positive. -/
def rounded_quotient (num den : Nat) (s : Int) : Nat :=
  let n1 := if s ≥ 0 then num * 2 ^ s.toNat else num
  let d1 := if s ≥ 0 then den else den * 2 ^ (-s).toNat
  let q := n1 / d1
  let r := n1 % d1
  if 2 * r > d1 ∨ (2 * r = d1 ∧ q % 2 = 1) then q + 1 else q

/-- The `double` `±q * 2 ^ e` for `q ≤ 2 ^ 53`: the mantissa `2 ^ 53` is
renormalised, and a value above the largest finite `double` is infinite. -/
def pack (sign : Bool) (q : Nat) (e : Int) : Double :=
  let m := if q = 2 ^ 53 then 2 ^ 52 else q
  let e1 := if q = 2 ^ 53 then e + 1 else e
  if e1 > 971 then .inf sign else .finite sign m e1

/-- The `double` nearest to `±(num / den) * 2 ^ exp`, ties to even; `den` is
positive.  The result is infinite when the rounded value exceeds the largest
finite `double`. -/
def round_to (sign : Bool) (num den : Nat) (exp : Int) : Double :=
  if num = 0 then .finite sign 0 (-1074)
  else
    pack sign (rounded_quotient num den (exp - result_exp num den exp))
      (result_exp num den exp)

/-- The conversion `static_cast<double>(a)` of a 64-bit integer. -/
def of_int (a : Int) : Double :=
  round_to (decide (a < 0)) a.natAbs 1 0

/-- The macro `INFINITY` as a `double`. -/
def INFINITY : Double :=
  .inf false

/-- The function `std::signbit`. -/
def signbit : Double → Bool
  | .finite s _ _ => s
  | .inf s => s
  | .nan s => s

/-- The comparison `x == 0`: true of both zeros, false of a NaN. -/
def is_zero : Double → Bool
  | .finite _ 0 _ => true
  | _ => false

/-- The unary minus. -/
def neg : Double → Double
  | .finite s m e => .finite (!s) m e
  | .inf s => .inf (!s)
  | .nan s => .nan (!s)

/-- The difference `x - y`.  A NaN operand is passed on; a NaN that the
operation creates has its sign bit set. -/
def sub : Double → Double → Double
  | .nan s, _ => .nan s
  | _, .nan s => .nan s
  | .inf s1, .inf s2 => if s1 = s2 then .nan true else .inf s1
  | .inf s1, .finite _ _ _ => .inf s1
  | .finite _ _ _, .inf s2 => .inf (!s2)
  | .finite s1 m1 e1, .finite s2 m2 e2 =>
    let e := min e1 e2
    let x : Int := (if s1 then -1 else 1) * (m1 * 2 ^ (e1 - e).toNat : Nat)
    let y : Int := (if s2 then -1 else 1) * (m2 * 2 ^ (e2 - e).toNat : Nat)
    let d := x - y
    if d = 0 then .finite (s1 && !s2) 0 (-1074)
    else round_to (decide (d < 0)) d.natAbs 1 e

/-- The quotient `x / y`. -/
def div : Double → Double → Double
  | .nan s, _ => .nan s
  | _, .nan s => .nan s
  | .inf _, .inf _ => .nan true
  | .inf s1, .finite s2 _ _ => .inf (s1 != s2)
  | .finite s1 _ _, .inf s2 => .finite (s1 != s2) 0 (-1074)
  | .finite s1 m1 e1, .finite s2 m2 e2 =>
    if m2 = 0 then
      if m1 = 0 then .nan true else .inf (s1 != s2)
    else round_to (s1 != s2) m1 m2 (e1 - e2)

/-- The function `std::fmod`: the remainder of the division of `x` by `y`
truncated to an integer, with the sign of `x`; it is computed without rounding. -/
def fmod : Double → Double → Double
  | .nan s, _ => .nan s
  | _, .nan s => .nan s
  | .inf _, _ => .nan true
  | .finite s1 m1 e1, .inf _ => .finite s1 m1 e1
  | .finite s1 m1 e1, .finite _ m2 e2 =>
    if m2 = 0 then .nan true
    else
      let e := min e1 e2
      let x := m1 * 2 ^ (e1 - e).toNat
      let y := m2 * 2 ^ (e2 - e).toNat
      round_to s1 (x % y) 1 e

end Double

/-- The smallest 64-bit integer. -/
def INT64_MIN : Int := -2 ^ 63

/-- The largest 64-bit integer. -/
def INT64_MAX : Int := 2 ^ 63 - 1

/-- The quotient `a / b` of two 64-bit integers, truncated towards zero; `none`
where C++ leaves it undefined, for a zero divisor and for `INT64_MIN / -1`. -/
def int64_div (a b : Int) : Option Int :=
  if b = 0 ∨ (a = INT64_MIN ∧ b = -1) then none else some (a.tdiv b)

/-- The remainder `a % b` of two 64-bit integers, with the sign of `a`; `none`
where C++ leaves it undefined. -/
def int64_rem (a b : Int) : Option Int :=
  if b = 0 ∨ (a = INT64_MIN ∧ b = -1) then none else some (a.tmod b)

/-- The error codes that the entries embedded here signal. -/
inductive Error where
  | InvalidType
deriving DecidableEq, Repr

/-- An `EValue` by its tag: the scalar kinds with their payload; a tensor and
the remaining tags without it. -/
inductive EValue where
  | none
  | int (v : Int)
  | double (v : Double)
  | bool (v : Bool)
  | tensor
  | other (tag : Nat)
deriving DecidableEq, Repr

/-- What a call of a table entry does: it assigns the output slot, or it fails
the kernel context with an error code and leaves the output slot as it was
(`ET_KERNEL_CHECK_MSG`), or it runs into undefined behaviour of C++ arithmetic
(integer division and overflow, conversion of a `double` that does not fit),
or it aborts in the check of an `EValue` accessor called on the wrong tag. -/
inductive KernelResult where
  | ok (out : EValue)
  | fail (error : Error) (out : EValue)
  | undefined
  | abort
deriving DecidableEq, Repr

/-- The function `floor_div_double(a, b, out)`: the value assigned to `out`. -/
def floor_div_double (a b : Double) : Double :=
  if b.is_zero then
    if a.signbit then Double.INFINITY.neg else Double.INFINITY
  else
    let mod := Double.fmod a b
    let div := Double.div (Double.sub a mod) b
    if !mod.is_zero && (b.signbit != mod.signbit) then Double.sub div (Double.of_int 1)
    else div

namespace executorch_prim

/-- The entry `executorch_prim::floordiv.Scalar` on the stack `[a, b, out]`. -/
def floordiv_Scalar (a b out : EValue) : KernelResult :=
  match a, b with
  | .int x, .int y =>
    match int64_div x y with
    | none => .undefined
    | some quot =>
      if decide (x < 0) = decide (y < 0) then .ok (.int quot)
      else
        match int64_rem x y with
        | none => .undefined
        | some rem => .ok (.int (if rem ≠ 0 then quot - 1 else quot))
  | .double x, .double y => .ok (.double (floor_div_double x y))
  | .int x, .double y => .ok (.double (floor_div_double (Double.of_int x) y))
  | .double x, .int y => .ok (.double (floor_div_double x (Double.of_int y)))
  | _, _ => .fail .InvalidType out

/-- The entry `executorch_prim::mod.Scalar` on the stack `[a, b, out]`. -/
def mod_Scalar (a b out : EValue) : KernelResult :=
  match a, b with
  | .int x, .int y =>
    match int64_rem x y with
    | none => .undefined
    | some rem => .ok (.int rem)
  | _, _ => .fail .InvalidType out

end executorch_prim

end torch.executor.function

/-! ## Rounds of submission of one command buffer -/

namespace vkcompute

namespace vkapi

namespace CommandBuffer

/-- One round of submission of a command buffer: `end()` followed by
`get_submit_handle(false)`, the two calls that `ComputeGraph::submit_cmd` makes
on a deferred command buffer.  `status` is what `vkEndCommandBuffer` returns
when it is called. -/
def end_and_get_submit_handle (status : VkResult) (cb : CommandBuffer) : Step VkHandle :=
  let e := cb.end_ status
  match e.outcome with
  | .thrown err => { outcome := .thrown err, cb := e.cb, calls := e.calls }
  | .returned _ =>
    let h := e.cb.get_submit_handle false
    { outcome := h.outcome, cb := h.cb, calls := e.calls ++ h.calls }

/-- Successive rounds of submission, one for each status of the list: the
handles returned, in order, and the buffer as it is left; `none` when a round
throws. -/
def submit_rounds : List VkResult → CommandBuffer → Option (List VkHandle × CommandBuffer)
  | [], cb => some ([], cb)
  | status :: rest, cb =>
    match (cb.end_and_get_submit_handle status).outcome with
    | .thrown _ => none
    | .returned handle =>
      match submit_rounds rest (cb.end_and_get_submit_handle status).cb with
      | none => none
      | some (handles, cb1) => some (handle :: handles, cb1)

end CommandBuffer

end vkapi

end vkcompute

/-! ## The primitive operator table: further arithmetic and entries -/

namespace torch.executor.function

namespace Double

/-- What makes a value of the type a `double`: the bounds on mantissa and
exponent of a finite value. -/
def wf : Double → Bool
  | .finite _ m e => decide (m < 2 ^ 53 ∧ -1074 ≤ e ∧ e ≤ 971 ∧ (2 ^ 52 ≤ m ∨ e = -1074))
  | _ => true

/-- The rational number that a finite `double` stands for; 0 for the others. -/
def to_rat : Double → ℚ
  | .finite s m e => (if s then -1 else 1) * (m : ℚ) * (2 : ℚ) ^ e
  | _ => 0

/-- The sum `x + y`. -/
def add : Double → Double → Double
  | .nan s, _ => .nan s
  | _, .nan s => .nan s
  | .inf s1, .inf s2 => if s1 = s2 then .inf s1 else .nan true
  | .inf s1, .finite _ _ _ => .inf s1
  | .finite _ _ _, .inf s2 => .inf s2
  | .finite s1 m1 e1, .finite s2 m2 e2 =>
    let e := min e1 e2
    let x : Int := (if s1 then -1 else 1) * (m1 * 2 ^ (e1 - e).toNat : Nat)
    let y : Int := (if s2 then -1 else 1) * (m2 * 2 ^ (e2 - e).toNat : Nat)
    let d := x + y
    if d = 0 then .finite (s1 && s2) 0 (-1074)
    else round_to (decide (d < 0)) d.natAbs 1 e

/-- The product `x * y`. -/
def mul : Double → Double → Double
  | .nan s, _ => .nan s
  | _, .nan s => .nan s
  | .inf s1, .inf s2 => .inf (s1 != s2)
  | .inf s1, .finite s2 m2 _ => if m2 = 0 then .nan true else .inf (s1 != s2)
  | .finite s1 m1 _, .inf s2 => if m1 = 0 then .nan true else .inf (s1 != s2)
  | .finite s1 m1 e1, .finite s2 m2 e2 => round_to (s1 != s2) (m1 * m2) 1 (e1 + e2)

/-- The function `std::abs`. -/
def abs : Double → Double
  | .finite _ m e => .finite false m e
  | .inf _ => .inf false
  | .nan _ => .nan false

/-- The comparison `x == y`: false when an operand is a NaN, true of two zeros
of either sign. -/
def eq : Double → Double → Bool
  | .finite s1 m1 e1, .finite s2 m2 e2 =>
    (m1 = 0 && m2 = 0) ||
      (s1 = s2 && m1 * 2 ^ (e1 - min e1 e2).toNat = m2 * 2 ^ (e2 - min e1 e2).toNat)
  | .inf s1, .inf s2 => s1 = s2
  | _, _ => false

/-- The function `round` of the C library: the nearest integer, a value halfway
between two integers going away from zero. -/
def round : Double → Double
  | .finite s m e =>
    if e ≥ 0 then .finite s m e
    else
      let q := m / 2 ^ (-e).toNat
      let n := if 2 * (m % 2 ^ (-e).toNat) ≥ 2 ^ (-e).toNat then q + 1 else q
      round_to s n 1 0
  | x => x

/-- The conversion `static_cast<int64_t>(x)`: the value truncated towards zero;
`none` where C++ leaves it undefined, for a NaN, an infinity and a value that
does not fit. -/
def to_int64 : Double → Option Int
  | .finite s m e =>
    let v : Int :=
      (if s then -1 else 1) * ((if e ≥ 0 then m * 2 ^ e.toNat else m / 2 ^ (-e).toNat : Nat) : Int)
    if INT64_MIN ≤ v ∧ v ≤ INT64_MAX then some v else none
  | _ => none

end Double

/-- The test `isInt()` of an `EValue`. -/
def EValue.isInt : EValue → Bool
  | .int _ => true
  | _ => false

/-- The test `isDouble()` of an `EValue`. -/
def EValue.isDouble : EValue → Bool
  | .double _ => true
  | _ => false

/-- The result of an arithmetic operator on two 64-bit integers: `none` when
the exact result `v` does not fit, which C++ leaves undefined. -/
def int64_result (v : Int) : Option Int :=
  if INT64_MIN ≤ v ∧ v ≤ INT64_MAX then some v else none

/-- The macro `ALGEBRA_ET_PRIM_OP(operator, stack, context)` on the stack
`[a, b, out]`; `int_op` and `double_op` are what `operator` computes on two
64-bit integers, exactly, and on two `double`s.  An Int operand next to a
Double one is converted to `double`. -/
def ALGEBRA_ET_PRIM_OP (int_op : Int → Int → Int) (double_op : Double → Double → Double)
    (a b out : EValue) : KernelResult :=
  match a, b with
  | .int x, .int y =>
    match int64_result (int_op x y) with
    | none => .undefined
    | some v => .ok (.int v)
  | .double x, .double y => .ok (.double (double_op x y))
  | .int x, .double y => .ok (.double (double_op (Double.of_int x) y))
  | .double x, .int y => .ok (.double (double_op x (Double.of_int y)))
  | _, _ => .fail .InvalidType out

namespace executorch_prim

/-- The entry `executorch_prim::add.Scalar`. -/
def add_Scalar (a b out : EValue) : KernelResult :=
  ALGEBRA_ET_PRIM_OP (fun x y => x + y) Double.add a b out

/-- The entry `executorch_prim::sub.Scalar`. -/
def sub_Scalar (a b out : EValue) : KernelResult :=
  ALGEBRA_ET_PRIM_OP (fun x y => x - y) Double.sub a b out

/-- The entry `executorch_prim::mul.Scalar`. -/
def mul_Scalar (a b out : EValue) : KernelResult :=
  ALGEBRA_ET_PRIM_OP (fun x y => x * y) Double.mul a b out

/-- The entry `executorch_prim::floordiv.int` on the stack `[a, b, out]`.  The
accessor `toInt()`, declared outside the sources, checks the tag and aborts
when the value is not an Int. -/
def floordiv_int (a b : EValue) : KernelResult :=
  match a, b with
  | .int x, .int y =>
    match int64_div x y with
    | none => .undefined
    | some quot => .ok (.int quot)
  | _, _ => .abort

/-- The entry `executorch_prim::round.Scalar` on the stack `[a, out]`. -/
def round_Scalar (a out : EValue) : KernelResult :=
  match a with
  | .double val =>
    let r := Double.round val
    let d := Double.sub r val
    let res :=
      if !(Double.eq (Double.abs d) (.finite false (2 ^ 52) (-53))) then r
      else if Double.eq (Double.fmod r (.finite false (2 ^ 52) (-51))) (.finite false 0 (-1074))
        then r
      else Double.sub val d
    match res.to_int64 with
    | none => .undefined
    | some v => .ok (.int v)
  | _ => .fail .InvalidType out

end executorch_prim

end torch.executor.function

/-! ## Chunks of prepack nodes between submissions -/

namespace vkcompute

/-- The index of the prepack node that a call encodes, if it encodes one. -/
def ContextCall.encoded_node : ContextCall → Option Nat
  | .encode_prepack_node i => some i
  | _ => none

/-- A scan over a list of calls: the chunks of node indices submitted so far, in
order, and the indices of the nodes encoded since the last submission. -/
structure ChunkScan where
  submitted : List (List Nat)
  current : List Nat
deriving DecidableEq, Repr

/-- One call of the scan: an encoded node joins the current chunk, and a
submission of the command buffer closes the current chunk. -/
def ChunkScan.step (s : ChunkScan) : ContextCall → ChunkScan
  | .encode_prepack_node i => { s with current := s.current ++ [i] }
  | .submit_cmd_to_gpu _ _ => { submitted := s.submitted ++ [s.current], current := [] }
  | _ => s

/-- The scan of a list of calls from the start. -/
def chunk_scan (calls : List ContextCall) : ChunkScan :=
  calls.foldl ChunkScan.step { submitted := [], current := [] }

/-- The staging bytes that the nodes of a chunk add when they are encoded. -/
def chunk_nbytes (nodes : List PrepackNode) (chunk : List Nat) : Nat :=
  (chunk.map (fun i => (nodes.getD i { staging_nbytes := 0 }).staging_nbytes)).sum

/-- The threshold in effect for the chunk at position `k`: the initial one for
the first chunk, the other one afterwards. -/
def chunk_threshold (config : GraphConfig) (k : Nat) : Nat :=
  if k = 0 then config.prepack_initial_threshold_nbytes else config.prepack_threshold_nbytes

end vkcompute

/-! ## Values of doubles -/

namespace torch.executor.function

/-- A `double` stands for the rational number `v`: it is finite with an exponent
in range and its value is `v`. -/
def Double.represents (x : Double) (v : ℚ) : Prop :=
  ∃ (s : Bool) (m : Nat) (e : Int), x = .finite s m e ∧ -1074 ≤ e ∧ x.to_rat = v

end torch.executor.function

/-! ## The safety factor of the descriptor pool -/

namespace torch.executor.function

namespace Double

end Double

namespace Single

/-- The exponent of the unit in the last place of the `float` nearest to
`(num / den) * 2 ^ exp`, for positive `num` and `den`: 23 below the binary
logarithm of the value, rounded down, and not below -149. -/
def result_exp (num den : Nat) (exp : Int) : Int :=
  let d : Int := (bit_length num num : Int) - (bit_length den den : Int)
  let ge : Bool := if d ≥ 0 then num ≥ den * 2 ^ d.toNat else num * 2 ^ (-d).toNat ≥ den
  let l : Int := (if ge then d else d - 1) + exp
  max (l - 23) (-149)

/-- The `float` nearest to `±(num / den) * 2 ^ exp`, ties to even; `den` is
positive.  A `float` is held as the `double` of the same value, which exists
for every `float`.  The result is infinite when the rounded value exceeds the
largest finite `float`, `(2 ^ 24 - 1) * 2 ^ 104`. -/
def round_to (sign : Bool) (num den : Nat) (exp : Int) : Double :=
  if num = 0 then .finite sign 0 (-1074)
  else
    let e := result_exp num den exp
    let q := Double.rounded_quotient num den (exp - e)
    if e > 104 ∨ (e = 104 ∧ q = 2 ^ 24) then .inf sign else Double.round_to sign q 1 e

/-- The product `x * y` of two `float`s. -/
def mul : Double → Double → Double
  | .nan s, _ => .nan s
  | _, .nan s => .nan s
  | .inf s1, .inf s2 => .inf (s1 != s2)
  | .inf s1, .finite s2 m2 _ => if m2 = 0 then .nan true else .inf (s1 != s2)
  | .finite s1 m1 _, .inf s2 => if m1 = 0 then .nan true else .inf (s1 != s2)
  | .finite s1 m1 e1, .finite s2 m2 e2 => round_to (s1 != s2) (m1 * m2) 1 (e1 + e2)

end Single

end torch.executor.function

namespace vkcompute

namespace ComputeGraph

end ComputeGraph

end vkcompute

/-! ## Theorems -/

namespace vkcompute

/-! ### The command-buffer state machine -/

open vkapi

/-- The three ways `dispatch` ends: the state check fails; a component of the
bound local work-group size is 0 and the call is undefined; or it returns,
having recorded the three rounded-up quotients. -/
theorem dispatch_cases (cb : CommandBuffer) (g : utils.uvec3) :
    (cb.state_ ≠ State.BARRIERS_INSERTED →
      cb.dispatch g = some ⟨.thrown .check_cond, cb, []⟩) ∧
    (cb.state_ = State.BARRIERS_INSERTED →
      (cb.bound_.local_workgroup_size.get 0 = 0 ∨ cb.bound_.local_workgroup_size.get 1 = 0 ∨
        cb.bound_.local_workgroup_size.get 2 = 0) →
      cb.dispatch g = none) ∧
    (cb.state_ = State.BARRIERS_INSERTED →
      1 ≤ cb.bound_.local_workgroup_size.get 0 → 1 ≤ cb.bound_.local_workgroup_size.get 1 →
      1 ≤ cb.bound_.local_workgroup_size.get 2 →
      cb.dispatch g = some
        { outcome := .returned ()
          cb := { cb with state_ := State.RECORDING }
          calls := [VkCall.vkCmdDispatch cb.handle_
            ((g.get 0 + cb.bound_.local_workgroup_size.get 0 - 1) /
              cb.bound_.local_workgroup_size.get 0)
            ((g.get 1 + cb.bound_.local_workgroup_size.get 1 - 1) /
              cb.bound_.local_workgroup_size.get 1)
            ((g.get 2 + cb.bound_.local_workgroup_size.get 2 - 1) /
              cb.bound_.local_workgroup_size.get 2)] }) := by
  refine ⟨fun hst => ?_, fun hst hz => ?_, fun hst h0 h1 h2 => ?_⟩
  · simp [CommandBuffer.dispatch, hst]
  · unfold CommandBuffer.dispatch
    rw [if_pos hst]
    rcases hz with hz | hz | hz
    · simp [utils.div_up, hz]
    · simp only [utils.div_up, hz, if_true]
      split <;> simp_all
    · simp only [utils.div_up, hz, if_true]
      split <;> simp_all
  · have e0 : cb.bound_.local_workgroup_size.get 0 ≠ 0 := by omega
    have e1 : cb.bound_.local_workgroup_size.get 1 ≠ 0 := by omega
    have e2 : cb.bound_.local_workgroup_size.get 2 ≠ 0 := by omega
    simp [CommandBuffer.dispatch, utils.div_up, hst, e0, e1, e2]

/-- C1, the code does not guarantee it for `dispatch`.  For a command buffer in
any state, each state-checked member function passes its `VK_CHECK_COND`
exactly when the state is one of its source states, and from every other state
it throws the failed check, issues no GPU API call and leaves the whole buffer,
state and bound record included, as it was.  From a source state every
function but `dispatch` returns normally and leaves the buffer in its target
state (`begin` and `end` call the GPU API under `VK_CHECK`; when that call
reports `VK_SUCCESS` they return normally, and a failure status is the only
other way they throw).  From BARRIERS_INSERTED `dispatch` returns normally and
goes to RECORDING when every component of the bound local work-group size is
at least 1; when a component is 0 it divides by zero and does not return. -/
theorem command_buffer_state_checks (cb : CommandBuffer) (status : VkResult) :
    -- begin: NEW -> RECORDING
    ((cb.state_ = State.NEW →
        (cb.begin VK_SUCCESS).outcome = .returned () ∧
        (cb.begin VK_SUCCESS).cb.state_ = State.RECORDING ∧
        (status ≠ VK_SUCCESS → (cb.begin status).outcome = .thrown (.vk_check status))) ∧
      (cb.state_ ≠ State.NEW → cb.begin status = ⟨.thrown .check_cond, cb, []⟩)) ∧
    -- bind_pipeline: RECORDING -> PIPELINE_BOUND
    (∀ p layout wg,
      (cb.state_ = State.RECORDING →
        (cb.bind_pipeline p layout wg).outcome = .returned () ∧
        (cb.bind_pipeline p layout wg).cb.state_ = State.PIPELINE_BOUND) ∧
      (cb.state_ ≠ State.RECORDING →
        cb.bind_pipeline p layout wg = ⟨.thrown .check_cond, cb, []⟩)) ∧
    -- bind_descriptors: PIPELINE_BOUND -> DESCRIPTORS_BOUND
    (∀ d,
      (cb.state_ = State.PIPELINE_BOUND →
        (cb.bind_descriptors d).outcome = .returned () ∧
        (cb.bind_descriptors d).cb.state_ = State.DESCRIPTORS_BOUND) ∧
      (cb.state_ ≠ State.PIPELINE_BOUND →
        cb.bind_descriptors d = ⟨.thrown .check_cond, cb, []⟩)) ∧
    -- insert_barrier: DESCRIPTORS_BOUND or RECORDING -> BARRIERS_INSERTED
    (∀ pb,
      (cb.state_ = State.DESCRIPTORS_BOUND ∨ cb.state_ = State.RECORDING →
        (∃ pb1, (cb.insert_barrier pb).outcome = .returned pb1) ∧
        (cb.insert_barrier pb).cb.state_ = State.BARRIERS_INSERTED) ∧
      (¬ (cb.state_ = State.DESCRIPTORS_BOUND ∨ cb.state_ = State.RECORDING) →
        cb.insert_barrier pb = ⟨.thrown .check_cond, cb, []⟩)) ∧
    -- dispatch: BARRIERS_INSERTED -> RECORDING, unless it divides by zero
    (∀ g,
      (cb.state_ = State.BARRIERS_INSERTED →
        (1 ≤ cb.bound_.local_workgroup_size.get 0 ∧ 1 ≤ cb.bound_.local_workgroup_size.get 1 ∧
            1 ≤ cb.bound_.local_workgroup_size.get 2 →
          ∃ s, cb.dispatch g = some s ∧ s.outcome = .returned () ∧
            s.cb.state_ = State.RECORDING) ∧
        (cb.bound_.local_workgroup_size.get 0 = 0 ∨ cb.bound_.local_workgroup_size.get 1 = 0 ∨
            cb.bound_.local_workgroup_size.get 2 = 0 →
          cb.dispatch g = none)) ∧
      (cb.state_ ≠ State.BARRIERS_INSERTED →
        cb.dispatch g = some ⟨.thrown .check_cond, cb, []⟩)) ∧
    -- blit: BARRIERS_INSERTED -> RECORDING
    (∀ src dst,
      (cb.state_ = State.BARRIERS_INSERTED →
        (cb.blit src dst).outcome = .returned () ∧
        (cb.blit src dst).cb.state_ = State.RECORDING) ∧
      (cb.state_ ≠ State.BARRIERS_INSERTED →
        cb.blit src dst = ⟨.thrown .check_cond, cb, []⟩)) ∧
    -- write_timestamp: RECORDING -> RECORDING
    (∀ qp idx,
      (cb.state_ = State.RECORDING →
        (cb.write_timestamp qp idx).outcome = .returned () ∧
        (cb.write_timestamp qp idx).cb.state_ = State.RECORDING) ∧
      (cb.state_ ≠ State.RECORDING →
        cb.write_timestamp qp idx = ⟨.thrown .check_cond, cb, []⟩)) ∧
    -- reset_querypool: RECORDING -> RECORDING
    (∀ qp first count,
      (cb.state_ = State.RECORDING →
        (cb.reset_querypool qp first count).outcome = .returned () ∧
        (cb.reset_querypool qp first count).cb.state_ = State.RECORDING) ∧
      (cb.state_ ≠ State.RECORDING →
        cb.reset_querypool qp first count = ⟨.thrown .check_cond, cb, []⟩)) ∧
    -- end: RECORDING or SUBMITTED -> READY
    ((cb.state_ = State.RECORDING ∨ cb.state_ = State.SUBMITTED →
        (cb.end_ VK_SUCCESS).outcome = .returned () ∧
        (cb.end_ VK_SUCCESS).cb.state_ = State.READY ∧
        (status ≠ VK_SUCCESS → cb.state_ = State.RECORDING →
          (cb.end_ status).outcome = .thrown (.vk_check status))) ∧
      (¬ (cb.state_ = State.RECORDING ∨ cb.state_ = State.SUBMITTED) →
        cb.end_ status = ⟨.thrown .check_cond, cb, []⟩)) ∧
    -- get_submit_handle: READY -> SUBMITTED
    (∀ final_use,
      (cb.state_ = State.READY →
        (∃ h, (cb.get_submit_handle final_use).outcome = .returned h) ∧
        (cb.get_submit_handle final_use).cb.state_ = State.SUBMITTED) ∧
      (cb.state_ ≠ State.READY →
        cb.get_submit_handle final_use = ⟨.thrown .check_cond, cb, []⟩)) := by
  have hd := dispatch_cases cb
  rcases cb with ⟨hdl, sem, fl, st, bd⟩
  refine ⟨?_, ?_, ?_, ?_, ?_, ?_, ?_, ?_, ?_, ?_⟩
  case refine_5 =>
    intro g
    obtain ⟨d1, d2, d3⟩ := hd g
    exact ⟨fun hst => ⟨fun hl => ⟨_, d3 hst hl.1 hl.2.1 hl.2.2, rfl, rfl⟩, d2 hst⟩, d1⟩
  all_goals
    clear hd
    intros
    cases st <;>
    simp [CommandBuffer.begin, CommandBuffer.end_, CommandBuffer.bind_pipeline,
      CommandBuffer.bind_descriptors, CommandBuffer.insert_barrier,
      CommandBuffer.blit, CommandBuffer.write_timestamp, CommandBuffer.reset_querypool,
      CommandBuffer.get_submit_handle] <;>
    (try intro hne) <;> split_ifs <;> simp_all

theorem command_buffer_state_checks_witness :
    ((CommandBuffer.mk_new 7 9 0).begin VK_SUCCESS).outcome = .returned () ∧
    ((CommandBuffer.mk_new 7 9 0).begin VK_SUCCESS).cb.state_ = State.RECORDING ∧
    (CommandBuffer.mk_new 7 9 0).dispatch ⟨4, 4, 1⟩ =
      some ⟨.thrown .check_cond, CommandBuffer.mk_new 7 9 0, []⟩ ∧
    ({ CommandBuffer.mk_new 7 9 0 with state_ := State.BARRIERS_INSERTED }).dispatch ⟨4, 4, 1⟩ =
      none :=
  ⟨((command_buffer_state_checks (CommandBuffer.mk_new 7 9 0) VK_SUCCESS).1.1 rfl).1,
   ((command_buffer_state_checks (CommandBuffer.mk_new 7 9 0) VK_SUCCESS).1.1 rfl).2.1,
   ((command_buffer_state_checks (CommandBuffer.mk_new 7 9 0) VK_SUCCESS).2.2.2.2.1
      ⟨4, 4, 1⟩).2 (by decide),
   (((command_buffer_state_checks
      { CommandBuffer.mk_new 7 9 0 with state_ := State.BARRIERS_INSERTED }
      VK_SUCCESS).2.2.2.2.1 ⟨4, 4, 1⟩).1 rfl).2 (Or.inl rfl)⟩


theorem to_int32_of_lt (n : Nat) (h : n < 2 ^ 31) : vkapi.to_int32 n = (n : Int) := by
  have h1 : n % 2 ^ 32 = n := Nat.mod_eq_of_lt (by omega)
  unfold vkapi.to_int32
  rw [h1, if_pos h]

theorem static_cast_int_of_lt (n : Nat) (h : n < 2 ^ 31) : static_cast_int n = (n : Int) :=
  to_int32_of_lt n h

theorem get_shared_object_add_user_values (idx : Nat) (user : ValueRef) (g : ComputeGraph) :
    (g.get_shared_object_add_user idx user).values_ = g.values_ ∧
    (g.get_shared_object_add_user idx user).values_in_use_ = g.values_in_use_ := by
  simp [ComputeGraph.get_shared_object_add_user]

theorem add_tensor_returned (sizes : List Int) (dtype : Nat) (st : utils.StorageType)
    (ml : utils.GPUMemoryLayout) (so : Int) (am : Nat) (g : ComputeGraph) (idx : ValueRef)
    (h : (g.add_tensor sizes dtype st ml so am).outcome = .returned idx) :
    g.values_in_use_ = 0 ∧ idx = static_cast_int g.values_.length ∧
    (∃ v, (g.add_tensor sizes dtype st ml so am).graph.values_ = g.values_ ++ [v]) ∧
    (g.add_tensor sizes dtype st ml so am).graph.values_in_use_ = g.values_in_use_ := by
  unfold ComputeGraph.add_tensor at h ⊢
  by_cases hc : g.check_no_active_value_ptrs = true
  · have h0 : g.values_in_use_ = 0 := by simpa [ComputeGraph.check_no_active_value_ptrs] using hc
    simp only [hc, if_true] at h ⊢
    refine ⟨h0, ?_, ?_, ?_⟩
    · simpa using h.symm
    · split <;> simp [get_shared_object_add_user_values]
    · split <;> simp [get_shared_object_add_user_values]
  · simp [hc] at h

theorem add_tensor_view_returned (vref : ValueRef) (g : ComputeGraph) (idx : ValueRef)
    (h : (g.add_tensor_view vref).outcome = .returned idx) :
    idx = static_cast_int g.values_.length ∧
    (∃ v, (g.add_tensor_view vref).graph.values_ = g.values_ ++ [v]) ∧
    (g.add_tensor_view vref).graph.values_in_use_ = g.values_in_use_ := by
  unfold ComputeGraph.add_tensor_view at h ⊢
  unfold ValuePtr.construct at h ⊢
  cases hv : g.values_at vref with
  | none => simp [hv] at h
  | some v =>
    by_cases ha : PtrKind.vTensorPtr.accepts v = true
    · simp only [hv, ha, if_true] at h ⊢
      simp [ValuePtr.destroy] at h ⊢
      exact h.symm
    · simp [hv, ha] at h


theorem add_tensor_view_sized_returned (vref : ValueRef) (sizes strides : List Int)
    (g : ComputeGraph) (idx : ValueRef)
    (h : (g.add_tensor_view_sized vref sizes strides).outcome = .returned idx) :
    idx = static_cast_int g.values_.length ∧
    (∃ v, (g.add_tensor_view_sized vref sizes strides).graph.values_ = g.values_ ++ [v]) ∧
    (g.add_tensor_view_sized vref sizes strides).graph.values_in_use_ = g.values_in_use_ := by
  unfold ComputeGraph.add_tensor_view_sized at h ⊢
  unfold ValuePtr.construct at h ⊢
  cases hv : g.values_at vref with
  | none => simp [hv] at h
  | some v =>
    by_cases ha : PtrKind.vTensorPtr.accepts v = true
    · simp only [hv, ha, if_true] at h ⊢
      simp [ValuePtr.destroy] at h ⊢
      exact h.symm
    · simp [hv, ha] at h

/-- A call that returns normally returns the converted size of the store before
the call, appends exactly one value, and leaves `values_in_use_` as it was. -/
theorem AddCall.run_returned (es : Nat → Nat) (c : AddCall) (g : ComputeGraph) (idx : ValueRef)
    (h : (c.run es g).outcome = .returned idx) :
    idx = static_cast_int g.values_.length ∧
    (∃ v, (c.run es g).graph.values_ = g.values_ ++ [v]) ∧
    (c.run es g).graph.values_in_use_ = g.values_in_use_ := by
  cases c with
  | add_tensor sizes dtype st ml so am =>
    exact (add_tensor_returned sizes dtype st ml so am g idx h).2
  | add_tensor_storage sizes dtype st so am =>
    exact (add_tensor_returned sizes dtype st _ so am g idx h).2
  | add_tensor_layout sizes dtype ml so am =>
    exact (add_tensor_returned sizes dtype _ ml so am g idx h).2
  | add_tensor_default sizes dtype so am =>
    exact (add_tensor_returned sizes dtype _ _ so am g idx h).2
  | add_tensor_view vref => exact add_tensor_view_returned vref g idx h
  | add_tensor_view_sized vref sizes strides =>
    exact add_tensor_view_sized_returned vref sizes strides g idx h
  | add_tensor_image image =>
    simp only [AddCall.run, ComputeGraph.add_tensor_image] at h ⊢
    split at h <;> simp_all
  | add_tensorref sizes dtype data =>
    simp only [AddCall.run, ComputeGraph.add_tensorref] at h ⊢
    split at h <;> simp_all
  | add_staging dtype numel =>
    simp only [AddCall.run, ComputeGraph.add_staging] at h ⊢
    split at h <;> simp_all
  | add_none =>
    simp only [AddCall.run, ComputeGraph.add_none] at h ⊢
    split at h <;> simp_all
  | add_value_list value =>
    simp only [AddCall.run, ComputeGraph.add_value_list] at h ⊢
    split at h <;> simp_all
  | add_string str =>
    simp only [AddCall.run, ComputeGraph.add_string] at h ⊢
    split at h <;> simp_all
  | add_symint val =>
    simp only [AddCall.run, ComputeGraph.add_symint] at h ⊢
    split at h <;> simp_all

theorem run_calls_append (es : Nat → Nat) (a b : List AddCall) (g : ComputeGraph) :
    run_calls es (a ++ b) g =
      match run_calls es a g with
      | none => none
      | some (r1, g1) =>
        match run_calls es b g1 with
        | none => none
        | some (r2, g2) => some (r1 ++ r2, g2) := by
  induction a generalizing g with
  | nil =>
    simp only [List.nil_append, run_calls]
    cases run_calls es b g with
    | none => rfl
    | some p => rfl
  | cons c cs ih =>
    simp only [List.cons_append, run_calls]
    cases hc : (c.run es g).outcome with
    | thrown e => rfl
    | returned idx =>
      show (match run_calls es (cs ++ b) (c.run es g).graph with
        | none => none
        | some (refs, g1) => some (idx :: refs, g1)) = _
      rw [ih]
      cases run_calls es cs (c.run es g).graph with
      | none => rfl
      | some p =>
        obtain ⟨r1, g1⟩ := p
        show (match (match run_calls es b g1 with
            | none => none
            | some (r2, g2) => some (r1 ++ r2, g2)) with
          | none => none
          | some (refs, g1) => some (idx :: refs, g1)) = _
        cases hb : run_calls es b g1 with
        | none => simp [hb]
        | some q => simp [hb]

theorem run_calls_store (es : Nat → Nat) (cs : List AddCall) (g g1 : ComputeGraph)
    (refs : List ValueRef) (h : run_calls es cs g = some (refs, g1)) :
    refs = (List.range cs.length).map (fun k => static_cast_int (g.values_.length + k)) ∧
    (∃ added, added.length = cs.length ∧ g1.values_ = g.values_ ++ added) ∧
    g1.values_in_use_ = g.values_in_use_ := by
  induction cs generalizing g refs with
  | nil =>
    simp only [run_calls, Option.some.injEq, Prod.mk.injEq] at h
    obtain ⟨rfl, rfl⟩ := h
    exact ⟨by simp, ⟨[], by simp, by simp⟩, rfl⟩
  | cons c cs ih =>
    simp only [run_calls] at h
    cases hc : (c.run es g).outcome with
    | thrown e => simp [hc] at h
    | returned idx =>
      simp only [hc] at h
      cases hr : run_calls es cs (c.run es g).graph with
      | none => simp [hr] at h
      | some p =>
        obtain ⟨r1, g2⟩ := p
        simp only [hr, Option.some.injEq, Prod.mk.injEq] at h
        obtain ⟨rfl, rfl⟩ := h
        obtain ⟨hidx, ⟨v, hv⟩, huse⟩ := AddCall.run_returned es c g idx hc
        obtain ⟨hrefs, ⟨added, hlen, hadd⟩, huse2⟩ := ih _ _ hr
        refine ⟨?_, ⟨v :: added, by simp [hlen], by simp [hadd, hv]⟩, by rw [huse2, huse]⟩
        rw [hrefs, hv, List.length_cons, List.range_succ_eq_map]
        simp only [List.map_cons, List.map_map, hidx, Nat.add_zero, List.length_append,
          List.length_singleton]
        congr 1
        apply List.map_congr_left
        intro k _
        simp only [Function.comp]
        congr 1
        omega


theorem map_static_cast_int_range (n : Nat) (h : n ≤ 2 ^ 31) :
    (List.range n).map (fun k => static_cast_int (0 + k)) =
      (List.range n).map (fun (k : Nat) => (k : Int)) := by
  apply List.map_congr_left
  intro k hk
  have hk1 : k < n := List.mem_range.mp hk
  rw [Nat.zero_add]
  exact static_cast_int_of_lt k (by omega)

/-- C2.  Start from a freshly constructed graph (empty store, no live handle)
and run any sequence of at most 2^31 appending calls that all return normally
(`ValueRef` is a signed 32-bit integer, so these are the indices it can hold).
Then the returned indices are 0, 1, 2, ... in call order and the store ends with
one value per call.  For every k, the store before the k-th call has size k, the
k-th call returns k and leaves the store of before with one value appended, and
the first k + 1 values of the final store are exactly those. -/
theorem add_calls_return_consecutive_refs (es : Nat → Nat) (config : GraphConfig)
    (calls : List AddCall) (refs : List ValueRef) (g : ComputeGraph)
    (hrun : run_calls es calls (ComputeGraph.mk_new config) = some (refs, g))
    (hlen : calls.length ≤ 2 ^ 31) :
    refs = (List.range calls.length).map (fun (k : Nat) => (k : Int)) ∧
    g.values_.length = calls.length ∧
    ∀ k (hk : k < calls.length),
      ∃ gk v,
        run_calls es (calls.take k) (ComputeGraph.mk_new config) =
          some ((List.range k).map (fun (j : Nat) => (j : Int)), gk) ∧
        gk.values_.length = k ∧
        (calls[k].run es gk).outcome = .returned (k : Int) ∧
        (calls[k].run es gk).graph.values_ = gk.values_ ++ [v] ∧
        g.values_.take (k + 1) = gk.values_ ++ [v] := by
  obtain ⟨hrefs, ⟨added, hadded, hvals⟩, _⟩ := run_calls_store es calls _ _ _ hrun
  have hnil : (ComputeGraph.mk_new config).values_ = [] := rfl
  rw [hnil, List.length_nil] at hrefs
  rw [hnil, List.nil_append] at hvals
  refine ⟨?_, ?_, ?_⟩
  · rw [hrefs]
    exact map_static_cast_int_range _ hlen
  · rw [hvals]; exact hadded
  · intro k hk
    have hsplit : calls.take k ++ (calls[k] :: calls.drop (k + 1)) = calls := by
      rw [← List.drop_eq_getElem_cons hk, List.take_append_drop]
    have hrun2 : run_calls es (calls.take k ++ (calls[k] :: calls.drop (k + 1)))
        (ComputeGraph.mk_new config) = some (refs, g) := by
      rw [hsplit]; exact hrun
    rw [run_calls_append] at hrun2
    cases h1 : run_calls es (calls.take k) (ComputeGraph.mk_new config) with
    | none => simp [h1] at hrun2
    | some p =>
      obtain ⟨r1, gk⟩ := p
      simp only [h1] at hrun2
      obtain ⟨hr1, ⟨add1, hadd1, hv1⟩, _⟩ := run_calls_store es _ _ _ _ h1
      rw [hnil, List.length_nil] at hr1
      rw [hnil, List.nil_append] at hv1
      have hklen : (calls.take k).length = k := by
        rw [List.length_take]; omega
      rw [hklen] at hr1 hadd1
      have hgk : gk.values_.length = k := by rw [hv1]; exact hadd1
      simp only [run_calls] at hrun2
      cases hc : (calls[k].run es gk).outcome with
      | thrown e => simp [hc] at hrun2
      | returned idx =>
        simp only [hc] at hrun2
        obtain ⟨hidx, ⟨v, hv⟩, _⟩ := AddCall.run_returned es _ gk idx hc
        cases h2 : run_calls es (calls.drop (k + 1)) (calls[k].run es gk).graph with
        | none => simp [h2] at hrun2
        | some q =>
          obtain ⟨r2, g2⟩ := q
          simp only [h2, Option.some.injEq, Prod.mk.injEq] at hrun2
          obtain ⟨_, rfl⟩ := hrun2
          obtain ⟨_, ⟨add2, _, hv2⟩, _⟩ := run_calls_store es _ _ _ _ h2
          refine ⟨gk, v, ?_, hgk, ?_, hv, ?_⟩
          · rw [hr1, map_static_cast_int_range k (by omega)]
          · rw [hc, hidx, hgk, static_cast_int_of_lt k (by omega)]
          · rw [hv2, hv]
            have : (gk.values_ ++ [v]).length = k + 1 := by simp [hgk]
            rw [List.take_append_of_le_length (by omega), List.take_of_length_le (by omega)]


theorem add_calls_return_consecutive_refs_witness :
    run_calls (fun _ => 4)
        [AddCall.add_none, AddCall.add_symint 5, AddCall.add_staging 0 16]
        (ComputeGraph.mk_new ⟨false, .kTexture3D, false, .kWidthPacked, false, ⟨1, 1, 1⟩, 0, 0, false⟩)
      = some ([0, 1, 2],
          { ComputeGraph.mk_new ⟨false, .kTexture3D, false, .kWidthPacked, false, ⟨1, 1, 1⟩, 0, 0, false⟩
            with values_ := [Value.NONE, Value.SYMINT ⟨5⟩, Value.STAGING ⟨0, 16⟩] }) ∧
    ([0, 1, 2] : List ValueRef) = (List.range 3).map (fun (k : Nat) => (k : Int)) :=
  ⟨by decide,
    (add_calls_return_consecutive_refs (fun _ => 4)
      ⟨false, .kTexture3D, false, .kWidthPacked, false, ⟨1, 1, 1⟩, 0, 0, false⟩
      [AddCall.add_none, AddCall.add_symint 5, AddCall.add_staging 0 16]
      [0, 1, 2]
      { ComputeGraph.mk_new ⟨false, .kTexture3D, false, .kWidthPacked, false, ⟨1, 1, 1⟩, 0, 0, false⟩
        with values_ := [Value.NONE, Value.SYMINT ⟨5⟩, Value.STAGING ⟨0, 16⟩] }
      (by decide) (by decide)).1⟩


/-- Every appending function that calls `check_no_active_value_ptrs` throws and
leaves the graph as it was when a handle is outstanding. -/
theorem checked_add_calls_throw (es : Nat → Nat) (c : AddCall) (g : ComputeGraph)
    (hview : ∀ vref, c ≠ AddCall.add_tensor_view vref)
    (hsized : ∀ vref sizes strides, c ≠ AddCall.add_tensor_view_sized vref sizes strides)
    (huse : g.values_in_use_ ≠ 0) :
    c.run es g = ⟨.thrown .check_cond, g⟩ := by
  cases c <;>
    simp_all [AddCall.run, ComputeGraph.add_tensor, ComputeGraph.add_tensor_storage,
      ComputeGraph.add_tensor_layout, ComputeGraph.add_tensor_default,
      ComputeGraph.add_tensor_image, ComputeGraph.add_tensorref, ComputeGraph.add_staging,
      ComputeGraph.add_none, ComputeGraph.add_value_list, ComputeGraph.add_string,
      ComputeGraph.add_symint, ComputeGraph.check_no_active_value_ptrs]

/-- C3, evaluated at the failing input.  A graph holds one tensor and client
code holds a `vTensorPtr` to it, so `values_in_use_` is 1.  `add_none`, like
every function that calls `check_no_active_value_ptrs`, throws; but
`add_tensor_view(0)` makes no such check: it returns index 1 and the store
grows to two values while the handle is outstanding. -/
theorem add_tensor_view_appends_under_live_handle :
    (HandleState.reach (fun _ => 4)
        ⟨false, .kTexture3D, false, .kWidthPacked, false, ⟨1, 1, 1⟩, 0, 0, false⟩
        [HandleEvent.add (AddCall.add_tensor [2, 3] 0 utils.StorageType.kTexture3D
            utils.GPUMemoryLayout.kChannelsPacked (-1) 0),
         HandleEvent.construct PtrKind.vTensorPtr 0]).live = [⟨PtrKind.vTensorPtr, 0⟩] ∧
    (HandleState.reach (fun _ => 4)
        ⟨false, .kTexture3D, false, .kWidthPacked, false, ⟨1, 1, 1⟩, 0, 0, false⟩
        [HandleEvent.add (AddCall.add_tensor [2, 3] 0 utils.StorageType.kTexture3D
            utils.GPUMemoryLayout.kChannelsPacked (-1) 0),
         HandleEvent.construct PtrKind.vTensorPtr 0]).graph.values_in_use_ = 1 ∧
    ((HandleState.reach (fun _ => 4)
        ⟨false, .kTexture3D, false, .kWidthPacked, false, ⟨1, 1, 1⟩, 0, 0, false⟩
        [HandleEvent.add (AddCall.add_tensor [2, 3] 0 utils.StorageType.kTexture3D
            utils.GPUMemoryLayout.kChannelsPacked (-1) 0),
         HandleEvent.construct PtrKind.vTensorPtr 0]).graph.add_tensor_view 0).outcome
      = .returned 1 ∧
    ((HandleState.reach (fun _ => 4)
        ⟨false, .kTexture3D, false, .kWidthPacked, false, ⟨1, 1, 1⟩, 0, 0, false⟩
        [HandleEvent.add (AddCall.add_tensor [2, 3] 0 utils.StorageType.kTexture3D
            utils.GPUMemoryLayout.kChannelsPacked (-1) 0),
         HandleEvent.construct PtrKind.vTensorPtr 0]).graph.add_tensor_view 0).graph.values_.length
      = 2 ∧
    ((HandleState.reach (fun _ => 4)
        ⟨false, .kTexture3D, false, .kWidthPacked, false, ⟨1, 1, 1⟩, 0, 0, false⟩
        [HandleEvent.add (AddCall.add_tensor [2, 3] 0 utils.StorageType.kTexture3D
            utils.GPUMemoryLayout.kChannelsPacked (-1) 0),
         HandleEvent.construct PtrKind.vTensorPtr 0]).graph.add_none).outcome
      = .thrown .check_cond := by
  decide


theorem add_tensor_view_values_in_use (vref : ValueRef) (g : ComputeGraph) :
    (g.add_tensor_view vref).graph.values_in_use_ = g.values_in_use_ := by
  unfold ComputeGraph.add_tensor_view ValuePtr.construct
  cases hv : g.values_at vref with
  | none => rfl
  | some v =>
    by_cases ha : PtrKind.vTensorPtr.accepts v = true
    · simp [ha, ValuePtr.destroy]
    · simp [ha]

theorem add_tensor_view_sized_values_in_use (vref : ValueRef) (sizes strides : List Int)
    (g : ComputeGraph) :
    (g.add_tensor_view_sized vref sizes strides).graph.values_in_use_ = g.values_in_use_ := by
  unfold ComputeGraph.add_tensor_view_sized ValuePtr.construct
  cases hv : g.values_at vref with
  | none => rfl
  | some v =>
    by_cases ha : PtrKind.vTensorPtr.accepts v = true
    · simp [ha, ValuePtr.destroy]
    · simp [ha]

/-- No appending function changes `values_in_use_`, whether it returns or throws. -/
theorem AddCall.run_values_in_use (es : Nat → Nat) (c : AddCall) (g : ComputeGraph) :
    (c.run es g).graph.values_in_use_ = g.values_in_use_ := by
  cases c with
  | add_tensor_view vref => exact add_tensor_view_values_in_use vref g
  | add_tensor_view_sized vref sizes strides =>
    exact add_tensor_view_sized_values_in_use vref sizes strides g
  | add_tensor sizes dtype st ml so am =>
    simp only [AddCall.run, ComputeGraph.add_tensor]
    split
    · split <;> simp [get_shared_object_add_user_values]
    · rfl
  | add_tensor_storage sizes dtype st so am =>
    simp only [AddCall.run, ComputeGraph.add_tensor_storage, ComputeGraph.add_tensor]
    split
    · split <;> simp [get_shared_object_add_user_values]
    · rfl
  | add_tensor_layout sizes dtype ml so am =>
    simp only [AddCall.run, ComputeGraph.add_tensor_layout, ComputeGraph.add_tensor]
    split
    · split <;> simp [get_shared_object_add_user_values]
    · rfl
  | add_tensor_default sizes dtype so am =>
    simp only [AddCall.run, ComputeGraph.add_tensor_default, ComputeGraph.add_tensor_layout,
      ComputeGraph.add_tensor]
    split
    · split <;> simp [get_shared_object_add_user_values]
    · rfl
  | add_tensor_image image =>
    simp only [AddCall.run, ComputeGraph.add_tensor_image]; split <;> rfl
  | add_tensorref sizes dtype data =>
    simp only [AddCall.run, ComputeGraph.add_tensorref]; split <;> rfl
  | add_staging dtype numel =>
    simp only [AddCall.run, ComputeGraph.add_staging]; split <;> rfl
  | add_none =>
    simp only [AddCall.run, ComputeGraph.add_none]; split <;> rfl
  | add_value_list value =>
    simp only [AddCall.run, ComputeGraph.add_value_list]; split <;> rfl
  | add_string str =>
    simp only [AddCall.run, ComputeGraph.add_string]; split <;> rfl
  | add_symint val =>
    simp only [AddCall.run, ComputeGraph.add_symint]; split <;> rfl

/-- One event keeps the counter equal to the number of live handles. -/
theorem HandleEvent.apply_count (es : Nat → Nat) (e : HandleEvent) (s : HandleState)
    (h : s.graph.values_in_use_ = s.live.length) :
    (e.apply es s).graph.values_in_use_ = (e.apply es s).live.length := by
  cases e with
  | construct kind idx =>
    simp only [HandleEvent.apply, ValuePtr.construct]
    cases hv : s.graph.values_at idx with
    | none => simpa using h
    | some v =>
      by_cases ha : kind.accepts v = true
      · simp [ha, h]
      · simp [ha, h]
  | destroy pos =>
    simp only [HandleEvent.apply]
    cases hp : s.live[pos]? with
    | none => simpa using h
    | some p =>
      have hlt : pos < s.live.length := by
        rcases List.getElem?_eq_some_iff.mp hp with ⟨hlt, _⟩
        exact hlt
      simp [ValuePtr.destroy, List.length_eraseIdx, hlt, h]
  | add call =>
    simp only [HandleEvent.apply]
    rw [AddCall.run_values_in_use]
    exact h

theorem foldl_apply_count (es : Nat → Nat) (events : List HandleEvent) (s : HandleState)
    (h : s.graph.values_in_use_ = s.live.length) :
    (events.foldl (fun s e => e.apply es s) s).graph.values_in_use_ =
      (events.foldl (fun s e => e.apply es s) s).live.length := by
  induction events generalizing s with
  | nil => exact h
  | cons e es' ih => exact ih _ (HandleEvent.apply_count es e s h)

/-- C4.  In every state reached from a freshly constructed graph by
constructing handles, destroying live handles and calling appending functions,
`values_in_use_` equals the number of live handles, hence 0 when none is live.
In such a state, for each of the eight handle classes: constructing a handle on
a value of the matching kind returns the handle and increases the counter by
exactly one; a construction whose index is out of range, or whose value has
another kind, throws and leaves the graph, counter included, as it was; and
destroying a live handle decreases the counter by exactly one. -/
theorem values_in_use_counts_live_handles (es : Nat → Nat) (config : GraphConfig)
    (events : List HandleEvent) (kind : PtrKind) (idx : ValueRef) :
    -- the counter is the number of live handles
    (HandleState.reach es config events).graph.values_in_use_ =
      (HandleState.reach es config events).live.length ∧
    ((HandleState.reach es config events).live = [] →
      (HandleState.reach es config events).graph.values_in_use_ = 0) ∧
    -- construction on a value of the matching kind
    (∀ v, (HandleState.reach es config events).graph.values_at idx = some v →
      kind.accepts v = true →
      (ValuePtr.construct kind idx (HandleState.reach es config events).graph).outcome =
        .returned ⟨kind, idx⟩ ∧
      (ValuePtr.construct kind idx (HandleState.reach es config events).graph).graph.values_in_use_
        = (HandleState.reach es config events).graph.values_in_use_ + 1) ∧
    -- construction that fails
    ((HandleState.reach es config events).graph.values_at idx = none →
      ValuePtr.construct kind idx (HandleState.reach es config events).graph =
        ⟨.thrown .out_of_range, (HandleState.reach es config events).graph⟩) ∧
    (∀ v, (HandleState.reach es config events).graph.values_at idx = some v →
      kind.accepts v = false →
      ValuePtr.construct kind idx (HandleState.reach es config events).graph =
        ⟨.thrown .check_cond, (HandleState.reach es config events).graph⟩) ∧
    -- destruction of a live handle
    (∀ (pos : Nat) (p : ValuePtr), (HandleState.reach es config events).live[pos]? = some p →
      (p.destroy (HandleState.reach es config events).graph).values_in_use_ + 1 =
        (HandleState.reach es config events).graph.values_in_use_) := by
  have hinv := foldl_apply_count es events
    { graph := ComputeGraph.mk_new config, live := [] } rfl
  refine ⟨hinv, ?_, ?_, ?_, ?_, ?_⟩
  · intro hl
    show (HandleState.reach es config events).graph.values_in_use_ = 0
    unfold HandleState.reach
    rw [hinv]
    unfold HandleState.reach at hl
    rw [hl]; rfl
  · intro v hv ha
    simp [ValuePtr.construct, hv, ha]
  · intro hv
    simp [ValuePtr.construct, hv]
  · intro v hv ha
    simp [ValuePtr.construct, hv, ha]
  · intro pos p hp
    have hlt : pos < (HandleState.reach es config events).live.length := by
      rcases List.getElem?_eq_some_iff.mp hp with ⟨hlt, _⟩
      exact hlt
    have hinv2 : (HandleState.reach es config events).graph.values_in_use_ =
        (HandleState.reach es config events).live.length := hinv
    simp only [ValuePtr.destroy]
    omega


theorem values_in_use_counts_live_handles_witness :
    (HandleState.reach (fun _ => 4)
        ⟨false, .kTexture3D, false, .kWidthPacked, false, ⟨1, 1, 1⟩, 0, 0, false⟩
        [HandleEvent.add AddCall.add_none, HandleEvent.add (AddCall.add_symint 3),
         HandleEvent.construct PtrKind.SymIntPtr 1]).graph.values_at 1 = some (Value.SYMINT ⟨3⟩) ∧
    (ValuePtr.construct PtrKind.SymIntPtr 1
      (HandleState.reach (fun _ => 4)
        ⟨false, .kTexture3D, false, .kWidthPacked, false, ⟨1, 1, 1⟩, 0, 0, false⟩
        [HandleEvent.add AddCall.add_none, HandleEvent.add (AddCall.add_symint 3),
         HandleEvent.construct PtrKind.SymIntPtr 1]).graph).graph.values_in_use_ =
      (HandleState.reach (fun _ => 4)
        ⟨false, .kTexture3D, false, .kWidthPacked, false, ⟨1, 1, 1⟩, 0, 0, false⟩
        [HandleEvent.add AddCall.add_none, HandleEvent.add (AddCall.add_symint 3),
         HandleEvent.construct PtrKind.SymIntPtr 1]).graph.values_in_use_ + 1 :=
  ⟨by decide,
   ((values_in_use_counts_live_handles (fun _ => 4)
      ⟨false, .kTexture3D, false, .kWidthPacked, false, ⟨1, 1, 1⟩, 0, 0, false⟩
      [HandleEvent.add AddCall.add_none, HandleEvent.add (AddCall.add_symint 3),
       HandleEvent.construct PtrKind.SymIntPtr 1] PtrKind.SymIntPtr 1).2.2.1
      (Value.SYMINT ⟨3⟩) (by decide) (by decide)).2⟩

/-! ### Local work-group size -/

/-- C5, evaluated at the failing input.  For the global size (1, 1, 256) the
sorted pairs are (axis 2, 256), (axis 0, 1), (axis 1, 1) and the shape in
sorted order is (64, 1, 1), so permuting back to axis order would give
(1, 1, 64).  The return statement instead reads `local_group_size` at the axis
index stored in each sorted position, which applies the sort order a second
time: the result is (1, 64, 1).  Likewise (1, 8, 4) gives (4, 1, 16).  The
override is disabled in both cases. -/
theorem create_local_wg_size_applies_sort_order_forwards (g : ComputeGraph) :
    ComputeGraph.global_wg_size_desc ⟨1, 1, 256⟩ = ((2, 256), (0, 1), (1, 1)) ∧
    ComputeGraph.local_group_size (ComputeGraph.global_wg_size_desc ⟨1, 1, 256⟩) = ⟨64, 1, 1⟩ ∧
    ComputeGraph.create_local_wg_size
      { g with config_ := { g.config_ with enable_local_wg_size_override := false } }
      ⟨1, 1, 256⟩ = ⟨1, 64, 1⟩ ∧
    ComputeGraph.create_local_wg_size
      { g with config_ := { g.config_ with enable_local_wg_size_override := false } }
      ⟨1, 8, 4⟩ = ⟨4, 1, 16⟩ := by
  refine ⟨by decide, by decide, ?_, ?_⟩ <;>
    simp [ComputeGraph.create_local_wg_size] <;> decide

/-- The sorted pairs hold the three axes once each, with their extents, in
descending order of extent. -/
theorem global_wg_size_desc_sorted (gw : utils.uvec3) :
    (ComputeGraph.global_wg_size_desc gw).2.2.2 ≤ (ComputeGraph.global_wg_size_desc gw).2.1.2 ∧
    (ComputeGraph.global_wg_size_desc gw).2.1.2 ≤ (ComputeGraph.global_wg_size_desc gw).1.2 ∧
    (ComputeGraph.global_wg_size_desc gw).1.2 = gw.get (ComputeGraph.global_wg_size_desc gw).1.1 ∧
    (ComputeGraph.global_wg_size_desc gw).2.1.2 =
      gw.get (ComputeGraph.global_wg_size_desc gw).2.1.1 ∧
    (ComputeGraph.global_wg_size_desc gw).2.2.2 =
      gw.get (ComputeGraph.global_wg_size_desc gw).2.2.1 ∧
    ((ComputeGraph.global_wg_size_desc gw).1.1, (ComputeGraph.global_wg_size_desc gw).2.1.1,
      (ComputeGraph.global_wg_size_desc gw).2.2.1) ∈
      [((0 : Fin 3), (1 : Fin 3), (2 : Fin 3)), (0, 2, 1), (1, 0, 2), (1, 2, 0), (2, 0, 1),
        (2, 1, 0)] := by
  obtain ⟨a, b, c⟩ := gw
  simp only [ComputeGraph.global_wg_size_desc, utils.uvec3.get]
  by_cases h1 : a < b <;> by_cases h2 : a < c <;> by_cases h3 : b < c <;>
    simp [h1, h2, h3]
  all_goals try split_ifs
  all_goals try simp
  all_goals omega


/-- The extents of the sorted pairs are a rearrangement of the global extents. -/
theorem global_wg_size_desc_perm (gw : utils.uvec3) :
    [(ComputeGraph.global_wg_size_desc gw).1.2, (ComputeGraph.global_wg_size_desc gw).2.1.2,
      (ComputeGraph.global_wg_size_desc gw).2.2.2].Perm [gw.data0, gw.data1, gw.data2] := by
  obtain ⟨a, b, c⟩ := gw
  simp only [ComputeGraph.global_wg_size_desc, utils.uvec3.get]
  apply List.perm_iff_count.mpr
  intro x
  by_cases h1 : a < b <;> by_cases h2 : a < c <;> by_cases h3 : b < c <;>
    simp [h1, h2, h3, List.count_cons]
  all_goals try split_ifs
  all_goals try simp

/-- The shapes `local_group_size` can take. -/
theorem local_group_size_mem (desc : (Fin 3 × Nat) × (Fin 3 × Nat) × (Fin 3 × Nat)) :
    ComputeGraph.local_group_size desc ∈
      ([⟨8, 1, 1⟩, ⟨8, 1, 2⟩, ⟨8, 2, 1⟩, ⟨8, 2, 2⟩, ⟨8, 3, 1⟩, ⟨8, 3, 2⟩, ⟨8, 4, 1⟩, ⟨8, 4, 2⟩,
        ⟨64, 1, 1⟩, ⟨16, 4, 1⟩, ⟨32, 2, 1⟩] : List utils.uvec3) := by
  obtain ⟨d0, ⟨i1, x⟩, ⟨i2, y⟩⟩ := desc
  have hx : 1 ≤ max 1 (min 4 x) ∧ max 1 (min 4 x) ≤ 4 := by omega
  have hy : 1 ≤ max 1 (min 2 y) ∧ max 1 (min 2 y) ≤ 2 := by omega
  simp only [ComputeGraph.local_group_size, utils.uvec3.set]
  generalize hu : max 1 (min 4 x) = u at hx ⊢
  generalize hv : max 1 (min 2 y) = v at hy ⊢
  obtain ⟨hu1, hu2⟩ := hx
  obtain ⟨hv1, hv2⟩ := hy
  split_ifs <;> interval_cases u <;> interval_cases v <;> first | omega | simp

theorem local_wg_size_table :
    ∀ l ∈ ([⟨8, 1, 1⟩, ⟨8, 1, 2⟩, ⟨8, 2, 1⟩, ⟨8, 2, 2⟩, ⟨8, 3, 1⟩, ⟨8, 3, 2⟩, ⟨8, 4, 1⟩,
        ⟨8, 4, 2⟩, ⟨64, 1, 1⟩, ⟨16, 4, 1⟩, ⟨32, 2, 1⟩] : List utils.uvec3),
    ∀ p ∈ [((0 : Fin 3), (1 : Fin 3), (2 : Fin 3)), (0, 2, 1), (1, 0, 2), (1, 2, 0), (2, 0, 1),
        (2, 1, 0)],
      1 ≤ l.get p.1 ∧ 1 ≤ l.get p.2.1 ∧ 1 ≤ l.get p.2.2 ∧
        l.get p.1 * l.get p.2.1 * l.get p.2.2 ≤ 128 := by
  decide

/-- C6.  With no local work-group override, for every global size, extents of
0 included, each component of the local size returned by `create_local_wg_size`
is at least 1 and the product of the three components is at most 128. -/
theorem create_local_wg_size_bounds (g : ComputeGraph) (gw : utils.uvec3)
    (hcfg : g.config_.enable_local_wg_size_override = false) :
    1 ≤ (g.create_local_wg_size gw).data0 ∧
    1 ≤ (g.create_local_wg_size gw).data1 ∧
    1 ≤ (g.create_local_wg_size gw).data2 ∧
    (g.create_local_wg_size gw).data0 * (g.create_local_wg_size gw).data1 *
      (g.create_local_wg_size gw).data2 ≤ 128 := by
  have h := local_wg_size_table _ (local_group_size_mem (ComputeGraph.global_wg_size_desc gw))
    _ (global_wg_size_desc_sorted gw).2.2.2.2.2
  simpa [ComputeGraph.create_local_wg_size, hcfg] using h

theorem create_local_wg_size_bounds_witness :
    1 ≤ ((ComputeGraph.mk_new
        ⟨false, .kTexture3D, false, .kWidthPacked, false, ⟨1, 1, 1⟩, 0, 0, false⟩).create_local_wg_size
        ⟨0, 300, 7⟩).data0 ∧
    ((ComputeGraph.mk_new
        ⟨false, .kTexture3D, false, .kWidthPacked, false, ⟨1, 1, 1⟩, 0, 0, false⟩).create_local_wg_size
        ⟨0, 300, 7⟩).data0 *
      ((ComputeGraph.mk_new
        ⟨false, .kTexture3D, false, .kWidthPacked, false, ⟨1, 1, 1⟩, 0, 0, false⟩).create_local_wg_size
        ⟨0, 300, 7⟩).data1 *
      ((ComputeGraph.mk_new
        ⟨false, .kTexture3D, false, .kWidthPacked, false, ⟨1, 1, 1⟩, 0, 0, false⟩).create_local_wg_size
        ⟨0, 300, 7⟩).data2 ≤ 128 :=
  ⟨(create_local_wg_size_bounds
      (ComputeGraph.mk_new ⟨false, .kTexture3D, false, .kWidthPacked, false, ⟨1, 1, 1⟩, 0, 0, false⟩)
      ⟨0, 300, 7⟩ rfl).1,
   (create_local_wg_size_bounds
      (ComputeGraph.mk_new ⟨false, .kTexture3D, false, .kWidthPacked, false, ⟨1, 1, 1⟩, 0, 0, false⟩)
      ⟨0, 300, 7⟩ rfl).2.2.2⟩


/-- C7, the claim as stated fails.  The global size (8, 8, 8) has sorted
extents 8, 8, 8 whose middle extent is a multiple of 4, yet the local shape in
sorted order is the base shape (8, 4, 2), not (16, 4, 1): the specialisation is
made only when the smallest extent is 1. -/
theorem local_group_size_specialisation_counterexample :
    ComputeGraph.local_group_size (ComputeGraph.global_wg_size_desc ⟨8, 8, 8⟩) = ⟨8, 4, 2⟩ ∧
    ¬ (∀ (gw : utils.uvec3) (g0 g1 g2 : Nat),
        [g0, g1, g2].Perm [gw.data0, gw.data1, gw.data2] → g1 ≤ g0 → g2 ≤ g1 →
        ComputeGraph.local_group_size (ComputeGraph.global_wg_size_desc gw) =
          if g1 = 1 ∧ g2 = 1 then ⟨64, 1, 1⟩
          else if g1 % 4 = 0 then ⟨16, 4, 1⟩
          else ⟨32, 2, 1⟩) :=
  ⟨by decide,
   fun h => absurd (h ⟨8, 8, 8⟩ 8 8 8 (List.Perm.refl _) (Nat.le_refl _) (Nat.le_refl _))
     (by decide)⟩

/-- The extents of the sorted pairs are the global extents in descending order. -/
theorem global_wg_size_desc_extents (gw : utils.uvec3) (g0 g1 g2 : Nat)
    (hperm : [g0, g1, g2].Perm [gw.data0, gw.data1, gw.data2])
    (h01 : g1 ≤ g0) (h12 : g2 ≤ g1) :
    (ComputeGraph.global_wg_size_desc gw).1.2 = g0 ∧
    (ComputeGraph.global_wg_size_desc gw).2.1.2 = g1 ∧
    (ComputeGraph.global_wg_size_desc gw).2.2.2 = g2 := by
  obtain ⟨hs1, hs2, -⟩ := global_wg_size_desc_sorted gw
  have hp := (global_wg_size_desc_perm gw).trans hperm.symm
  have hsd : List.Sorted (· ≥ ·)
      [(ComputeGraph.global_wg_size_desc gw).1.2, (ComputeGraph.global_wg_size_desc gw).2.1.2,
        (ComputeGraph.global_wg_size_desc gw).2.2.2] := by
    simp [List.Sorted]
    omega
  have hsg : List.Sorted (· ≥ ·) [g0, g1, g2] := by
    simp [List.Sorted]
    omega
  have heq := List.eq_of_perm_of_sorted hp hsd hsg
  simp only [List.cons.injEq, and_true] at heq
  exact heq

/-- C7, amended.  For every global size whose extents sorted in descending
order are g0, g1, g2: when the smallest extent g2 is 1 the local shape in sorted
order is (64, 1, 1) if g1 = 1, otherwise (16, 4, 1) if g1 is a multiple of 4,
otherwise (32, 2, 1); when g2 is not 1 the shape is the base shape
(8, clamp(g1, 1, 4), clamp(g2, 1, 2)).  With no local work-group override the
global size (32, 8, 1) gives the local size (16, 4, 1). -/
theorem local_group_size_by_sorted_extents (gw : utils.uvec3) (g0 g1 g2 : Nat)
    (hperm : [g0, g1, g2].Perm [gw.data0, gw.data1, gw.data2])
    (h01 : g1 ≤ g0) (h12 : g2 ≤ g1) :
    ComputeGraph.local_group_size (ComputeGraph.global_wg_size_desc gw) =
      (if g2 = 1 then
        if g1 = 1 then ⟨64, 1, 1⟩
        else if g1 % 4 = 0 then ⟨16, 4, 1⟩
        else ⟨32, 2, 1⟩
      else ⟨8, max 1 (min 4 g1), max 1 (min 2 g2)⟩) ∧
    (∀ g : ComputeGraph, g.config_.enable_local_wg_size_override = false →
      g.create_local_wg_size ⟨32, 8, 1⟩ = ⟨16, 4, 1⟩) := by
  obtain ⟨-, e1, e2⟩ := global_wg_size_desc_extents gw g0 g1 g2 hperm h01 h12
  constructor
  · simp only [ComputeGraph.local_group_size, e1, e2, utils.uvec3.set]
    split_ifs <;> simp_all
  · intro g hg
    simp only [ComputeGraph.create_local_wg_size, hg, Bool.false_eq_true, if_false]
    decide

theorem local_group_size_by_sorted_extents_witness :
    ComputeGraph.local_group_size (ComputeGraph.global_wg_size_desc ⟨8, 32, 1⟩) = ⟨16, 4, 1⟩ ∧
    ComputeGraph.local_group_size (ComputeGraph.global_wg_size_desc ⟨8, 8, 8⟩) = ⟨8, 4, 2⟩ :=
  ⟨(local_group_size_by_sorted_extents ⟨8, 32, 1⟩ 32 8 1 (by decide) (by decide)
      (by decide)).1.trans (by decide),
   (local_group_size_by_sorted_extents ⟨8, 8, 8⟩ 8 8 8 (by decide) (by decide)
      (by decide)).1.trans (by decide)⟩


/-! ### Dispatch, moves and push constants -/

/-- For a positive divisor the quotient that `div_up` computes is the ceiling
of the exact quotient. -/
theorem ceil_div_eq (n d : Nat) (hd : 1 ≤ d) :
    (n + d - 1) / d = ⌈(n : ℚ) / (d : ℚ)⌉₊ := by
  have hdq : (0 : ℚ) < (d : ℚ) := by exact_mod_cast hd
  have hdm := Nat.div_add_mod (n + d - 1) d
  have hr : (n + d - 1) % d < d := Nat.mod_lt _ (by omega)
  generalize (n + d - 1) / d = q at hdm ⊢
  generalize (n + d - 1) % d = r at hdm hr
  generalize hm : d * q = m at hdm
  by_cases hq : q = 0
  · subst hq
    have hn : n = 0 := by
      simp at hm
      omega
    subst hn
    simp
  · symm
    rw [Nat.ceil_eq_iff hq]
    have hq1 : 1 ≤ q := Nat.one_le_iff_ne_zero.mpr hq
    have hmd : d ≤ m := by
      rw [← hm]
      exact Nat.le_mul_of_pos_right d (by omega)
    constructor
    · rw [lt_div_iff₀ hdq]
      have h1 : (q - 1) * d < n := by
        rw [Nat.sub_mul, Nat.one_mul, Nat.mul_comm q d, hm]
        omega
      exact_mod_cast h1
    · rw [div_le_iff₀ hdq]
      have h2 : n ≤ q * d := by
        rw [Nat.mul_comm q d, hm]
        omega
      exact_mod_cast h2

/-- For a positive divisor `div_up` is the ceiling of the exact quotient. -/
theorem div_up_eq_ceil (n d : Nat) (hd : 1 ≤ d) :
    utils.div_up n d = some ⌈(n : ℚ) / (d : ℚ)⌉₊ := by
  unfold utils.div_up
  rw [if_neg (by omega), ceil_div_eq n d hd]

/-- The rounded-up quotient of a 32-bit value by a positive value is a 32-bit
value. -/
theorem ceil_div_lt (n d : Nat) (hd : 1 ≤ d) (hn : n < 2 ^ 32) :
    ⌈(n : ℚ) / (d : ℚ)⌉₊ < 2 ^ 32 := by
  rw [← ceil_div_eq n d hd]
  have h1 : (n + d - 1) / d ≤ n := by
    apply Nat.le_of_lt_succ
    rw [Nat.div_lt_iff_lt_mul (by omega)]
    have : n ≤ n * d := Nat.le_mul_of_pos_right n (by omega)
    rw [Nat.succ_mul]
    omega
  omega

/-- The buffer left by `bind_pipeline` called in state RECORDING. -/
theorem bind_pipeline_cb (cb : CommandBuffer) (pipeline pipeline_layout : VkHandle)
    (l : utils.uvec3) (hstate : cb.state_ = State.RECORDING) :
    (cb.bind_pipeline pipeline pipeline_layout l).cb =
      { cb with
        bound_ :=
          { pipeline := pipeline
            pipeline_layout := pipeline_layout
            local_workgroup_size := l
            descriptors := cb.bound_.descriptors }
        state_ := State.PIPELINE_BOUND } := by
  by_cases hp : pipeline = cb.bound_.pipeline <;>
    simp [CommandBuffer.bind_pipeline, hstate, hp]

/-- The buffer left by `bind_descriptors` called in state PIPELINE_BOUND. -/
theorem bind_descriptors_cb (cb : CommandBuffer) (descriptors : VkHandle)
    (hstate : cb.state_ = State.PIPELINE_BOUND) :
    (cb.bind_descriptors descriptors).cb =
      { cb with
        bound_ := { cb.bound_ with descriptors := descriptors }
        state_ := State.DESCRIPTORS_BOUND } := by
  simp [CommandBuffer.bind_descriptors, hstate]

/-- The buffer left by `insert_barrier` called in one of its source states. -/
theorem insert_barrier_cb (cb : CommandBuffer) (pb : PipelineBarrier)
    (hstate : cb.state_ = State.DESCRIPTORS_BOUND ∨ cb.state_ = State.RECORDING) :
    (cb.insert_barrier pb).cb = { cb with state_ := State.BARRIERS_INSERTED } := by
  by_cases ha : pb.active = true <;> simp [CommandBuffer.insert_barrier, hstate, ha]

/-- A call that returns has left the buffer given by its step. -/
theorem returned_cb_some {α : Type} (s : Step α) (cb : CommandBuffer)
    (h : s.returned_cb = some cb) : s.cb = cb := by
  unfold Step.returned_cb at h
  split at h
  · exact Option.some.inj h
  · exact absurd h (by simp)

/-- Only `bind_pipeline` assigns the bound local work-group size: every other
call that returns leaves it as it was. -/
theorem op_run_keeps_local_workgroup_size (op : Op) (cb cb1 : CommandBuffer)
    (hop : op.is_bind_pipeline = false) (h : op.run cb = some cb1) :
    cb1.bound_.local_workgroup_size = cb.bound_.local_workgroup_size := by
  cases op with
  | bind_pipeline p layout l => simp [Op.is_bind_pipeline] at hop
  | dispatch g =>
    simp only [Op.run] at h
    cases hd : cb.dispatch g with
    | none => simp [hd] at h
    | some s =>
      simp only [hd, Option.some_bind] at h
      have hs := returned_cb_some s cb1 h
      unfold CommandBuffer.dispatch at hd
      split at hd
      · split at hd
        · simp only [Option.some.injEq] at hd
          rw [← hs, ← hd]
        · exact absurd hd (by simp)
      · simp only [Option.some.injEq] at hd
        rw [← hs, ← hd]
  | begin status =>
    have hs := returned_cb_some _ cb1 h
    rw [← hs]
    simp only [CommandBuffer.begin]
    split_ifs <;> rfl
  | end_ status =>
    have hs := returned_cb_some _ cb1 h
    rw [← hs]
    simp only [CommandBuffer.end_]
    split_ifs <;> rfl
  | bind_descriptors d =>
    have hs := returned_cb_some _ cb1 h
    rw [← hs]
    simp only [CommandBuffer.bind_descriptors]
    split_ifs <;> rfl
  | set_push_constants layout data size =>
    have hs := returned_cb_some (cb.set_push_constants layout data size) cb1 h
    rw [← hs]
    rfl
  | insert_barrier pb =>
    have hs := returned_cb_some _ cb1 h
    rw [← hs]
    simp only [CommandBuffer.insert_barrier]
    split_ifs <;> rfl
  | blit src dst =>
    have hs := returned_cb_some _ cb1 h
    rw [← hs]
    simp only [CommandBuffer.blit]
    split_ifs <;> rfl
  | write_timestamp qp idx =>
    have hs := returned_cb_some _ cb1 h
    rw [← hs]
    simp only [CommandBuffer.write_timestamp]
    split_ifs <;> rfl
  | reset_querypool qp first count =>
    have hs := returned_cb_some _ cb1 h
    rw [← hs]
    simp only [CommandBuffer.reset_querypool]
    split_ifs <;> rfl
  | get_submit_handle final_use =>
    have hs := returned_cb_some _ cb1 h
    rw [← hs]
    simp only [CommandBuffer.get_submit_handle, CommandBuffer.invalidate]
    split_ifs <;> rfl

/-- A call of `bind_pipeline` that returns has assigned the bound local
work-group size. -/
theorem op_run_bind_pipeline (pipeline layout : VkHandle) (l : utils.uvec3)
    (cb cb1 : CommandBuffer) (h : (Op.bind_pipeline pipeline layout l).run cb = some cb1) :
    cb1.bound_.local_workgroup_size = l := by
  have hs := returned_cb_some _ cb1 h
  by_cases hst : cb.state_ = State.RECORDING
  · rw [← hs, bind_pipeline_cb cb pipeline layout l hst]
  · simp [Op.run, CommandBuffer.bind_pipeline, hst, Step.returned_cb] at h

/-- A sequence of calls without `bind_pipeline` that all return leaves the bound
local work-group size as it was. -/
theorem run_ops_keeps_local_workgroup_size (ops : List Op) :
    ∀ (cb cb1 : CommandBuffer), (∀ op ∈ ops, op.is_bind_pipeline = false) →
      run_ops ops cb = some cb1 →
      cb1.bound_.local_workgroup_size = cb.bound_.local_workgroup_size := by
  induction ops with
  | nil =>
    intro cb cb1 _ h
    simp only [run_ops, Option.some.injEq] at h
    rw [h]
  | cons op rest ih =>
    intro cb cb1 hops h
    simp only [run_ops] at h
    cases ho : op.run cb with
    | none => simp [ho] at h
    | some cb2 =>
      simp only [ho, Option.some_bind] at h
      rw [ih cb2 cb1 (fun o ho2 => hops o (List.mem_cons_of_mem _ ho2)) h]
      exact op_run_keeps_local_workgroup_size op cb cb2 (hops op (List.mem_cons_self _ _)) ho

/-- Running two sequences of calls one after the other. -/
theorem run_ops_append (a b : List Op) :
    ∀ cb : CommandBuffer, run_ops (a ++ b) cb = (run_ops a cb).bind (run_ops b) := by
  induction a with
  | nil => intro cb; simp [run_ops]
  | cons op rest ih =>
    intro cb
    simp only [List.cons_append, run_ops]
    cases op.run cb with
    | none => simp
    | some cb2 => simp [ih]

/-- C8.  Take any command buffer and any sequence of calls on it that all return
normally, in which `bind_pipeline` is called with local work-group size `l`,
every component of `l` at least 1, and is not called again afterwards; let the
sequence leave the buffer in state BARRIERS_INSERTED.  Then the bound local
work-group size is `l`, and for every global size `g` of 32-bit components
`dispatch(g)` returns normally, goes back to RECORDING and records exactly one
dispatch, whose work-group count on each axis is the ceiling of `g[i] / l[i]`,
a 32-bit value. -/
theorem dispatch_records_ceil_group_counts (cb0 cb : CommandBuffer) (before after : List Op)
    (pipeline pipeline_layout : VkHandle) (l g : utils.uvec3)
    (hrun : run_ops (before ++ Op.bind_pipeline pipeline pipeline_layout l :: after) cb0 =
      some cb)
    (hafter : ∀ op ∈ after, op.is_bind_pipeline = false)
    (hstate : cb.state_ = State.BARRIERS_INSERTED)
    (hl0 : 1 ≤ l.get 0) (hl1 : 1 ≤ l.get 1) (hl2 : 1 ≤ l.get 2)
    (hg0 : g.get 0 < 2 ^ 32) (hg1 : g.get 1 < 2 ^ 32) (hg2 : g.get 2 < 2 ^ 32) :
    cb.bound_.local_workgroup_size = l ∧
    cb.dispatch g = some
      { outcome := .returned ()
        cb := { cb with state_ := State.RECORDING }
        calls := [VkCall.vkCmdDispatch cb.handle_
          ⌈((g.get 0 : Nat) : ℚ) / ((l.get 0 : Nat) : ℚ)⌉₊
          ⌈((g.get 1 : Nat) : ℚ) / ((l.get 1 : Nat) : ℚ)⌉₊
          ⌈((g.get 2 : Nat) : ℚ) / ((l.get 2 : Nat) : ℚ)⌉₊] } ∧
    ⌈((g.get 0 : Nat) : ℚ) / ((l.get 0 : Nat) : ℚ)⌉₊ < 2 ^ 32 ∧
    ⌈((g.get 1 : Nat) : ℚ) / ((l.get 1 : Nat) : ℚ)⌉₊ < 2 ^ 32 ∧
    ⌈((g.get 2 : Nat) : ℚ) / ((l.get 2 : Nat) : ℚ)⌉₊ < 2 ^ 32 := by
  have hl : cb.bound_.local_workgroup_size = l := by
    rw [run_ops_append] at hrun
    cases h1 : run_ops before cb0 with
    | none => simp [h1] at hrun
    | some cb1 =>
      simp only [h1, Option.some_bind, run_ops] at hrun
      cases h2 : (Op.bind_pipeline pipeline pipeline_layout l).run cb1 with
      | none => simp [h2] at hrun
      | some cb2 =>
        simp only [h2, Option.some_bind] at hrun
        rw [run_ops_keeps_local_workgroup_size after cb2 cb hafter hrun]
        exact op_run_bind_pipeline pipeline pipeline_layout l cb1 cb2 h2
  refine ⟨hl, ?_, ceil_div_lt _ _ hl0 hg0, ceil_div_lt _ _ hl1 hg1, ceil_div_lt _ _ hl2 hg2⟩
  rw [(dispatch_cases cb g).2.2 hstate (by rw [hl]; exact hl0) (by rw [hl]; exact hl1)
    (by rw [hl]; exact hl2), hl, ceil_div_eq _ _ hl0, ceil_div_eq _ _ hl1, ceil_div_eq _ _ hl2]

theorem dispatch_records_ceil_group_counts_witness :
    ({ CommandBuffer.mk_new 7 9 0 with
        bound_ := ⟨11, 12, ⟨64, 1, 1⟩, 13⟩
        state_ := State.BARRIERS_INSERTED } : CommandBuffer).dispatch ⟨100, 1, 1⟩ = some
      { outcome := .returned ()
        cb := { CommandBuffer.mk_new 7 9 0 with
          bound_ := ⟨11, 12, ⟨64, 1, 1⟩, 13⟩
          state_ := State.RECORDING }
        calls := [VkCall.vkCmdDispatch 7
          ⌈((100 : Nat) : ℚ) / ((64 : Nat) : ℚ)⌉₊
          ⌈((1 : Nat) : ℚ) / ((1 : Nat) : ℚ)⌉₊
          ⌈((1 : Nat) : ℚ) / ((1 : Nat) : ℚ)⌉₊] } :=
  (dispatch_records_ceil_group_counts (CommandBuffer.mk_new 7 9 0)
    { CommandBuffer.mk_new 7 9 0 with
      bound_ := ⟨11, 12, ⟨64, 1, 1⟩, 13⟩
      state_ := State.BARRIERS_INSERTED }
    [Op.begin VK_SUCCESS]
    [Op.bind_descriptors 13, Op.insert_barrier ⟨0, 0, [], [], [], [], false⟩,
      Op.dispatch ⟨100, 1, 1⟩, Op.insert_barrier ⟨0, 0, [], [], [], [], false⟩]
    11 12 ⟨64, 1, 1⟩ ⟨100, 1, 1⟩ (by decide) (by decide) rfl (by decide) (by decide)
    (by decide) (by decide) (by decide) (by decide)).2.1


/-- C9, evaluated on the code.  Move construction gives the new buffer the
handle, signal semaphore, flags, state and bound record of the source and nulls
the handle and semaphore of the source, but it leaves the state of the source
as it was: a moved-from buffer that was NEW is still NEW, not INVALID.  The move
assignment operator does set the state of its source to INVALID. -/
theorem move_construct_leaves_source_state (b self : CommandBuffer) :
    (CommandBuffer.move_construct b).1 = b ∧
    (CommandBuffer.move_construct b).2.handle_ = VK_NULL_HANDLE ∧
    (CommandBuffer.move_construct b).2.signal_semaphore_ = VK_NULL_HANDLE ∧
    (CommandBuffer.move_construct b).2.state_ = b.state_ ∧
    (CommandBuffer.move_construct (CommandBuffer.mk_new 7 9 0)).2.state_ = State.NEW ∧
    (CommandBuffer.move_assign self b).2.state_ = State.INVALID :=
  ⟨rfl, rfl, rfl, rfl, rfl, rfl⟩

/-- C10, the claim as stated fails.  A buffer in state NEW, on which `begin` has
not been called, passes through `set_push_constants` with a non-null data
address and a positive size: the call returns normally and the push-constant
command is recorded. -/
theorem set_push_constants_in_new_state_counterexample :
    (CommandBuffer.mk_new 7 9 0).state_ = State.NEW ∧
    (CommandBuffer.mk_new 7 9 0).set_push_constants 12 4096 16 =
      { outcome := .returned ()
        cb := CommandBuffer.mk_new 7 9 0
        calls := [VkCall.vkCmdPushConstants 7 12 16 4096] } := by
  decide

/-- C10, amended.  In every state, the non-recording states NEW, READY,
SUBMITTED and INVALID included, `set_push_constants` makes no state check: it
returns normally, leaves the buffer as it was, and records one push-constant
command when the data address is non-null and the size is positive, and
records nothing otherwise. -/
theorem set_push_constants_makes_no_state_check (cb : CommandBuffer)
    (pipeline_layout : VkHandle) (data size : Nat) :
    (cb.set_push_constants pipeline_layout data size).outcome = .returned () ∧
    (cb.set_push_constants pipeline_layout data size).cb = cb ∧
    (data ≠ 0 ∧ 0 < size →
      (cb.set_push_constants pipeline_layout data size).calls =
        [VkCall.vkCmdPushConstants cb.handle_ pipeline_layout size data]) ∧
    (¬ (data ≠ 0 ∧ 0 < size) →
      (cb.set_push_constants pipeline_layout data size).calls = []) := by
  refine ⟨rfl, rfl, ?_, ?_⟩
  · intro h
    simp [CommandBuffer.set_push_constants, h.1, h.2]
  · intro h
    unfold CommandBuffer.set_push_constants
    simp only [gt_iff_lt]
    rw [if_neg h]

theorem set_push_constants_makes_no_state_check_witness :
    ({ CommandBuffer.mk_new 7 9 0 with state_ := State.SUBMITTED }.set_push_constants
        12 4096 16).calls = [VkCall.vkCmdPushConstants 7 12 16 4096] ∧
    ({ CommandBuffer.mk_new 7 9 0 with state_ := State.SUBMITTED }.set_push_constants
        12 0 16).calls = [] :=
  ⟨(set_push_constants_makes_no_state_check
      { CommandBuffer.mk_new 7 9 0 with state_ := State.SUBMITTED } 12 4096 16).2.2.1
      (by decide),
   (set_push_constants_makes_no_state_check
      { CommandBuffer.mk_new 7 9 0 with state_ := State.SUBMITTED } 12 0 16).2.2.2
      (by decide)⟩


/-! ### Submit handle and elided binds -/

/-- C11.  For every command buffer in state READY, `get_submit_handle` returns
the handle the buffer held before the call and leaves the buffer in state
SUBMITTED.  The handle of the buffer is invalidated (nulled) when the buffer is
not reusable or `final_use` is true, and is kept otherwise; so for a buffer that
held a handle, the handle is null afterwards exactly when the buffer is not
reusable or `final_use` is true. -/
theorem get_submit_handle_in_ready (cb : CommandBuffer) (final_use : Bool)
    (hstate : cb.state_ = State.READY) :
    (cb.get_submit_handle final_use).outcome = .returned cb.handle_ ∧
    (cb.get_submit_handle final_use).cb.state_ = State.SUBMITTED ∧
    (cb.is_reusable = false ∨ final_use = true →
      (cb.get_submit_handle final_use).cb.handle_ = VK_NULL_HANDLE) ∧
    (¬ (cb.is_reusable = false ∨ final_use = true) →
      (cb.get_submit_handle final_use).cb.handle_ = cb.handle_) ∧
    (cb.handle_ ≠ VK_NULL_HANDLE →
      ((cb.get_submit_handle final_use).cb.handle_ = VK_NULL_HANDLE ↔
        (cb.is_reusable = false ∨ final_use = true))) := by
  cases hr : cb.is_reusable <;> cases final_use <;>
    simp [CommandBuffer.get_submit_handle, hstate, hr, CommandBuffer.invalidate]

theorem get_submit_handle_in_ready_witness :
    ({ CommandBuffer.mk_new 7 9 0 with state_ := State.READY }.get_submit_handle false).outcome
      = .returned 7 ∧
    ({ CommandBuffer.mk_new 7 9 0 with state_ := State.READY }.get_submit_handle false).cb.handle_
      = 7 ∧
    ({ CommandBuffer.mk_new 7 9 1 with state_ := State.READY }.get_submit_handle false).cb.handle_
      = VK_NULL_HANDLE :=
  ⟨(get_submit_handle_in_ready { CommandBuffer.mk_new 7 9 0 with state_ := State.READY }
      false rfl).1,
   (get_submit_handle_in_ready { CommandBuffer.mk_new 7 9 0 with state_ := State.READY }
      false rfl).2.2.2.1 (by decide),
   (get_submit_handle_in_ready { CommandBuffer.mk_new 7 9 1 with state_ := State.READY }
      false rfl).2.2.1 (by decide)⟩

/-- C12.  In state RECORDING, `bind_pipeline(p, layout, l)` issues the GPU bind
command when `p` differs from the bound pipeline and issues nothing when it is
the bound pipeline; in both cases `p`, `layout` and `l` are the bound pipeline,
pipeline layout and local work-group size afterwards.  In state PIPELINE_BOUND,
`bind_descriptors(d)` issues the GPU bind when `d` differs from the bound
descriptor set and nothing otherwise, and `d` is the bound set afterwards. -/
theorem binds_are_elided_when_unchanged (cb : CommandBuffer)
    (pipeline pipeline_layout descriptors : VkHandle) (l : utils.uvec3) :
    (cb.state_ = State.RECORDING →
      (pipeline ≠ cb.bound_.pipeline →
        (cb.bind_pipeline pipeline pipeline_layout l).calls =
          [VkCall.vkCmdBindPipeline cb.handle_ pipeline]) ∧
      (pipeline = cb.bound_.pipeline →
        (cb.bind_pipeline pipeline pipeline_layout l).calls = []) ∧
      (cb.bind_pipeline pipeline pipeline_layout l).cb.bound_.pipeline = pipeline ∧
      (cb.bind_pipeline pipeline pipeline_layout l).cb.bound_.pipeline_layout =
        pipeline_layout ∧
      (cb.bind_pipeline pipeline pipeline_layout l).cb.bound_.local_workgroup_size = l) ∧
    (cb.state_ = State.PIPELINE_BOUND →
      (descriptors ≠ cb.bound_.descriptors →
        (cb.bind_descriptors descriptors).calls =
          [VkCall.vkCmdBindDescriptorSets cb.handle_ cb.bound_.pipeline_layout descriptors]) ∧
      (descriptors = cb.bound_.descriptors → (cb.bind_descriptors descriptors).calls = []) ∧
      (cb.bind_descriptors descriptors).cb.bound_.descriptors = descriptors) := by
  constructor
  · intro hstate
    rw [bind_pipeline_cb cb pipeline pipeline_layout l hstate]
    refine ⟨?_, ?_, rfl, rfl, rfl⟩
    · intro hne
      simp [CommandBuffer.bind_pipeline, hstate, hne]
    · intro heq
      simp [CommandBuffer.bind_pipeline, hstate, heq]
  · intro hstate
    rw [bind_descriptors_cb cb descriptors hstate]
    refine ⟨?_, ?_, rfl⟩
    · intro hne
      simp [CommandBuffer.bind_descriptors, hstate, hne]
    · intro heq
      simp [CommandBuffer.bind_descriptors, hstate, heq]

theorem binds_are_elided_when_unchanged_witness :
    (((CommandBuffer.mk_new 7 9 0).begin VK_SUCCESS).cb.bind_pipeline 11 12 ⟨8, 8, 1⟩).calls =
      [VkCall.vkCmdBindPipeline 7 11] ∧
    (((CommandBuffer.mk_new 7 9 0).begin VK_SUCCESS).cb.bind_pipeline 0 12 ⟨8, 8, 1⟩).calls = [] ∧
    (((CommandBuffer.mk_new 7 9 0).begin VK_SUCCESS).cb.bind_pipeline 0 12
      ⟨8, 8, 1⟩).cb.bound_.local_workgroup_size = ⟨8, 8, 1⟩ :=
  ⟨((binds_are_elided_when_unchanged ((CommandBuffer.mk_new 7 9 0).begin VK_SUCCESS).cb
      11 12 0 ⟨8, 8, 1⟩).1 (by decide)).1 (by decide),
   ((binds_are_elided_when_unchanged ((CommandBuffer.mk_new 7 9 0).begin VK_SUCCESS).cb
      0 12 0 ⟨8, 8, 1⟩).1 (by decide)).2.1 (by decide),
   ((binds_are_elided_when_unchanged ((CommandBuffer.mk_new 7 9 0).begin VK_SUCCESS).cb
      0 12 0 ⟨8, 8, 1⟩).1 (by decide)).2.2.2.2⟩


/-! ### Descriptor counts, `prepare` and the constructor -/

/-- On a layout of supported types the loop of `update_descriptor_counts`
returns and adds to each counter the number of occurrences of its type. -/
theorem count_layout_supported (layout : List VkDescriptorType) (config : DescriptorPoolConfig)
    (h : ∀ t ∈ layout, ∀ c, t ≠ VkDescriptorType.other c) :
    DescriptorPoolConfig.count_layout layout config =
      (.returned (),
        { config with
          descriptor_uniform_buffer_count := config.descriptor_uniform_buffer_count +
            layout.count VkDescriptorType.VK_DESCRIPTOR_TYPE_UNIFORM_BUFFER
          descriptor_storage_buffer_count := config.descriptor_storage_buffer_count +
            layout.count VkDescriptorType.VK_DESCRIPTOR_TYPE_STORAGE_BUFFER
          descriptor_combined_sampler_count := config.descriptor_combined_sampler_count +
            layout.count VkDescriptorType.VK_DESCRIPTOR_TYPE_COMBINED_IMAGE_SAMPLER
          descriptor_storage_image_count := config.descriptor_storage_image_count +
            layout.count VkDescriptorType.VK_DESCRIPTOR_TYPE_STORAGE_IMAGE }) := by
  induction layout generalizing config with
  | nil => simp [DescriptorPoolConfig.count_layout]
  | cons t rest ih =>
    have hrest : ∀ t ∈ rest, ∀ c, t ≠ VkDescriptorType.other c :=
      fun t ht => h t (List.mem_cons_of_mem _ ht)
    cases t with
    | other c => exact absurd rfl (h _ (List.mem_cons_self _ _) c)
    | VK_DESCRIPTOR_TYPE_UNIFORM_BUFFER =>
      simp [DescriptorPoolConfig.count_layout, DescriptorPoolConfig.count_descriptor, ih _ hrest]
      omega
    | VK_DESCRIPTOR_TYPE_STORAGE_BUFFER =>
      simp [DescriptorPoolConfig.count_layout, DescriptorPoolConfig.count_descriptor, ih _ hrest]
      omega
    | VK_DESCRIPTOR_TYPE_COMBINED_IMAGE_SAMPLER =>
      simp [DescriptorPoolConfig.count_layout, DescriptorPoolConfig.count_descriptor, ih _ hrest]
      omega
    | VK_DESCRIPTOR_TYPE_STORAGE_IMAGE =>
      simp [DescriptorPoolConfig.count_layout, DescriptorPoolConfig.count_descriptor, ih _ hrest]
      omega

/-- On a layout that holds an unsupported type the loop throws. -/
theorem count_layout_unsupported (layout : List VkDescriptorType) (config : DescriptorPoolConfig)
    (c : Nat) (h : VkDescriptorType.other c ∈ layout) :
    (DescriptorPoolConfig.count_layout layout config).1 = .thrown .vk_throw := by
  induction layout generalizing config with
  | nil => simp at h
  | cons t rest ih =>
    cases t with
    | other d => simp [DescriptorPoolConfig.count_layout, DescriptorPoolConfig.count_descriptor]
    | VK_DESCRIPTOR_TYPE_UNIFORM_BUFFER =>
      simp only [DescriptorPoolConfig.count_layout, DescriptorPoolConfig.count_descriptor]
      exact ih _ (by simpa using h)
    | VK_DESCRIPTOR_TYPE_STORAGE_BUFFER =>
      simp only [DescriptorPoolConfig.count_layout, DescriptorPoolConfig.count_descriptor]
      exact ih _ (by simpa using h)
    | VK_DESCRIPTOR_TYPE_COMBINED_IMAGE_SAMPLER =>
      simp only [DescriptorPoolConfig.count_layout, DescriptorPoolConfig.count_descriptor]
      exact ih _ (by simpa using h)
    | VK_DESCRIPTOR_TYPE_STORAGE_IMAGE =>
      simp only [DescriptorPoolConfig.count_layout, DescriptorPoolConfig.count_descriptor]
      exact ih _ (by simpa using h)

/-- C14.  For either phase flag: on a layout made only of the four supported
descriptor types `update_descriptor_counts` returns normally, the counts of
the selected phase have `descriptor_pool_max_sets` increased by exactly 1 and
each per-type count increased by the number of occurrences of its type in the
layout; the counts of the other phase are left as they were; and on a layout
that holds any other descriptor type the call throws. -/
theorem update_descriptor_counts_effect (shader_info : ShaderInfo) (execute : Bool)
    (g : ComputeGraph) :
    ((∀ t ∈ shader_info.kernel_layout, t ∈
      [VkDescriptorType.VK_DESCRIPTOR_TYPE_UNIFORM_BUFFER,
        VkDescriptorType.VK_DESCRIPTOR_TYPE_STORAGE_BUFFER,
        VkDescriptorType.VK_DESCRIPTOR_TYPE_COMBINED_IMAGE_SAMPLER,
        VkDescriptorType.VK_DESCRIPTOR_TYPE_STORAGE_IMAGE]) →
      (g.update_descriptor_counts shader_info execute).outcome = .returned () ∧
      (if execute then (g.update_descriptor_counts shader_info execute).graph.execute_descriptor_counts_
        else (g.update_descriptor_counts shader_info execute).graph.prepack_descriptor_counts_) =
        { descriptor_pool_max_sets :=
            (if execute then g.execute_descriptor_counts_
              else g.prepack_descriptor_counts_).descriptor_pool_max_sets + 1
          descriptor_uniform_buffer_count :=
            (if execute then g.execute_descriptor_counts_
              else g.prepack_descriptor_counts_).descriptor_uniform_buffer_count +
            shader_info.kernel_layout.count VkDescriptorType.VK_DESCRIPTOR_TYPE_UNIFORM_BUFFER
          descriptor_storage_buffer_count :=
            (if execute then g.execute_descriptor_counts_
              else g.prepack_descriptor_counts_).descriptor_storage_buffer_count +
            shader_info.kernel_layout.count VkDescriptorType.VK_DESCRIPTOR_TYPE_STORAGE_BUFFER
          descriptor_combined_sampler_count :=
            (if execute then g.execute_descriptor_counts_
              else g.prepack_descriptor_counts_).descriptor_combined_sampler_count +
            shader_info.kernel_layout.count
              VkDescriptorType.VK_DESCRIPTOR_TYPE_COMBINED_IMAGE_SAMPLER
          descriptor_storage_image_count :=
            (if execute then g.execute_descriptor_counts_
              else g.prepack_descriptor_counts_).descriptor_storage_image_count +
            shader_info.kernel_layout.count VkDescriptorType.VK_DESCRIPTOR_TYPE_STORAGE_IMAGE
          descriptor_pile_sizes :=
            (if execute then g.execute_descriptor_counts_
              else g.prepack_descriptor_counts_).descriptor_pile_sizes }) ∧
    (if execute then (g.update_descriptor_counts shader_info execute).graph.prepack_descriptor_counts_
      else (g.update_descriptor_counts shader_info execute).graph.execute_descriptor_counts_) =
      (if execute then g.prepack_descriptor_counts_ else g.execute_descriptor_counts_) ∧
    (∀ t ∈ shader_info.kernel_layout, t ∉
      [VkDescriptorType.VK_DESCRIPTOR_TYPE_UNIFORM_BUFFER,
        VkDescriptorType.VK_DESCRIPTOR_TYPE_STORAGE_BUFFER,
        VkDescriptorType.VK_DESCRIPTOR_TYPE_COMBINED_IMAGE_SAMPLER,
        VkDescriptorType.VK_DESCRIPTOR_TYPE_STORAGE_IMAGE] →
      (g.update_descriptor_counts shader_info execute).outcome = .thrown .vk_throw) := by
  refine ⟨?_, ?_, ?_⟩
  · intro h
    have h1 : ∀ t ∈ shader_info.kernel_layout, ∀ c, t ≠ VkDescriptorType.other c := by
      intro t ht c hc
      have := h t ht
      rw [hc] at this
      simp at this
    cases execute <;>
      simp [ComputeGraph.update_descriptor_counts, count_layout_supported _ _ h1]
  · cases execute <;> simp [ComputeGraph.update_descriptor_counts]
  · intro t ht hnot
    simp only [ComputeGraph.update_descriptor_counts]
    cases t with
    | other c => exact count_layout_unsupported _ _ c ht
    | VK_DESCRIPTOR_TYPE_UNIFORM_BUFFER => simp at hnot
    | VK_DESCRIPTOR_TYPE_STORAGE_BUFFER => simp at hnot
    | VK_DESCRIPTOR_TYPE_COMBINED_IMAGE_SAMPLER => simp at hnot
    | VK_DESCRIPTOR_TYPE_STORAGE_IMAGE => simp at hnot


theorem update_descriptor_counts_effect_witness :
    ((ComputeGraph.mk_new
        ⟨false, .kTexture3D, false, .kWidthPacked, false, ⟨1, 1, 1⟩, 0, 0, false⟩
      ).update_descriptor_counts
        ⟨[VkDescriptorType.VK_DESCRIPTOR_TYPE_UNIFORM_BUFFER,
          VkDescriptorType.VK_DESCRIPTOR_TYPE_STORAGE_IMAGE,
          VkDescriptorType.VK_DESCRIPTOR_TYPE_UNIFORM_BUFFER]⟩ true).outcome = .returned () ∧
    ((ComputeGraph.mk_new
        ⟨false, .kTexture3D, false, .kWidthPacked, false, ⟨1, 1, 1⟩, 0, 0, false⟩
      ).update_descriptor_counts
        ⟨[VkDescriptorType.VK_DESCRIPTOR_TYPE_UNIFORM_BUFFER,
          VkDescriptorType.other 0]⟩ false).outcome = .thrown .vk_throw :=
  ⟨((update_descriptor_counts_effect
      ⟨[VkDescriptorType.VK_DESCRIPTOR_TYPE_UNIFORM_BUFFER,
        VkDescriptorType.VK_DESCRIPTOR_TYPE_STORAGE_IMAGE,
        VkDescriptorType.VK_DESCRIPTOR_TYPE_UNIFORM_BUFFER]⟩ true
      (ComputeGraph.mk_new
        ⟨false, .kTexture3D, false, .kWidthPacked, false, ⟨1, 1, 1⟩, 0, 0, false⟩)).1
      (by decide)).1,
   (update_descriptor_counts_effect
      ⟨[VkDescriptorType.VK_DESCRIPTOR_TYPE_UNIFORM_BUFFER, VkDescriptorType.other 0]⟩ false
      (ComputeGraph.mk_new
        ⟨false, .kTexture3D, false, .kWidthPacked, false, ⟨1, 1, 1⟩, 0, 0, false⟩)).2.2
      (VkDescriptorType.other 0) (by decide) (by decide)⟩

/-- C15.  After a first `prepare` the descriptor pool is initialised (with the
merged configuration, if it was not initialised before); a second `prepare` on
the graph so left keeps the configuration of the pool and makes no call that
initialises the pool. -/
theorem prepare_initialises_pool_once (scale : Nat → Nat) (g : ComputeGraph) :
    (g.descriptor_pool_ = none →
      (g.prepare scale).1.descriptor_pool_ = some (g.merged_descriptor_config scale)) ∧
    (g.prepare scale).1.descriptor_pool_ ≠ none ∧
    ((g.prepare scale).1.prepare scale).1.descriptor_pool_ = (g.prepare scale).1.descriptor_pool_ ∧
    (∀ config, ContextCall.descriptor_pool_init config ∉ ((g.prepare scale).1.prepare scale).2) := by
  cases hp : g.descriptor_pool_ with
  | none => simp [ComputeGraph.prepare, ComputeGraph.descriptor_pool_init, hp]
  | some c => simp [ComputeGraph.prepare, ComputeGraph.descriptor_pool_init, hp]


theorem prepare_initialises_pool_once_witness :
    ((ComputeGraph.mk_new
        ⟨false, .kTexture3D, false, .kWidthPacked, false, ⟨1, 1, 1⟩, 0, 0, false⟩).prepare
        (fun n => 2 * n)).1.descriptor_pool_ =
      some ((ComputeGraph.mk_new
        ⟨false, .kTexture3D, false, .kWidthPacked, false, ⟨1, 1, 1⟩, 0, 0, false⟩
        ).merged_descriptor_config (fun n => 2 * n)) :=
  (prepare_initialises_pool_once (fun n => 2 * n)
    (ComputeGraph.mk_new
      ⟨false, .kTexture3D, false, .kWidthPacked, false, ⟨1, 1, 1⟩, 0, 0, false⟩)).1 rfl

/-- C18, the claim as stated fails.  With `prepack_threshold_nbytes` unset and
`prepack_initial_threshold_nbytes` set to 4096, the constructor overwrites the
initial threshold with 10 MiB; with `prepack_threshold_nbytes` set to 4096 and
`prepack_initial_threshold_nbytes` unset, the initial threshold stays 0. -/
theorem constructor_thresholds_counterexample :
    (ComputeGraph.mk_new
      ⟨false, .kTexture3D, false, .kWidthPacked, false, ⟨1, 1, 1⟩, 0, 4096, false⟩
      ).config_.prepack_initial_threshold_nbytes = 10 * MB ∧
    (ComputeGraph.mk_new
      ⟨false, .kTexture3D, false, .kWidthPacked, false, ⟨1, 1, 1⟩, 4096, 0, false⟩
      ).config_.prepack_initial_threshold_nbytes = 0 ∧
    ¬ (∀ config : GraphConfig,
        ((ComputeGraph.mk_new config).config_.prepack_threshold_nbytes =
          if config.prepack_threshold_nbytes = 0 then 10 * MB
          else config.prepack_threshold_nbytes) ∧
        ((ComputeGraph.mk_new config).config_.prepack_initial_threshold_nbytes =
          if config.prepack_initial_threshold_nbytes = 0 then 10 * MB
          else config.prepack_initial_threshold_nbytes)) :=
  ⟨by decide, by decide,
   fun h => absurd
     (h ⟨false, .kTexture3D, false, .kWidthPacked, false, ⟨1, 1, 1⟩, 0, 4096, false⟩).2
     (by decide)⟩

/-- C18, amended.  After constructing a graph from any config: if
`prepack_threshold_nbytes` was left unset (0), both `prepack_threshold_nbytes`
and `prepack_initial_threshold_nbytes` equal 10 MiB; otherwise both keep their
configured values. -/
theorem constructor_thresholds (config : GraphConfig) :
    (config.prepack_threshold_nbytes = 0 →
      (ComputeGraph.mk_new config).config_.prepack_threshold_nbytes = 10 * 1024 * 1024 ∧
      (ComputeGraph.mk_new config).config_.prepack_initial_threshold_nbytes =
        10 * 1024 * 1024) ∧
    (config.prepack_threshold_nbytes ≠ 0 →
      (ComputeGraph.mk_new config).config_.prepack_threshold_nbytes =
        config.prepack_threshold_nbytes ∧
      (ComputeGraph.mk_new config).config_.prepack_initial_threshold_nbytes =
        config.prepack_initial_threshold_nbytes) := by
  constructor
  · intro h
    simp [ComputeGraph.mk_new, h, MB]
  · intro h
    simp [ComputeGraph.mk_new, h]

theorem constructor_thresholds_witness :
    (ComputeGraph.mk_new
      ⟨false, .kTexture3D, false, .kWidthPacked, false, ⟨1, 1, 1⟩, 0, 4096, false⟩
      ).config_.prepack_initial_threshold_nbytes = 10 * 1024 * 1024 ∧
    (ComputeGraph.mk_new
      ⟨false, .kTexture3D, false, .kWidthPacked, false, ⟨1, 1, 1⟩, 4096, 0, false⟩
      ).config_.prepack_initial_threshold_nbytes = 0 :=
  ⟨((constructor_thresholds
      ⟨false, .kTexture3D, false, .kWidthPacked, false, ⟨1, 1, 1⟩, 0, 4096, false⟩).1
      rfl).2,
   ((constructor_thresholds
      ⟨false, .kTexture3D, false, .kWidthPacked, false, ⟨1, 1, 1⟩, 4096, 0, false⟩).2
      (by decide)).2⟩


/-! ### The loop of `prepack` -/

/-- Processing one more node is one iteration of the loop body. -/
theorem prepack_loop_take_succ (g : ComputeGraph) (nodes : List PrepackNode) (i : Nat)
    (hi : i < nodes.length) :
    g.prepack_loop (nodes.take (i + 1)) = g.prepack_body (g.prepack_loop (nodes.take i)) nodes[i] := by
  unfold ComputeGraph.prepack_loop
  rw [← List.take_concat_get nodes i hi, List.concat_eq_append, List.foldl_append]
  rfl

/-- The loop index counts the nodes processed. -/
theorem prepack_loop_index (g : ComputeGraph) (nodes : List PrepackNode) :
    (g.prepack_loop nodes).i = nodes.length := by
  have h : ∀ (st : PrepackLoop), (nodes.foldl g.prepack_body st).i = st.i + nodes.length := by
    induction nodes with
    | nil => intro st; rfl
    | cons n rest ih =>
      intro st
      rw [List.foldl_cons, ih]
      have hb : (g.prepack_body st n).i = st.i + 1 := by
        simp only [ComputeGraph.prepack_body]
        split <;> rfl
      rw [hb, List.length_cons]
      omega
  unfold ComputeGraph.prepack_loop
  rw [h]
  simp

/-- The calls made by the loop only grow. -/
theorem prepack_loop_calls_prefix (g : ComputeGraph) (a b : List PrepackNode) :
    ∃ rest, (g.prepack_loop (a ++ b)).calls = (g.prepack_loop a).calls ++ rest := by
  have h : ∀ (st : PrepackLoop), ∃ rest, (b.foldl g.prepack_body st).calls = st.calls ++ rest := by
    induction b with
    | nil => intro st; exact ⟨[], by simp⟩
    | cons n rest ih =>
      intro st
      obtain ⟨r, hr⟩ := ih (g.prepack_body st n)
      rw [List.foldl_cons, hr]
      simp only [ComputeGraph.prepack_body]
      split
      · exact ⟨_, by simp only [List.append_assoc]; rfl⟩
      · exact ⟨_, by simp only [List.append_assoc]; rfl⟩
  simpa [ComputeGraph.prepack_loop, List.foldl_append] using h _


/-- The effect of one iteration of the loop body, by whether it submits. -/
theorem prepack_body_eq (g : ComputeGraph) (st : PrepackLoop) (node : PrepackNode) :
    g.prepack_body st node =
      { i := st.i + 1
        submitted := st.submitted || g.prepack_splits st
        staging_nbytes_in_cmd_ :=
          (if g.prepack_splits st then 0 else st.staging_nbytes_in_cmd_) + node.staging_nbytes
        calls := st.calls ++ (if g.prepack_splits st then g.prepack_split_calls else []) ++
          [ContextCall.encode_prepack_node st.i] } := by
  simp only [ComputeGraph.prepack_body]
  cases h : g.prepack_splits st <;> simp

/-- The flag `submitted` is set exactly when an earlier iteration submitted. -/
theorem prepack_loop_submitted (g : ComputeGraph) (nodes : List PrepackNode) (i : Nat)
    (hi : i ≤ nodes.length) :
    (g.prepack_loop (nodes.take i)).submitted = true ↔
      ∃ j, j < i ∧ g.prepack_splits (g.prepack_loop (nodes.take j)) = true := by
  induction i with
  | zero => simp [ComputeGraph.prepack_loop]
  | succ k ih =>
    rw [prepack_loop_take_succ g nodes k (by omega), prepack_body_eq]
    simp only [Bool.or_eq_true]
    rw [ih (by omega)]
    constructor
    · rintro (⟨j, hj, hs⟩ | hs)
      · exact ⟨j, by omega, hs⟩
      · exact ⟨k, by omega, hs⟩
    · rintro ⟨j, hj, hs⟩
      by_cases hjk : j = k
      · subst hjk; exact Or.inr hs
      · exact Or.inl ⟨j, by omega, hs⟩

/-- C16.  For a graph with n prepack nodes and every node index i < n, taking
the loop variables of `prepack` as they stand before node i: the flag
`submitted` is set exactly when the loop submitted before an earlier node of
this run; the loop closes and submits the current command buffer before node i
exactly when 0 < i < n - 1 and the running `staging_nbytes_in_cmd_` is strictly
greater than the threshold in effect, which is `prepack_initial_threshold_nbytes`
while `submitted` is unset and `prepack_threshold_nbytes` once it is set; the
iteration makes the calls of the submission (if any) and then encodes node i,
with the running counter reset to 0 before the node is encoded when it
submitted; and these calls are a prefix of the calls of `prepack`. -/
theorem prepack_split_rule (g : ComputeGraph) (i : Nat) (hi : i < g.prepack_nodes_.length) :
    ((g.prepack_loop (g.prepack_nodes_.take i)).submitted = true ↔
      ∃ j, j < i ∧ g.prepack_splits (g.prepack_loop (g.prepack_nodes_.take j)) = true) ∧
    (g.prepack_splits (g.prepack_loop (g.prepack_nodes_.take i)) = true ↔
      0 < i ∧ i < g.prepack_nodes_.length - 1 ∧
      (if (g.prepack_loop (g.prepack_nodes_.take i)).submitted = true
        then g.config_.prepack_threshold_nbytes
        else g.config_.prepack_initial_threshold_nbytes) <
        (g.prepack_loop (g.prepack_nodes_.take i)).staging_nbytes_in_cmd_) ∧
    g.prepack_loop (g.prepack_nodes_.take (i + 1)) =
      { i := i + 1
        submitted := (g.prepack_loop (g.prepack_nodes_.take i)).submitted ||
          g.prepack_splits (g.prepack_loop (g.prepack_nodes_.take i))
        staging_nbytes_in_cmd_ :=
          (if g.prepack_splits (g.prepack_loop (g.prepack_nodes_.take i)) then 0
            else (g.prepack_loop (g.prepack_nodes_.take i)).staging_nbytes_in_cmd_) +
          g.prepack_nodes_[i].staging_nbytes
        calls := (g.prepack_loop (g.prepack_nodes_.take i)).calls ++
          (if g.prepack_splits (g.prepack_loop (g.prepack_nodes_.take i))
            then g.prepack_split_calls else []) ++
          [ContextCall.encode_prepack_node i] } ∧
    (∃ rest, g.prepack.2 = (g.prepack_loop (g.prepack_nodes_.take (i + 1))).calls ++ rest) := by
  have hidx : (g.prepack_loop (g.prepack_nodes_.take i)).i = i := by
    rw [prepack_loop_index, List.length_take]; omega
  refine ⟨prepack_loop_submitted g _ i (by omega), ?_, ?_, ?_⟩
  · simp only [ComputeGraph.prepack_splits, hidx, Bool.and_eq_true, decide_eq_true_eq,
      bne_iff_ne, ne_eq, gt_iff_lt]
    constructor
    · rintro ⟨⟨h0, h1⟩, h2⟩
      exact ⟨by omega, by omega, h2⟩
    · rintro ⟨h0, h1, h2⟩
      exact ⟨⟨by omega, by omega⟩, h2⟩
  · rw [prepack_loop_take_succ g _ i hi, prepack_body_eq, hidx]
  · obtain ⟨rest, hrest⟩ := prepack_loop_calls_prefix g (g.prepack_nodes_.take (i + 1))
      (g.prepack_nodes_.drop (i + 1))
    rw [List.take_append_drop] at hrest
    refine ⟨rest ++ (ComputeGraph.submit_current_cmd_and_wait true ++ [ContextCall.flush]), ?_⟩
    simp only [ComputeGraph.prepack, hrest, List.append_assoc]


theorem prepack_split_rule_witness :
    ComputeGraph.prepack_loop
        { ComputeGraph.mk_new
            ⟨false, .kTexture3D, false, .kWidthPacked, false, ⟨1, 1, 1⟩, 5, 3, false⟩
          with prepack_nodes_ := [⟨4⟩, ⟨1⟩, ⟨7⟩, ⟨1⟩, ⟨1⟩] }
        [⟨4⟩, ⟨1⟩] =
      { i := 2
        submitted := true
        staging_nbytes_in_cmd_ := 1
        calls := [ContextCall.set_cmd false, ContextCall.encode_prepack_node 0,
          ContextCall.submit_cmd_to_gpu false false, ContextCall.set_cmd false,
          ContextCall.encode_prepack_node 1] } :=
  (prepack_split_rule
    { ComputeGraph.mk_new
        ⟨false, .kTexture3D, false, .kWidthPacked, false, ⟨1, 1, 1⟩, 5, 3, false⟩
      with prepack_nodes_ := [⟨4⟩, ⟨1⟩, ⟨7⟩, ⟨1⟩, ⟨1⟩] } 1 (by decide)).2.2.1.trans (by decide)

theorem add_tensor_view_total_constant_nbytes (vref : ValueRef) (g : ComputeGraph) :
    (g.add_tensor_view vref).graph.total_constant_nbytes_ = g.total_constant_nbytes_ := by
  unfold ComputeGraph.add_tensor_view ValuePtr.construct
  cases hv : g.values_at vref with
  | none => rfl
  | some v =>
    by_cases ha : PtrKind.vTensorPtr.accepts v = true
    · simp [ha, ValuePtr.destroy]
    · simp [ha]

theorem add_tensor_view_sized_total_constant_nbytes (vref : ValueRef)
    (sizes strides : List Int) (g : ComputeGraph) :
    (g.add_tensor_view_sized vref sizes strides).graph.total_constant_nbytes_ =
      g.total_constant_nbytes_ := by
  unfold ComputeGraph.add_tensor_view_sized ValuePtr.construct
  cases hv : g.values_at vref with
  | none => rfl
  | some v =>
    by_cases ha : PtrKind.vTensorPtr.accepts v = true
    · simp [ha, ValuePtr.destroy]
    · simp [ha]

/-- What a call adds to `total_constant_nbytes_` when it returns. -/
theorem AddCall.run_total_constant_nbytes (es : Nat → Nat) (c : AddCall) (g : ComputeGraph)
    (idx : ValueRef) (h : (c.run es g).outcome = .returned idx) :
    (c.run es g).graph.total_constant_nbytes_ = g.total_constant_nbytes_ +
      c.constant_nbytes es := by
  cases c with
  | add_tensorref sizes dtype data =>
    simp only [AddCall.run, ComputeGraph.add_tensorref, AddCall.constant_nbytes] at h ⊢
    split at h
    · simp_all
    · simp at h
  | add_tensor_view vref =>
    simp only [AddCall.constant_nbytes, Nat.add_zero]
    exact add_tensor_view_total_constant_nbytes vref g
  | add_tensor_view_sized vref sizes strides =>
    simp only [AddCall.constant_nbytes, Nat.add_zero]
    exact add_tensor_view_sized_total_constant_nbytes vref sizes strides g
  | add_tensor sizes dtype st ml so am =>
    simp only [AddCall.run, ComputeGraph.add_tensor, ComputeGraph.get_shared_object_add_user,
      AddCall.constant_nbytes]
    split <;> [split <;> rfl; rfl]
  | add_tensor_storage sizes dtype st so am =>
    simp only [AddCall.run, ComputeGraph.add_tensor_storage, ComputeGraph.add_tensor,
      ComputeGraph.get_shared_object_add_user, AddCall.constant_nbytes]
    split <;> [split <;> rfl; rfl]
  | add_tensor_layout sizes dtype ml so am =>
    simp only [AddCall.run, ComputeGraph.add_tensor_layout, ComputeGraph.add_tensor,
      ComputeGraph.get_shared_object_add_user, AddCall.constant_nbytes]
    split <;> [split <;> rfl; rfl]
  | add_tensor_default sizes dtype so am =>
    simp only [AddCall.run, ComputeGraph.add_tensor_default, ComputeGraph.add_tensor_layout,
      ComputeGraph.add_tensor, ComputeGraph.get_shared_object_add_user,
      AddCall.constant_nbytes]
    split <;> [split <;> rfl; rfl]
  | add_tensor_image image =>
    simp only [AddCall.run, ComputeGraph.add_tensor_image, AddCall.constant_nbytes]
    split <;> rfl
  | add_staging dtype numel =>
    simp only [AddCall.run, ComputeGraph.add_staging, AddCall.constant_nbytes]; split <;> rfl
  | add_none =>
    simp only [AddCall.run, ComputeGraph.add_none, AddCall.constant_nbytes]; split <;> rfl
  | add_value_list value =>
    simp only [AddCall.run, ComputeGraph.add_value_list, AddCall.constant_nbytes]
    split <;> rfl
  | add_string str =>
    simp only [AddCall.run, ComputeGraph.add_string, AddCall.constant_nbytes]; split <;> rfl
  | add_symint val =>
    simp only [AddCall.run, ComputeGraph.add_symint, AddCall.constant_nbytes]; split <;> rfl

/-- Over a sequence of calls that all return, `total_constant_nbytes_` grows by
the byte counts of the tensor references added. -/
theorem run_calls_total_constant_nbytes (es : Nat → Nat) (cs : List AddCall)
    (g g1 : ComputeGraph) (refs : List ValueRef) (h : run_calls es cs g = some (refs, g1)) :
    g1.total_constant_nbytes_ = g.total_constant_nbytes_ +
      (cs.map (AddCall.constant_nbytes es)).sum := by
  induction cs generalizing g refs with
  | nil =>
    simp only [run_calls, Option.some.injEq, Prod.mk.injEq] at h
    obtain ⟨-, rfl⟩ := h
    simp
  | cons c cs ih =>
    simp only [run_calls] at h
    cases hc : (c.run es g).outcome with
    | thrown e => simp [hc] at h
    | returned idx =>
      simp only [hc] at h
      cases hr : run_calls es cs (c.run es g).graph with
      | none => simp [hr] at h
      | some p =>
        obtain ⟨r1, g2⟩ := p
        simp only [hr, Option.some.injEq, Prod.mk.injEq] at h
        obtain ⟨-, rfl⟩ := h
        rw [ih _ _ hr, AddCall.run_total_constant_nbytes es c g idx hc, List.map_cons,
          List.sum_cons, Nat.add_assoc]


/-- The calls of an intermediate submission, by the size of the constants. -/
theorem prepack_split_calls_eq (g : ComputeGraph) :
    g.prepack_split_calls =
      if 500 * 1024 * 1024 < g.total_constant_nbytes_ then
        [ContextCall.get_fence, ContextCall.submit_cmd_to_gpu true false,
          ContextCall.fence_wait, ContextCall.return_fence, ContextCall.flush,
          ContextCall.set_cmd false]
      else [ContextCall.submit_cmd_to_gpu false false, ContextCall.set_cmd false] := by
  by_cases h : 500 * 1024 * 1024 < g.total_constant_nbytes_
  · have hr : g.reduce_peak_memory = true := by
      simp only [ComputeGraph.reduce_peak_memory, MB, decide_eq_true_eq]; omega
    simp [ComputeGraph.prepack_split_calls, hr, ComputeGraph.submit_current_cmd_and_wait, h]
  · have hr : g.reduce_peak_memory = false := by
      simp only [ComputeGraph.reduce_peak_memory, MB, decide_eq_false_iff_not]; omega
    simp [ComputeGraph.prepack_split_calls, hr, ComputeGraph.submit_current_cmd, h]

/-- The calls that the loop of `prepack` has made after the first i nodes. -/
theorem prepack_loop_calls_eq (g : ComputeGraph) (i : Nat) (hi : i ≤ g.prepack_nodes_.length) :
    (g.prepack_loop (g.prepack_nodes_.take i)).calls =
      [ContextCall.set_cmd false] ++
        (List.range i).flatMap (fun j =>
          (if g.prepack_splits (g.prepack_loop (g.prepack_nodes_.take j)) then
            g.prepack_split_calls else []) ++ [ContextCall.encode_prepack_node j]) := by
  induction i with
  | zero => simp [ComputeGraph.prepack_loop]
  | succ k ih =>
    have hidx : (g.prepack_loop (g.prepack_nodes_.take k)).i = k := by
      rw [prepack_loop_index, List.length_take]; omega
    rw [prepack_loop_take_succ g _ k (by omega), prepack_body_eq]
    simp only [hidx, ih (by omega), List.range_succ, List.flatMap_append, List.flatMap_singleton,
      List.append_assoc, List.flatMap_nil, List.flatMap_cons, List.append_nil]

/-- C17.  The calls that `prepack` makes are: a new command buffer is set; then,
node by node in order, the calls of an intermediate submission when the loop
submits before the node, and the encoding of the node; then the closing
submission.  The calls of every intermediate submission are: when
`total_constant_nbytes_` is strictly greater than 500 * 1024 * 1024, get a
fence, submit with it, wait on it, return it, flush the context and set a new
command buffer; otherwise submit without a fence and set a new command buffer.
So every submission of `prepack` that is not its final one is made with a
fence exactly when the constants exceed 500 MiB, and when they do not, no wait
on a fence and no flush happens before the closing submission.  After any
sequence of appending calls that all return, run from a fresh graph,
`total_constant_nbytes_` is the sum of `nbytes()` over the tensor references
added with `add_tensorref`; `prepack` and `prepare` leave it as it is. -/
theorem prepack_intermediate_submission_mode (g : ComputeGraph) (es : Nat → Nat)
    (config : GraphConfig) (cs : List AddCall) (refs : List ValueRef) (g1 : ComputeGraph)
    (scale : Nat → Nat) :
    (∃ body,
      g.prepack.2 = body ++
        [ContextCall.get_fence, ContextCall.submit_cmd_to_gpu true true,
          ContextCall.fence_wait, ContextCall.return_fence, ContextCall.flush] ∧
      body = [ContextCall.set_cmd false] ++
        (List.range g.prepack_nodes_.length).flatMap (fun i =>
          (if g.prepack_splits (g.prepack_loop (g.prepack_nodes_.take i)) then
            (if 500 * 1024 * 1024 < g.total_constant_nbytes_ then
              [ContextCall.get_fence, ContextCall.submit_cmd_to_gpu true false,
                ContextCall.fence_wait, ContextCall.return_fence, ContextCall.flush,
                ContextCall.set_cmd false]
            else [ContextCall.submit_cmd_to_gpu false false, ContextCall.set_cmd false])
          else []) ++ [ContextCall.encode_prepack_node i]) ∧
      (¬ 500 * 1024 * 1024 < g.total_constant_nbytes_ →
        ContextCall.get_fence ∉ body ∧ ContextCall.fence_wait ∉ body ∧
        ContextCall.flush ∉ body)) ∧
    (∀ with_fence, ContextCall.submit_cmd_to_gpu with_fence false ∈ g.prepack.2 →
      (with_fence = true ↔ 500 * 1024 * 1024 < g.total_constant_nbytes_)) ∧
    (run_calls es cs (ComputeGraph.mk_new config) = some (refs, g1) →
      g1.total_constant_nbytes_ = (cs.map (AddCall.constant_nbytes es)).sum) ∧
    g.prepack.1.total_constant_nbytes_ = g.total_constant_nbytes_ ∧
    (g.prepare scale).1.total_constant_nbytes_ = g.total_constant_nbytes_ := by
  have hcalls : g.prepack.2 =
      ([ContextCall.set_cmd false] ++
        (List.range g.prepack_nodes_.length).flatMap (fun i =>
          (if g.prepack_splits (g.prepack_loop (g.prepack_nodes_.take i)) then
            (if 500 * 1024 * 1024 < g.total_constant_nbytes_ then
              [ContextCall.get_fence, ContextCall.submit_cmd_to_gpu true false,
                ContextCall.fence_wait, ContextCall.return_fence, ContextCall.flush,
                ContextCall.set_cmd false]
            else [ContextCall.submit_cmd_to_gpu false false, ContextCall.set_cmd false])
          else []) ++ [ContextCall.encode_prepack_node i])) ++
        [ContextCall.get_fence, ContextCall.submit_cmd_to_gpu true true,
          ContextCall.fence_wait, ContextCall.return_fence, ContextCall.flush] := by
    have h := prepack_loop_calls_eq g g.prepack_nodes_.length (le_refl _)
    rw [List.take_length, prepack_split_calls_eq] at h
    simp only [ComputeGraph.prepack, h, ComputeGraph.submit_current_cmd_and_wait,
      List.append_assoc, List.cons_append, List.nil_append]
  refine ⟨⟨_, hcalls, rfl, ?_⟩, ?_, ?_, rfl, ?_⟩
  · intro hbig
    simp only [hbig, if_false]
    refine ⟨?_, ?_, ?_⟩ <;>
    · intro hmem
      simp only [List.mem_append, List.mem_singleton, List.mem_flatMap, List.mem_range] at hmem
      rcases hmem with hmem | ⟨i, _, hmem | hmem⟩
      · simp at hmem
      · split at hmem <;> simp at hmem
      · simp at hmem
  · intro w hmem
    rw [hcalls] at hmem
    simp only [List.mem_append, List.mem_singleton, List.mem_flatMap, List.mem_range,
      List.mem_cons, List.not_mem_nil, or_false] at hmem
    by_cases hbig : 500 * 1024 * 1024 < g.total_constant_nbytes_
    · simp only [hbig, if_true] at hmem
      rcases hmem with (hmem | ⟨i, _, hmem | hmem⟩) | hmem
      · simp at hmem
      · split at hmem
        · simp at hmem
          simp [hmem, hbig]
        · simp at hmem
      · simp at hmem
      · simp at hmem
    · simp only [hbig, if_false] at hmem
      rcases hmem with (hmem | ⟨i, _, hmem | hmem⟩) | hmem
      · simp at hmem
      · split at hmem
        · simp at hmem
          simp [hmem, hbig]
        · simp at hmem
      · simp at hmem
      · simp at hmem
  · intro h
    have := run_calls_total_constant_nbytes es cs _ _ _ h
    simpa [ComputeGraph.mk_new] using this
  · simp only [ComputeGraph.prepare, ComputeGraph.descriptor_pool_init]
    split <;> rfl

theorem prepack_intermediate_submission_mode_witness :
    (∀ with_fence, ContextCall.submit_cmd_to_gpu with_fence false ∈
        (ComputeGraph.prepack
          { ComputeGraph.mk_new
              ⟨false, .kTexture3D, false, .kWidthPacked, false, ⟨1, 1, 1⟩, 50, 50, false⟩
            with prepack_nodes_ := [⟨100⟩, ⟨1⟩, ⟨1⟩], total_constant_nbytes_ := 524288001 }).2 →
      (with_fence = true ↔ 500 * 1024 * 1024 < 524288001)) ∧
    ContextCall.submit_cmd_to_gpu true false ∈
      (ComputeGraph.prepack
        { ComputeGraph.mk_new
            ⟨false, .kTexture3D, false, .kWidthPacked, false, ⟨1, 1, 1⟩, 50, 50, false⟩
          with prepack_nodes_ := [⟨100⟩, ⟨1⟩, ⟨1⟩], total_constant_nbytes_ := 524288001 }).2 :=
  ⟨(prepack_intermediate_submission_mode
      { ComputeGraph.mk_new
          ⟨false, .kTexture3D, false, .kWidthPacked, false, ⟨1, 1, 1⟩, 50, 50, false⟩
        with prepack_nodes_ := [⟨100⟩, ⟨1⟩, ⟨1⟩], total_constant_nbytes_ := 524288001 }
      (fun _ => 4) ⟨false, .kTexture3D, false, .kWidthPacked, false, ⟨1, 1, 1⟩, 5, 3, false⟩
      [] [] (ComputeGraph.mk_new
        ⟨false, .kTexture3D, false, .kWidthPacked, false, ⟨1, 1, 1⟩, 5, 3, false⟩)
      (fun n => n)).2.1,
   by decide⟩


/-! ### The deferred submission chain -/

/-- A valid buffer in state RECORDING or SUBMITTED, whose `vkEndCommandBuffer`
succeeds, is submitted once, with the semaphores and fence passed in. -/
theorem submit_cmd_valid (cmd : CommandBuffer) (w s f : VkHandle)
    (hvalid : cmd.is_valid = true)
    (hstate : cmd.state_ = State.RECORDING ∨ cmd.state_ = State.SUBMITTED) :
    (ComputeGraph.submit_cmd VK_SUCCESS cmd w s f).outcome = .returned () ∧
    submissions (ComputeGraph.submit_cmd VK_SUCCESS cmd w s f).calls = [⟨cmd.handle_, f, w, s⟩] := by
  obtain ⟨h, sem, fl, st, bd⟩ := cmd
  simp only at hstate
  rcases hstate with rfl | rfl <;>
    simp [ComputeGraph.submit_cmd, hvalid, CommandBuffer.end_, CommandBuffer.get_submit_handle,
      submissions, ContextCall.submission, VK_SUCCESS]


/-- Over valid buffers the loop of `submit_deferred_cmds_and_wait` returns and
submits every buffer once, in order: each buffer signals its own semaphore and
waits on the semaphore in force before it, which is the signal semaphore of its
predecessor, and carries the fence exactly at index `size - 1`. -/
theorem submit_deferred_loop_valid (end_status : Nat → VkResult) (fence : VkHandle)
    (size : Nat) (cmds : List CommandBuffer) (i : Nat) (prev : VkHandle)
    (hstatus : ∀ k, end_status k = VK_SUCCESS)
    (hvalid : ∀ c ∈ cmds, c.is_valid = true ∧
      (c.state_ = State.RECORDING ∨ c.state_ = State.SUBMITTED)) :
    (ComputeGraph.submit_deferred_loop end_status fence size cmds i prev).outcome
      = .returned () ∧
    (submissions (ComputeGraph.submit_deferred_loop end_status fence size cmds i prev).calls).map
        Submission.cmd = cmds.map (fun c => c.handle_) ∧
    (submissions (ComputeGraph.submit_deferred_loop end_status fence size cmds i prev).calls).map
        Submission.signal_semaphore = cmds.map (fun c => c.signal_semaphore_) ∧
    (submissions (ComputeGraph.submit_deferred_loop end_status fence size cmds i prev).calls).map
        Submission.wait_semaphore = (prev :: cmds.map (fun c => c.signal_semaphore_)).dropLast ∧
    (submissions (ComputeGraph.submit_deferred_loop end_status fence size cmds i prev).calls).map
        Submission.fence =
      (List.range' i cmds.length).map
        (fun k => if k = size - 1 then fence else VK_NULL_HANDLE) := by
  induction cmds generalizing i prev with
  | nil => simp [ComputeGraph.submit_deferred_loop, submissions]
  | cons c rest ih =>
    obtain ⟨hv, hs⟩ := hvalid c (List.mem_cons_self _ _)
    have hrest : ∀ c ∈ rest, c.is_valid = true ∧
        (c.state_ = State.RECORDING ∨ c.state_ = State.SUBMITTED) :=
      fun c hc => hvalid c (List.mem_cons_of_mem _ hc)
    obtain ⟨ho, hsub⟩ := submit_cmd_valid c prev c.get_signal_semaphore
      (if i = size - 1 then fence else VK_NULL_HANDLE) hv hs
    obtain ⟨iho, ih1, ih2, ih3, ih4⟩ := ih (i + 1) c.get_signal_semaphore hrest
    have hcalls : submissions
        (ComputeGraph.submit_deferred_loop end_status fence size (c :: rest) i prev).calls =
        ⟨c.handle_, if i = size - 1 then fence else VK_NULL_HANDLE, prev,
          c.get_signal_semaphore⟩ ::
        submissions (ComputeGraph.submit_deferred_loop end_status fence size rest (i + 1)
          c.get_signal_semaphore).calls := by
      simp only [ComputeGraph.submit_deferred_loop, hstatus, ho]
      simp only [submissions, List.filterMap_append] at hsub ⊢
      rw [hsub]
      rfl
    refine ⟨?_, ?_, ?_, ?_, ?_⟩
    · simp only [ComputeGraph.submit_deferred_loop, hstatus, ho]
      exact iho
    · rw [hcalls, List.map_cons, ih1, List.map_cons]
    · rw [hcalls, List.map_cons, ih2, List.map_cons]
      rfl
    · rw [hcalls, List.map_cons, ih3, List.map_cons, List.dropLast_cons₂]
      rfl
    · rw [hcalls, List.map_cons, ih4, List.length_cons, List.range'_succ, List.map_cons]

/-- Among the first `m` indices only the last is `m - 1`. -/
theorem fence_only_on_last (fence : VkHandle) (m : Nat) (hm : 0 < m) :
    (List.range' 0 m).map (fun k => if k = m - 1 then fence else VK_NULL_HANDLE) =
      List.replicate (m - 1) VK_NULL_HANDLE ++ [fence] := by
  obtain ⟨n, rfl⟩ : ∃ n, m = n + 1 := ⟨m - 1, by omega⟩
  rw [← List.range_eq_range', List.range_succ, List.map_append]
  simp only [Nat.add_sub_cancel, List.map_cons, List.map_nil, if_true]
  congr 1
  rw [List.eq_replicate_iff]
  refine ⟨by simp, ?_⟩
  intro b hb
  obtain ⟨k, hk, rfl⟩ := List.mem_map.mp hb
  have : k < n := List.mem_range.mp hk
  rw [if_neg (by omega)]


/-- C19.  For a non-empty deferred list of valid command buffers (each holds a
handle and is in state RECORDING or SUBMITTED) whose `vkEndCommandBuffer`
calls succeed, `execute` returns normally and submits the buffers in list
order: each submission signals the semaphore of its own buffer; the first waits
on no semaphore and every later one waits on the signal semaphore of its
predecessor; and the fence is attached to the last submission and to no
other. -/
theorem execute_chains_deferred_cmds (g : ComputeGraph) (end_status : Nat → VkResult)
    (fence : VkHandle)
    (hne : g.deferred_cmd_list_ ≠ [])
    (hvalid : ∀ c ∈ g.deferred_cmd_list_, c.is_valid = true ∧
      (c.state_ = State.RECORDING ∨ c.state_ = State.SUBMITTED))
    (hstatus : ∀ k, end_status k = VK_SUCCESS) :
    (g.execute end_status fence).1.outcome = .returned () ∧
    (submissions (g.execute end_status fence).2).map Submission.cmd =
      g.deferred_cmd_list_.map (fun c => c.handle_) ∧
    (submissions (g.execute end_status fence).2).map Submission.signal_semaphore =
      g.deferred_cmd_list_.map (fun c => c.signal_semaphore_) ∧
    (submissions (g.execute end_status fence).2).map Submission.wait_semaphore =
      (VK_NULL_HANDLE :: g.deferred_cmd_list_.map (fun c => c.signal_semaphore_)).dropLast ∧
    (submissions (g.execute end_status fence).2).map Submission.fence =
      List.replicate (g.deferred_cmd_list_.length - 1) VK_NULL_HANDLE ++ [fence] := by
  obtain ⟨ho, h1, h2, h3, h4⟩ := submit_deferred_loop_valid end_status fence
    g.deferred_cmd_list_.length g.deferred_cmd_list_ 0 VK_NULL_HANDLE hstatus hvalid
  have hm : 0 < g.deferred_cmd_list_.length := List.length_pos.mpr hne
  have hcalls : submissions (g.execute end_status fence).2 =
      submissions (ComputeGraph.submit_deferred_loop end_status fence
        g.deferred_cmd_list_.length g.deferred_cmd_list_ 0 VK_NULL_HANDLE).calls := by
    simp [ComputeGraph.execute, ComputeGraph.submit_deferred_cmds_and_wait, ho, submissions,
      List.filterMap_append, ContextCall.submission]
  refine ⟨?_, ?_, ?_, ?_, ?_⟩
  · simp [ComputeGraph.execute, ComputeGraph.submit_deferred_cmds_and_wait, ho]
  · rw [hcalls, h1]
  · rw [hcalls, h2]
  · rw [hcalls, h3]
  · rw [hcalls, h4, fence_only_on_last fence _ hm]

theorem execute_chains_deferred_cmds_witness :
    (submissions (ComputeGraph.execute (fun _ => VK_SUCCESS) 99
      { ComputeGraph.mk_new
          ⟨false, .kTexture3D, false, .kWidthPacked, false, ⟨1, 1, 1⟩, 0, 0, false⟩
        with deferred_cmd_list_ :=
          [{ CommandBuffer.mk_new 7 9 0 with state_ := State.RECORDING },
           { CommandBuffer.mk_new 8 10 0 with state_ := State.SUBMITTED }] }).2).map
      Submission.wait_semaphore = [VK_NULL_HANDLE, 9] ∧
    (submissions (ComputeGraph.execute (fun _ => VK_SUCCESS) 99
      { ComputeGraph.mk_new
          ⟨false, .kTexture3D, false, .kWidthPacked, false, ⟨1, 1, 1⟩, 0, 0, false⟩
        with deferred_cmd_list_ :=
          [{ CommandBuffer.mk_new 7 9 0 with state_ := State.RECORDING },
           { CommandBuffer.mk_new 8 10 0 with state_ := State.SUBMITTED }] }).2).map
      Submission.fence = [VK_NULL_HANDLE, 99] :=
  ⟨(execute_chains_deferred_cmds
      { ComputeGraph.mk_new
          ⟨false, .kTexture3D, false, .kWidthPacked, false, ⟨1, 1, 1⟩, 0, 0, false⟩
        with deferred_cmd_list_ :=
          [{ CommandBuffer.mk_new 7 9 0 with state_ := State.RECORDING },
           { CommandBuffer.mk_new 8 10 0 with state_ := State.SUBMITTED }] }
      (fun _ => VK_SUCCESS) 99 (by decide) (by decide) (fun _ => rfl)).2.2.2.1,
   (execute_chains_deferred_cmds
      { ComputeGraph.mk_new
          ⟨false, .kTexture3D, false, .kWidthPacked, false, ⟨1, 1, 1⟩, 0, 0, false⟩
        with deferred_cmd_list_ :=
          [{ CommandBuffer.mk_new 7 9 0 with state_ := State.RECORDING },
           { CommandBuffer.mk_new 8 10 0 with state_ := State.SUBMITTED }] }
      (fun _ => VK_SUCCESS) 99 (by decide) (by decide) (fun _ => rfl)).2.2.2.2⟩


/-! ### Integer deduplication -/

/-- The test of the scan holds exactly on the Int value `val`. -/
theorem is_int_eq_iff (v : Value) (val : Int) :
    (v.isInt && v.toInt == val) = true ↔ v = Value.INT val := by
  cases v <;> simp [Value.isInt, Value.toInt]

/-- The scan returns the first position that holds the Int `val`. -/
theorem find_value_for_int_first (val : Int) (values : List Value) (i0 k : Nat)
    (hk : values[k]? = some (Value.INT val))
    (hmin : ∀ j : Nat, j < k → values[j]? ≠ some (Value.INT val)) :
    ComputeGraph.find_value_for_int val values i0 = some (i0 + k) := by
  induction values generalizing i0 k with
  | nil => simp at hk
  | cons v rest ih =>
    cases k with
    | zero =>
      have hv : v = Value.INT val := by simpa using hk
      simp [ComputeGraph.find_value_for_int, hv, Value.isInt, Value.toInt]
    | succ k =>
      have hv : v ≠ Value.INT val := by
        have := hmin 0 (by omega)
        simpa using this
      have hne : ¬ ((v.isInt && v.toInt == val) = true) := fun h => hv ((is_int_eq_iff v val).mp h)
      simp only [ComputeGraph.find_value_for_int, hne, Bool.false_eq_true, if_false]
      rw [ih (i0 + 1) k (by simpa using hk)
        (fun j hj => by have := hmin (j + 1) (by omega); simpa using this)]
      have hidx : i0 + 1 + k = i0 + (k + 1) := by omega
      rw [hidx]

/-- The scan finds nothing when no position holds the Int `val`. -/
theorem find_value_for_int_none (val : Int) (values : List Value) (i0 : Nat)
    (h : ∀ j : Nat, values[j]? ≠ some (Value.INT val)) :
    ComputeGraph.find_value_for_int val values i0 = none := by
  induction values generalizing i0 with
  | nil => rfl
  | cons v rest ih =>
    have hv : v ≠ Value.INT val := by
      have := h 0
      simpa using this
    have hne : ¬ ((v.isInt && v.toInt == val) = true) := fun h => hv ((is_int_eq_iff v val).mp h)
    simp only [ComputeGraph.find_value_for_int, hne, Bool.false_eq_true, if_false]
    exact ih (i0 + 1) (fun j => by have := h (j + 1); simpa using this)

/-- What the scan finds is a position that holds the Int `val` and has no such
position before it. -/
theorem find_value_for_int_some (val : Int) (values : List Value) (i0 r : Nat)
    (h : ComputeGraph.find_value_for_int val values i0 = some r) :
    ∃ k : Nat, r = i0 + k ∧ values[k]? = some (Value.INT val) ∧
      ∀ j : Nat, j < k → values[j]? ≠ some (Value.INT val) := by
  induction values generalizing i0 with
  | nil => simp [ComputeGraph.find_value_for_int] at h
  | cons v rest ih =>
    by_cases hv : (v.isInt && v.toInt == val) = true
    · simp only [ComputeGraph.find_value_for_int, hv, if_true, Option.some.injEq] at h
      exact ⟨0, by omega, by simpa using (is_int_eq_iff v val).mp hv, fun j hj => by omega⟩
    · simp only [ComputeGraph.find_value_for_int, hv, Bool.false_eq_true, if_false] at h
      obtain ⟨k, hr, hk, hmin⟩ := ih (i0 + 1) h
      refine ⟨k + 1, by omega, by simpa using hk, ?_⟩
      intro j hj
      cases j with
      | zero =>
        intro hc
        exact hv ((is_int_eq_iff v val).mpr (by simpa using hc))
      | succ j =>
        have := hmin j (by omega)
        simpa using this


/-- When the scan finds nothing, no position holds the Int `val`. -/
theorem find_value_for_int_none_elim (val : Int) (values : List Value) (i0 : Nat)
    (h : ComputeGraph.find_value_for_int val values i0 = none) :
    ∀ j : Nat, values[j]? ≠ some (Value.INT val) := by
  induction values generalizing i0 with
  | nil => intro j; simp
  | cons v rest ih =>
    by_cases hv : (v.isInt && v.toInt == val) = true
    · simp [ComputeGraph.find_value_for_int, hv] at h
    · simp only [ComputeGraph.find_value_for_int, hv, Bool.false_eq_true, if_false] at h
      intro j
      cases j with
      | zero =>
        intro hc
        exact hv ((is_int_eq_iff v val).mpr (by simpa using hc))
      | succ j =>
        have := ih (i0 + 1) h j
        simpa using this

/-- C20, the claim as stated fails.  In a store that holds no Int equal to 6,
while one value handle is outstanding (`values_in_use_` is 1),
`get_or_add_value_for_int(6)` appends nothing and returns no index: the check
of `add_scalar` fails, the call throws and the graph is left as it was. -/
theorem get_or_add_value_for_int_held_handle_counterexample :
    (∀ j : Nat,
      ({ ComputeGraph.mk_new
          ⟨false, .kTexture3D, false, .kWidthPacked, false, ⟨1, 1, 1⟩, 0, 0, false⟩
        with values_ := [Value.INT 3], values_in_use_ := 1 } : ComputeGraph).values_[j]? ≠
        some (Value.INT 6)) ∧
    ComputeGraph.get_or_add_value_for_int 6
      { ComputeGraph.mk_new
          ⟨false, .kTexture3D, false, .kWidthPacked, false, ⟨1, 1, 1⟩, 0, 0, false⟩
        with values_ := [Value.INT 3], values_in_use_ := 1 } =
      ⟨.thrown .check_cond,
        { ComputeGraph.mk_new
            ⟨false, .kTexture3D, false, .kWidthPacked, false, ⟨1, 1, 1⟩, 0, 0, false⟩
          with values_ := [Value.INT 3], values_in_use_ := 1 }⟩ :=
  ⟨fun j => by rcases j with _ | j <;> simp, by decide⟩

/-- C20, amended.  When some position of the store holds an Int equal to `v`,
`get_or_add_value_for_int(v)` returns the smallest such position (taken below
2^31, the range of its `int` loop index) and leaves the graph as it was,
whether or not a value handle is outstanding.  When none does and no handle is
outstanding, it appends the Int `v` and returns the index of the new value,
which is the old size of the store (fewer than 2^31 values).  When none does
and a handle is outstanding, it throws the failed check and leaves the graph
as it was.  In a store of fewer than 2^31 values, a call that returned is
repeated by a second call with the same `v`: same index, and the graph left by
the first call is not changed again. -/
theorem get_or_add_value_for_int_dedups (g : ComputeGraph) (v : Int) :
    (∀ k : Nat, k < 2 ^ 31 → g.values_[k]? = some (Value.INT v) →
      (∀ j : Nat, j < k → g.values_[j]? ≠ some (Value.INT v)) →
      g.get_or_add_value_for_int v = ⟨.returned (k : Int), g⟩) ∧
    ((∀ j : Nat, g.values_[j]? ≠ some (Value.INT v)) →
      g.values_in_use_ = 0 → g.values_.length < 2 ^ 31 →
      g.get_or_add_value_for_int v =
        ⟨.returned (g.values_.length : Int),
          { g with values_ := g.values_ ++ [Value.INT v] }⟩) ∧
    ((∀ j : Nat, g.values_[j]? ≠ some (Value.INT v)) → g.values_in_use_ ≠ 0 →
      g.get_or_add_value_for_int v = ⟨.thrown .check_cond, g⟩) ∧
    (∀ (idx : ValueRef) (g1 : ComputeGraph), g.values_.length < 2 ^ 31 →
      g.get_or_add_value_for_int v = ⟨.returned idx, g1⟩ →
      g1.get_or_add_value_for_int v = ⟨.returned idx, g1⟩) := by
  have hfound : ∀ (h : ComputeGraph) (k : Nat), h.values_[k]? = some (Value.INT v) →
      (∀ j : Nat, j < k → h.values_[j]? ≠ some (Value.INT v)) →
      h.get_or_add_value_for_int v = ⟨.returned (k : Int), h⟩ := by
    intro h k hk hmin
    have := find_value_for_int_first v h.values_ 0 k hk hmin
    simp only [Nat.zero_add] at this
    simp [ComputeGraph.get_or_add_value_for_int, this]
  have hadd : ∀ h : ComputeGraph, (∀ j : Nat, h.values_[j]? ≠ some (Value.INT v)) →
      h.get_or_add_value_for_int v = h.add_scalar v := by
    intro h hnone
    simp [ComputeGraph.get_or_add_value_for_int, find_value_for_int_none v h.values_ 0 hnone]
  refine ⟨fun k _ => hfound g k, ?_, ?_, ?_⟩
  · intro hnone huse hlen
    rw [hadd g hnone]
    simp [ComputeGraph.add_scalar, ComputeGraph.check_no_active_value_ptrs, huse,
      static_cast_int_of_lt _ hlen]
  · intro hnone huse
    rw [hadd g hnone]
    simp [ComputeGraph.add_scalar, ComputeGraph.check_no_active_value_ptrs, huse]
  · intro idx g1 hlen hfirst
    cases hf : ComputeGraph.find_value_for_int v g.values_ 0 with
    | some r =>
      obtain ⟨k, hr, hk, hmin⟩ := find_value_for_int_some v g.values_ 0 r hf
      have h1 := hfound g k hk hmin
      rw [hfirst] at h1
      simp only [GStep.mk.injEq, Outcome.returned.injEq] at h1
      obtain ⟨rfl, rfl⟩ := h1
      exact hfound g1 k hk hmin
    | none =>
      simp only [ComputeGraph.get_or_add_value_for_int, hf, ComputeGraph.add_scalar] at hfirst
      by_cases hc : g.check_no_active_value_ptrs = true
      · simp only [hc, if_true, GStep.mk.injEq, Outcome.returned.injEq] at hfirst
        obtain ⟨hidx, rfl⟩ := hfirst
        rw [static_cast_int_of_lt _ hlen] at hidx
        subst hidx
        apply hfound
        · simp
        · intro j hj hcon
          rw [List.getElem?_append_left hj] at hcon
          exact find_value_for_int_none_elim v g.values_ 0 hf j hcon
      · simp [hc] at hfirst


theorem get_or_add_value_for_int_dedups_witness :
    ComputeGraph.get_or_add_value_for_int 5
      { ComputeGraph.mk_new
          ⟨false, .kTexture3D, false, .kWidthPacked, false, ⟨1, 1, 1⟩, 0, 0, false⟩
        with values_ := [Value.INT 3, Value.NONE, Value.INT 5, Value.INT 5] } =
      ⟨.returned (2 : Nat),
        { ComputeGraph.mk_new
            ⟨false, .kTexture3D, false, .kWidthPacked, false, ⟨1, 1, 1⟩, 0, 0, false⟩
          with values_ := [Value.INT 3, Value.NONE, Value.INT 5, Value.INT 5] }⟩ ∧
    ComputeGraph.get_or_add_value_for_int 6
      { ComputeGraph.mk_new
          ⟨false, .kTexture3D, false, .kWidthPacked, false, ⟨1, 1, 1⟩, 0, 0, false⟩
        with values_ := [Value.INT 3, Value.NONE, Value.INT 5, Value.INT 5] } =
      ⟨.returned (4 : Nat),
        { ComputeGraph.mk_new
            ⟨false, .kTexture3D, false, .kWidthPacked, false, ⟨1, 1, 1⟩, 0, 0, false⟩
          with values_ := [Value.INT 3, Value.NONE, Value.INT 5, Value.INT 5, Value.INT 6] }⟩ :=
  ⟨(get_or_add_value_for_int_dedups
      { ComputeGraph.mk_new
          ⟨false, .kTexture3D, false, .kWidthPacked, false, ⟨1, 1, 1⟩, 0, 0, false⟩
        with values_ := [Value.INT 3, Value.NONE, Value.INT 5, Value.INT 5] } 5).1 2
      (by decide) (by decide) (by decide),
   (get_or_add_value_for_int_dedups
      { ComputeGraph.mk_new
          ⟨false, .kTexture3D, false, .kWidthPacked, false, ⟨1, 1, 1⟩, 0, 0, false⟩
        with values_ := [Value.INT 3, Value.NONE, Value.INT 5, Value.INT 5] } 6).2.1
      (by
        intro j
        rcases j with _ | _ | _ | _ | j <;> simp)
      rfl (by decide)⟩

/-! ### Integer lists and queries on stored values -/

theorem read_symint_graph (g : ComputeGraph) (idx : ValueRef) :
    (g.read_symint idx).graph = g := by
  unfold ComputeGraph.read_symint ValuePtr.construct
  cases hv : g.values_at idx with
  | none => simp
  | some v =>
    by_cases ha : PtrKind.SymIntPtr.accepts v = true
    · cases g
      simp [ha, ValuePtr.destroy]
    · simp [ha]

theorem read_symint_of_symint (g : ComputeGraph) (idx : ValueRef) (s : SymInt)
    (h : g.values_at idx = some (.SYMINT s)) :
    (g.read_symint idx).outcome = .returned s.get := by
  have h1 : ({ g with values_in_use_ := g.values_in_use_ + 1 } : ComputeGraph).values_at idx =
      some (.SYMINT s) := by
    simpa [ComputeGraph.values_at] using h
  simp [ComputeGraph.read_symint, ValuePtr.construct, h, PtrKind.accepts, h1]

theorem extract_elements_graph (l : List ValueRef) (acc : List Int) (g : ComputeGraph) :
    (ComputeGraph.extract_elements l acc g).graph = g := by
  induction l generalizing acc with
  | nil => simp [ComputeGraph.extract_elements]
  | cons ref rest ih =>
    unfold ComputeGraph.extract_elements
    cases hv : g.values_at ref with
    | none => simp
    | some element =>
      by_cases hi : element.isInt = true
      · simp [hi, ih]
      · by_cases hs : element.isSymInt = true
        · simp only [hi, hs, Bool.false_eq_true, if_false, if_true]
          cases ho : (g.read_symint ref).outcome with
          | thrown e => simp [read_symint_graph]
          | returned v => simp [read_symint_graph, ih]
        · simp [hi, hs]

theorem extract_elements_good (l : List ValueRef) (acc : List Int) (g : ComputeGraph)
    (hgood : ∀ r ∈ l, (∃ v, g.values_at r = some (.INT v)) ∨
      (∃ s, g.values_at r = some (.SYMINT s))) :
    ∃ res, (ComputeGraph.extract_elements l acc g).outcome = .returned (acc ++ res) ∧
      List.Forall₂ (fun r v => g.values_at r = some (.INT v) ∨
        ∃ s, g.values_at r = some (.SYMINT s) ∧ v = s.get) l res := by
  induction l generalizing acc with
  | nil => exact ⟨[], by simp [ComputeGraph.extract_elements], List.Forall₂.nil⟩
  | cons ref rest ih =>
    have hrest : ∀ r ∈ rest, (∃ v, g.values_at r = some (.INT v)) ∨
        (∃ s, g.values_at r = some (.SYMINT s)) :=
      fun r hr => hgood r (List.mem_cons_of_mem _ hr)
    rcases hgood ref (List.mem_cons_self _ _) with ⟨v, hv⟩ | ⟨s, hs⟩
    · obtain ⟨res, hres, hrel⟩ := ih (acc ++ [v]) hrest
      refine ⟨v :: res, ?_, List.Forall₂.cons (Or.inl hv) hrel⟩
      unfold ComputeGraph.extract_elements
      simp [hv, Value.isInt, Value.toInt, hres]
    · obtain ⟨res, hres, hrel⟩ := ih (acc ++ [s.get]) hrest
      refine ⟨s.get :: res, ?_, List.Forall₂.cons (Or.inr ⟨s, hs, rfl⟩) hrel⟩
      unfold ComputeGraph.extract_elements
      simp [hs, Value.isInt, Value.isSymInt, read_symint_of_symint g ref s hs,
        read_symint_graph, hres]

theorem extract_elements_bad (l : List ValueRef) (acc : List Int) (g : ComputeGraph)
    (hvalid : ∀ r ∈ l, g.values_at r ≠ none)
    (hbad : ∃ r ∈ l, ∃ v, g.values_at r = some v ∧ v.isInt = false ∧ v.isSymInt = false) :
    (ComputeGraph.extract_elements l acc g).outcome = .thrown .vk_throw := by
  induction l generalizing acc with
  | nil => simp at hbad
  | cons ref rest ih =>
    have hrestv : ∀ r ∈ rest, g.values_at r ≠ none :=
      fun r hr => hvalid r (List.mem_cons_of_mem _ hr)
    unfold ComputeGraph.extract_elements
    cases hv : g.values_at ref with
    | none => exact absurd hv (hvalid ref (List.mem_cons_self _ _))
    | some element =>
      have hrest_bad : (element.isInt = true ∨ element.isSymInt = true) →
          ∃ r ∈ rest, ∃ v, g.values_at r = some v ∧ v.isInt = false ∧ v.isSymInt = false := by
        intro hel
        obtain ⟨r, hr, v, hrv, h1, h2⟩ := hbad
        rcases List.mem_cons.mp hr with rfl | hr
        · rw [hv] at hrv
          cases hrv
          rcases hel with h | h <;> simp_all
        · exact ⟨r, hr, v, hrv, h1, h2⟩
      by_cases hi : element.isInt = true
      · simp [hi, ih _ hrestv (hrest_bad (Or.inl hi))]
      · by_cases hs : element.isSymInt = true
        · cases element <;> simp [Value.isSymInt] at hs
          rename_i s
          simp [Value.isInt, Value.isSymInt, read_symint_of_symint g ref s hv,
            read_symint_graph, ih _ hrestv (hrest_bad (Or.inr rfl))]
        · simp [hi, hs]

/-- C21.  For an index that holds a value: on an IntList
`extract_int_or_symint_list` returns the list itself; on a ValueList whose
elements all refer to Int or SymInt values it returns a list of the same length
whose entries are, in order, the Int value or the current host value of the
SymInt that the element refers to.  When the elements of a ValueList refer to
stored values, the call throws the type error exactly when the value is neither
an IntList nor a ValueList or some element refers to a value that is neither Int
nor SymInt, and it throws nothing else.  The graph, with its store and
`values_in_use_`, is left as it was in every case. -/
theorem extract_int_or_symint_list_spec (g : ComputeGraph) (idx : ValueRef) (val : Value)
    (hval : g.values_at idx = some val)
    (hrefs : ∀ l, val = .VALUELIST l → ∀ r ∈ l, g.values_at r ≠ none) :
    (∀ l, val = .INTLIST l → (g.extract_int_or_symint_list idx).outcome = .returned l) ∧
    (∀ l, val = .VALUELIST l →
      (∀ r ∈ l, (∃ v, g.values_at r = some (.INT v)) ∨ (∃ s, g.values_at r = some (.SYMINT s))) →
      ∃ res, (g.extract_int_or_symint_list idx).outcome = .returned res ∧
        res.length = l.length ∧
        List.Forall₂ (fun r v => g.values_at r = some (.INT v) ∨
          ∃ s, g.values_at r = some (.SYMINT s) ∧ v = s.get) l res) ∧
    ((g.extract_int_or_symint_list idx).outcome = .thrown .vk_throw ↔
      ((val.isIntList = false ∧ val.isValueList = false) ∨
        ∃ l, val = .VALUELIST l ∧
          ∃ r ∈ l, ∃ v, g.values_at r = some v ∧ v.isInt = false ∧ v.isSymInt = false)) ∧
    (∀ e, (g.extract_int_or_symint_list idx).outcome = .thrown e → e = .vk_throw) ∧
    (g.extract_int_or_symint_list idx).graph = g := by
  have hgood_or_bad : ∀ l : List ValueRef, (∀ r ∈ l, g.values_at r ≠ none) →
      (∀ r ∈ l, (∃ v, g.values_at r = some (.INT v)) ∨
        (∃ s, g.values_at r = some (.SYMINT s))) ∨
      (∃ r ∈ l, ∃ v, g.values_at r = some v ∧ v.isInt = false ∧ v.isSymInt = false) := by
    intro l hl
    by_cases h : ∃ r ∈ l, ∃ v, g.values_at r = some v ∧ v.isInt = false ∧ v.isSymInt = false
    · exact Or.inr h
    · left
      intro r hr
      cases hv : g.values_at r with
      | none => exact absurd hv (hl r hr)
      | some v =>
        have := fun h1 h2 => h ⟨r, hr, v, hv, h1, h2⟩
        cases v <;> simp_all [Value.isInt, Value.isSymInt]
  refine ⟨?_, ?_, ?_, ?_, ?_⟩
  · rintro l rfl
    simp [ComputeGraph.extract_int_or_symint_list, hval]
  · rintro l rfl hgood
    obtain ⟨res, hres, hrel⟩ := extract_elements_good l [] g hgood
    refine ⟨res, ?_, hrel.length_eq.symm, hrel⟩
    simpa [ComputeGraph.extract_int_or_symint_list, hval] using hres
  · cases val with
    | INTLIST l => simp [ComputeGraph.extract_int_or_symint_list, hval, Value.isIntList]
    | VALUELIST l =>
      have hl := hrefs l rfl
      simp only [ComputeGraph.extract_int_or_symint_list, hval, Value.isIntList,
        Value.isValueList, Value.VALUELIST.injEq, exists_eq_left']
      constructor
      · intro hthrow
        rcases hgood_or_bad l hl with hgood | hbad
        · obtain ⟨res, hres, _⟩ := extract_elements_good l [] g hgood
          rw [hres] at hthrow
          cases hthrow
        · exact Or.inr hbad
      · rintro (h | hbad)
        · simp at h
        · exact extract_elements_bad l [] g hl hbad
    | _ => simp [ComputeGraph.extract_int_or_symint_list, hval, Value.isIntList,
        Value.isValueList]
  · intro e he
    cases val with
    | INTLIST l => simp [ComputeGraph.extract_int_or_symint_list, hval] at he
    | VALUELIST l =>
      have hl := hrefs l rfl
      simp only [ComputeGraph.extract_int_or_symint_list, hval] at he
      rcases hgood_or_bad l hl with hgood | hbad
      · obtain ⟨res, hres, _⟩ := extract_elements_good l [] g hgood
        rw [hres] at he
        cases he
      · rw [extract_elements_bad l [] g hl hbad] at he
        cases he
        rfl
    | _ =>
      simp only [ComputeGraph.extract_int_or_symint_list, hval] at he
      cases he
      rfl
  · cases val with
    | VALUELIST l =>
      simp [ComputeGraph.extract_int_or_symint_list, hval, extract_elements_graph]
    | _ => simp [ComputeGraph.extract_int_or_symint_list, hval]

theorem extract_int_or_symint_list_spec_witness :
    (ComputeGraph.extract_int_or_symint_list 3
      { ComputeGraph.mk_new
          ⟨false, .kTexture3D, false, .kWidthPacked, false, ⟨1, 1, 1⟩, 0, 0, false⟩
        with values_ := [Value.INT 5, Value.SYMINT ⟨7⟩, Value.VALUELIST [0, 1],
          Value.INTLIST [1, 2]] }).outcome = .returned [1, 2] ∧
    ∃ res, (ComputeGraph.extract_int_or_symint_list 2
      { ComputeGraph.mk_new
          ⟨false, .kTexture3D, false, .kWidthPacked, false, ⟨1, 1, 1⟩, 0, 0, false⟩
        with values_ := [Value.INT 5, Value.SYMINT ⟨7⟩, Value.VALUELIST [0, 1],
          Value.INTLIST [1, 2]] }).outcome = .returned res ∧ res.length = 2 :=
  ⟨(extract_int_or_symint_list_spec
      { ComputeGraph.mk_new
          ⟨false, .kTexture3D, false, .kWidthPacked, false, ⟨1, 1, 1⟩, 0, 0, false⟩
        with values_ := [Value.INT 5, Value.SYMINT ⟨7⟩, Value.VALUELIST [0, 1],
          Value.INTLIST [1, 2]] } 3 (Value.INTLIST [1, 2]) (by decide)
      (by intro l hl; cases hl)).1 [1, 2] rfl,
   ((extract_int_or_symint_list_spec
      { ComputeGraph.mk_new
          ⟨false, .kTexture3D, false, .kWidthPacked, false, ⟨1, 1, 1⟩, 0, 0, false⟩
        with values_ := [Value.INT 5, Value.SYMINT ⟨7⟩, Value.VALUELIST [0, 1],
          Value.INTLIST [1, 2]] } 2 (Value.VALUELIST [0, 1]) (by decide)
      (by intro l hl; cases hl; decide)).2.1 [0, 1] rfl
      (by
        intro r hr
        simp only [List.mem_cons, List.mem_singleton, List.not_mem_nil, or_false] at hr
        rcases hr with rfl | rfl
        · exact Or.inl ⟨5, by decide⟩
        · exact Or.inr ⟨⟨7⟩, by decide⟩)).imp (fun _ h => ⟨h.1, h.2.1⟩)⟩

/-- C22.  For an index that holds a value: `sizes_of` and `dim_of` return
exactly on Tensor and TensorRef values (on a TensorRef `dim_of` is the length
of what `sizes_of` returns); `strides_of` and `dim_order_of` return exactly on
Tensor values; `dtype_of` returns exactly on Tensor, TensorRef, Bool, Int and
Double values, with the stored dtype for the first two and `Bool`, `Int` and
`Float` for the scalar kinds.  On every other kind each of them throws the
invalid-type error. -/
theorem value_queries_by_kind (g : ComputeGraph) (idx : ValueRef) (val : Value)
    (dim_order strides : vTensor → List Int)
    (hval : g.values_at idx = some val) :
    (g.sizes_of idx =
      if val.isTensor ∨ val.isTensorRef then
        .returned (match val with
          | .TENSOR t => t.sizes
          | .TENSORREF r => r.sizes
          | _ => [])
      else .thrown .vk_throw) ∧
    ((∃ s, g.dim_of idx = .returned s) ↔ (val.isTensor ∨ val.isTensorRef)) ∧
    (¬ (val.isTensor ∨ val.isTensorRef) → g.dim_of idx = .thrown .vk_throw) ∧
    (∀ r, val = .TENSORREF r →
      g.sizes_of idx = .returned r.sizes ∧ g.dim_of idx = .returned (r.sizes.length : Int)) ∧
    ((∃ s, g.strides_of strides idx = .returned s) ↔ val.isTensor) ∧
    (¬ val.isTensor → g.strides_of strides idx = .thrown .vk_throw) ∧
    ((∃ s, g.dim_order_of dim_order idx = .returned s) ↔ val.isTensor) ∧
    (¬ val.isTensor → g.dim_order_of dim_order idx = .thrown .vk_throw) ∧
    ((∃ d, g.dtype_of idx = .returned d) ↔
      (val.isTensor ∨ val.isTensorRef ∨ val.isBool ∨ val.isInt ∨ val.isDouble)) ∧
    (¬ (val.isTensor ∨ val.isTensorRef ∨ val.isBool ∨ val.isInt ∨ val.isDouble) →
      g.dtype_of idx = .thrown .vk_throw) ∧
    (∀ t, val = .TENSOR t → g.dtype_of idx = .returned t.dtype) ∧
    (∀ r, val = .TENSORREF r → g.dtype_of idx = .returned r.dtype) ∧
    (val.isBool → g.dtype_of idx = .returned vkapi.ScalarType.Bool) ∧
    (val.isInt → g.dtype_of idx = .returned vkapi.ScalarType.Int) ∧
    (val.isDouble → g.dtype_of idx = .returned vkapi.ScalarType.Float) := by
  cases val <;>
    simp [ComputeGraph.sizes_of, ComputeGraph.dim_of, ComputeGraph.strides_of,
      ComputeGraph.dim_order_of, ComputeGraph.dtype_of, hval, Value.isTensor,
      Value.isTensorRef, Value.isBool, Value.isInt, Value.isDouble]

theorem value_queries_by_kind_witness :
    ComputeGraph.dtype_of
      { ComputeGraph.mk_new
          ⟨false, .kTexture3D, false, .kWidthPacked, false, ⟨1, 1, 1⟩, 0, 0, false⟩
        with values_ := [Value.DOUBLE 0, Value.TENSORREF ⟨[2, 3], 7, 0⟩, Value.NONE] } 0 =
      .returned vkapi.ScalarType.Float ∧
    ComputeGraph.dim_of
      { ComputeGraph.mk_new
          ⟨false, .kTexture3D, false, .kWidthPacked, false, ⟨1, 1, 1⟩, 0, 0, false⟩
        with values_ := [Value.DOUBLE 0, Value.TENSORREF ⟨[2, 3], 7, 0⟩, Value.NONE] } 1 =
      .returned 2 ∧
    ComputeGraph.dtype_of
      { ComputeGraph.mk_new
          ⟨false, .kTexture3D, false, .kWidthPacked, false, ⟨1, 1, 1⟩, 0, 0, false⟩
        with values_ := [Value.DOUBLE 0, Value.TENSORREF ⟨[2, 3], 7, 0⟩, Value.NONE] } 2 =
      .thrown .vk_throw :=
  ⟨(value_queries_by_kind
      { ComputeGraph.mk_new
          ⟨false, .kTexture3D, false, .kWidthPacked, false, ⟨1, 1, 1⟩, 0, 0, false⟩
        with values_ := [Value.DOUBLE 0, Value.TENSORREF ⟨[2, 3], 7, 0⟩, Value.NONE] } 0
      (Value.DOUBLE 0) (fun _ => []) (fun _ => []) (by decide)).2.2.2.2.2.2.2.2.2.2.2.2.2.2 rfl,
   ((value_queries_by_kind
      { ComputeGraph.mk_new
          ⟨false, .kTexture3D, false, .kWidthPacked, false, ⟨1, 1, 1⟩, 0, 0, false⟩
        with values_ := [Value.DOUBLE 0, Value.TENSORREF ⟨[2, 3], 7, 0⟩, Value.NONE] } 1
      (Value.TENSORREF ⟨[2, 3], 7, 0⟩) (fun _ => []) (fun _ => []) (by decide)).2.2.2.1
      ⟨[2, 3], 7, 0⟩ rfl).2,
   (value_queries_by_kind
      { ComputeGraph.mk_new
          ⟨false, .kTexture3D, false, .kWidthPacked, false, ⟨1, 1, 1⟩, 0, 0, false⟩
        with values_ := [Value.DOUBLE 0, Value.TENSORREF ⟨[2, 3], 7, 0⟩, Value.NONE] } 2
      Value.NONE (fun _ => []) (fun _ => []) (by decide)).2.2.2.2.2.2.2.2.2.1 (by decide)⟩

/-! ### Temporary tensors and the stack of free shared-object indices -/

theorem get_shared_object_add_user_length (idx : Nat) (user : ValueRef) (g : ComputeGraph) :
    (g.get_shared_object_add_user idx user).shared_objects_.length =
      max g.shared_objects_.length (idx + 1) := by
  simp only [ComputeGraph.get_shared_object_add_user]
  split_ifs with h
  · simp only [List.length_set, List.length_append, List.length_replicate]
    omega
  · simp only [List.length_set]
    omega

theorem add_tensor_effect (sizes : List Int) (dtype : Nat) (st : utils.StorageType)
    (ml : utils.GPUMemoryLayout) (so : Int) (am : Nat) (g : ComputeGraph) :
    (g.add_tensor sizes dtype st ml so am).graph.tmp_shared_object_idxs_ =
      g.tmp_shared_object_idxs_ ∧
    (g.add_tensor sizes dtype st ml so am).graph.values_in_use_ = g.values_in_use_ ∧
    (g.values_in_use_ = 0 →
      (g.add_tensor sizes dtype st ml so am).outcome =
        .returned (static_cast_int g.values_.length)) ∧
    (∀ v, (g.add_tensor sizes dtype st ml so am).outcome = .returned v →
      (g.add_tensor sizes dtype st ml so am).graph.shared_objects_.length =
        if so < 0 then g.shared_objects_.length
        else max g.shared_objects_.length (so.toNat + 1)) ∧
    (∀ e, (g.add_tensor sizes dtype st ml so am).outcome = .thrown e →
      (g.add_tensor sizes dtype st ml so am).graph = g) := by
  by_cases hc : g.check_no_active_value_ptrs = true
  · by_cases hso : so < 0
    · simp [ComputeGraph.add_tensor, hc, hso]
    · have h1 := get_shared_object_add_user_length so.toNat (static_cast_int g.values_.length)
      simp [ComputeGraph.add_tensor, hc, hso, h1]
      exact ⟨rfl, rfl⟩
  · have hne : g.values_in_use_ ≠ 0 := by
      simpa [ComputeGraph.check_no_active_value_ptrs] using hc
    simp [ComputeGraph.add_tensor, hc, hne]

theorem tmp_tensor_construct_effect (args : TmpTensorArgs) (am : Nat) (g : ComputeGraph) :
    (TmpTensor.construct args am g).graph.tmp_shared_object_idxs_ =
      g.tmp_shared_object_idxs_.tail ∧
    (TmpTensor.construct args am g).graph.values_in_use_ = g.values_in_use_ ∧
    (g.values_in_use_ = 0 →
      (TmpTensor.construct args am g).outcome =
        .returned ⟨g.tmp_shared_object_idxs_.headD g.shared_objects_.length,
          static_cast_int g.values_.length⟩) ∧
    (∀ t, (TmpTensor.construct args am g).outcome = .returned t →
      t.sobj_idx = g.tmp_shared_object_idxs_.headD g.shared_objects_.length ∧
      (TmpTensor.construct args am g).graph.shared_objects_.length =
        if t.sobj_idx < 0 then g.shared_objects_.length
        else max g.shared_objects_.length (t.sobj_idx.toNat + 1)) ∧
    (∀ e, (TmpTensor.construct args am g).outcome = .thrown e →
      (TmpTensor.construct args am g).graph.shared_objects_ = g.shared_objects_) := by
  obtain ⟨sizes, dtype, st, ml⟩ := args
  have key : ∀ (st : utils.StorageType) (ml : utils.GPUMemoryLayout),
      let s := TmpTensor.get_sobj_idx g
      let r := s.2.add_tensor sizes dtype st ml s.1 am
      let c : GStep TmpTensor :=
        match r.outcome with
        | .thrown e => { outcome := .thrown e, graph := r.graph }
        | .returned vref => { outcome := .returned { sobj_idx := s.1, vref := vref }, graph := r.graph }
      c.graph.tmp_shared_object_idxs_ = g.tmp_shared_object_idxs_.tail ∧
      c.graph.values_in_use_ = g.values_in_use_ ∧
      (g.values_in_use_ = 0 →
        c.outcome = .returned ⟨g.tmp_shared_object_idxs_.headD g.shared_objects_.length,
          static_cast_int g.values_.length⟩) ∧
      (∀ t, c.outcome = .returned t →
        t.sobj_idx = g.tmp_shared_object_idxs_.headD g.shared_objects_.length ∧
        c.graph.shared_objects_.length =
          if t.sobj_idx < 0 then g.shared_objects_.length
          else max g.shared_objects_.length (t.sobj_idx.toNat + 1)) ∧
      (∀ e, c.outcome = .thrown e → c.graph.shared_objects_ = g.shared_objects_) := by
    intro st ml s r c
    have hs1 : s.1 = g.tmp_shared_object_idxs_.headD g.shared_objects_.length := by
      simp only [s, TmpTensor.get_sobj_idx]
      cases hf : g.tmp_shared_object_idxs_ <;> simp
    have hs2 : s.2.tmp_shared_object_idxs_ = g.tmp_shared_object_idxs_.tail ∧
        s.2.values_in_use_ = g.values_in_use_ ∧ s.2.shared_objects_ = g.shared_objects_ ∧
        s.2.values_ = g.values_ := by
      simp only [s, TmpTensor.get_sobj_idx]
      cases hf : g.tmp_shared_object_idxs_ <;> simp [hf]
    obtain ⟨e1, e2, e3, e4, e5⟩ := add_tensor_effect sizes dtype st ml s.1 am s.2
    cases ho : r.outcome with
    | thrown e =>
      have hg : r.graph = s.2 := e5 e ho
      simp only [c, ho]
      refine ⟨by rw [hg]; exact hs2.1, by rw [hg]; exact hs2.2.1, ?_, ?_, ?_⟩
      · intro h0
        have := e3 (by rw [hs2.2.1]; exact h0)
        rw [ho] at this
        cases this
      · intro t ht
        cases ht
      · intro _ _
        rw [hg]
        exact hs2.2.2.1
    | returned v =>
      simp only [c, ho]
      refine ⟨by rw [e1]; exact hs2.1, by rw [e2]; exact hs2.2.1, ?_, ?_, ?_⟩
      · intro h0
        have := e3 (by rw [hs2.2.1]; exact h0)
        rw [ho] at this
        cases this
        rw [hs1, hs2.2.2.2]
      · intro t ht
        cases ht
        refine ⟨hs1, ?_⟩
        rw [e4 v ho, hs2.2.2.1]
      · intro e he
        cases he
  cases st with
  | some st =>
    cases ml with
    | some ml => exact key st ml
    | none => exact key st _
  | none =>
    cases ml with
    | some ml => exact key _ ml
    | none => exact key _ _

theorem perm_cons_eraseIdx {α : Type} (l : List α) (pos : Nat) (x : α)
    (h : l[pos]? = some x) : l.Perm (x :: l.eraseIdx pos) := by
  induction l generalizing pos with
  | nil => simp at h
  | cons a rest ih =>
    cases pos with
    | zero =>
      simp only [List.getElem?_cons_zero, Option.some.injEq] at h
      subst h
      simp
    | succ n =>
      simp only [List.getElem?_cons_succ] at h
      simp only [List.eraseIdx_cons_succ]
      exact (List.Perm.cons a (ih n h)).trans (List.Perm.swap x a _)

theorem tmp_tensor_reach_snoc (g : ComputeGraph) (events : List TmpTensorEvent)
    (e : TmpTensorEvent) :
    TmpTensorState.reach g (events ++ [e]) = e.apply (TmpTensorState.reach g events) := by
  simp [TmpTensorState.reach, List.foldl_append]

theorem tmp_tensor_create_step (s : TmpTensorState) (args : TmpTensorArgs) (am : Nat)
    (L F : List Int) (n : Nat)
    (hL : s.live.map TmpTensor.sobj_idx = L) (hF : s.graph.tmp_shared_object_idxs_ = F)
    (hn : s.graph.shared_objects_.length = n) (h0 : s.graph.values_in_use_ = 0) :
    ((TmpTensorEvent.create args am).apply s).live.map TmpTensor.sobj_idx =
      F.headD n :: L ∧
    ((TmpTensorEvent.create args am).apply s).graph.tmp_shared_object_idxs_ = F.tail ∧
    ((TmpTensorEvent.create args am).apply s).graph.shared_objects_.length =
      (if F.headD (n : Int) < 0 then n else max n ((F.headD (n : Int)).toNat + 1)) ∧
    ((TmpTensorEvent.create args am).apply s).graph.values_in_use_ = 0 := by
  obtain ⟨e1, e2, e3, e4, _⟩ := tmp_tensor_construct_effect args am s.graph
  have ho := e3 h0
  have h4 := e4 _ ho
  subst hL hF hn
  simp only [TmpTensorEvent.apply, ho]
  refine ⟨by simp, e1, h4.2, e2.trans h0⟩

theorem tmp_tensor_destroy_step (s : TmpTensorState) (pos : Nat)
    (L F : List Int) (i : Int)
    (hL : s.live.map TmpTensor.sobj_idx = L) (hF : s.graph.tmp_shared_object_idxs_ = F)
    (hi : L[pos]? = some i) (hnonneg : 0 ≤ i) :
    ((TmpTensorEvent.destroy pos).apply s).live.map TmpTensor.sobj_idx = L.eraseIdx pos ∧
    ((TmpTensorEvent.destroy pos).apply s).graph.tmp_shared_object_idxs_ = i :: F ∧
    ((TmpTensorEvent.destroy pos).apply s).graph.shared_objects_ = s.graph.shared_objects_ ∧
    ((TmpTensorEvent.destroy pos).apply s).graph.values_in_use_ = s.graph.values_in_use_ := by
  subst hL hF
  rw [List.getElem?_map] at hi
  cases ht : s.live[pos]? with
  | none => simp [ht] at hi
  | some t =>
    simp only [ht, Option.map_some', Option.some.injEq] at hi
    have hge : t.sobj_idx ≥ 0 := by rw [hi]; exact hnonneg
    simp only [TmpTensorEvent.apply, ht, TmpTensor.destroy, hge, if_true]
    refine ⟨?_, ?_, ?_, ?_⟩
    · simp [List.eraseIdx_eq_take_drop_succ]
    · simp [hi]
    · trivial
    · trivial

theorem tmp_tensor_inv_step (s : TmpTensorState) (e : TmpTensorEvent)
    (hnodup : (s.live.map TmpTensor.sobj_idx ++ s.graph.tmp_shared_object_idxs_).Nodup)
    (hbound : ∀ i ∈ s.live.map TmpTensor.sobj_idx ++ s.graph.tmp_shared_object_idxs_,
      0 ≤ i ∧ i < (s.graph.shared_objects_.length : Int)) :
    ((e.apply s).live.map TmpTensor.sobj_idx ++ (e.apply s).graph.tmp_shared_object_idxs_).Nodup ∧
    ∀ i ∈ (e.apply s).live.map TmpTensor.sobj_idx ++ (e.apply s).graph.tmp_shared_object_idxs_,
      0 ≤ i ∧ i < ((e.apply s).graph.shared_objects_.length : Int) := by
  cases e with
  | create args am =>
    obtain ⟨e1, _, _, e4, e5⟩ := tmp_tensor_construct_effect args am s.graph
    cases ho : (TmpTensor.construct args am s.graph).outcome with
    | thrown err =>
      simp only [TmpTensorEvent.apply, ho, e1, e5 err ho]
      have hsub : (s.live.map TmpTensor.sobj_idx ++ s.graph.tmp_shared_object_idxs_.tail).Sublist
          (s.live.map TmpTensor.sobj_idx ++ s.graph.tmp_shared_object_idxs_) :=
        List.Sublist.append_left (List.tail_sublist _) _
      exact ⟨hnodup.sublist hsub, fun i hi => hbound i (hsub.subset hi)⟩
    | returned t =>
      obtain ⟨hidx, hlen⟩ := e4 t ho
      simp only [TmpTensorEvent.apply, ho, e1, List.map_cons, List.cons_append]
      cases hF : s.graph.tmp_shared_object_idxs_ with
      | nil =>
        rw [hF] at hnodup hbound hidx
        simp only [List.headD_nil] at hidx
        have hlen1 : (TmpTensor.construct args am s.graph).graph.shared_objects_.length =
            s.graph.shared_objects_.length + 1 := by
          rw [hlen, hidx]
          simp
        rw [hlen1, hidx]
        simp only [List.tail_nil]
        refine ⟨List.nodup_cons.mpr ⟨?_, hnodup⟩, ?_⟩
        · intro hmem
          have := (hbound _ hmem).2
          omega
        · intro i hi
          rcases List.mem_cons.mp hi with rfl | hi
          · constructor
            · omega
            · push_cast
              omega
          · have := hbound i hi
            push_cast
            omega
      | cons top rest =>
        rw [hF] at hnodup hbound hidx
        simp only [List.headD_cons] at hidx
        have htop := hbound top (by simp)
        have hlen1 : (TmpTensor.construct args am s.graph).graph.shared_objects_.length =
            s.graph.shared_objects_.length := by
          rw [hlen, hidx]
          have : ¬ top < 0 := by omega
          simp only [this, if_false]
          omega
        rw [hlen1, hidx]
        simp only [List.tail_cons]
        have hperm : (top :: (s.live.map TmpTensor.sobj_idx ++ rest)).Perm
            (s.live.map TmpTensor.sobj_idx ++ top :: rest) :=
          (List.perm_middle).symm
        exact ⟨hperm.nodup_iff.mpr hnodup, fun i hi => hbound i (hperm.subset hi)⟩
  | destroy pos =>
    cases ht : s.live[pos]? with
    | none => simpa [TmpTensorEvent.apply, ht] using And.intro hnodup hbound
    | some t =>
      have hi : (s.live.map TmpTensor.sobj_idx)[pos]? = some t.sobj_idx := by
        rw [List.getElem?_map, ht]
        rfl
      have hmem : t.sobj_idx ∈ s.live.map TmpTensor.sobj_idx := List.mem_iff_getElem?.mpr ⟨pos, hi⟩
      have hnonneg := (hbound t.sobj_idx (List.mem_append_left _ hmem)).1
      obtain ⟨d1, d2, d3, _⟩ := tmp_tensor_destroy_step s pos _ _ t.sobj_idx rfl rfl hi hnonneg
      rw [d1, d2, d3]
      have hperm : ((s.live.map TmpTensor.sobj_idx).eraseIdx pos ++
          t.sobj_idx :: s.graph.tmp_shared_object_idxs_).Perm
          (s.live.map TmpTensor.sobj_idx ++ s.graph.tmp_shared_object_idxs_) := by
        refine (List.perm_middle).trans ?_
        rw [← List.cons_append]
        exact List.Perm.append_right _ (perm_cons_eraseIdx _ pos _ hi).symm
      exact ⟨hperm.nodup_iff.mpr hnodup, fun i hi => hbound i (hperm.subset hi)⟩

theorem tmp_tensor_inv_reach (g : ComputeGraph) (events : List TmpTensorEvent)
    (hfree : g.tmp_shared_object_idxs_ = []) :
    ((TmpTensorState.reach g events).live.map TmpTensor.sobj_idx ++
      (TmpTensorState.reach g events).graph.tmp_shared_object_idxs_).Nodup ∧
    ∀ i ∈ (TmpTensorState.reach g events).live.map TmpTensor.sobj_idx ++
        (TmpTensorState.reach g events).graph.tmp_shared_object_idxs_,
      0 ≤ i ∧ i < ((TmpTensorState.reach g events).graph.shared_objects_.length : Int) := by
  induction events using List.reverseRecOn with
  | nil => simp [TmpTensorState.reach, hfree]
  | append_singleton events e ih =>
    rw [tmp_tensor_reach_snoc]
    exact tmp_tensor_inv_step _ e ih.1 ih.2

theorem tmp_tensor_reach_create (g : ComputeGraph) (events : List TmpTensorEvent)
    (args : TmpTensorArgs) (am : Nat) (L F : List Int) (n : Nat)
    (hL : (TmpTensorState.reach g events).live.map TmpTensor.sobj_idx = L)
    (hF : (TmpTensorState.reach g events).graph.tmp_shared_object_idxs_ = F)
    (hn : (TmpTensorState.reach g events).graph.shared_objects_.length = n)
    (h0 : (TmpTensorState.reach g events).graph.values_in_use_ = 0) :
    (TmpTensorState.reach g (events ++ [.create args am])).live.map TmpTensor.sobj_idx =
      F.headD n :: L ∧
    (TmpTensorState.reach g (events ++ [.create args am])).graph.tmp_shared_object_idxs_ =
      F.tail ∧
    (TmpTensorState.reach g (events ++ [.create args am])).graph.shared_objects_.length =
      (if F.headD (n : Int) < 0 then n else max n ((F.headD (n : Int)).toNat + 1)) ∧
    (TmpTensorState.reach g (events ++ [.create args am])).graph.values_in_use_ = 0 := by
  rw [tmp_tensor_reach_snoc]
  exact tmp_tensor_create_step _ args am L F n hL hF hn h0

theorem tmp_tensor_reach_destroy (g : ComputeGraph) (events : List TmpTensorEvent)
    (pos : Nat) (L F : List Int) (n : Nat) (i : Int)
    (hL : (TmpTensorState.reach g events).live.map TmpTensor.sobj_idx = L)
    (hF : (TmpTensorState.reach g events).graph.tmp_shared_object_idxs_ = F)
    (hn : (TmpTensorState.reach g events).graph.shared_objects_.length = n)
    (h0 : (TmpTensorState.reach g events).graph.values_in_use_ = 0)
    (hi : L[pos]? = some i) (hnonneg : 0 ≤ i) :
    (TmpTensorState.reach g (events ++ [.destroy pos])).live.map TmpTensor.sobj_idx =
      L.eraseIdx pos ∧
    (TmpTensorState.reach g (events ++ [.destroy pos])).graph.tmp_shared_object_idxs_ =
      i :: F ∧
    (TmpTensorState.reach g (events ++ [.destroy pos])).graph.shared_objects_.length = n ∧
    (TmpTensorState.reach g (events ++ [.destroy pos])).graph.values_in_use_ = 0 := by
  rw [tmp_tensor_reach_snoc]
  obtain ⟨d1, d2, d3, d4⟩ := tmp_tensor_destroy_step _ pos L F i hL hF hi hnonneg
  exact ⟨d1, d2, by rw [d3]; exact hn, by rw [d4]; exact h0⟩

/-- C23.  On a graph with no outstanding handle, a new `TmpTensor` takes the
number of shared objects as its index when the stack of free indices is empty,
and otherwise the top of the stack, the index most recently returned among
those in it, which is popped.  Hence, from a graph with no shared objects and
an empty stack: after creating T1 and T2, destroying T2 and creating T3, the
index of T3 is 1, that of T2; A created, destroyed, and B created both have
index 0; and A (0), B (1) created, B and then A destroyed, C created gives C
the index 0. -/
theorem tmp_tensor_takes_top_or_fresh (g : ComputeGraph) (args : TmpTensorArgs) (am : Nat)
    (h0 : g.values_in_use_ = 0) :
    (g.tmp_shared_object_idxs_ = [] →
      ∃ vref, (TmpTensor.construct args am g).outcome =
        .returned ⟨(g.shared_objects_.length : Int), vref⟩) ∧
    (∀ top rest, g.tmp_shared_object_idxs_ = top :: rest →
      (∃ vref, (TmpTensor.construct args am g).outcome = .returned ⟨top, vref⟩) ∧
      (TmpTensor.construct args am g).graph.tmp_shared_object_idxs_ = rest) ∧
    (g.tmp_shared_object_idxs_ = [] → g.shared_objects_ = [] →
      ∀ (a1 a2 a3 : TmpTensorArgs) (m1 m2 m3 : Nat),
        (TmpTensorState.reach g [.create a1 m1, .create a2 m2]).live.map TmpTensor.sobj_idx =
          [1, 0] ∧
        (TmpTensorState.reach g [.create a1 m1, .create a2 m2, .destroy 0,
          .create a3 m3]).live.map TmpTensor.sobj_idx = [1, 0] ∧
        (TmpTensorState.reach g [.create a1 m1]).live.map TmpTensor.sobj_idx = [0] ∧
        (TmpTensorState.reach g [.create a1 m1, .destroy 0,
          .create a2 m2]).live.map TmpTensor.sobj_idx = [0] ∧
        (TmpTensorState.reach g [.create a1 m1, .create a2 m2, .destroy 0, .destroy 0,
          .create a3 m3]).live.map TmpTensor.sobj_idx = [0]) := by
  obtain ⟨e1, _, e3, _, _⟩ := tmp_tensor_construct_effect args am g
  refine ⟨?_, ?_, ?_⟩
  · intro hfree
    refine ⟨static_cast_int g.values_.length, ?_⟩
    rw [e3 h0, hfree]
    rfl
  · intro top rest hfree
    refine ⟨⟨static_cast_int g.values_.length, ?_⟩, ?_⟩
    · rw [e3 h0, hfree]
      rfl
    · rw [e1, hfree]
      rfl
  · intro hfree hso a1 a2 a3 m1 m2 m3
    have hn : g.shared_objects_.length = 0 := by rw [hso]; rfl
    -- T1
    obtain ⟨l1, f1, n1, v1⟩ := tmp_tensor_reach_create g [] a1 m1 [] [] 0 rfl hfree hn h0
    have l1 : (TmpTensorState.reach g [.create a1 m1]).live.map TmpTensor.sobj_idx = [0] := l1
    have f1 : (TmpTensorState.reach g [.create a1 m1]).graph.tmp_shared_object_idxs_ = [] := f1
    have n1 : (TmpTensorState.reach g [.create a1 m1]).graph.shared_objects_.length = 1 := n1
    have v1 : (TmpTensorState.reach g [.create a1 m1]).graph.values_in_use_ = 0 := v1
    -- T1, T2
    obtain ⟨l2, f2, n2, v2⟩ := tmp_tensor_reach_create g [.create a1 m1] a2 m2 _ _ _ l1 f1 n1 v1
    have l2 : (TmpTensorState.reach g [.create a1 m1, .create a2 m2]).live.map
        TmpTensor.sobj_idx = [1, 0] := l2
    have f2 : (TmpTensorState.reach g [.create a1 m1, .create a2 m2]).graph.tmp_shared_object_idxs_
        = [] := f2
    have n2 : (TmpTensorState.reach g [.create a1 m1, .create a2 m2]).graph.shared_objects_.length
        = 2 := n2
    have v2 : (TmpTensorState.reach g [.create a1 m1, .create a2 m2]).graph.values_in_use_
        = 0 := v2
    -- T1, T2, end of T2
    obtain ⟨l3, f3, n3, v3⟩ := tmp_tensor_reach_destroy g [.create a1 m1, .create a2 m2] 0
      _ _ _ 1 l2 f2 n2 v2 rfl (by decide)
    have l3 : (TmpTensorState.reach g [.create a1 m1, .create a2 m2, .destroy 0]).live.map
        TmpTensor.sobj_idx = [0] := l3
    have f3 : (TmpTensorState.reach g [.create a1 m1, .create a2 m2,
        .destroy 0]).graph.tmp_shared_object_idxs_ = [1] := f3
    have n3 : (TmpTensorState.reach g [.create a1 m1, .create a2 m2,
        .destroy 0]).graph.shared_objects_.length = 2 := n3
    have v3 : (TmpTensorState.reach g [.create a1 m1, .create a2 m2,
        .destroy 0]).graph.values_in_use_ = 0 := v3
    -- T1, T2, end of T2, T3
    obtain ⟨l4, _, _, _⟩ := tmp_tensor_reach_create g [.create a1 m1, .create a2 m2, .destroy 0]
      a3 m3 _ _ _ l3 f3 n3 v3
    -- A, end of A
    obtain ⟨l5, f5, n5, v5⟩ := tmp_tensor_reach_destroy g [.create a1 m1] 0
      _ _ _ 0 l1 f1 n1 v1 rfl (by decide)
    have l5 : (TmpTensorState.reach g [.create a1 m1, .destroy 0]).live.map
        TmpTensor.sobj_idx = [] := l5
    have f5 : (TmpTensorState.reach g [.create a1 m1,
        .destroy 0]).graph.tmp_shared_object_idxs_ = [0] := f5
    have n5 : (TmpTensorState.reach g [.create a1 m1,
        .destroy 0]).graph.shared_objects_.length = 1 := n5
    have v5 : (TmpTensorState.reach g [.create a1 m1,
        .destroy 0]).graph.values_in_use_ = 0 := v5
    obtain ⟨l6, _, _, _⟩ := tmp_tensor_reach_create g [.create a1 m1, .destroy 0]
      a2 m2 _ _ _ l5 f5 n5 v5
    -- A, B, end of B, end of A
    obtain ⟨l7, f7, n7, v7⟩ := tmp_tensor_reach_destroy g
      [.create a1 m1, .create a2 m2, .destroy 0] 0 _ _ _ 0 l3 f3 n3 v3 rfl (by decide)
    have l7 : (TmpTensorState.reach g [.create a1 m1, .create a2 m2, .destroy 0,
        .destroy 0]).live.map TmpTensor.sobj_idx = [] := l7
    have f7 : (TmpTensorState.reach g [.create a1 m1, .create a2 m2, .destroy 0,
        .destroy 0]).graph.tmp_shared_object_idxs_ = [0, 1] := f7
    have n7 : (TmpTensorState.reach g [.create a1 m1, .create a2 m2, .destroy 0,
        .destroy 0]).graph.shared_objects_.length = 2 := n7
    have v7 : (TmpTensorState.reach g [.create a1 m1, .create a2 m2, .destroy 0,
        .destroy 0]).graph.values_in_use_ = 0 := v7
    obtain ⟨l8, _, _, _⟩ := tmp_tensor_reach_create g
      [.create a1 m1, .create a2 m2, .destroy 0, .destroy 0] a3 m3 _ _ _ l7 f7 n7 v7
    exact ⟨l2, l4, l1, l6, l8⟩

theorem tmp_tensor_takes_top_or_fresh_witness :
    (TmpTensorState.reach
      (ComputeGraph.mk_new
        ⟨false, .kTexture3D, false, .kWidthPacked, false, ⟨1, 1, 1⟩, 0, 0, false⟩)
      [.create ⟨[2, 3], 0, none, none⟩ 0, .create ⟨[4], 0, some .kBuffer, none⟩ 0, .destroy 0,
        .create ⟨[5], 0, none, some .kWidthPacked⟩ 0]).live.map TmpTensor.sobj_idx = [1, 0] :=
  ((tmp_tensor_takes_top_or_fresh
    (ComputeGraph.mk_new
      ⟨false, .kTexture3D, false, .kWidthPacked, false, ⟨1, 1, 1⟩, 0, 0, false⟩)
    ⟨[], 0, none, none⟩ 0 rfl).2.2 rfl rfl ⟨[2, 3], 0, none, none⟩ ⟨[4], 0, some .kBuffer, none⟩
    ⟨[5], 0, none, some .kWidthPacked⟩ 0 0 0).2.1

/-- C24.  In every state reached from a graph with an empty stack of free
indices by creating and destroying `TmpTensor`s in any order, each destroyed
once: the shared-object indices of the live `TmpTensor`s are pairwise distinct,
the stack of free indices holds no index twice, and no index in the stack is
the index of a live `TmpTensor`. -/
theorem tmp_tensor_indices_disjoint (g : ComputeGraph) (events : List TmpTensorEvent)
    (hfree : g.tmp_shared_object_idxs_ = []) :
    ((TmpTensorState.reach g events).live.map TmpTensor.sobj_idx).Nodup ∧
    (TmpTensorState.reach g events).graph.tmp_shared_object_idxs_.Nodup ∧
    ∀ i ∈ (TmpTensorState.reach g events).graph.tmp_shared_object_idxs_,
      i ∉ (TmpTensorState.reach g events).live.map TmpTensor.sobj_idx := by
  obtain ⟨h, _⟩ := tmp_tensor_inv_reach g events hfree
  rw [List.nodup_append] at h
  exact ⟨h.1, h.2.1, fun i hi hlive => h.2.2 hlive hi⟩

theorem tmp_tensor_indices_disjoint_witness :
    (TmpTensorState.reach
      (ComputeGraph.mk_new
        ⟨false, .kTexture3D, false, .kWidthPacked, false, ⟨1, 1, 1⟩, 0, 0, false⟩)
      [.create ⟨[2, 3], 0, none, none⟩ 0, .create ⟨[4], 0, none, none⟩ 0, .destroy 1,
        .create ⟨[5], 0, none, none⟩ 0, .destroy 0]).graph.tmp_shared_object_idxs_.Nodup :=
  (tmp_tensor_indices_disjoint
    (ComputeGraph.mk_new
      ⟨false, .kTexture3D, false, .kWidthPacked, false, ⟨1, 1, 1⟩, 0, 0, false⟩)
    [.create ⟨[2, 3], 0, none, none⟩ 0, .create ⟨[4], 0, none, none⟩ 0, .destroy 1,
      .create ⟨[5], 0, none, none⟩ 0, .destroy 0] rfl).2.1

/-! ### The command pool -/

theorem resize_length (l : List VkHandle) (n : Nat) : (resize l n).length = n := by
  simp only [resize, List.length_append, List.length_take, List.length_replicate]
  omega

theorem resize_getElem?_lt (l : List VkHandle) (n i : Nat) (hi : i < l.length) (hn : i < n) :
    (resize l n)[i]? = l[i]? := by
  simp only [resize]
  rw [List.getElem?_append_left (by simp only [List.length_take]; omega)]
  rw [List.getElem?_take_of_lt hn]

theorem write_handles_length (handles : Nat → VkHandle) (offset count : Nat)
    (l : List VkHandle) : (write_handles handles offset count l).length = l.length := by
  induction count with
  | zero => rfl
  | succ c ih => simp [write_handles, ih]

theorem write_handles_getElem?_lt (handles : Nat → VkHandle) (offset count : Nat)
    (l : List VkHandle) (i : Nat) (hi : i < offset) :
    (write_handles handles offset count l)[i]? = l[i]? := by
  induction count with
  | zero => rfl
  | succ c ih =>
    simp only [write_handles]
    rw [List.getElem?_set_ne (by omega), ih]

theorem create_semaphores_length (r : BatchResult) (device : VkHandle) (in_use : Nat)
    (remaining i : Nat) (l : List VkHandle) :
    (create_semaphores r device in_use remaining i l).semaphores.length = l.length := by
  induction remaining generalizing i l with
  | zero => rfl
  | succ n ih =>
    simp only [create_semaphores]
    split_ifs
    · simp [ih]
    · simp

theorem create_semaphores_getElem?_lt (r : BatchResult) (device : VkHandle) (in_use : Nat)
    (remaining i : Nat) (l : List VkHandle) (j : Nat) (hj : j < in_use) :
    (create_semaphores r device in_use remaining i l).semaphores[j]? = l[j]? := by
  induction remaining generalizing i l with
  | zero => rfl
  | succ n ih =>
    simp only [create_semaphores]
    split_ifs
    · simp only [ih]
      rw [List.getElem?_set_ne (by omega)]
    · simp only
      rw [List.getElem?_set_ne (by omega)]

theorem create_semaphores_ok (r : BatchResult) (device : VkHandle) (in_use : Nat)
    (remaining i : Nat) (l : List VkHandle) (hok : ∀ k, r.semaphore_status k = VK_SUCCESS) :
    (create_semaphores r device in_use remaining i l).outcome = .returned () ∧
    ((create_semaphores r device in_use remaining i l).calls.map
      PoolCall.semaphores_created).sum = remaining ∧
    ((create_semaphores r device in_use remaining i l).calls.map
      PoolCall.buffers_allocated).sum = 0 := by
  induction remaining generalizing i l with
  | zero => simp [create_semaphores]
  | succ n ih =>
    obtain ⟨h1, h2, h3⟩ := ih (i + 1) (l.set (in_use + i) (r.semaphores i))
    simp only [create_semaphores, hok i, if_true, h1, List.map_cons, List.sum_cons, h2, h3]
    refine ⟨trivial, ?_, ?_⟩
    · show 1 + n = n + 1
      omega
    · show 0 + 0 = 0
      rfl

theorem allocate_new_batch_noop (count : Nat) (r : BatchResult) (p : CommandPool)
    (h : p.in_use_ < p.buffers_.length) :
    (p.allocate_new_batch count r).outcome = .returned () ∧
    (p.allocate_new_batch count r).pool = p ∧
    (p.allocate_new_batch count r).calls = [] := by
  simp [CommandPool.allocate_new_batch, h]

theorem allocate_new_batch_frame (count : Nat) (r : BatchResult) (p : CommandPool) :
    (p.allocate_new_batch count r).pool.in_use_ = p.in_use_ ∧
    (p.allocate_new_batch count r).pool.config_ = p.config_ ∧
    (∀ i, i < p.buffers_.length →
      (p.allocate_new_batch count r).pool.buffers_[i]? = p.buffers_[i]?) ∧
    (∀ i, i < p.buffers_.length → i < p.semaphores_.length →
      (p.allocate_new_batch count r).pool.semaphores_[i]? = p.semaphores_[i]?) := by
  by_cases h : p.in_use_ < p.buffers_.length
  · simp [CommandPool.allocate_new_batch, h]
  · have hge : p.buffers_.length ≤ p.in_use_ := Nat.le_of_not_lt h
    simp only [CommandPool.allocate_new_batch, h, if_false]
    split_ifs
    · refine ⟨rfl, rfl, fun i hi => ?_, fun i hi hs => ?_⟩
      · simp only
        rw [write_handles_getElem?_lt _ _ _ _ _ (by omega),
          resize_getElem?_lt _ _ _ hi (by omega)]
      · simp only
        rw [create_semaphores_getElem?_lt _ _ _ _ _ _ _ (by omega),
          resize_getElem?_lt _ _ _ hs (by rw [resize_length]; omega)]
    · refine ⟨rfl, rfl, fun i hi => ?_, fun i hi hs => ?_⟩
      · simp only
        rw [write_handles_getElem?_lt _ _ _ _ _ (by omega),
          resize_getElem?_lt _ _ _ hi (by omega)]
      · simp only
        rw [resize_getElem?_lt _ _ _ hs (by rw [resize_length]; omega)]

theorem allocate_new_batch_grow (count : Nat) (r : BatchResult) (p : CommandPool)
    (h : ¬ p.in_use_ < p.buffers_.length) :
    (p.allocate_new_batch count r).pool.buffers_.length = p.buffers_.length + count ∧
    (p.allocate_new_batch count r).pool.semaphores_.length =
      p.buffers_.length + count + count ∧
    (r.ok →
      (p.allocate_new_batch count r).outcome = .returned () ∧
      ((p.allocate_new_batch count r).calls.map PoolCall.semaphores_created).sum = count ∧
      ((p.allocate_new_batch count r).calls.map PoolCall.buffers_allocated).sum = count) := by
  simp only [CommandPool.allocate_new_batch, h, if_false]
  split_ifs with hs
  · refine ⟨?_, ?_, fun hok => ?_⟩
    · simp [write_handles_length, resize_length]
    · simp [create_semaphores_length, resize_length]
    · obtain ⟨h1, h2, h3⟩ := create_semaphores_ok r p.device_ p.in_use_ count 0
        (resize p.semaphores_ ((resize p.buffers_ (p.buffers_.length + count)).length + count))
        hok.2
      simp [h1, h2, h3, PoolCall.semaphores_created, PoolCall.buffers_allocated]
  · refine ⟨?_, ?_, fun hok => absurd hok.1 hs⟩
    · simp [write_handles_length, resize_length]
    · simp [resize_length]

theorem create_semaphores_not_out_of_range (r : BatchResult) (device : VkHandle) (in_use : Nat)
    (remaining i : Nat) (l : List VkHandle) :
    (create_semaphores r device in_use remaining i l).outcome ≠ .thrown .out_of_range := by
  induction remaining generalizing i l with
  | zero => simp [create_semaphores]
  | succ n ih =>
    simp only [create_semaphores]
    split_ifs
    · exact ih _ _
    · simp

theorem allocate_new_batch_not_out_of_range (count : Nat) (r : BatchResult) (p : CommandPool) :
    (p.allocate_new_batch count r).outcome ≠ .thrown .out_of_range := by
  simp only [CommandPool.allocate_new_batch]
  split_ifs
  · simp
  · exact create_semaphores_not_out_of_range _ _ _ _ _ _
  · simp

theorem get_new_cmd_effect (reusable : Bool) (r : BatchResult) (p : CommandPool)
    (hin : p.in_use_ ≤ p.buffers_.length) (hsem : p.buffers_.length ≤ p.semaphores_.length) :
    (p.get_new_cmd reusable r).pool.config_ = p.config_ ∧
    p.buffers_.length ≤ (p.get_new_cmd reusable r).pool.buffers_.length ∧
    (p.get_new_cmd reusable r).pool.in_use_ ≤ (p.get_new_cmd reusable r).pool.buffers_.length ∧
    (p.get_new_cmd reusable r).pool.buffers_.length ≤
      (p.get_new_cmd reusable r).pool.semaphores_.length ∧
    (∀ i, i < p.buffers_.length →
      (p.get_new_cmd reusable r).pool.buffers_[i]? = p.buffers_[i]? ∧
      (p.get_new_cmd reusable r).pool.semaphores_[i]? = p.semaphores_[i]?) ∧
    (1 ≤ p.config_.cmd_pool_batch_size →
      (p.get_new_cmd reusable r).outcome ≠ .thrown .out_of_range) ∧
    (∀ cmd, (p.get_new_cmd reusable r).outcome = .returned cmd →
      (p.get_new_cmd reusable r).pool.buffers_[p.in_use_]? = some cmd.handle_ ∧
      (p.get_new_cmd reusable r).pool.semaphores_[p.in_use_]? = some cmd.signal_semaphore_ ∧
      cmd.flags_ = (if reusable then 0 else VK_COMMAND_BUFFER_USAGE_ONE_TIME_SUBMIT_BIT) ∧
      (p.get_new_cmd reusable r).pool.in_use_ = p.in_use_ + 1) ∧
    (p.in_use_ < p.buffers_.length →
      (p.get_new_cmd reusable r).calls = [] ∧
      ∃ cmd, (p.get_new_cmd reusable r).outcome = .returned cmd) := by
  obtain ⟨f1, f2, f3, f4⟩ := allocate_new_batch_frame p.config_.cmd_pool_batch_size r p
  have hlen : p.buffers_.length ≤
        (p.allocate_new_batch p.config_.cmd_pool_batch_size r).pool.buffers_.length ∧
      (p.allocate_new_batch p.config_.cmd_pool_batch_size r).pool.buffers_.length ≤
        (p.allocate_new_batch p.config_.cmd_pool_batch_size r).pool.semaphores_.length ∧
      (1 ≤ p.config_.cmd_pool_batch_size →
        p.in_use_ < (p.allocate_new_batch p.config_.cmd_pool_batch_size r).pool.buffers_.length) := by
    by_cases h : p.in_use_ < p.buffers_.length
    · rw [(allocate_new_batch_noop _ r p h).2.1]
      exact ⟨le_refl _, hsem, fun _ => h⟩
    · obtain ⟨g1, g2, _⟩ := allocate_new_batch_grow p.config_.cmd_pool_batch_size r p h
      rw [g1, g2]
      exact ⟨by omega, by omega, fun hb => by omega⟩
  obtain ⟨l1, l2, l3⟩ := hlen
  have hnoor := allocate_new_batch_not_out_of_range p.config_.cmd_pool_batch_size r p
  have hnoop : p.in_use_ < p.buffers_.length →
      (p.get_new_cmd reusable r).calls = [] ∧
      ∃ cmd, (p.get_new_cmd reusable r).outcome = .returned cmd := by
    intro h
    obtain ⟨n1, n2, n3⟩ := allocate_new_batch_noop p.config_.cmd_pool_batch_size r p h
    have hb : p.in_use_ < p.buffers_.length := h
    have hs : p.in_use_ < p.semaphores_.length := by omega
    simp only [CommandPool.get_new_cmd, n1, n2, n3]
    rw [List.getElem?_eq_getElem hb, List.getElem?_eq_getElem hs]
    exact ⟨rfl, _, rfl⟩
  refine ⟨?_, ?_, ?_, ?_, ?_, ?_, ?_, hnoop⟩
  all_goals
    simp only [CommandPool.get_new_cmd]
    cases ho : (p.allocate_new_batch p.config_.cmd_pool_batch_size r).outcome with
    | thrown e =>
      first
        | exact f2
        | exact l1
        | (rw [f1]; exact le_trans hin l1)
        | exact l2
        | exact fun i hi => ⟨f3 i hi, f4 i hi (by omega)⟩
        | (intro _ hc; cases hc; exact absurd ho hnoor)
        | (intro cmd hc; cases hc)
    | returned u =>
      simp only
      cases hb : (p.allocate_new_batch p.config_.cmd_pool_batch_size r).pool.buffers_[
          (p.allocate_new_batch p.config_.cmd_pool_batch_size r).pool.in_use_]? with
      | none =>
        first
          | exact f2
          | exact l1
          | (rw [f1]; exact le_trans hin l1)
          | exact l2
          | exact fun i hi => ⟨f3 i hi, f4 i hi (by omega)⟩
          | (intro hbatch
             have := l3 hbatch
             rw [f1, List.getElem?_eq_none_iff] at hb
             omega)
          | (intro cmd hc; cases hc)
      | some handle =>
        cases hs : (p.allocate_new_batch p.config_.cmd_pool_batch_size r).pool.semaphores_[
            (p.allocate_new_batch p.config_.cmd_pool_batch_size r).pool.in_use_]? with
        | none =>
          first
            | exact f2
            | exact l1
            | (rw [f1]; exact le_trans hin l1)
            | exact l2
            | exact fun i hi => ⟨f3 i hi, f4 i hi (by omega)⟩
            | (intro hbatch
               have := l3 hbatch
               rw [f1, List.getElem?_eq_none_iff] at hs
               omega)
            | (intro cmd hc; cases hc)
        | some semaphore =>
          have hlt := (List.getElem?_eq_some_iff.mp hb).1
          first
            | exact f2
            | exact l1
            | (simp only; omega)
            | exact l2
            | exact fun i hi => ⟨f3 i hi, f4 i hi (by omega)⟩
            | (intro _ hc; cases hc; done)
            | (intro cmd hc
               cases hc
               rw [f1] at hb hs
               refine ⟨hb, hs, ?_, by rw [f1]⟩
               cases reusable <;> rfl)

theorem pool_run_snoc (events : List PoolEvent) (e : PoolEvent)
    (s : CommandPool × List PoolCall) :
    CommandPool.run (events ++ [e]) s = e.apply (CommandPool.run events s) := by
  simp [CommandPool.run, List.foldl_append]

theorem pool_event_frame (e : PoolEvent) (s : CommandPool × List PoolCall)
    (hin : s.1.in_use_ ≤ s.1.buffers_.length)
    (hsem : s.1.buffers_.length ≤ s.1.semaphores_.length) :
    (e.apply s).1.config_ = s.1.config_ ∧
    s.1.buffers_.length ≤ (e.apply s).1.buffers_.length ∧
    (e.apply s).1.in_use_ ≤ (e.apply s).1.buffers_.length ∧
    (e.apply s).1.buffers_.length ≤ (e.apply s).1.semaphores_.length ∧
    (∀ i, i < s.1.buffers_.length →
      (e.apply s).1.buffers_[i]? = s.1.buffers_[i]? ∧
      (e.apply s).1.semaphores_[i]? = s.1.semaphores_[i]?) := by
  cases e with
  | get_new_cmd reusable r =>
    obtain ⟨h1, h2, h3, h4, h5, _⟩ := get_new_cmd_effect reusable r s.1 hin hsem
    exact ⟨h1, h2, h3, h4, h5⟩
  | flush status =>
    simp only [PoolEvent.apply, CommandPool.flush]
    split_ifs
    · exact ⟨rfl, le_refl _, Nat.zero_le _, hsem, fun i _ => ⟨rfl, rfl⟩⟩
    · exact ⟨rfl, le_refl _, hin, hsem, fun i _ => ⟨rfl, rfl⟩⟩

theorem pool_run_frame (events : List PoolEvent) (s : CommandPool × List PoolCall)
    (hin : s.1.in_use_ ≤ s.1.buffers_.length)
    (hsem : s.1.buffers_.length ≤ s.1.semaphores_.length) :
    (CommandPool.run events s).1.config_ = s.1.config_ ∧
    s.1.buffers_.length ≤ (CommandPool.run events s).1.buffers_.length ∧
    (CommandPool.run events s).1.in_use_ ≤ (CommandPool.run events s).1.buffers_.length ∧
    (CommandPool.run events s).1.buffers_.length ≤
      (CommandPool.run events s).1.semaphores_.length ∧
    (∀ i, i < s.1.buffers_.length →
      (CommandPool.run events s).1.buffers_[i]? = s.1.buffers_[i]? ∧
      (CommandPool.run events s).1.semaphores_[i]? = s.1.semaphores_[i]?) := by
  induction events using List.reverseRecOn with
  | nil => simp [CommandPool.run, hin, hsem]
  | append_singleton events e ih =>
    obtain ⟨i1, i2, i3, i4, i5⟩ := ih
    obtain ⟨h1, h2, h3, h4, h5⟩ := pool_event_frame e (CommandPool.run events s) i3 i4
    rw [pool_run_snoc]
    refine ⟨h1.trans i1, le_trans i2 h2, h3, h4, fun i hi => ?_⟩
    obtain ⟨a, b⟩ := h5 i (by omega)
    obtain ⟨c, d⟩ := i5 i hi
    exact ⟨a.trans c, b.trans d⟩

/-- With a batch size of at least 1 and all GPU calls succeeding, `get_new_cmd`
returns a command buffer. -/
theorem get_new_cmd_returns (reusable : Bool) (r : BatchResult) (p : CommandPool)
    (hin : p.in_use_ ≤ p.buffers_.length) (hsem : p.buffers_.length ≤ p.semaphores_.length)
    (hbatch : 1 ≤ p.config_.cmd_pool_batch_size) (hr : r.ok) :
    ∃ cmd, (p.get_new_cmd reusable r).outcome = .returned cmd := by
  obtain ⟨_, _, _, _, _, e6, _, e8⟩ := get_new_cmd_effect reusable r p hin hsem
  by_cases hfree : p.in_use_ < p.buffers_.length
  · exact (e8 hfree).2
  · have halloc : (p.allocate_new_batch p.config_.cmd_pool_batch_size r).outcome =
        .returned () :=
      ((allocate_new_batch_grow p.config_.cmd_pool_batch_size r p hfree).2.2 hr).1
    have hne := e6 hbatch
    unfold CommandPool.get_new_cmd at hne ⊢
    simp only [halloc] at hne ⊢
    cases hb : (p.allocate_new_batch p.config_.cmd_pool_batch_size r).pool.buffers_[
        (p.allocate_new_batch p.config_.cmd_pool_batch_size r).pool.in_use_]? with
    | none => simp [hb] at hne
    | some handle =>
      cases hs : (p.allocate_new_batch p.config_.cmd_pool_batch_size r).pool.semaphores_[
          (p.allocate_new_batch p.config_.cmd_pool_batch_size r).pool.in_use_]? with
      | none => simp [hb, hs] at hne
      | some semaphore => exact ⟨_, rfl⟩

/-- Successive calls of `get_new_cmd` on a pool with a batch size of at least 1,
all GPU calls succeeding: every call returns a command buffer, the k-th one the
handle and the semaphore at position `in_use_ + k` of the arrays, the count
`in_use_` advances by one with every call, and the positions below the old
`buffers_.size()` keep their entries. -/
theorem get_new_cmds_effect (rs : List (Bool × BatchResult)) :
    ∀ (p : CommandPool), p.in_use_ ≤ p.buffers_.length →
      p.buffers_.length ≤ p.semaphores_.length → 1 ≤ p.config_.cmd_pool_batch_size →
      (∀ a ∈ rs, a.2.ok) →
      (p.get_new_cmds rs).2.config_ = p.config_ ∧
      (p.get_new_cmds rs).2.in_use_ = p.in_use_ + rs.length ∧
      (p.get_new_cmds rs).2.in_use_ ≤ (p.get_new_cmds rs).2.buffers_.length ∧
      (p.get_new_cmds rs).2.buffers_.length ≤ (p.get_new_cmds rs).2.semaphores_.length ∧
      p.buffers_.length ≤ (p.get_new_cmds rs).2.buffers_.length ∧
      (∀ i, i < p.buffers_.length →
        (p.get_new_cmds rs).2.buffers_[i]? = p.buffers_[i]? ∧
        (p.get_new_cmds rs).2.semaphores_[i]? = p.semaphores_[i]?) ∧
      (∀ k, k < rs.length → ∃ cmd,
        (p.get_new_cmds rs).1[k]? = some (.returned cmd) ∧
        (p.get_new_cmds rs).2.buffers_[p.in_use_ + k]? = some cmd.handle_ ∧
        (p.get_new_cmds rs).2.semaphores_[p.in_use_ + k]? = some cmd.signal_semaphore_) := by
  induction rs with
  | nil =>
    intro p hin hsem _ _
    exact ⟨rfl, rfl, hin, hsem, le_refl _, fun i _ => ⟨rfl, rfl⟩, fun k hk => absurd hk (by simp)⟩
  | cons a rest ih =>
    intro p hin hsem hbatch hok
    obtain ⟨e1, e2, e3, e4, e5, _, e7, _⟩ := get_new_cmd_effect a.1 a.2 p hin hsem
    obtain ⟨cmd, hcmd⟩ := get_new_cmd_returns a.1 a.2 p hin hsem hbatch
      (hok a (List.mem_cons_self _ _))
    obtain ⟨s1, s2, _, s4⟩ := e7 cmd hcmd
    have hlt : p.in_use_ < (p.get_new_cmd a.1 a.2).pool.buffers_.length :=
      (List.getElem?_eq_some_iff.mp s1).1
    obtain ⟨i1, i2, i3, i4, i5, i6, i7⟩ := ih (p.get_new_cmd a.1 a.2).pool e3 e4
      (by rw [e1]; exact hbatch) (fun b hb => hok b (List.mem_cons_of_mem _ hb))
    simp only [CommandPool.get_new_cmds, List.length_cons]
    refine ⟨i1.trans e1, by rw [i2, s4]; omega, i3, i4, le_trans e2 i5, ?_, ?_⟩
    · intro i hi
      obtain ⟨f1, f2⟩ := i6 i (lt_of_lt_of_le hi e2)
      obtain ⟨g1, g2⟩ := e5 i hi
      exact ⟨f1.trans g1, f2.trans g2⟩
    · intro k hk
      cases k with
      | zero =>
        obtain ⟨f1, f2⟩ := i6 p.in_use_ hlt
        exact ⟨cmd, by simp [hcmd], by simpa using f1.trans s1, by simpa using f2.trans s2⟩
      | succ k =>
        obtain ⟨cmd2, c1, c2, c3⟩ := i7 k (by omega)
        rw [s4] at c2 c3
        refine ⟨cmd2, by simpa using c1, ?_, ?_⟩
        · rw [show p.in_use_ + (k + 1) = p.in_use_ + 1 + k by omega]
          exact c2
        · rw [show p.in_use_ + (k + 1) = p.in_use_ + 1 + k by omega]
          exact c3

/-- C26.  Take a pool on which no command buffer is in use, as after
construction and after a flush, with `buffers_.size() ≤ semaphores_.size()` and
a batch size of at least 1, and let all GPU calls of the two rounds below
succeed.  A first round of calls of `get_new_cmd` returns a command buffer
every time; the k-th call reads position k of both arrays, which lies inside
them, and `in_use_` counts the calls of the round.  After any further calls of
`get_new_cmd` and `flush`, a successful `flush` sets `in_use_` to 0 and changes
nothing else, and in the round of `get_new_cmd` calls that follows it the k-th
call returns the same handle with the same signal semaphore as the k-th call
of the first round; the positions of both arrays below `buffers_.size()` are
never changed by later calls. -/
theorem get_new_cmd_slot_is_stable (p : CommandPool)
    (round1 round2 : List (Bool × BatchResult)) (events : List PoolEvent)
    (hin : p.in_use_ = 0) (hsem : p.buffers_.length ≤ p.semaphores_.length)
    (hbatch : 1 ≤ p.config_.cmd_pool_batch_size)
    (h1 : ∀ a ∈ round1, a.2.ok) (h2 : ∀ a ∈ round2, a.2.ok) :
    (p.get_new_cmds round1).2.in_use_ = round1.length ∧
    (∀ k, k < round1.length →
      k < (p.get_new_cmds round1).2.buffers_.length ∧
      k < (p.get_new_cmds round1).2.semaphores_.length ∧
      ∃ cmd,
        (p.get_new_cmds round1).1[k]? = some (.returned cmd) ∧
        (p.get_new_cmds round1).2.buffers_[k]? = some cmd.handle_ ∧
        (p.get_new_cmds round1).2.semaphores_[k]? = some cmd.signal_semaphore_) ∧
    ((CommandPool.run events ((p.get_new_cmds round1).2, [])).1.flush VK_SUCCESS).pool =
      { (CommandPool.run events ((p.get_new_cmds round1).2, [])).1 with in_use_ := 0 } ∧
    (((CommandPool.run events ((p.get_new_cmds round1).2, [])).1.flush
      VK_SUCCESS).pool.get_new_cmds round2).2.in_use_ = round2.length ∧
    (∀ k, k < round1.length → k < round2.length →
      ∃ cmd cmd2,
        (p.get_new_cmds round1).1[k]? = some (.returned cmd) ∧
        (((CommandPool.run events ((p.get_new_cmds round1).2, [])).1.flush
          VK_SUCCESS).pool.get_new_cmds round2).1[k]? = some (.returned cmd2) ∧
        cmd2.handle_ = cmd.handle_ ∧ cmd2.signal_semaphore_ = cmd.signal_semaphore_) ∧
    (∀ (later : List PoolEvent) (calls : List PoolCall) (i : Nat), i < p.buffers_.length →
      (CommandPool.run later (p, calls)).1.buffers_[i]? = p.buffers_[i]? ∧
      (CommandPool.run later (p, calls)).1.semaphores_[i]? = p.semaphores_[i]?) := by
  have hin' : p.in_use_ ≤ p.buffers_.length := by omega
  obtain ⟨a1, a2, a3, a4, _, _, a7⟩ := get_new_cmds_effect round1 p hin' hsem hbatch h1
  obtain ⟨f1, f2, f3, f4, f5⟩ :=
    pool_run_frame events ((p.get_new_cmds round1).2, []) a3 a4
  have hflush : ((CommandPool.run events ((p.get_new_cmds round1).2, [])).1.flush
      VK_SUCCESS).pool =
      { (CommandPool.run events ((p.get_new_cmds round1).2, [])).1 with in_use_ := 0 } := by
    simp [CommandPool.flush]
  have hQin : ((CommandPool.run events ((p.get_new_cmds round1).2, [])).1.flush
      VK_SUCCESS).pool.in_use_ = 0 := by rw [hflush]
  have hQb : ((CommandPool.run events ((p.get_new_cmds round1).2, [])).1.flush
      VK_SUCCESS).pool.buffers_ =
      (CommandPool.run events ((p.get_new_cmds round1).2, [])).1.buffers_ := by rw [hflush]
  have hQs : ((CommandPool.run events ((p.get_new_cmds round1).2, [])).1.flush
      VK_SUCCESS).pool.semaphores_ =
      (CommandPool.run events ((p.get_new_cmds round1).2, [])).1.semaphores_ := by rw [hflush]
  have hQc : ((CommandPool.run events ((p.get_new_cmds round1).2, [])).1.flush
      VK_SUCCESS).pool.config_ =
      (CommandPool.run events ((p.get_new_cmds round1).2, [])).1.config_ := by rw [hflush]
  obtain ⟨_, b2, _, _, _, b6, b7⟩ := get_new_cmds_effect round2
    ((CommandPool.run events ((p.get_new_cmds round1).2, [])).1.flush VK_SUCCESS).pool
    (by rw [hQin]; exact Nat.zero_le _) (by rw [hQb, hQs]; exact f4)
    (by rw [hQc]; exact (f1.trans a1).symm ▸ hbatch) h2
  have hslot : ∀ k, k < round1.length →
      k < (p.get_new_cmds round1).2.buffers_.length ∧
      k < (p.get_new_cmds round1).2.semaphores_.length ∧
      ∃ cmd,
        (p.get_new_cmds round1).1[k]? = some (.returned cmd) ∧
        (p.get_new_cmds round1).2.buffers_[k]? = some cmd.handle_ ∧
        (p.get_new_cmds round1).2.semaphores_[k]? = some cmd.signal_semaphore_ := by
    intro k hk
    obtain ⟨cmd, c1, c2, c3⟩ := a7 k hk
    rw [hin, Nat.zero_add] at c2 c3
    exact ⟨(List.getElem?_eq_some_iff.mp c2).1, (List.getElem?_eq_some_iff.mp c3).1,
      cmd, c1, c2, c3⟩
  refine ⟨by rw [a2, hin, Nat.zero_add], hslot, hflush, ?_, ?_, ?_⟩
  · rw [b2, hQin, Nat.zero_add]
  · intro k hk1 hk2
    obtain ⟨hkb, _, cmd, c1, c2, c3⟩ := hslot k hk1
    obtain ⟨cmd2, d1, d2, d3⟩ := b7 k hk2
    rw [hQin, Nat.zero_add] at d2 d3
    have hk3 : k < ((CommandPool.run events ((p.get_new_cmds round1).2, [])).1.flush
        VK_SUCCESS).pool.buffers_.length := by
      rw [hQb]
      exact lt_of_lt_of_le hkb f2
    obtain ⟨g1, g2⟩ := b6 k hk3
    rw [hQb] at g1
    rw [hQs] at g2
    obtain ⟨r1, r2⟩ := f5 k hkb
    exact ⟨cmd, cmd2, c1, d1,
      (Option.some.inj (d2.symm.trans (g1.trans (r1.trans c2)))),
      (Option.some.inj (d3.symm.trans (g2.trans (r2.trans c3))))⟩
  · intro later calls i hi
    exact (pool_run_frame later (p, calls) hin' hsem).2.2.2.2 i hi

theorem get_new_cmd_slot_is_stable_witness :
    ((CommandPool.construct 1 0 ⟨1, 2⟩ VK_SUCCESS 5
        ⟨VK_SUCCESS, fun i => 10 + i, fun _ => VK_SUCCESS, fun i => 20 + i⟩).pool.get_new_cmds
      [(false, ⟨VK_SUCCESS, fun i => 30 + i, fun _ => VK_SUCCESS, fun i => 40 + i⟩),
        (true, ⟨VK_SUCCESS, fun i => 50 + i, fun _ => VK_SUCCESS, fun i => 60 + i⟩)]
      ).2.in_use_ = 2 :=
  (get_new_cmd_slot_is_stable
    (CommandPool.construct 1 0 ⟨1, 2⟩ VK_SUCCESS 5
      ⟨VK_SUCCESS, fun i => 10 + i, fun _ => VK_SUCCESS, fun i => 20 + i⟩).pool
    [(false, ⟨VK_SUCCESS, fun i => 30 + i, fun _ => VK_SUCCESS, fun i => 40 + i⟩),
      (true, ⟨VK_SUCCESS, fun i => 50 + i, fun _ => VK_SUCCESS, fun i => 60 + i⟩)]
    [(true, ⟨VK_SUCCESS, fun i => 70 + i, fun _ => VK_SUCCESS, fun i => 80 + i⟩)]
    [.flush VK_SUCCESS] (by decide) (by decide) (by decide)
    (by
      intro a ha
      simp only [List.mem_cons, List.mem_singleton, List.not_mem_nil, or_false] at ha
      rcases ha with rfl | rfl <;> exact ⟨rfl, fun _ => rfl⟩)
    (by
      intro a ha
      simp only [List.mem_singleton] at ha
      subst ha
      exact ⟨rfl, fun _ => rfl⟩)).1

/-! ### Rounds of submission and dispatch without a pipeline -/

theorem end_and_get_submit_handle_reusable (status : VkResult) (cb : CommandBuffer)
    (hstate : cb.state_ = State.RECORDING ∧ status = VK_SUCCESS ∨ cb.state_ = State.SUBMITTED)
    (hre : cb.is_reusable = true) :
    (cb.end_and_get_submit_handle status).outcome = .returned cb.handle_ ∧
    (cb.end_and_get_submit_handle status).cb = { cb with state_ := State.SUBMITTED } := by
  rcases hstate with ⟨hs, hst⟩ | hs
  · simp [CommandBuffer.end_and_get_submit_handle, CommandBuffer.end_, hs, hst,
      CommandBuffer.get_submit_handle, CommandBuffer.is_reusable,
      show cb.flags_ % 2 = 0 by simpa [CommandBuffer.is_reusable] using hre]
  · simp [CommandBuffer.end_and_get_submit_handle, CommandBuffer.end_, hs,
      CommandBuffer.get_submit_handle, CommandBuffer.is_reusable,
      show cb.flags_ % 2 = 0 by simpa [CommandBuffer.is_reusable] using hre]

theorem submit_rounds_submitted (statuses : List VkResult) (cb : CommandBuffer)
    (hstate : cb.state_ = State.SUBMITTED) (hre : cb.is_reusable = true) :
    CommandBuffer.submit_rounds statuses cb =
      some (List.replicate statuses.length cb.handle_, cb) := by
  induction statuses with
  | nil => rfl
  | cons status rest ih =>
    obtain ⟨h1, h2⟩ := end_and_get_submit_handle_reusable status cb (Or.inr hstate) hre
    have h3 : ({ cb with state_ := State.SUBMITTED } : CommandBuffer) = cb := by
      cases cb
      simp_all
    rw [h3] at h2
    simp [CommandBuffer.submit_rounds, h1, h2, ih, List.replicate_succ]

/-- C37.  For a reusable command buffer in state RECORDING that holds a
handle, and k at least 1: k successive rounds of `end()` followed by
`get_submit_handle(false)`, the `vkEndCommandBuffer` of the first round
succeeding, all return normally, each returns the handle of the buffer, which
is not null, and the buffer is left in state SUBMITTED with nothing else
changed, the handle included.  For a buffer that is not reusable the first
round returns the handle and leaves the buffer with a null handle. -/
theorem reusable_buffer_submits_repeatedly (cb : CommandBuffer) (rest : List VkResult)
    (hstate : cb.state_ = State.RECORDING) (hhandle : cb.handle_ ≠ VK_NULL_HANDLE) :
    (cb.is_reusable = true →
      CommandBuffer.submit_rounds (VK_SUCCESS :: rest) cb =
        some (List.replicate (rest.length + 1) cb.handle_,
          { cb with state_ := State.SUBMITTED }) ∧
      ∀ h ∈ List.replicate (rest.length + 1) cb.handle_, h ≠ VK_NULL_HANDLE) ∧
    (cb.is_reusable = false →
      (cb.end_and_get_submit_handle VK_SUCCESS).outcome = .returned cb.handle_ ∧
      (cb.end_and_get_submit_handle VK_SUCCESS).cb =
        { cb with state_ := State.SUBMITTED, handle_ := VK_NULL_HANDLE }) := by
  constructor
  · intro hre
    obtain ⟨h1, h2⟩ := end_and_get_submit_handle_reusable VK_SUCCESS cb
      (Or.inl ⟨hstate, rfl⟩) hre
    have h3 := submit_rounds_submitted rest { cb with state_ := State.SUBMITTED } rfl hre
    refine ⟨?_, ?_⟩
    · simp [CommandBuffer.submit_rounds, h1, h2, h3, List.replicate_succ]
    · intro h hmem
      rw [List.eq_of_mem_replicate hmem]
      exact hhandle
  · intro hnr
    have hf : ¬ cb.flags_ % 2 = 0 := by simpa [CommandBuffer.is_reusable] using hnr
    simp [CommandBuffer.end_and_get_submit_handle, CommandBuffer.end_, hstate,
      CommandBuffer.get_submit_handle, CommandBuffer.is_reusable, hf, CommandBuffer.invalidate]

theorem reusable_buffer_submits_repeatedly_witness :
    CommandBuffer.submit_rounds [VK_SUCCESS, VK_SUCCESS, VK_SUCCESS]
        { CommandBuffer.mk_new 7 9 0 with state_ := State.RECORDING } =
      some ([7, 7, 7], { CommandBuffer.mk_new 7 9 0 with state_ := State.SUBMITTED }) ∧
    (CommandBuffer.end_and_get_submit_handle VK_SUCCESS
        { CommandBuffer.mk_new 7 9 1 with state_ := State.RECORDING }).cb.handle_ =
      VK_NULL_HANDLE :=
  ⟨((reusable_buffer_submits_repeatedly
      { CommandBuffer.mk_new 7 9 0 with state_ := State.RECORDING } [VK_SUCCESS, VK_SUCCESS]
      rfl (by decide)).1 (by decide)).1,
   (congrArg CommandBuffer.handle_ ((reusable_buffer_submits_repeatedly
      { CommandBuffer.mk_new 7 9 1 with state_ := State.RECORDING } []
      rfl (by decide)).2 (by decide)).2)⟩

/-- C38, the code does not guarantee it.  On a freshly created buffer the calls
`begin()`, `insert_barrier(b)`, `dispatch(g)` each find the state that their
`VK_CHECK_COND` asks for, because `insert_barrier` is also accepted in state
RECORDING: `begin` and `insert_barrier` return normally and leave the buffer in
BARRIERS_INSERTED, the state `dispatch` checks for.  No `bind_pipeline`
precedes the dispatch, the bound local work-group size is still the (0, 0, 0)
of the constructor, and `dispatch`, which divides by its components, is
undefined: it does not return. -/
theorem dispatch_without_bind_pipeline (handle semaphore : VkHandle) (flags : Nat)
    (pipeline_barrier : PipelineBarrier) (global_workgroup_size : utils.uvec3) :
    (Op.begin VK_SUCCESS).state_check (CommandBuffer.mk_new handle semaphore flags) = true ∧
    (Op.begin VK_SUCCESS).run (CommandBuffer.mk_new handle semaphore flags) =
      some { CommandBuffer.mk_new handle semaphore flags with state_ := State.RECORDING } ∧
    (Op.insert_barrier pipeline_barrier).state_check
      { CommandBuffer.mk_new handle semaphore flags with state_ := State.RECORDING } = true ∧
    (Op.insert_barrier pipeline_barrier).run
      { CommandBuffer.mk_new handle semaphore flags with state_ := State.RECORDING } =
      some { CommandBuffer.mk_new handle semaphore flags with
        state_ := State.BARRIERS_INSERTED } ∧
    (Op.dispatch global_workgroup_size).state_check
      { CommandBuffer.mk_new handle semaphore flags with
        state_ := State.BARRIERS_INSERTED } = true ∧
    (∀ op ∈ [Op.begin VK_SUCCESS, Op.insert_barrier pipeline_barrier],
      op.is_bind_pipeline = false) ∧
    ({ CommandBuffer.mk_new handle semaphore flags with
        state_ := State.BARRIERS_INSERTED } : CommandBuffer).bound_.local_workgroup_size =
      ⟨0, 0, 0⟩ ∧
    ({ CommandBuffer.mk_new handle semaphore flags with
        state_ := State.BARRIERS_INSERTED } : CommandBuffer).dispatch global_workgroup_size =
      none ∧
    run_ops [Op.begin VK_SUCCESS, Op.insert_barrier pipeline_barrier,
        Op.dispatch global_workgroup_size] (CommandBuffer.mk_new handle semaphore flags) =
      none := by
  have hd : ({ CommandBuffer.mk_new handle semaphore flags with
      state_ := State.BARRIERS_INSERTED } : CommandBuffer).dispatch global_workgroup_size =
      none := (dispatch_cases _ global_workgroup_size).2.1 rfl (Or.inl rfl)
  have hb : (Op.insert_barrier pipeline_barrier).run
      { CommandBuffer.mk_new handle semaphore flags with state_ := State.RECORDING } =
      some { CommandBuffer.mk_new handle semaphore flags with
        state_ := State.BARRIERS_INSERTED } := by
    by_cases ha : pipeline_barrier.active = true <;>
      simp [Op.run, CommandBuffer.insert_barrier, Step.returned_cb, CommandBuffer.mk_new, ha]
  have hbegin : (Op.begin VK_SUCCESS).run (CommandBuffer.mk_new handle semaphore flags) =
      some { CommandBuffer.mk_new handle semaphore flags with state_ := State.RECORDING } := by
    simp [Op.run, CommandBuffer.begin, Step.returned_cb, CommandBuffer.mk_new]
  refine ⟨by simp [Op.state_check, CommandBuffer.mk_new], hbegin,
    by simp [Op.state_check], hb, by simp [Op.state_check], ?_, rfl, hd, ?_⟩
  · intro op hop
    simp only [List.mem_cons, List.mem_singleton, List.not_mem_nil, or_false] at hop
    rcases hop with rfl | rfl <;> rfl
  · have h2 : (Op.dispatch global_workgroup_size).run
        { CommandBuffer.mk_new handle semaphore flags with
          state_ := State.BARRIERS_INSERTED } = none := by
      simp only [Op.run, hd, Option.none_bind]
    simp only [run_ops]
    rw [hbegin, Option.some_bind, hb, Option.some_bind, h2, Option.none_bind]

/-! ### Chunks submitted by `prepack` -/

theorem chunk_scan_append (a b : List ContextCall) :
    chunk_scan (a ++ b) = b.foldl ChunkScan.step (chunk_scan a) := by
  simp [chunk_scan, List.foldl_append]

theorem chunk_scan_split_calls (g : ComputeGraph) (s : ChunkScan) :
    g.prepack_split_calls.foldl ChunkScan.step s =
      { submitted := s.submitted ++ [s.current], current := [] } := by
  cases h : g.reduce_peak_memory <;>
    simp [ComputeGraph.prepack_split_calls, h, ComputeGraph.submit_current_cmd_and_wait,
      ComputeGraph.submit_current_cmd, ChunkScan.step]

theorem encoded_split_calls (g : ComputeGraph) :
    g.prepack_split_calls.filterMap ContextCall.encoded_node = [] := by
  cases h : g.reduce_peak_memory <;>
    simp [ComputeGraph.prepack_split_calls, h, ComputeGraph.submit_current_cmd_and_wait,
      ComputeGraph.submit_current_cmd, ContextCall.encoded_node]

theorem chunk_nbytes_append (nodes : List PrepackNode) (a b : List Nat) :
    chunk_nbytes nodes (a ++ b) = chunk_nbytes nodes a + chunk_nbytes nodes b := by
  simp [chunk_nbytes]

theorem chunk_nbytes_singleton (nodes : List PrepackNode) (i : Nat) (hi : i < nodes.length) :
    chunk_nbytes nodes [i] = nodes[i].staging_nbytes := by
  simp [chunk_nbytes, List.getD_eq_getElem?_getD, List.getElem?_eq_getElem hi]

/-- The state of the loop of `prepack` after the first i nodes, read as chunks:
the chunks closed so far and the current one hold the indices below i in order,
no closed chunk is empty, the current one holds the node encoded last,
`submitted` is set exactly when a chunk has been closed, and the calls encode
the nodes below i once each, in order. -/
theorem prepack_chunks_inv (g : ComputeGraph) (i : Nat) (hi : i ≤ g.prepack_nodes_.length) :
    (chunk_scan (g.prepack_loop (g.prepack_nodes_.take i)).calls).submitted.flatten ++
      (chunk_scan (g.prepack_loop (g.prepack_nodes_.take i)).calls).current = List.range i ∧
    (∀ c ∈ (chunk_scan (g.prepack_loop (g.prepack_nodes_.take i)).calls).submitted, c ≠ []) ∧
    (0 < i → i - 1 ∈ (chunk_scan (g.prepack_loop (g.prepack_nodes_.take i)).calls).current) ∧
    ((g.prepack_loop (g.prepack_nodes_.take i)).submitted = true ↔
      (chunk_scan (g.prepack_loop (g.prepack_nodes_.take i)).calls).submitted ≠ []) ∧
    (g.prepack_loop (g.prepack_nodes_.take i)).calls.filterMap ContextCall.encoded_node =
      List.range i := by
  induction i with
  | zero =>
    simp [ComputeGraph.prepack_loop, chunk_scan, ChunkScan.step, ContextCall.encoded_node]
  | succ k ih =>
    obtain ⟨a, b, c, d, e⟩ := ih (by omega)
    have hidx : (g.prepack_loop (g.prepack_nodes_.take k)).i = k := by
      rw [prepack_loop_index, List.length_take]; omega
    rw [prepack_loop_take_succ g _ k (by omega), prepack_body_eq]
    simp only [hidx, chunk_scan_append, List.foldl_append, List.filterMap_append, e]
    by_cases hs : g.prepack_splits (g.prepack_loop (g.prepack_nodes_.take k)) = true
    · have hk : 0 < k := by
        simp only [ComputeGraph.prepack_splits, hidx, Bool.and_eq_true, bne_iff_ne, ne_eq,
          decide_eq_true_eq] at hs
        omega
      simp only [hs, if_true, chunk_scan_split_calls, encoded_split_calls, List.foldl_cons,
        List.foldl_nil, ChunkScan.step, List.nil_append, List.flatten_append, List.flatten_cons,
        List.flatten_nil, List.append_nil, Bool.or_true, List.append_assoc]
      refine ⟨?_, ?_, ?_, ?_, ?_⟩
      · rw [← List.append_assoc, a, List.range_succ]
      · intro ch hch
        rcases List.mem_append.mp hch with h | h
        · exact b ch h
        · rw [List.mem_singleton.mp h]
          exact List.ne_nil_of_mem (c hk)
      · intro _
        simp
      · simp
      · simp [ContextCall.encoded_node, List.range_succ]
    · have hs' : g.prepack_splits (g.prepack_loop (g.prepack_nodes_.take k)) = false := by
        simpa using hs
      simp only [hs', Bool.false_eq_true, if_false, List.foldl_nil, List.foldl_cons,
        ChunkScan.step, Bool.or_false, List.filterMap_nil, List.append_nil]
      refine ⟨?_, b, ?_, d, ?_⟩
      · rw [← List.append_assoc, a, List.range_succ]
      · intro _
        simp
      · simp [ContextCall.encoded_node, List.range_succ]

/-- The bytes of the chunks during the loop of `prepack`, when the counter is 0
on entry: the counter is the total of the current chunk, every closed chunk
totals more than its threshold while all its nodes but the last total at most
that threshold, and while a later node remains the current chunk without its
last node totals at most the threshold in effect. -/
theorem prepack_chunks_bytes (g : ComputeGraph) (h0 : g.staging_nbytes_in_cmd_ = 0) (i : Nat)
    (hi : i ≤ g.prepack_nodes_.length) :
    (g.prepack_loop (g.prepack_nodes_.take i)).staging_nbytes_in_cmd_ =
      chunk_nbytes g.prepack_nodes_
        (chunk_scan (g.prepack_loop (g.prepack_nodes_.take i)).calls).current ∧
    (∀ k c, (chunk_scan (g.prepack_loop (g.prepack_nodes_.take i)).calls).submitted[k]? = some c →
      chunk_threshold g.config_ k < chunk_nbytes g.prepack_nodes_ c ∧
      chunk_nbytes g.prepack_nodes_ c.dropLast ≤ chunk_threshold g.config_ k) ∧
    (i + 1 ≤ g.prepack_nodes_.length →
      chunk_nbytes g.prepack_nodes_
          (chunk_scan (g.prepack_loop (g.prepack_nodes_.take i)).calls).current.dropLast ≤
        chunk_threshold g.config_
          (chunk_scan (g.prepack_loop (g.prepack_nodes_.take i)).calls).submitted.length) := by
  induction i with
  | zero =>
    simp [ComputeGraph.prepack_loop, chunk_scan, ChunkScan.step, chunk_nbytes, h0]
  | succ k ih =>
    obtain ⟨e, f, gg⟩ := ih (by omega)
    obtain ⟨a, b, c, d, _⟩ := prepack_chunks_inv g k (by omega)
    have hidx : (g.prepack_loop (g.prepack_nodes_.take k)).i = k := by
      rw [prepack_loop_index, List.length_take]; omega
    have hthr : (if (g.prepack_loop (g.prepack_nodes_.take k)).submitted = true
          then g.config_.prepack_threshold_nbytes
          else g.config_.prepack_initial_threshold_nbytes) =
        chunk_threshold g.config_
          (chunk_scan (g.prepack_loop (g.prepack_nodes_.take k)).calls).submitted.length := by
      unfold chunk_threshold
      by_cases hsub : (g.prepack_loop (g.prepack_nodes_.take k)).submitted = true
      · have := d.mp hsub
        have hl : (chunk_scan (g.prepack_loop (g.prepack_nodes_.take k)).calls).submitted.length ≠ 0 :=
          fun hl => this (List.length_eq_zero.mp hl)
        simp [hsub, hl]
      · have : (chunk_scan (g.prepack_loop (g.prepack_nodes_.take k)).calls).submitted = [] := by
          by_contra hne
          exact hsub (d.mpr hne)
        simp [hsub, this]
    have hsplit : g.prepack_splits (g.prepack_loop (g.prepack_nodes_.take k)) = true ↔
        (k ≠ 0 ∧ k ≠ g.prepack_nodes_.length - 1) ∧
          chunk_threshold g.config_
            (chunk_scan (g.prepack_loop (g.prepack_nodes_.take k)).calls).submitted.length <
          chunk_nbytes g.prepack_nodes_
            (chunk_scan (g.prepack_loop (g.prepack_nodes_.take k)).calls).current := by
      simp only [ComputeGraph.prepack_splits, hidx, Bool.and_eq_true, bne_iff_ne, ne_eq,
        decide_eq_true_eq, gt_iff_lt, hthr, e, decide_not, Bool.not_eq_true', decide_eq_false_iff_not]
    rw [prepack_loop_take_succ g _ k (by omega), prepack_body_eq]
    simp only [hidx, chunk_scan_append, List.foldl_append]
    by_cases hs : g.prepack_splits (g.prepack_loop (g.prepack_nodes_.take k)) = true
    · obtain ⟨⟨hk0, _⟩, hgt⟩ := hsplit.mp hs
      simp only [hs, if_true, chunk_scan_split_calls, List.foldl_cons,
        List.foldl_nil, ChunkScan.step, List.nil_append, List.length_append, List.length_singleton]
      refine ⟨?_, ?_, ?_⟩
      · rw [chunk_nbytes_singleton _ _ (by omega)]
        omega
      · intro j ch hj
        by_cases hjl : j < (chunk_scan (g.prepack_loop (g.prepack_nodes_.take k)).calls).submitted.length
        · rw [List.getElem?_append_left hjl] at hj
          exact f j ch hj
        · have hjl2 : (chunk_scan (g.prepack_loop (g.prepack_nodes_.take k)).calls).submitted.length ≤ j :=
            by omega
          rw [List.getElem?_append_right hjl2] at hj
          have hj0 : j - (chunk_scan (g.prepack_loop (g.prepack_nodes_.take k)).calls).submitted.length = 0 := by
            by_contra hne
            obtain ⟨m, hm⟩ := Nat.exists_eq_succ_of_ne_zero hne
            rw [hm] at hj
            simp at hj
          rw [hj0] at hj
          simp only [List.getElem?_cons_zero, Option.some.injEq] at hj
          have hjeq : j = (chunk_scan (g.prepack_loop (g.prepack_nodes_.take k)).calls).submitted.length :=
            by omega
          subst hj
          rw [hjeq]
          exact ⟨hgt, gg (by omega)⟩
      · intro _
        simp [chunk_nbytes]
    · have hs' : g.prepack_splits (g.prepack_loop (g.prepack_nodes_.take k)) = false := by
        simpa using hs
      simp only [hs', Bool.false_eq_true, if_false, List.foldl_nil, List.foldl_cons,
        ChunkScan.step]
      refine ⟨?_, f, ?_⟩
      · rw [chunk_nbytes_append, chunk_nbytes_singleton _ _ (by omega), e]
      · intro hk2
        rw [List.dropLast_concat]
        by_cases hk0 : k = 0
        · subst hk0
          have hcur : (chunk_scan (g.prepack_loop (g.prepack_nodes_.take 0)).calls).current = [] := by
            simp [ComputeGraph.prepack_loop, chunk_scan, ChunkScan.step]
          rw [hcur]
          simp [chunk_nbytes]
        · by_contra hgt
          exact hs (hsplit.mpr ⟨⟨hk0, by omega⟩, by omega⟩)

/-- Scanning further calls only appends chunks to those already closed. -/
theorem chunk_scan_foldl_extends (b : List ContextCall) :
    ∀ s : ChunkScan, ∃ more, (b.foldl ChunkScan.step s).submitted = s.submitted ++ more := by
  induction b with
  | nil => intro s; exact ⟨[], by simp⟩
  | cons x rest ih =>
    intro s
    obtain ⟨m, hm⟩ := ih (s.step x)
    rw [List.foldl_cons, hm]
    cases x <;> simp [ChunkScan.step]

/-- The chunks of a whole run of `prepack`: those closed during the loop, then
the chunk that is current when the loop ends. -/
theorem prepack_final_scan (g : ComputeGraph) :
    chunk_scan g.prepack.2 =
      { submitted := (chunk_scan (g.prepack_loop g.prepack_nodes_).calls).submitted ++
          [(chunk_scan (g.prepack_loop g.prepack_nodes_).calls).current]
        current := [] } := by
  simp [ComputeGraph.prepack, chunk_scan_append, ComputeGraph.submit_current_cmd_and_wait,
    ChunkScan.step]

theorem prepack_first_node_over_threshold_counterexample :
    ({ ComputeGraph.mk_new
          ⟨false, .kTexture3D, false, .kWidthPacked, false, ⟨1, 1, 1⟩, 50, 50, false⟩
        with prepack_nodes_ := [⟨100⟩, ⟨1⟩, ⟨1⟩] } : ComputeGraph).staging_nbytes_in_cmd_ = 0 ∧
    (chunk_scan
      (ComputeGraph.prepack
        { ComputeGraph.mk_new
            ⟨false, .kTexture3D, false, .kWidthPacked, false, ⟨1, 1, 1⟩, 50, 50, false⟩
          with prepack_nodes_ := [⟨100⟩, ⟨1⟩, ⟨1⟩] }).2).submitted = [[0], [1, 2]] ∧
    (ComputeGraph.prepack
        { ComputeGraph.mk_new
            ⟨false, .kTexture3D, false, .kWidthPacked, false, ⟨1, 1, 1⟩, 50, 50, false⟩
          with prepack_nodes_ := [⟨100⟩, ⟨1⟩, ⟨1⟩] }).2 =
      [ContextCall.set_cmd false, ContextCall.encode_prepack_node 0,
        ContextCall.submit_cmd_to_gpu false false, ContextCall.set_cmd false,
        ContextCall.encode_prepack_node 1, ContextCall.encode_prepack_node 2,
        ContextCall.get_fence, ContextCall.submit_cmd_to_gpu true true,
        ContextCall.fence_wait, ContextCall.return_fence, ContextCall.flush] := by
  decide

/-- C34 (amended).  For a graph whose list of prepack nodes starts with a node
that alone pushes the running staging byte count above the initial threshold:
`prepack` does not split before the first node; with at most two nodes it makes
no intermediate submission, so the only chunk submitted is the whole list; with
three or more nodes it splits immediately before the second node, so the first
chunk submitted is the first node alone and further chunks follow it. -/
theorem prepack_first_node_over_threshold (g : ComputeGraph) (first : PrepackNode)
    (rest : List PrepackNode) (hn : g.prepack_nodes_ = first :: rest)
    (hbig : g.config_.prepack_initial_threshold_nbytes <
      g.staging_nbytes_in_cmd_ + first.staging_nbytes) :
    g.prepack_splits (g.prepack_loop (g.prepack_nodes_.take 0)) = false ∧
    (rest.length ≤ 1 →
      (chunk_scan g.prepack.2).submitted = [List.range (rest.length + 1)]) ∧
    (2 ≤ rest.length →
      g.prepack_splits (g.prepack_loop (g.prepack_nodes_.take 1)) = true ∧
      ∃ more, (chunk_scan g.prepack.2).submitted = [0] :: more ∧ more ≠ []) := by
  have h0 : g.prepack_splits (g.prepack_loop (g.prepack_nodes_.take 0)) = false := by
    simp [ComputeGraph.prepack_splits, ComputeGraph.prepack_loop]
  have h1 : g.prepack_loop (g.prepack_nodes_.take 1) =
      { i := 1
        submitted := false
        staging_nbytes_in_cmd_ := g.staging_nbytes_in_cmd_ + first.staging_nbytes
        calls := [ContextCall.set_cmd false, ContextCall.encode_prepack_node 0] } := by
    have hlen : 0 < g.prepack_nodes_.length := by rw [hn]; simp
    rw [prepack_loop_take_succ g _ 0 hlen, prepack_body_eq, h0]
    simp [ComputeGraph.prepack_loop, hn]
  refine ⟨h0, ?_, ?_⟩
  · intro hr
    rw [prepack_final_scan]
    match rest, hn, hr with
    | [], hn, _ =>
      have : g.prepack_nodes_ = g.prepack_nodes_.take 1 := by rw [hn]; rfl
      rw [this, h1]
      simp [chunk_scan, ChunkScan.step, List.range_succ]
    | [second], hn, _ =>
      have hlen : 1 < g.prepack_nodes_.length := by rw [hn]; simp
      have hs : g.prepack_splits
          { i := 1
            submitted := false
            staging_nbytes_in_cmd_ := g.staging_nbytes_in_cmd_ + first.staging_nbytes
            calls := [ContextCall.set_cmd false, ContextCall.encode_prepack_node 0] } = false := by
        simp [ComputeGraph.prepack_splits, hn]
      have : g.prepack_nodes_ = g.prepack_nodes_.take 2 := by rw [hn]; rfl
      rw [this, prepack_loop_take_succ g _ 1 hlen, h1, prepack_body_eq, hs]
      simp [chunk_scan, ChunkScan.step, List.range_succ]
    | _ :: _ :: _, _, hr => simp at hr
  · intro hr
    have hlen : 2 < g.prepack_nodes_.length := by rw [hn]; simp; omega
    have hs : g.prepack_splits (g.prepack_loop (g.prepack_nodes_.take 1)) = true := by
      rw [h1]
      simp only [ComputeGraph.prepack_splits, Bool.and_eq_true, bne_iff_ne, ne_eq,
        decide_eq_true_eq, gt_iff_lt, Bool.false_eq_true, if_false, decide_not,
        Bool.not_eq_true', decide_eq_false_iff_not]
      exact ⟨⟨by omega, by omega⟩, hbig⟩
    refine ⟨hs, ?_⟩
    have h2 : chunk_scan (g.prepack_loop (g.prepack_nodes_.take 2)).calls =
        { submitted := [[0]], current := [1] } := by
      rw [prepack_loop_take_succ g _ 1 (by omega), prepack_body_eq, hs, h1]
      simp only [if_true, chunk_scan_append, chunk_scan_split_calls, List.foldl_cons,
        List.foldl_nil, ChunkScan.step]
      simp [chunk_scan, ChunkScan.step]
    obtain ⟨r, hr2⟩ := prepack_loop_calls_prefix g (g.prepack_nodes_.take 2) (g.prepack_nodes_.drop 2)
    rw [List.take_append_drop] at hr2
    obtain ⟨m, hm⟩ := chunk_scan_foldl_extends r (chunk_scan (g.prepack_loop (g.prepack_nodes_.take 2)).calls)
    rw [prepack_final_scan, hr2, chunk_scan_append, hm, h2]
    exact ⟨m ++ [(List.foldl ChunkScan.step { submitted := [[0]], current := [1] } r).current],
      by simp, by simp⟩

theorem prepack_first_node_over_threshold_witness :
    (chunk_scan
      (ComputeGraph.prepack
        { ComputeGraph.mk_new
            ⟨false, .kTexture3D, false, .kWidthPacked, false, ⟨1, 1, 1⟩, 50, 50, false⟩
          with prepack_nodes_ := [⟨100⟩, ⟨1⟩] }).2).submitted = [List.range 2] ∧
    ComputeGraph.prepack_splits
      { ComputeGraph.mk_new
          ⟨false, .kTexture3D, false, .kWidthPacked, false, ⟨1, 1, 1⟩, 50, 50, false⟩
        with prepack_nodes_ := [⟨100⟩, ⟨1⟩, ⟨1⟩] }
      (ComputeGraph.prepack_loop
        { ComputeGraph.mk_new
            ⟨false, .kTexture3D, false, .kWidthPacked, false, ⟨1, 1, 1⟩, 50, 50, false⟩
          with prepack_nodes_ := [⟨100⟩, ⟨1⟩, ⟨1⟩] }
        [⟨100⟩]) = true :=
  ⟨(prepack_first_node_over_threshold
      { ComputeGraph.mk_new
          ⟨false, .kTexture3D, false, .kWidthPacked, false, ⟨1, 1, 1⟩, 50, 50, false⟩
        with prepack_nodes_ := [⟨100⟩, ⟨1⟩] } ⟨100⟩ [⟨1⟩] rfl (by decide)).2.1 (by decide),
   ((prepack_first_node_over_threshold
      { ComputeGraph.mk_new
          ⟨false, .kTexture3D, false, .kWidthPacked, false, ⟨1, 1, 1⟩, 50, 50, false⟩
        with prepack_nodes_ := [⟨100⟩, ⟨1⟩, ⟨1⟩] } ⟨100⟩ [⟨1⟩, ⟨1⟩] rfl (by decide)).2.2
      (by decide)).1⟩

/-- C35.  For a graph with n ≥ 1 prepack nodes, reading the calls of `prepack`
as chunks (the nodes encoded between one submission of the command buffer and
the next): no node is left outside a submitted chunk, the chunks in order of
submission concatenate to the node indices 0, ..., n - 1 in order, the calls
encode exactly these indices once each in order, no chunk is empty, the last
chunk contains the last node and is the one submitted by the closing calls,
which take a fence, submit with the fence and final_use = true, wait, return
the fence and flush, and the graph `prepack` leaves has its staging counter
at 0. -/
theorem prepack_chunks_partition (g : ComputeGraph) (hn : 1 ≤ g.prepack_nodes_.length) :
    (chunk_scan g.prepack.2).current = [] ∧
    (chunk_scan g.prepack.2).submitted.flatten = List.range g.prepack_nodes_.length ∧
    g.prepack.2.filterMap ContextCall.encoded_node = List.range g.prepack_nodes_.length ∧
    (∀ c ∈ (chunk_scan g.prepack.2).submitted, c ≠ []) ∧
    (∃ before,
      g.prepack.2 = before ++ [ContextCall.get_fence, ContextCall.submit_cmd_to_gpu true true,
        ContextCall.fence_wait, ContextCall.return_fence, ContextCall.flush] ∧
      (chunk_scan g.prepack.2).submitted =
        (chunk_scan before).submitted ++ [(chunk_scan before).current] ∧
      g.prepack_nodes_.length - 1 ∈ (chunk_scan before).current) ∧
    g.prepack.1.staging_nbytes_in_cmd_ = 0 := by
  obtain ⟨a, b, c, _, e⟩ := prepack_chunks_inv g g.prepack_nodes_.length (le_refl _)
  rw [List.take_length] at a b c e
  rw [prepack_final_scan]
  refine ⟨rfl, ?_, ?_, ?_, ?_, rfl⟩
  · simpa [List.flatten_append] using a
  · simp [ComputeGraph.prepack, List.filterMap_append, e,
      ComputeGraph.submit_current_cmd_and_wait, ContextCall.encoded_node]
  · intro ch hch
    rcases List.mem_append.mp hch with h | h
    · exact b ch h
    · rw [List.mem_singleton.mp h]
      exact List.ne_nil_of_mem (c (by omega))
  · exact ⟨(g.prepack_loop g.prepack_nodes_).calls,
      by simp [ComputeGraph.prepack, ComputeGraph.submit_current_cmd_and_wait], rfl,
      c (by omega)⟩

theorem prepack_chunks_partition_witness :
    (chunk_scan
      (ComputeGraph.prepack
        { ComputeGraph.mk_new
            ⟨false, .kTexture3D, false, .kWidthPacked, false, ⟨1, 1, 1⟩, 5, 3, false⟩
          with prepack_nodes_ := [⟨4⟩, ⟨1⟩, ⟨7⟩, ⟨1⟩, ⟨1⟩] }).2).submitted.flatten =
      [0, 1, 2, 3, 4] :=
  (prepack_chunks_partition
    { ComputeGraph.mk_new
        ⟨false, .kTexture3D, false, .kWidthPacked, false, ⟨1, 1, 1⟩, 5, 3, false⟩
      with prepack_nodes_ := [⟨4⟩, ⟨1⟩, ⟨7⟩, ⟨1⟩, ⟨1⟩] } (by decide)).2.1.trans (by decide)

/-- C36.  For a graph whose staging counter is 0 when `prepack` is entered,
where encoding node i adds its `staging_nbytes` to the counter: every chunk
that `prepack` submits before the final one (the chunk at position k, with a
later chunk after it) has nodes whose bytes total strictly more than the
threshold in effect for it, which is the initial threshold for k = 0 and the
other threshold afterwards, while its nodes without the last one total at most
that threshold. -/
theorem prepack_chunk_totals (g : ComputeGraph) (h0 : g.staging_nbytes_in_cmd_ = 0)
    (k : Nat) (c : List Nat) (hk : k + 1 < (chunk_scan g.prepack.2).submitted.length)
    (hc : (chunk_scan g.prepack.2).submitted[k]? = some c) :
    chunk_threshold g.config_ k < chunk_nbytes g.prepack_nodes_ c ∧
    chunk_nbytes g.prepack_nodes_ c.dropLast ≤ chunk_threshold g.config_ k := by
  obtain ⟨_, f, _⟩ := prepack_chunks_bytes g h0 g.prepack_nodes_.length (le_refl _)
  rw [List.take_length] at f
  rw [prepack_final_scan] at hk hc
  simp only [List.length_append, List.length_singleton] at hk
  rw [List.getElem?_append_left (by omega)] at hc
  exact f k c hc

theorem prepack_chunk_totals_witness :
    chunk_threshold
        ⟨false, .kTexture3D, false, .kWidthPacked, false, ⟨1, 1, 1⟩, 5, 3, false⟩ 1 <
      chunk_nbytes [⟨4⟩, ⟨1⟩, ⟨7⟩, ⟨1⟩, ⟨1⟩] [1, 2] ∧
    chunk_nbytes [⟨4⟩, ⟨1⟩, ⟨7⟩, ⟨1⟩, ⟨1⟩] [1] ≤
      chunk_threshold
        ⟨false, .kTexture3D, false, .kWidthPacked, false, ⟨1, 1, 1⟩, 5, 3, false⟩ 1 :=
  prepack_chunk_totals
    { ComputeGraph.mk_new
        ⟨false, .kTexture3D, false, .kWidthPacked, false, ⟨1, 1, 1⟩, 5, 3, false⟩
      with prepack_nodes_ := [⟨4⟩, ⟨1⟩, ⟨7⟩, ⟨1⟩, ⟨1⟩] } (by decide) 1 [1, 2] (by decide)
    (by decide)

end vkcompute

namespace torch.executor.function

/-! ### Integer floor division and remainder -/

theorem tmod_bounds (a b : Int) (hb : b ≠ 0) :
    (0 ≤ a → 0 ≤ a.tmod b ∧ a.tmod b < |b|) ∧ (a < 0 → -|b| < a.tmod b ∧ a.tmod b ≤ 0) := by
  have key : ∀ (x : Int) (y : Int), 0 ≤ x → 0 < y → 0 ≤ x.tmod y ∧ x.tmod y < y :=
    fun x y hx hy => ⟨Int.tmod_nonneg y hx, Int.tmod_lt_of_pos x hy⟩
  have hneg : ∀ x y : Int, (-x).tmod y = -(x.tmod y) := by
    intro x y
    have h1 := Int.tmod_add_tdiv (-x) y
    have h2 := Int.tmod_add_tdiv x y
    rw [Int.neg_tdiv] at h1
    linarith [Int.mul_neg y (x.tdiv y)]
  have habs : 0 < |b| := abs_pos.mpr hb
  have hb' : a.tmod b = a.tmod |b| := by
    rcases abs_choice b with h | h
    · rw [h]
    · rw [h, Int.tmod_neg]
  constructor
  · intro ha
    rw [hb']
    exact key a |b| ha habs
  · intro ha
    have := key (-a) |b| (by omega) habs
    rw [hneg] at this
    rw [hb']
    constructor <;> omega

theorem floordiv_bounds (a b : Int) (hb : b ≠ 0) :
    (0 < b →
      (if decide (a < 0) = decide (b < 0) then a.tdiv b
        else if a.tmod b ≠ 0 then a.tdiv b - 1 else a.tdiv b) * b ≤ a ∧
      a < ((if decide (a < 0) = decide (b < 0) then a.tdiv b
        else if a.tmod b ≠ 0 then a.tdiv b - 1 else a.tdiv b) + 1) * b) ∧
    (b < 0 →
      a ≤ (if decide (a < 0) = decide (b < 0) then a.tdiv b
        else if a.tmod b ≠ 0 then a.tdiv b - 1 else a.tdiv b) * b ∧
      ((if decide (a < 0) = decide (b < 0) then a.tdiv b
        else if a.tmod b ≠ 0 then a.tdiv b - 1 else a.tdiv b) + 1) * b < a) := by
  obtain ⟨h1, h2⟩ := tmod_bounds a b hb
  have hd := Int.tmod_add_tdiv a b
  constructor
  · intro hpos
    have habs : |b| = b := abs_of_pos hpos
    rw [habs] at h1 h2
    by_cases ha : a < 0
    · have hbn : ¬ b < 0 := by omega
      obtain ⟨l, u⟩ := h2 ha
      simp only [ha, hbn, decide_True, decide_False, Bool.true_eq_false, if_false]
      split_ifs with hm
      · have hlt : a.tmod b < 0 := lt_of_le_of_ne u hm
        constructor <;> nlinarith
      · have : a.tmod b = 0 := by simpa using hm
        constructor <;> nlinarith
    · have hbn : ¬ b < 0 := by omega
      obtain ⟨l, u⟩ := h1 (by omega)
      simp only [ha, hbn, decide_False, if_true]
      constructor <;> nlinarith
  · intro hneg
    have habs : |b| = -b := abs_of_neg hneg
    rw [habs] at h1 h2
    by_cases ha : a < 0
    · obtain ⟨l, u⟩ := h2 ha
      simp only [ha, hneg, decide_True, if_true]
      constructor <;> nlinarith
    · obtain ⟨l, u⟩ := h1 (by omega)
      simp only [ha, hneg, decide_True, decide_False, Bool.false_eq_true, if_false]
      split_ifs with hm
      · have hlt : 0 < a.tmod b := lt_of_le_of_ne l (Ne.symm hm)
        constructor <;> nlinarith
      · have : a.tmod b = 0 := by simpa using hm
        constructor <;> nlinarith

theorem floor_of_bounds (a b q : Int) (hb : b ≠ 0)
    (hpos : 0 < b → q * b ≤ a ∧ a < (q + 1) * b)
    (hneg : b < 0 → a ≤ q * b ∧ (q + 1) * b < a) :
    ⌊(a : ℚ) / (b : ℚ)⌋ = q := by
  rw [Int.floor_eq_iff]
  rcases lt_or_gt_of_ne hb with h | h
  · obtain ⟨l, u⟩ := hneg h
    have hq : (b : ℚ) < 0 := by exact_mod_cast h
    constructor
    · rw [le_div_iff_of_neg hq]
      exact_mod_cast l
    · rw [div_lt_iff_of_neg hq]
      exact_mod_cast u
  · obtain ⟨l, u⟩ := hpos h
    have hq : (0 : ℚ) < b := by exact_mod_cast h
    constructor
    · rw [le_div_iff₀ hq]
      exact_mod_cast l
    · rw [div_lt_iff₀ hq]
      exact_mod_cast u

theorem floordiv_Scalar_int (a b : Int) (out : EValue) (hb : b ≠ 0)
    (hmin : ¬ (a = INT64_MIN ∧ b = -1)) :
    executorch_prim.floordiv_Scalar (.int a) (.int b) out =
      .ok (.int (if decide (a < 0) = decide (b < 0) then a.tdiv b
        else if a.tmod b ≠ 0 then a.tdiv b - 1 else a.tdiv b)) := by
  simp only [executorch_prim.floordiv_Scalar, int64_div, int64_rem, hb, hmin, false_or,
    if_false]
  split_ifs <;> rfl

theorem mod_Scalar_int (a b : Int) (out : EValue) (hb : b ≠ 0)
    (hmin : ¬ (a = INT64_MIN ∧ b = -1)) :
    executorch_prim.mod_Scalar (.int a) (.int b) out = .ok (.int (a.tmod b)) := by
  simp only [executorch_prim.mod_Scalar, int64_rem, hb, hmin, false_or, if_false]

theorem floor_int64_range (a b : Int)
    (ha : INT64_MIN ≤ a ∧ a ≤ INT64_MAX) (hb : INT64_MIN ≤ b ∧ b ≤ INT64_MAX)
    (hb0 : b ≠ 0) (hmin : ¬ (a = INT64_MIN ∧ b = -1)) :
    INT64_MIN ≤ ⌊(a : ℚ) / (b : ℚ)⌋ ∧ ⌊(a : ℚ) / (b : ℚ)⌋ ≤ INT64_MAX := by
  obtain ⟨hp, hn⟩ := floordiv_bounds a b hb0
  have hfloor := floor_of_bounds a b _ hb0 hp hn
  rw [← hfloor] at hp hn
  clear hfloor
  simp only [INT64_MIN, INT64_MAX] at *
  constructor
  · rcases lt_or_gt_of_ne hb0 with h | h
    · obtain ⟨l, u⟩ := hn h
      by_contra hc
      push_neg at hc
      nlinarith
    · obtain ⟨l, u⟩ := hp h
      by_contra hc
      push_neg at hc
      nlinarith
  · rcases lt_or_gt_of_ne hb0 with h | h
    · obtain ⟨l, u⟩ := hn h
      by_contra hc
      push_neg at hc
      have hb1 : b ≤ -1 := by omega
      rcases eq_or_lt_of_le hb1 with hb2 | hb2
      · have : a ≠ -2 ^ 63 := fun h3 => hmin ⟨h3, hb2⟩
        subst hb2
        omega
      · nlinarith
    · obtain ⟨l, u⟩ := hp h
      by_contra hc
      push_neg at hc
      nlinarith

theorem tmod_int64_range (a b : Int) (hb : INT64_MIN ≤ b ∧ b ≤ INT64_MAX) (hb0 : b ≠ 0) :
    INT64_MIN ≤ a.tmod b ∧ a.tmod b ≤ INT64_MAX := by
  obtain ⟨h1, h2⟩ := tmod_bounds a b hb0
  simp only [INT64_MIN, INT64_MAX] at *
  have habs : |b| ≤ 2 ^ 63 := abs_le.mpr ⟨by omega, by omega⟩
  by_cases ha : 0 ≤ a
  · obtain ⟨l, u⟩ := h1 ha
    constructor <;> omega
  · obtain ⟨l, u⟩ := h2 (by omega)
    constructor <;> omega

/-- C27, the claim as stated fails.  On the Int operands -7 and 2 the entry
`floordiv.Scalar` returns -4 and the entry `mod.Scalar` returns -1, the
remainder of the truncated division, and -4 * 2 + -1 is -9, not -7. -/
theorem floordiv_mod_identity_counterexample :
    executorch_prim.floordiv_Scalar (.int (-7)) (.int 2) .none = .ok (.int (-4)) ∧
    executorch_prim.mod_Scalar (.int (-7)) (.int 2) .none = .ok (.int (-1)) ∧
    (-7 : Int) ≠ -4 * 2 + -1 ∧
    ¬ (∀ a b q r : Int, INT64_MIN ≤ a → a ≤ INT64_MAX → INT64_MIN ≤ b → b ≤ INT64_MAX →
        b ≠ 0 → ¬ (a = INT64_MIN ∧ b = -1) →
        executorch_prim.floordiv_Scalar (.int a) (.int b) .none = .ok (.int q) →
        executorch_prim.mod_Scalar (.int a) (.int b) .none = .ok (.int r) →
        a = q * b + r) :=
  ⟨by decide, by decide, by decide,
   fun h => absurd
     (h (-7) 2 (-4) (-1) (by decide) (by decide) (by decide) (by decide) (by decide)
       (by decide) (by decide) (by decide))
     (by decide)⟩

/-- C27, amended.  For 64-bit integers a and b with b not 0, the pair
(INT64_MIN, -1) excluded, `floordiv.Scalar` returns the floor q of a / b and
`mod.Scalar` returns the remainder r of the truncated division, which has the
sign of a; both are 64-bit integers.  The identity a = q * b + r holds exactly
when a and b have the same sign or r is 0; in the other case q * b + r is
a - b. -/
theorem floordiv_mod_identity (a b : Int) (out1 out2 : EValue)
    (ha : INT64_MIN ≤ a ∧ a ≤ INT64_MAX) (hb : INT64_MIN ≤ b ∧ b ≤ INT64_MAX)
    (hb0 : b ≠ 0) (hmin : ¬ (a = INT64_MIN ∧ b = -1)) :
    ∃ q r : Int,
      executorch_prim.floordiv_Scalar (.int a) (.int b) out1 = .ok (.int q) ∧
      executorch_prim.mod_Scalar (.int a) (.int b) out2 = .ok (.int r) ∧
      q = ⌊(a : ℚ) / (b : ℚ)⌋ ∧
      r = a.tmod b ∧
      (INT64_MIN ≤ q ∧ q ≤ INT64_MAX) ∧ (INT64_MIN ≤ r ∧ r ≤ INT64_MAX) ∧
      (a = q * b + r ↔ ((a < 0 ↔ b < 0) ∨ r = 0)) ∧
      (¬ ((a < 0 ↔ b < 0) ∨ r = 0) → q * b + r = a - b) := by
  obtain ⟨hp, hn⟩ := floordiv_bounds a b hb0
  have hfloor := floor_of_bounds a b _ hb0 hp hn
  have hd := Int.tmod_add_tdiv a b
  refine ⟨_, _, floordiv_Scalar_int a b out1 hb0 hmin, mod_Scalar_int a b out2 hb0 hmin,
    hfloor.symm, rfl, ?_, tmod_int64_range a b hb hb0, ?_, ?_⟩
  · rw [← hfloor]
    exact floor_int64_range a b ha hb hb0 hmin
  · by_cases hs : (a < 0 ↔ b < 0)
    · have hdec : decide (a < 0) = decide (b < 0) := decide_eq_decide.mpr hs
      simp only [hdec, if_true, hs, true_or, iff_true]
      linarith
    · have hdec : ¬ decide (a < 0) = decide (b < 0) := fun h => hs (decide_eq_decide.mp h)
      simp only [hdec, if_false, hs, false_or]
      split_ifs with hm
      · constructor
        · intro h
          exfalso
          apply hb0
          linarith
        · intro h
          exact absurd h hm
      · have h0 : a.tmod b = 0 := by simpa using hm
        simp only [h0, iff_true]
        linarith
  · intro hcase
    rw [not_or] at hcase
    obtain ⟨hs, hm⟩ := hcase
    have hdec : ¬ decide (a < 0) = decide (b < 0) := fun h => hs (decide_eq_decide.mp h)
    simp only [hdec, if_false, hm, ne_eq, not_false_eq_true, if_true]
    linarith

theorem floordiv_mod_identity_witness :
    ∃ q r : Int,
      executorch_prim.floordiv_Scalar (.int 7) (.int (-2)) .none = .ok (.int q) ∧
      executorch_prim.mod_Scalar (.int 7) (.int (-2)) .none = .ok (.int r) ∧
      q * -2 + r = 7 - -2 :=
  (floordiv_mod_identity 7 (-2) .none .none (by decide) (by decide) (by decide)
    (by decide)).imp (fun _ h => h.imp (fun _ h1 =>
      ⟨h1.1, h1.2.1, h1.2.2.2.2.2.2.2 (by
        rw [h1.2.2.2.1]
        decide)⟩))

/-- C28.  For 64-bit integers a and b with b not 0, the pair (INT64_MIN, -1)
excluded, `floordiv.Scalar` on Int operands returns the Int floor(a / b); it is
the truncated quotient, less one exactly when the operands have opposite signs
and the remainder is not 0; and it is a 64-bit integer. -/
theorem floordiv_Scalar_int_is_floor (a b : Int) (out : EValue)
    (ha : INT64_MIN ≤ a ∧ a ≤ INT64_MAX) (hb : INT64_MIN ≤ b ∧ b ≤ INT64_MAX)
    (hb0 : b ≠ 0) (hmin : ¬ (a = INT64_MIN ∧ b = -1)) :
    executorch_prim.floordiv_Scalar (.int a) (.int b) out =
      .ok (.int ⌊(a : ℚ) / (b : ℚ)⌋) ∧
    ⌊(a : ℚ) / (b : ℚ)⌋ =
      (if ¬ (a < 0 ↔ b < 0) ∧ a.tmod b ≠ 0 then a.tdiv b - 1 else a.tdiv b) ∧
    INT64_MIN ≤ ⌊(a : ℚ) / (b : ℚ)⌋ ∧ ⌊(a : ℚ) / (b : ℚ)⌋ ≤ INT64_MAX := by
  obtain ⟨hp, hn⟩ := floordiv_bounds a b hb0
  have hfloor := floor_of_bounds a b _ hb0 hp hn
  have hq := floordiv_Scalar_int a b out hb0 hmin
  rw [← hfloor] at hp hn hq
  refine ⟨hq, ?_, ?_, ?_⟩
  · rw [hfloor]
    by_cases h1 : a < 0 <;> by_cases h2 : b < 0 <;> by_cases hm : a.tmod b = 0 <;>
      simp [h1, h2, hm]
  · exact (floor_int64_range a b ha hb hb0 hmin).1
  · exact (floor_int64_range a b ha hb hb0 hmin).2

theorem floordiv_Scalar_int_is_floor_witness :
    executorch_prim.floordiv_Scalar (.int (-7)) (.int 2) .none = .ok (.int (-4)) :=
  (floordiv_Scalar_int_is_floor (-7) 2 .none (by decide) (by decide) (by decide)
    (by decide)).1.trans (by
      rw [(floordiv_Scalar_int_is_floor (-7) 2 .none (by decide) (by decide) (by decide)
        (by decide)).2.1]
      decide)

/-! ### Floor division on doubles -/

theorem signbit_round_to (sign : Bool) (num den : Nat) (exp : Int) :
    (Double.round_to sign num den exp).signbit = sign := by
  simp only [Double.round_to, Double.pack]
  split_ifs <;> rfl

theorem signbit_of_int (a : Int) : (Double.of_int a).signbit = decide (a < 0) :=
  signbit_round_to _ _ _ _

/-- C29, the claim as stated fails.  On the Double operands 7.0 and -2.0 the
entry `floordiv.Scalar` returns the Double -4.0, which is not 2.0. -/
theorem floordiv_double_example_counterexample :
    executorch_prim.floordiv_Scalar (.double (Double.of_int 7)) (.double (Double.of_int (-2)))
      .none = .ok (.double (Double.of_int (-4))) ∧
    executorch_prim.floordiv_Scalar (.double (Double.of_int 7)) (.double (Double.of_int (-2)))
      .none ≠ .ok (.double (Double.of_int 2)) :=
  ⟨by decide, by decide⟩

/-- C29, amended.  On the Double operands 7.0 and -2.0, whatever the output
slot holds, the entry `floordiv.Scalar` returns the Double -4.0: `fmod` gives
1.0, the quotient (7.0 - 1.0) / -2.0 is -3.0, the remainder is not zero and
its sign differs from that of the divisor, so 1 is subtracted. -/
theorem floordiv_double_example (out : EValue) :
    Double.of_int 7 = .finite false (7 * 2 ^ 50) (-50) ∧
    Double.of_int (-2) = .finite true (2 ^ 52) (-51) ∧
    Double.of_int (-4) = .finite true (2 ^ 52) (-50) ∧
    Double.fmod (Double.of_int 7) (Double.of_int (-2)) = Double.of_int 1 ∧
    Double.div (Double.sub (Double.of_int 7) (Double.of_int 1)) (Double.of_int (-2)) =
      Double.of_int (-3) ∧
    executorch_prim.floordiv_Scalar (.double (Double.of_int 7)) (.double (Double.of_int (-2)))
      out = .ok (.double (Double.of_int (-4))) := by
  refine ⟨by decide, by decide, by decide, by decide, by decide, ?_⟩
  simp only [executorch_prim.floordiv_Scalar]
  decide

/-- C30.  When at least one operand of `floordiv.Scalar` is a Double, the other
being a Double or an Int, and the divisor is zero (either zero of the doubles,
or the Int 0), the entry does not fail: it assigns the infinity whose sign is
the sign bit of the dividend, positive when the bit is clear and negative when
it is set.  For an Int dividend the sign bit of its conversion is set exactly
when the Int is negative. -/
theorem floordiv_double_by_zero (out : EValue) :
    (∀ x y : Double, y.is_zero = true →
      executorch_prim.floordiv_Scalar (.double x) (.double y) out =
        .ok (.double (if x.signbit then Double.INFINITY.neg else Double.INFINITY))) ∧
    (∀ (x : Int) (y : Double), y.is_zero = true →
      executorch_prim.floordiv_Scalar (.int x) (.double y) out =
        .ok (.double (if (Double.of_int x).signbit then Double.INFINITY.neg
          else Double.INFINITY)) ∧
      (Double.of_int x).signbit = decide (x < 0)) ∧
    (∀ x : Double,
      executorch_prim.floordiv_Scalar (.double x) (.int 0) out =
        .ok (.double (if x.signbit then Double.INFINITY.neg else Double.INFINITY))) ∧
    Double.INFINITY = .inf false ∧ Double.INFINITY.neg = .inf true := by
  have hz : ∀ a b : Double, b.is_zero = true →
      floor_div_double a b = if a.signbit then Double.INFINITY.neg else Double.INFINITY := by
    intro a b hb
    simp only [floor_div_double, hb, if_true]
  refine ⟨?_, ?_, ?_, rfl, rfl⟩
  · intro x y hy
    simp only [executorch_prim.floordiv_Scalar, hz x y hy]
  · intro x y hy
    exact ⟨by simp only [executorch_prim.floordiv_Scalar, hz _ y hy], signbit_of_int x⟩
  · intro x
    have h0 : (Double.of_int 0).is_zero = true := by decide
    simp only [executorch_prim.floordiv_Scalar, hz x _ h0]

theorem floordiv_double_by_zero_witness :
    executorch_prim.floordiv_Scalar (.double (Double.of_int (-3)))
      (.double (.finite true 0 (-1074))) .none = .ok (.double (.inf true)) ∧
    executorch_prim.floordiv_Scalar (.int 5) (.double (.finite false 0 (-1074))) .none =
      .ok (.double (.inf false)) :=
  ⟨((floordiv_double_by_zero .none).1 (Double.of_int (-3)) (.finite true 0 (-1074)) rfl).trans
      (by decide),
   (((floordiv_double_by_zero .none).2.1 5 (.finite false 0 (-1074)) rfl).1).trans
      (by decide)⟩


/-! ### The integer entries, `mod.Scalar` and the algebra entries -/

theorem floordiv_int_eq (a b : Int) (hb : b ≠ 0) (hmin : ¬ (a = INT64_MIN ∧ b = -1)) :
    executorch_prim.floordiv_int (.int a) (.int b) = .ok (.int (a.tdiv b)) := by
  simp only [executorch_prim.floordiv_int, int64_div, hb, hmin, false_or, if_false]

/-- On the Int operands -7 and 2 the entry `floordiv.int` returns -3, the
quotient truncated towards zero, and the entry `floordiv.Scalar` returns -4,
the floor. -/
theorem floordiv_int_vs_Scalar_counterexample :
    executorch_prim.floordiv_int (.int (-7)) (.int 2) = .ok (.int (-3)) ∧
    executorch_prim.floordiv_Scalar (.int (-7)) (.int 2) .none = .ok (.int (-4)) ∧
    executorch_prim.floordiv_int (.int (-7)) (.int 2) ≠
      executorch_prim.floordiv_Scalar (.int (-7)) (.int 2) .none :=
  ⟨by decide, by decide, by decide⟩

/-- C39, the code does not guarantee it.  For 64-bit integers a and b with b
not 0, the pair (INT64_MIN, -1) excluded, the entry `floordiv.int` returns the
quotient of a by b truncated towards zero, where its sibling `floordiv.Scalar`
returns the floor of a / b on the same Int operands.  The two agree exactly
when a and b have the same sign or the remainder of a by b is 0; on every
other pair, such as -7 and 2, `floordiv.int` returns the floor plus one. -/
theorem floordiv_int_vs_Scalar (a b : Int) (out : EValue)
    (ha : INT64_MIN ≤ a ∧ a ≤ INT64_MAX) (hb : INT64_MIN ≤ b ∧ b ≤ INT64_MAX)
    (hb0 : b ≠ 0) (hmin : ¬ (a = INT64_MIN ∧ b = -1)) :
    ∃ t q : Int,
      executorch_prim.floordiv_int (.int a) (.int b) = .ok (.int t) ∧
      executorch_prim.floordiv_Scalar (.int a) (.int b) out = .ok (.int q) ∧
      t = a.tdiv b ∧ q = ⌊(a : ℚ) / (b : ℚ)⌋ ∧
      (INT64_MIN ≤ t ∧ t ≤ INT64_MAX) ∧
      (t = q ↔ ((a < 0 ↔ b < 0) ∨ a.tmod b = 0)) ∧
      (¬ ((a < 0 ↔ b < 0) ∨ a.tmod b = 0) → t = q + 1) := by
  obtain ⟨hp, hn⟩ := floordiv_bounds a b hb0
  have hfloor := floor_of_bounds a b _ hb0 hp hn
  have hrange := floor_int64_range a b ha hb hb0 hmin
  rw [hfloor] at hrange
  refine ⟨_, _, floordiv_int_eq a b hb0 hmin, floordiv_Scalar_int a b out hb0 hmin, rfl,
    hfloor.symm, ?_, ?_, ?_⟩
  · by_cases hs : (a < 0 ↔ b < 0)
    · have hdec : decide (a < 0) = decide (b < 0) := decide_eq_decide.mpr hs
      simpa only [hdec, if_true] using hrange
    · have hdec : ¬ decide (a < 0) = decide (b < 0) := fun h => hs (decide_eq_decide.mp h)
      simp only [hdec, if_false] at hrange
      by_cases hm : a.tmod b = 0
      · simpa [hm] using hrange
      · simp only [hm, ne_eq, not_false_eq_true, if_true] at hrange
        -- the truncated quotient is the floor plus one; it fits because a fits
        obtain ⟨l, u⟩ := hrange
        refine ⟨by omega, ?_⟩
        have hd := Int.tmod_add_tdiv a b
        obtain ⟨t1, t2⟩ := tmod_bounds a b hb0
        simp only [INT64_MIN, INT64_MAX] at *
        by_contra hc
        push_neg at hc
        rcases lt_or_gt_of_ne hb0 with h | h
        · have habs : |b| = -b := abs_of_neg h
          rw [habs] at t1 t2
          by_cases ha0 : 0 ≤ a
          · obtain ⟨x1, x2⟩ := t1 ha0
            nlinarith
          · exact hs ⟨fun _ => h, fun _ => by omega⟩
        · have habs : |b| = b := abs_of_pos h
          rw [habs] at t1 t2
          by_cases ha0 : 0 ≤ a
          · exact hs ⟨fun h1 => by omega, fun h1 => by omega⟩
          · obtain ⟨x1, x2⟩ := t2 (by omega)
            nlinarith
  · by_cases hs : (a < 0 ↔ b < 0)
    · have hdec : decide (a < 0) = decide (b < 0) := decide_eq_decide.mpr hs
      simp only [hdec, if_true, hs, true_or]
    · have hdec : ¬ decide (a < 0) = decide (b < 0) := fun h => hs (decide_eq_decide.mp h)
      simp only [hdec, if_false, hs, false_or]
      by_cases hm : a.tmod b = 0
      · simp [hm]
      · simp only [hm, ne_eq, not_false_eq_true, if_true, iff_false]
        omega
  · intro hcase
    rw [not_or] at hcase
    obtain ⟨hs, hm⟩ := hcase
    have hdec : ¬ decide (a < 0) = decide (b < 0) := fun h => hs (decide_eq_decide.mp h)
    simp only [hdec, if_false, hm, ne_eq, not_false_eq_true, if_true]
    omega

theorem floordiv_int_vs_Scalar_witness :
    ∃ t q : Int,
      executorch_prim.floordiv_int (.int 7) (.int (-2)) = .ok (.int t) ∧
      executorch_prim.floordiv_Scalar (.int 7) (.int (-2)) .none = .ok (.int q) ∧
      t = q + 1 :=
  (floordiv_int_vs_Scalar 7 (-2) .none (by decide) (by decide) (by decide)
    (by decide)).imp (fun _ h => h.imp (fun _ h1 =>
      ⟨h1.1, h1.2.1, h1.2.2.2.2.2.2 (by decide)⟩))

/-- C33, the claim as stated fails.  On the Double 7.0 and the Int 2, and on
two Doubles, the entry `mod.Scalar` signals InvalidType and leaves the output
slot as it was; it returns no Double. -/
theorem mod_Scalar_double_counterexample :
    executorch_prim.mod_Scalar (.double (Double.of_int 7)) (.int 2) (.int 5) =
      .fail .InvalidType (.int 5) ∧
    executorch_prim.mod_Scalar (.double (Double.of_int 7)) (.double (Double.of_int 2))
      (.int 5) = .fail .InvalidType (.int 5) ∧
    ¬ (∀ (x : Double) (y : Int) (out : EValue),
        ∃ d, executorch_prim.mod_Scalar (.double x) (.int y) out = .ok (.double d)) :=
  ⟨by decide, by decide,
   fun h => by
     obtain ⟨d, hd⟩ := h (Double.of_int 7) 2 (.int 5)
     simp [executorch_prim.mod_Scalar] at hd⟩

/-- C33, amended.  The entry `mod.Scalar` operates on two Int operands only: for
64-bit integers a and b with b not 0, the pair (INT64_MIN, -1) excluded, it
returns the Int remainder of the truncated division of a by b; for every other
pair of operands, so whenever an operand is a Double, it signals InvalidType
and leaves the output slot as it was. -/
theorem mod_Scalar_int_only (out : EValue) :
    (∀ a b : Int, b ≠ 0 → ¬ (a = INT64_MIN ∧ b = -1) →
      executorch_prim.mod_Scalar (.int a) (.int b) out = .ok (.int (a.tmod b))) ∧
    (∀ a b : EValue, ¬ (a.isInt = true ∧ b.isInt = true) →
      executorch_prim.mod_Scalar a b out = .fail .InvalidType out) ∧
    (∀ a b : EValue, a.isDouble = true ∨ b.isDouble = true →
      executorch_prim.mod_Scalar a b out = .fail .InvalidType out) := by
  refine ⟨fun a b hb hmin => mod_Scalar_int a b out hb hmin, ?_, ?_⟩
  · intro a b h
    cases a <;> cases b <;> simp_all [executorch_prim.mod_Scalar, EValue.isInt]
  · intro a b h
    cases a <;> cases b <;> simp_all [executorch_prim.mod_Scalar, EValue.isDouble]

theorem mod_Scalar_int_only_witness :
    executorch_prim.mod_Scalar (.int (-7)) (.int 2) .none = .ok (.int (-1)) ∧
    executorch_prim.mod_Scalar (.int 7) (.double (Double.of_int 2)) .none =
      .fail .InvalidType .none :=
  ⟨((mod_Scalar_int_only .none).1 (-7) 2 (by decide) (by decide)).trans (by decide),
   (mod_Scalar_int_only .none).2.2 (.int 7) (.double (Double.of_int 2)) (Or.inr rfl)⟩

theorem ALGEBRA_ET_PRIM_OP_kinds (int_op : Int → Int → Int)
    (double_op : Double → Double → Double) (out : EValue) :
    (∀ x y : Int, INT64_MIN ≤ int_op x y → int_op x y ≤ INT64_MAX →
      ALGEBRA_ET_PRIM_OP int_op double_op (.int x) (.int y) out = .ok (.int (int_op x y))) ∧
    (∀ a b : EValue, (a.isInt = true ∨ a.isDouble = true) →
      (b.isInt = true ∨ b.isDouble = true) → (a.isDouble = true ∨ b.isDouble = true) →
      ∃ d, ALGEBRA_ET_PRIM_OP int_op double_op a b out = .ok (.double d)) ∧
    (∀ a b : EValue,
      ¬ ((a.isInt = true ∨ a.isDouble = true) ∧ (b.isInt = true ∨ b.isDouble = true)) →
      ALGEBRA_ET_PRIM_OP int_op double_op a b out = .fail .InvalidType out) := by
  refine ⟨?_, ?_, ?_⟩
  · intro x y h1 h2
    simp [ALGEBRA_ET_PRIM_OP, int64_result, h1, h2]
  · intro a b ha hb hd
    cases a <;> cases b <;>
      simp_all [ALGEBRA_ET_PRIM_OP, EValue.isInt, EValue.isDouble]
  · intro a b h
    cases a <;> cases b <;>
      simp_all [ALGEBRA_ET_PRIM_OP, EValue.isInt, EValue.isDouble]

/-- C32.  For each of the entries `add.Scalar`, `sub.Scalar` and `mul.Scalar`:
on two Int operands whose sum, difference or product is a 64-bit integer the
result is that Int; when each operand is an Int or a Double and at least one
is a Double the result is a Double; for every other pair of operands the entry
signals InvalidType and leaves the output slot as it was. -/
theorem algebra_entries_by_kind (out : EValue) :
    (∀ x y : Int, INT64_MIN ≤ x + y → x + y ≤ INT64_MAX →
      executorch_prim.add_Scalar (.int x) (.int y) out = .ok (.int (x + y))) ∧
    (∀ x y : Int, INT64_MIN ≤ x - y → x - y ≤ INT64_MAX →
      executorch_prim.sub_Scalar (.int x) (.int y) out = .ok (.int (x - y))) ∧
    (∀ x y : Int, INT64_MIN ≤ x * y → x * y ≤ INT64_MAX →
      executorch_prim.mul_Scalar (.int x) (.int y) out = .ok (.int (x * y))) ∧
    (∀ a b : EValue, (a.isInt = true ∨ a.isDouble = true) →
      (b.isInt = true ∨ b.isDouble = true) → (a.isDouble = true ∨ b.isDouble = true) →
      (∃ d, executorch_prim.add_Scalar a b out = .ok (.double d)) ∧
      (∃ d, executorch_prim.sub_Scalar a b out = .ok (.double d)) ∧
      (∃ d, executorch_prim.mul_Scalar a b out = .ok (.double d))) ∧
    (∀ a b : EValue,
      ¬ ((a.isInt = true ∨ a.isDouble = true) ∧ (b.isInt = true ∨ b.isDouble = true)) →
      executorch_prim.add_Scalar a b out = .fail .InvalidType out ∧
      executorch_prim.sub_Scalar a b out = .fail .InvalidType out ∧
      executorch_prim.mul_Scalar a b out = .fail .InvalidType out) := by
  obtain ⟨a1, a2, a3⟩ := ALGEBRA_ET_PRIM_OP_kinds (fun x y => x + y) Double.add out
  obtain ⟨s1, s2, s3⟩ := ALGEBRA_ET_PRIM_OP_kinds (fun x y => x - y) Double.sub out
  obtain ⟨m1, m2, m3⟩ := ALGEBRA_ET_PRIM_OP_kinds (fun x y => x * y) Double.mul out
  exact ⟨a1, s1, m1, fun a b ha hb hd => ⟨a2 a b ha hb hd, s2 a b ha hb hd, m2 a b ha hb hd⟩,
    fun a b h => ⟨a3 a b h, s3 a b h, m3 a b h⟩⟩

theorem algebra_entries_by_kind_witness :
    executorch_prim.add_Scalar (.int 3) (.int 4) .none = .ok (.int 7) ∧
    executorch_prim.mul_Scalar (.bool true) (.int 4) (.int 9) = .fail .InvalidType (.int 9) ∧
    ∃ d, executorch_prim.sub_Scalar (.int 3) (.double (Double.of_int 4)) .none =
      .ok (.double d) :=
  ⟨(algebra_entries_by_kind .none).1 3 4 (by decide) (by decide),
   ((algebra_entries_by_kind (.int 9)).2.2.2.2 (.bool true) (.int 4) (by decide)).2.2,
   ((algebra_entries_by_kind .none).2.2.2.1 (.int 3) (.double (Double.of_int 4))
      (Or.inl rfl) (Or.inr rfl) (Or.inr rfl)).2.1⟩


/-! ### Rounding a double to an integer -/

theorem bit_length_zero (fuel : Nat) : bit_length fuel 0 = 0 := by
  cases fuel <;> simp [bit_length]

/-- With enough fuel, `bit_length` is the number of binary digits. -/
theorem bit_length_fuel : ∀ (fuel n : Nat), n < 2 ^ fuel → 0 < n →
    2 ^ (bit_length fuel n - 1) ≤ n ∧ n < 2 ^ bit_length fuel n ∧ 0 < bit_length fuel n := by
  intro fuel
  induction fuel with
  | zero => intro n h1 h2; simp at h1; omega
  | succ f ih =>
    intro n h1 h2
    have hn : n ≠ 0 := by omega
    simp only [bit_length, hn, if_false]
    by_cases h : n / 2 = 0
    · rw [h, bit_length_zero]
      have : n = 1 := by omega
      subst this
      simp
    · have hlt : n / 2 < 2 ^ f := by
        rw [pow_succ] at h1
        omega
      obtain ⟨a, b, c⟩ := ih (n / 2) hlt (by omega)
      have hp : 2 ^ bit_length f (n / 2) = 2 * 2 ^ (bit_length f (n / 2) - 1) := by
        rw [← pow_succ']
        congr 1
        omega
      refine ⟨?_, ?_, by omega⟩
      · rw [Nat.add_sub_cancel]
        omega
      · rw [pow_succ]
        omega

/-- The number of binary digits of a positive number brackets it between two
powers of two. -/
theorem bit_length_spec (n : Nat) (h : 0 < n) :
    2 ^ (bit_length n n - 1) ≤ n ∧ n < 2 ^ bit_length n n ∧ 0 < bit_length n n :=
  bit_length_fuel n n (Nat.lt_two_pow n) h

theorem bit_length_le (n t : Nat) (h : 0 < n) (hn : n < 2 ^ t) : bit_length n n ≤ t := by
  obtain ⟨a, _, c⟩ := bit_length_spec n h
  by_contra hc
  have : 2 ^ t ≤ 2 ^ (bit_length n n - 1) := Nat.pow_le_pow_right (by norm_num) (by omega)
  omega

/-- The exponent that `round_to` picks for a whole number times a power of two. -/
theorem result_exp_one (N : Nat) (E : Int) (hN : 0 < N) :
    Double.result_exp N 1 E = max ((bit_length N N : Int) - 53 + E) (-1074) := by
  obtain ⟨a, _, c⟩ := bit_length_spec N hN
  unfold Double.result_exp
  have h1 : bit_length 1 1 = 1 := rfl
  have hd : ((bit_length N N : Int) - (1 : Nat)) ≥ 0 := by
    have : (1 : Int) ≤ (bit_length N N : Int) := by exact_mod_cast c
    simp only [Nat.cast_one]
    omega
  have htn : ((bit_length N N : Int) - (1 : Nat)).toNat = bit_length N N - 1 := by
    simp only [Nat.cast_one]
    omega
  simp only [h1, hd, if_true, htn, one_mul, ge_iff_le, a, decide_True]
  congr 1
  simp only [Nat.cast_one]
  omega

/-- The function `round_to` is exact on a value that fits a `double`: a
mantissa below 2 ^ 53 times a power of two that is neither too small nor too
large. -/
theorem round_to_exact (s : Bool) (M j : Nat) (E : Int) (hM0 : 0 < M) (hM : M < 2 ^ 53)
    (hE : -1074 ≤ E) (hmax : E + j ≤ 971) :
    ∃ (M1 : Nat) (E1 : Int), Double.round_to s (M * 2 ^ j) 1 E = .finite s M1 E1 ∧
      -1074 ≤ E1 ∧ 0 < M1 ∧ (M1 : ℚ) * (2 : ℚ) ^ E1 = (M : ℚ) * (2 : ℚ) ^ (E + j) := by
  have hNpos : 0 < M * 2 ^ j := Nat.mul_pos hM0 (by positivity)
  obtain ⟨a, b, c⟩ := bit_length_spec (M * 2 ^ j) hNpos
  have hb53 : bit_length (M * 2 ^ j) (M * 2 ^ j) ≤ 53 + j := by
    apply bit_length_le _ _ hNpos
    rw [pow_add]
    exact Nat.mul_lt_mul_of_lt_of_le hM (le_refl _) (by positivity)
  have hre := result_exp_one (M * 2 ^ j) E hNpos
  generalize hbl : bit_length (M * 2 ^ j) (M * 2 ^ j) = bl at a b c hb53 hre
  unfold Double.round_to
  rw [if_neg (by omega)]
  generalize hR : Double.result_exp (M * 2 ^ j) 1 E = re at hre
  have hre971 : re ≤ 971 := by
    rw [hre]
    apply max_le <;> omega
  have hre1074 : -1074 ≤ re := by
    rw [hre]
    exact le_max_right _ _
  by_cases hsh : 0 ≤ E - re
  · -- the mantissa is shifted up
    obtain ⟨sh, hsh2⟩ : ∃ sh : Nat, E - re = sh := ⟨(E - re).toNat, by omega⟩
    have hq : Double.rounded_quotient (M * 2 ^ j) 1 (E - re) = M * 2 ^ j * 2 ^ sh := by
      unfold Double.rounded_quotient
      simp [hsh, hsh2, Nat.mod_one]
    have hshb : sh + bl ≤ 53 := by
      have : (bl : Int) - 53 + E ≤ re := by rw [hre]; exact le_max_left _ _
      omega
    have hlt : M * 2 ^ j * 2 ^ sh < 2 ^ 53 := by
      calc M * 2 ^ j * 2 ^ sh < 2 ^ bl * 2 ^ sh :=
            Nat.mul_lt_mul_of_lt_of_le b (le_refl _) (by positivity)
        _ = 2 ^ (bl + sh) := by rw [pow_add]
        _ ≤ 2 ^ 53 := Nat.pow_le_pow_right (by norm_num) (by omega)
    refine ⟨M * 2 ^ j * 2 ^ sh, re, ?_, hre1074, by positivity, ?_⟩
    · rw [hq]
      unfold Double.pack
      have hne : M * 2 ^ j * 2 ^ sh ≠ 2 ^ 53 := by omega
      simp only [hne, if_false]
      rw [if_neg (by omega)]
    · have he : E + (j : Int) = (j : Int) + (sh : Int) + re := by omega
      rw [he, zpow_add₀ (by norm_num), zpow_add₀ (by norm_num), zpow_natCast, zpow_natCast]
      push_cast
      ring
  · -- the mantissa is shifted down, by no more than the power of two it holds
    have hre2 : re = (bl : Int) - 53 + E := by
      rw [hre]
      apply max_eq_left
      rw [hre] at hsh
      by_contra hc
      rw [max_eq_right (by omega)] at hsh
      omega
    obtain ⟨t, ht⟩ : ∃ t : Nat, bl = 53 + t := ⟨bl - 53, by omega⟩
    have htj : t ≤ j := by omega
    obtain ⟨u, hu⟩ : ∃ u : Nat, j = u + t := ⟨j - t, by omega⟩
    have hN : M * 2 ^ j = M * 2 ^ u * 2 ^ t := by rw [hu, pow_add, mul_assoc]
    have hneg : ¬ (E - re ≥ 0) := by omega
    have htn : (-(E - re)).toNat = t := by omega
    have hq : Double.rounded_quotient (M * 2 ^ j) 1 (E - re) = M * 2 ^ u := by
      unfold Double.rounded_quotient
      have hpos : 0 < 2 ^ t := by positivity
      simp only [hneg, if_false, htn, one_mul, hN, Nat.mul_mod_left, Nat.mul_div_cancel _ hpos]
      rw [if_neg]
      omega
    have hlt : M * 2 ^ u < 2 ^ 53 := by
      have h1 : M * 2 ^ u * 2 ^ t < 2 ^ 53 * 2 ^ t := by
        rw [← hN, ← pow_add, ← ht]
        exact b
      exact Nat.lt_of_mul_lt_mul_right h1
    refine ⟨M * 2 ^ u, re, ?_, hre1074, by positivity, ?_⟩
    · rw [hq]
      unfold Double.pack
      have hne : M * 2 ^ u ≠ 2 ^ 53 := by omega
      simp only [hne, if_false]
      rw [if_neg (by omega)]
    · have he : E + (j : Int) = (u : Int) + re := by omega
      rw [he, zpow_add₀ (by norm_num), zpow_natCast]
      push_cast
      ring

theorem two_zpow_pos (e : Int) : (0 : ℚ) < (2 : ℚ) ^ e := by positivity

/-- The function `round_to` is exact on a whole number times a power of two
whose value fits a `double`. -/
theorem round_to_rep (s : Bool) (N : Nat) (E : Int) (hE : -1074 ≤ E) (M : Nat) (c : Int)
    (hM : M < 2 ^ 53) (hEc : E ≤ c) (hc : c ≤ 971)
    (hv : (N : ℚ) * (2 : ℚ) ^ E = (M : ℚ) * (2 : ℚ) ^ c) :
    (Double.round_to s N 1 E).represents ((if s then -1 else 1) * (N : ℚ) * (2 : ℚ) ^ E) := by
  by_cases hN : N = 0
  · subst hN
    exact ⟨s, 0, -1074, by simp [Double.round_to], le_refl _,
      by simp [Double.to_rat, Double.round_to]⟩
  · obtain ⟨j, hj⟩ : ∃ j : Nat, c = E + j := ⟨(c - E).toNat, by omega⟩
    have hNM : N = M * 2 ^ j := by
      rw [hj, zpow_add₀ (by norm_num), zpow_natCast] at hv
      have h2 : (N : ℚ) = (M : ℚ) * 2 ^ j := by
        have hp := two_zpow_pos E
        have : (N : ℚ) * (2 : ℚ) ^ E = ((M : ℚ) * 2 ^ j) * (2 : ℚ) ^ E := by rw [hv]; ring
        exact mul_right_cancel₀ (ne_of_gt hp) this
      exact_mod_cast h2
    have hM0 : 0 < M := by
      rcases Nat.eq_zero_or_pos M with h | h
      · subst h; simp at hNM; omega
      · exact h
    obtain ⟨M1, E1, h1, h2, _, h4⟩ := round_to_exact s M j E hM0 hM hE (by omega)
    refine ⟨s, M1, E1, by rw [hNM, h1], h2, ?_⟩
    rw [hNM, h1]
    simp only [Double.to_rat]
    rw [mul_assoc, h4, zpow_add₀ (by norm_num), zpow_natCast]
    push_cast
    ring

/-- The value of a finite `double` at a smaller exponent. -/
theorem to_rat_scaled (s : Bool) (m : Nat) (e E : Int) (h : E ≤ e) :
    (((if s then -1 else 1) * ((m * 2 ^ (e - E).toNat : Nat) : Int) : Int) : ℚ) * (2 : ℚ) ^ E =
      (Double.finite s m e).to_rat := by
  obtain ⟨j, hj⟩ : ∃ j : Nat, e = E + j := ⟨(e - E).toNat, by omega⟩
  have htn : (e - E).toNat = j := by omega
  rw [htn]
  simp only [Double.to_rat]
  rw [hj, zpow_add₀ (by norm_num), zpow_natCast]
  cases s <;> simp <;> ring

/-- The difference of two finite `double`s is exact when it fits a `double`. -/
theorem sub_exact (s1 : Bool) (m1 : Nat) (e1 : Int) (s2 : Bool) (m2 : Nat) (e2 : Int)
    (h1 : -1074 ≤ e1) (h2 : -1074 ≤ e2) (M : Nat) (c : Int) (hM : M < 2 ^ 53)
    (hEc : min e1 e2 ≤ c) (hc : c ≤ 971)
    (hv : |(Double.finite s1 m1 e1).to_rat - (Double.finite s2 m2 e2).to_rat| =
      (M : ℚ) * (2 : ℚ) ^ c) :
    (Double.sub (.finite s1 m1 e1) (.finite s2 m2 e2)).represents
      ((Double.finite s1 m1 e1).to_rat - (Double.finite s2 m2 e2).to_rat) := by
  have hx := to_rat_scaled s1 m1 e1 (min e1 e2) (min_le_left _ _)
  have hy := to_rat_scaled s2 m2 e2 (min e1 e2) (min_le_right _ _)
  unfold Double.sub
  simp only
  generalize hX : ((if s1 then -1 else 1) * ((m1 * 2 ^ (e1 - min e1 e2).toNat : Nat) : Int) : Int) = X
    at hx
  generalize hY : ((if s2 then -1 else 1) * ((m2 * 2 ^ (e2 - min e1 e2).toNat : Nat) : Int) : Int) = Y
    at hy
  have hD : ((X - Y : Int) : ℚ) * (2 : ℚ) ^ (min e1 e2) =
      (Double.finite s1 m1 e1).to_rat - (Double.finite s2 m2 e2).to_rat := by
    rw [← hx, ← hy]
    push_cast
    ring
  by_cases hd : X - Y = 0
  · rw [if_pos hd]
    refine ⟨_, _, _, rfl, le_refl _, ?_⟩
    rw [← hD, hd]
    simp [Double.to_rat]
  · rw [if_neg hd]
    have hE : -1074 ≤ min e1 e2 := le_min h1 h2
    have hv2 : ((X - Y).natAbs : ℚ) * (2 : ℚ) ^ (min e1 e2) = (M : ℚ) * (2 : ℚ) ^ c := by
      rw [← hv, ← hD, abs_mul, abs_of_pos (two_zpow_pos _), Nat.cast_natAbs, Int.cast_abs]
    have hr := round_to_rep (decide (X - Y < 0)) (X - Y).natAbs (min e1 e2) hE M c hM hEc hc hv2
    have hval : ((if decide (X - Y < 0) = true then -1 else 1 : ℚ)) * ((X - Y).natAbs : ℚ) =
        ((X - Y : Int) : ℚ) := by
      rw [Nat.cast_natAbs, Int.cast_abs]
      by_cases hneg : X - Y < 0
      · have : ((X - Y : Int) : ℚ) < 0 := by exact_mod_cast hneg
        simp only [decide_eq_true_eq]
        rw [if_pos hneg, abs_of_neg this]
        ring
      · have : (0 : ℚ) ≤ ((X - Y : Int) : ℚ) := by exact_mod_cast (not_lt.mp hneg)
        simp only [decide_eq_true_eq]
        rw [if_neg hneg, abs_of_nonneg this]
        ring
    rw [hval, hD] at hr
    exact hr

/-- Two signed products with positive factors agree exactly when both are
zero or signs and products agree. -/
theorem signed_eq_iff (s1 s2 : Bool) (m1 m2 p1 p2 : Nat) (hp1 : 0 < p1) (hp2 : 0 < p2) :
    ((m1 = 0 ∧ m2 = 0) ∨ (s1 = s2 ∧ m1 * p1 = m2 * p2)) ↔
      ((if s1 then -1 else 1) * ((m1 * p1 : Nat) : Int) : Int) =
        (if s2 then -1 else 1) * ((m2 * p2 : Nat) : Int) := by
  have hz1 : m1 * p1 = 0 ↔ m1 = 0 := by
    constructor
    · intro h
      rcases Nat.mul_eq_zero.mp h with h | h
      · exact h
      · omega
    · intro h; simp [h]
  have hz2 : m2 * p2 = 0 ↔ m2 = 0 := by
    constructor
    · intro h
      rcases Nat.mul_eq_zero.mp h with h | h
      · exact h
      · omega
    · intro h; simp [h]
  generalize m1 * p1 = a at hz1
  generalize m2 * p2 = b at hz2
  constructor
  · rintro (⟨h1, h2⟩ | ⟨h1, h2⟩)
    · rw [hz1.mpr h1, hz2.mpr h2]; simp
    · subst h1; rw [h2]
  · intro h
    cases s1 <;> cases s2 <;> simp at h
    · right; exact ⟨rfl, by omega⟩
    · left; exact ⟨hz1.mp (by omega), hz2.mp (by omega)⟩
    · left; exact ⟨hz1.mp (by omega), hz2.mp (by omega)⟩
    · right; exact ⟨rfl, by omega⟩

/-- The comparison of two finite `double`s for equality compares their values. -/
theorem eq_iff_to_rat (s1 : Bool) (m1 : Nat) (e1 : Int) (s2 : Bool) (m2 : Nat) (e2 : Int) :
    Double.eq (.finite s1 m1 e1) (.finite s2 m2 e2) = true ↔
      (Double.finite s1 m1 e1).to_rat = (Double.finite s2 m2 e2).to_rat := by
  have hx := to_rat_scaled s1 m1 e1 (min e1 e2) (min_le_left _ _)
  have hy := to_rat_scaled s2 m2 e2 (min e1 e2) (min_le_right _ _)
  rw [← hx, ← hy]
  have hp := two_zpow_pos (min e1 e2)
  rw [mul_left_inj' (ne_of_gt hp), Int.cast_inj]
  unfold Double.eq
  simp only [Bool.or_eq_true, Bool.and_eq_true, decide_eq_true_eq]
  exact signed_eq_iff s1 s2 m1 m2 _ _ (by positivity) (by positivity)

/-- The conversion to a 64-bit integer is exact on a `double` whose value is a
whole number that fits. -/
theorem to_int64_exact (s : Bool) (m : Nat) (e : Int) (z : Int)
    (hz : (Double.finite s m e).to_rat = (z : ℚ)) (hlo : INT64_MIN ≤ z) (hhi : z ≤ INT64_MAX) :
    (Double.finite s m e).to_int64 = some z := by
  have hv : ((if s then -1 else 1) *
      ((if e ≥ 0 then m * 2 ^ e.toNat else m / 2 ^ (-e).toNat : Nat) : Int) : Int) = z := by
    simp only [Double.to_rat] at hz
    by_cases he : e ≥ 0
    · obtain ⟨j, hj⟩ : ∃ j : Nat, e = j := ⟨e.toNat, by omega⟩
      subst hj
      rw [zpow_natCast] at hz
      simp only [ge_iff_le, Int.natCast_nonneg, if_true, Int.toNat_ofNat]
      cases s
      · simp only [Bool.false_eq_true, if_false, one_mul] at hz ⊢
        exact_mod_cast hz
      · simp only [if_true] at hz ⊢
        have : ((-1 * ((m * 2 ^ j : Nat) : Int) : Int) : ℚ) = (z : ℚ) := by
          push_cast
          rw [← hz]
          ring
        exact_mod_cast this
    · obtain ⟨t, ht⟩ : ∃ t : Nat, e = -(t : Int) := ⟨(-e).toNat, by omega⟩
      subst ht
      have htn : (-(-(t : Int))).toNat = t := by omega
      rw [if_neg he, htn]
      rw [zpow_neg, zpow_natCast] at hz
      have hp : (0 : ℚ) < 2 ^ t := by positivity
      have hz2 : ((if s = true then -1 else 1 : ℚ)) * (m : ℚ) = (z : ℚ) * 2 ^ t := by
        rw [← hz]
        field_simp
      obtain ⟨k, hk | hk⟩ := Int.eq_nat_or_neg z
      · subst hk
        cases s
        · simp only [Bool.false_eq_true, if_false, one_mul] at hz2 ⊢
          have h3 : m = k * 2 ^ t := by exact_mod_cast hz2
          rw [h3, Nat.mul_div_cancel _ (by positivity)]
        · simp only [if_true] at hz2 ⊢
          have h3 : -(m : Int) = ((k * 2 ^ t : Nat) : Int) := by
            have : ((-(m : Int) : Int) : ℚ) = (((k * 2 ^ t : Nat) : Int) : ℚ) := by
              push_cast at hz2 ⊢
              linarith
            exact_mod_cast this
          have h4 : m = 0 ∧ k * 2 ^ t = 0 := by omega
          have h5 : k = 0 := by
            rcases Nat.mul_eq_zero.mp h4.2 with h | h
            · exact h
            · exact absurd h (by positivity)
          rw [h4.1, h5]
          simp
      · subst hk
        cases s
        · simp only [Bool.false_eq_true, if_false, one_mul] at hz2 ⊢
          have h3 : (m : Int) = -((k * 2 ^ t : Nat) : Int) := by
            have : (((m : Int)) : ℚ) = ((-((k * 2 ^ t : Nat) : Int) : Int) : ℚ) := by
              push_cast at hz2 ⊢
              linarith
            exact_mod_cast this
          have h4 : m = 0 ∧ k * 2 ^ t = 0 := by omega
          have h5 : k = 0 := by
            rcases Nat.mul_eq_zero.mp h4.2 with h | h
            · exact h
            · exact absurd h (by positivity)
          rw [h4.1, h5]
          simp
        · simp only [if_true] at hz2 ⊢
          have h3 : m = k * 2 ^ t := by
            have : ((m : Nat) : ℚ) = ((k * 2 ^ t : Nat) : ℚ) := by
              push_cast
              push_cast at hz2
              linarith
            exact_mod_cast this
          rw [h3, Nat.mul_div_cancel _ (by positivity)]
          simp
  unfold Double.to_int64
  simp only
  rw [hv, if_pos ⟨hlo, hhi⟩]

/-- The remainder of a whole number modulo 2, as `fmod` computes it. -/
theorem fmod_two (s : Bool) (M : Nat) (E : Int) (n : Nat) (hE : -1074 ≤ E)
    (hv : (M : ℚ) * (2 : ℚ) ^ E = (n : ℚ)) :
    (Double.fmod (.finite s M E) (.finite false (2 ^ 52) (-51))).represents
      ((if s then -1 else 1) * ((n % 2 : Nat) : ℚ)) := by
  obtain ⟨t, ht⟩ : ∃ t : Nat, min E (-51) = -(t : Int) := ⟨(-(min E (-51))).toNat, by omega⟩
  obtain ⟨u, hu⟩ : ∃ u : Nat, E = min E (-51) + u := ⟨(E - min E (-51)).toNat, by omega⟩
  have hX : M * 2 ^ u = n * 2 ^ t := by
    have h1 : (M : ℚ) * 2 ^ u = (n : ℚ) * 2 ^ t := by
      rw [hu, ht, zpow_add₀ (by norm_num), zpow_neg, zpow_natCast, zpow_natCast] at hv
      have hp : (0 : ℚ) < 2 ^ t := by positivity
      rw [← hv]
      field_simp
    exact_mod_cast h1
  have hY : 2 ^ 52 * 2 ^ (t - 51) = 2 * 2 ^ t := by
    rw [← pow_add, ← pow_succ']
    congr 1
    omega
  have hmod : M * 2 ^ u % (2 ^ 52 * 2 ^ (t - 51)) = n % 2 * 2 ^ t := by
    rw [hX, hY, Nat.mul_mod_mul_right]
  have hu2 : (E - min E (-51)).toNat = u := by omega
  have ht2 : (-51 - min E (-51)).toNat = t - 51 := by omega
  unfold Double.fmod
  simp only
  rw [if_neg (by norm_num), hu2, ht2, hmod]
  have hr := round_to_rep s (n % 2 * 2 ^ t) (min E (-51)) (le_min hE (by norm_num)) (n % 2) 0
    (by have := Nat.mod_lt n (show 0 < 2 by norm_num); omega) (by omega) (by norm_num)
    (by rw [ht, zpow_neg, zpow_natCast]; push_cast; field_simp)
  have hval : (if s = true then -1 else 1 : ℚ) * ((n % 2 * 2 ^ t : Nat) : ℚ) *
      (2 : ℚ) ^ (min E (-51)) = (if s = true then -1 else 1) * ((n % 2 : Nat) : ℚ) := by
    rw [ht, zpow_neg, zpow_natCast]
    push_cast
    field_simp
  rw [hval] at hr
  exact hr

theorem represents_abs (x : Double) (v : ℚ) (h : x.represents v) :
    (Double.abs x).represents |v| := by
  obtain ⟨s, m, e, rfl, he, hv⟩ := h
  refine ⟨false, m, e, rfl, he, ?_⟩
  rw [← hv]
  simp only [Double.abs, Double.to_rat]
  have hp := two_zpow_pos e
  have hm : (0 : ℚ) ≤ (m : ℚ) := Nat.cast_nonneg m
  cases s
  · simp only [Bool.false_eq_true, if_false, one_mul]
    rw [abs_of_nonneg (mul_nonneg hm (le_of_lt hp))]
  · simp only [if_true, Bool.false_eq_true, if_false, one_mul]
    rw [abs_of_nonpos]
    · ring
    · have := mul_nonneg hm (le_of_lt hp)
      linarith

theorem represents_eq (a b : Double) (va vb : ℚ) (ha : a.represents va)
    (hb : b.represents vb) : Double.eq a b = true ↔ va = vb := by
  obtain ⟨s1, m1, e1, rfl, _, hv1⟩ := ha
  obtain ⟨s2, m2, e2, rfl, _, hv2⟩ := hb
  rw [eq_iff_to_rat, hv1, hv2]

theorem represents_to_int64 (a : Double) (z : Int) (ha : a.represents (z : ℚ))
    (hlo : INT64_MIN ≤ z) (hhi : z ≤ INT64_MAX) : a.to_int64 = some z := by
  obtain ⟨s, m, e, rfl, _, hv⟩ := ha
  exact to_int64_exact s m e z hv hlo hhi

/-- The difference `a - x` is exact when it fits a `double` at an exponent not
below that of `x`. -/
theorem represents_sub_right (a : Double) (va : ℚ) (ha : a.represents va)
    (s : Bool) (m : Nat) (e : Int) (he : -1074 ≤ e) (M : Nat) (c : Int) (hM : M < 2 ^ 53)
    (hec : e ≤ c) (hc : c ≤ 971)
    (hv : |va - (Double.finite s m e).to_rat| = (M : ℚ) * (2 : ℚ) ^ c) :
    (Double.sub a (.finite s m e)).represents (va - (Double.finite s m e).to_rat) := by
  obtain ⟨s1, m1, e1, rfl, h1, hv1⟩ := ha
  rw [← hv1] at hv ⊢
  exact sub_exact s1 m1 e1 s m e h1 he M c hM (le_trans (min_le_right _ _) hec) hc hv

/-- The difference `x - b` is exact when it fits a `double` at an exponent not
below that of `x`. -/
theorem represents_sub_left (b : Double) (vb : ℚ) (hb : b.represents vb)
    (s : Bool) (m : Nat) (e : Int) (he : -1074 ≤ e) (M : Nat) (c : Int) (hM : M < 2 ^ 53)
    (hec : e ≤ c) (hc : c ≤ 971)
    (hv : |(Double.finite s m e).to_rat - vb| = (M : ℚ) * (2 : ℚ) ^ c) :
    (Double.sub (.finite s m e) b).represents ((Double.finite s m e).to_rat - vb) := by
  obtain ⟨s2, m2, e2, rfl, h2, hv2⟩ := hb
  rw [← hv2] at hv ⊢
  exact sub_exact s m e s2 m2 e2 he h2 M c hM (le_trans (min_le_left _ _) hec) hc hv

theorem represents_half : (Double.finite false (2 ^ 52) (-53)).represents (1 / 2) := by
  refine ⟨false, 2 ^ 52, -53, rfl, by norm_num, ?_⟩
  simp only [Double.to_rat]
  norm_num [zpow_neg]

theorem represents_zero : (Double.finite false 0 (-1074)).represents 0 := by
  refine ⟨false, 0, -1074, rfl, by norm_num, ?_⟩
  simp [Double.to_rat]

/-- The test `fmod(r, 2.0) == 0.0` on a `double` that holds a whole number tests
whether the number is even. -/
theorem fmod_two_eq_zero (r : Double) (s : Bool) (n : Nat)
    (hr : r.represents ((if s then -1 else 1) * (n : ℚ))) :
    Double.eq (Double.fmod r (.finite false (2 ^ 52) (-51))) (.finite false 0 (-1074)) = true ↔
      n % 2 = 0 := by
  obtain ⟨sr, Mr, Er, rfl, hEr, hrv⟩ := hr
  have hMr : (Mr : ℚ) * (2 : ℚ) ^ Er = (n : ℚ) := by
    have h1 := congrArg abs hrv
    simp only [Double.to_rat] at h1
    have hp := two_zpow_pos Er
    have hm : (0 : ℚ) ≤ (Mr : ℚ) * (2 : ℚ) ^ Er := mul_nonneg (Nat.cast_nonneg Mr) (le_of_lt hp)
    have hn : (0 : ℚ) ≤ (n : ℚ) := Nat.cast_nonneg n
    have e1 : |(if sr = true then (-1 : ℚ) else 1) * (Mr : ℚ) * (2 : ℚ) ^ Er| =
        (Mr : ℚ) * (2 : ℚ) ^ Er := by
      cases sr
      · simp only [Bool.false_eq_true, if_false, one_mul]
        exact abs_of_nonneg hm
      · simp only [if_true]
        rw [abs_of_nonpos (by linarith)]
        ring
    have e2 : |(if s = true then (-1 : ℚ) else 1) * (n : ℚ)| = (n : ℚ) := by
      cases s
      · simp only [Bool.false_eq_true, if_false, one_mul]
        exact abs_of_nonneg hn
      · simp only [if_true]
        rw [abs_of_nonpos (by linarith)]
        ring
    rw [e1, e2] at h1
    exact h1
  rw [represents_eq _ _ _ _ (fmod_two sr Mr Er n hEr hMr) represents_zero]
  constructor
  · intro h
    have h2 : ((n % 2 : Nat) : ℚ) = 0 := by
      cases sr
      · simpa using h
      · simpa using h
    exact_mod_cast h2
  · intro h
    rw [h]
    simp

/-- The entry `round.Scalar` on a `double` `±m * 2 ^ (-k)` with `k ≥ 1`: the
result is the nearest integer, the even one of two nearest. -/
theorem round_Scalar_fraction (s : Bool) (m k : Nat) (out : EValue) (hm : m < 2 ^ 53)
    (hk1 : 1 ≤ k) (hk : k ≤ 1074) :
    ∃ n : Int,
      executorch_prim.round_Scalar (.double (.finite s m (-(k : Int)))) out = .ok (.int n) ∧
      INT64_MIN ≤ n ∧ n ≤ INT64_MAX ∧
      |(n : ℚ) - (Double.finite s m (-(k : Int))).to_rat| ≤ 1 / 2 ∧
      (|(n : ℚ) - (Double.finite s m (-(k : Int))).to_rat| = 1 / 2 → n % 2 = 0) := by
  have hneg : ¬ (-(k : Int) ≥ 0) := by omega
  have htn : (-(-(k : Int))).toNat = k := by omega
  have hround : Double.round (.finite s m (-(k : Int))) =
      Double.round_to s (if 2 * (m % 2 ^ k) ≥ 2 ^ k then m / 2 ^ k + 1 else m / 2 ^ k) 1 0 := by
    unfold Double.round
    simp only [hneg, if_false, htn]
  have hxv : (Double.finite s m (-(k : Int))).to_rat =
      (if s then -1 else 1) * ((m : ℚ) / ((2 ^ k : Nat) : ℚ)) := by
    simp only [Double.to_rat]
    rw [zpow_neg, zpow_natCast]
    push_cast
    ring
  have h2k : (2 : ℚ) ^ (-(k : Int)) = 1 / ((2 ^ k : Nat) : ℚ) := by
    rw [zpow_neg, zpow_natCast]
    push_cast
    ring
  have hP2 : 2 ≤ 2 ^ k := by
    calc 2 = 2 ^ 1 := rfl
      _ ≤ 2 ^ k := Nat.pow_le_pow_right (by norm_num) hk1
  have hdiv := Nat.div_add_mod m (2 ^ k)
  have hrem := Nat.mod_lt m (show 0 < 2 ^ k by positivity)
  generalize (Double.finite s m (-(k : Int))).to_rat = xv at hxv ⊢
  generalize m / 2 ^ k = q at hdiv hround
  generalize m % 2 ^ k = rem at hdiv hrem hround
  generalize 2 ^ k = P at hdiv hrem hround hP2 hxv h2k
  have hPq : (0 : ℚ) < (P : ℚ) := by exact_mod_cast (show 0 < P by omega)
  have hmq : (m : ℚ) = (P : ℚ) * (q : ℚ) + (rem : ℚ) := by exact_mod_cast hdiv.symm
  have h2q : 2 * q ≤ P * q := Nat.mul_le_mul_right q hP2
  have hq52 : q < 2 ^ 52 := by
    generalize P * q = Pq at hdiv h2q
    omega
  -- the rounded magnitude N and the distance Δ / P to it
  obtain ⟨N, Δ, hN, hNq, hΔm, hΔP, hdist, hhalf⟩ : ∃ N Δ : Nat,
      (if 2 * rem ≥ P then q + 1 else q) = N ∧ N ≤ q + 1 ∧ Δ ≤ m ∧ 2 * Δ ≤ P ∧
      |(N : ℚ) - (m : ℚ) / (P : ℚ)| = (Δ : ℚ) / (P : ℚ) ∧
      (2 * Δ = P → N = q + 1 ∧ (m : ℚ) / (P : ℚ) = (q : ℚ) + 1 / 2) := by
    by_cases hup : 2 * rem ≥ P
    · refine ⟨q + 1, P - rem, by simp [hup], le_refl _, ?_, by omega, ?_, ?_⟩
      · generalize P * q = Pq at hdiv h2q
        omega
      · have hc : ((P - rem : Nat) : ℚ) = (P : ℚ) - (rem : ℚ) := by
          rw [Nat.cast_sub (by omega)]
        rw [hc, hmq]
        have : ((q + 1 : Nat) : ℚ) - ((P : ℚ) * (q : ℚ) + (rem : ℚ)) / (P : ℚ) =
            ((P : ℚ) - (rem : ℚ)) / (P : ℚ) := by
          push_cast
          field_simp
          ring
        rw [this, abs_of_nonneg]
        apply div_nonneg _ (le_of_lt hPq)
        have : (rem : ℚ) ≤ (P : ℚ) := by exact_mod_cast (le_of_lt hrem)
        linarith
      · intro h2
        refine ⟨rfl, ?_⟩
        have hr2 : 2 * rem = P := by omega
        have hr3 : (2 : ℚ) * (rem : ℚ) = (P : ℚ) := by exact_mod_cast hr2
        rw [hmq]
        field_simp
        linarith
    · refine ⟨q, rem, by simp [hup], by omega, ?_, by omega, ?_, ?_⟩
      · generalize P * q = Pq at hdiv h2q
        omega
      · rw [hmq]
        have : (q : ℚ) - ((P : ℚ) * (q : ℚ) + (rem : ℚ)) / (P : ℚ) = -((rem : ℚ) / (P : ℚ)) := by
          field_simp
          ring
        rw [this, abs_neg, abs_of_nonneg]
        exact div_nonneg (Nat.cast_nonneg rem) (le_of_lt hPq)
      · intro h2
        omega
  rw [hN] at hround
  have hN53 : N < 2 ^ 53 := by omega
  have hN52 : N ≤ 4503599627370496 := by omega
  have hsgn : |(if s = true then (-1 : ℚ) else 1)| = 1 := by cases s <;> simp
  have hcast : (((if s = true then (-1 : Int) else 1) * (N : Int) : Int) : ℚ) =
      (if s = true then (-1 : ℚ) else 1) * (N : ℚ) := by cases s <;> simp
  have hrange : INT64_MIN ≤ (if s = true then (-1 : Int) else 1) * (N : Int) ∧
      (if s = true then (-1 : Int) else 1) * (N : Int) ≤ INT64_MAX := by
    cases s <;> simp [INT64_MIN, INT64_MAX] <;> omega
  have hrrep : (Double.round_to s N 1 0).represents ((if s = true then (-1 : ℚ) else 1) * (N : ℚ)) := by
    have := round_to_rep s N 0 (by norm_num) N 0 hN53 (le_refl _) (by norm_num) rfl
    simpa using this
  have hdv : (if s = true then (-1 : ℚ) else 1) * (N : ℚ) - xv =
      (if s = true then (-1 : ℚ) else 1) * ((N : ℚ) - (m : ℚ) / (P : ℚ)) := by
    rw [hxv]
    ring
  have hdabs : |(if s = true then (-1 : ℚ) else 1) * (N : ℚ) - xv| = (Δ : ℚ) / (P : ℚ) := by
    rw [hdv, abs_mul, hsgn, one_mul, hdist]
  have hvald : |(if s = true then (-1 : ℚ) else 1) * (N : ℚ) - xv| =
      (Δ : ℚ) * (2 : ℚ) ^ (-(k : Int)) := by
    rw [hdabs, h2k]
    ring
  have hxv2 : (Double.finite s m (-(k : Int))).to_rat = xv := by
    rw [hxv]
    simp only [Double.to_rat]
    rw [h2k]
    ring
  rw [← hxv2] at hvald
  have hd := represents_sub_right _ _ hrrep s m (-(k : Int)) (by omega) Δ (-(k : Int))
    (by omega) (le_refl _) (by omega) hvald
  have heq := represents_eq _ _ _ _ (represents_abs _ _ hd) represents_half
  rw [hxv2] at hd heq
  rw [hdabs] at heq
  have hhalf_iff : (Δ : ℚ) / (P : ℚ) = 1 / 2 ↔ 2 * Δ = P := by
    constructor
    · intro h
      have h3 : (2 : ℚ) * (Δ : ℚ) = (P : ℚ) := by
        field_simp at h
        linarith
      exact_mod_cast h3
    · intro h
      have h3 : (P : ℚ) = 2 * (Δ : ℚ) := by exact_mod_cast h.symm
      rw [h3]
      have hΔ0 : (Δ : ℚ) ≠ 0 := by
        intro h0
        rw [h0] at h3
        linarith
      field_simp
      ring
  by_cases h2 : 2 * Δ = P
  · -- halfway between two integers
    obtain ⟨hNq2, hmhalf⟩ := hhalf h2
    have e1 : Double.eq (Double.abs (Double.sub (Double.round_to s N 1 0)
        (.finite s m (-(k : Int))))) (.finite false (2 ^ 52) (-53)) = true :=
      heq.mpr (hhalf_iff.mpr h2)
    by_cases hev : N % 2 = 0
    · have e2 := (fmod_two_eq_zero _ s N hrrep).mpr hev
      refine ⟨(if s = true then (-1 : Int) else 1) * (N : Int), ?_, hrange.1, hrange.2, ?_, ?_⟩
      · have h64 := represents_to_int64 (Double.round_to s N 1 0)
          ((if s = true then (-1 : Int) else 1) * (N : Int)) (by rw [hcast]; exact hrrep)
          hrange.1 hrange.2
        simp only [executorch_prim.round_Scalar, hround, e1, e2, Bool.not_true,
          Bool.false_eq_true, if_false, if_true, h64]
      · rw [hcast, hdabs, hhalf_iff.mpr h2]
      · intro _
        cases s <;> simp <;> omega
    · have e2 : Double.eq (Double.fmod (Double.round_to s N 1 0) (.finite false (2 ^ 52) (-51)))
          (.finite false 0 (-1074)) = false :=
        Bool.eq_false_iff.mpr (fun h => hev ((fmod_two_eq_zero _ s N hrrep).mp h))
      have hres_val : xv - ((if s = true then (-1 : ℚ) else 1) * (N : ℚ) - xv) =
          (if s = true then (-1 : ℚ) else 1) * (q : ℚ) := by
        rw [hxv, hmhalf, hNq2]
        push_cast
        ring
      have hvalr : |(Double.finite s m (-(k : Int))).to_rat -
          ((if s = true then (-1 : ℚ) else 1) * (N : ℚ) - xv)| = (q : ℚ) * (2 : ℚ) ^ (0 : Int) := by
        rw [hxv2, hres_val, abs_mul, hsgn, one_mul, zpow_zero, mul_one]
        exact abs_of_nonneg (Nat.cast_nonneg q)
      have hres := represents_sub_left _ _ hd s m (-(k : Int)) (by omega) q 0 (by omega)
        (by omega) (by norm_num) hvalr
      rw [hxv2, hres_val] at hres
      have hcastq : (((if s = true then (-1 : Int) else 1) * (q : Int) : Int) : ℚ) =
          (if s = true then (-1 : ℚ) else 1) * (q : ℚ) := by cases s <;> simp
      have hrangeq : INT64_MIN ≤ (if s = true then (-1 : Int) else 1) * (q : Int) ∧
          (if s = true then (-1 : Int) else 1) * (q : Int) ≤ INT64_MAX := by
        have hq52b : q < 4503599627370496 := by omega
        cases s <;> simp [INT64_MIN, INT64_MAX] <;> omega
      refine ⟨(if s = true then (-1 : Int) else 1) * (q : Int), ?_, hrangeq.1, hrangeq.2, ?_, ?_⟩
      · have h64 := represents_to_int64 _
          ((if s = true then (-1 : Int) else 1) * (q : Int)) (by rw [hcastq]; exact hres)
          hrangeq.1 hrangeq.2
        simp only [executorch_prim.round_Scalar, hround, e1, e2, Bool.not_true,
          Bool.false_eq_true, if_false, if_true, h64]
      · rw [hcastq, hxv, hmhalf, ← mul_sub, abs_mul, hsgn, one_mul]
        have : (q : ℚ) - ((q : ℚ) + 1 / 2) = -(1 / 2) := by ring
        rw [this, abs_neg, abs_of_nonneg (by norm_num)]
      · intro _
        have : q % 2 = 0 := by omega
        cases s <;> simp <;> omega
  · -- nearer to one integer than to any other
    have hne : ¬ ((Δ : ℚ) / (P : ℚ) = 1 / 2) := fun h => h2 (hhalf_iff.mp h)
    have e1 : Double.eq (Double.abs (Double.sub (Double.round_to s N 1 0)
        (.finite s m (-(k : Int))))) (.finite false (2 ^ 52) (-53)) = false :=
      Bool.eq_false_iff.mpr (fun h => hne (heq.mp h))
    refine ⟨(if s = true then (-1 : Int) else 1) * (N : Int), ?_, hrange.1, hrange.2, ?_, ?_⟩
    · have h64 := represents_to_int64 (Double.round_to s N 1 0)
        ((if s = true then (-1 : Int) else 1) * (N : Int)) (by rw [hcast]; exact hrrep)
        hrange.1 hrange.2
      simp only [executorch_prim.round_Scalar, hround, e1, Bool.not_false, if_true, h64]
    · rw [hcast, hdabs]
      rw [div_le_iff₀ hPq]
      have : (2 : ℚ) * (Δ : ℚ) ≤ (P : ℚ) := by exact_mod_cast hΔP
      linarith
    · intro h
      rw [hcast, hdabs] at h
      exact absurd h hne

/-- The entry `round.Scalar` on a `double` `±m * 2 ^ e` with `e ≥ 0`, a whole
number: the result is that number. -/
theorem round_Scalar_whole (s : Bool) (m : Nat) (e : Int) (out : EValue) (he : 0 ≤ e)
    (hlo : ((INT64_MIN : Int) : ℚ) ≤ (Double.finite s m e).to_rat)
    (hhi : (Double.finite s m e).to_rat ≤ ((INT64_MAX : Int) : ℚ)) :
    ∃ n : Int,
      executorch_prim.round_Scalar (.double (.finite s m e)) out = .ok (.int n) ∧
      INT64_MIN ≤ n ∧ n ≤ INT64_MAX ∧ (n : ℚ) = (Double.finite s m e).to_rat := by
  obtain ⟨j, hj⟩ : ∃ j : Nat, e = j := ⟨e.toNat, by omega⟩
  subst hj
  have hz : (Double.finite s m (j : Int)).to_rat =
      (((if s = true then (-1 : Int) else 1) * ((m * 2 ^ j : Nat) : Int) : Int) : ℚ) := by
    simp only [Double.to_rat]
    rw [zpow_natCast]
    cases s <;> simp
  have hround : Double.round (.finite s m (j : Int)) = .finite s m (j : Int) := by
    simp only [Double.round, ge_iff_le, he, if_true]
  have hsub : Double.sub (.finite s m (j : Int)) (.finite s m (j : Int)) =
      .finite (s && !s) 0 (-1074) := by
    unfold Double.sub
    simp
  have hzero : (Double.abs (.finite (s && !s) 0 (-1074))).represents 0 :=
    ⟨false, 0, -1074, rfl, le_refl _, by simp [Double.to_rat, Double.abs]⟩
  have e1 : Double.eq (Double.abs (.finite (s && !s) 0 (-1074))) (.finite false (2 ^ 52) (-53)) =
      false :=
    Bool.eq_false_iff.mpr
      (fun h => absurd ((represents_eq _ _ 0 (1 / 2) hzero represents_half).mp h) (by norm_num))
  rw [hz] at hlo hhi
  have hlo2 : INT64_MIN ≤ (if s = true then (-1 : Int) else 1) * ((m * 2 ^ j : Nat) : Int) := by
    exact_mod_cast hlo
  have hhi2 : (if s = true then (-1 : Int) else 1) * ((m * 2 ^ j : Nat) : Int) ≤ INT64_MAX := by
    exact_mod_cast hhi
  refine ⟨_, ?_, hlo2, hhi2, hz.symm⟩
  have h64 := to_int64_exact s m (j : Int) _ hz hlo2 hhi2
  simp only [executorch_prim.round_Scalar, hround, hsub, e1, Bool.not_false, if_true, h64]

/-- The entry `round.Scalar` on a finite `double` within the range of a 64-bit
integer: the result is an integer nearest to it, the even one of two nearest. -/
theorem round_Scalar_nearest (s : Bool) (m : Nat) (e : Int) (out : EValue)
    (hm : m < 2 ^ 53) (he1 : -1074 ≤ e)
    (hlo : ((INT64_MIN : Int) : ℚ) ≤ (Double.finite s m e).to_rat)
    (hhi : (Double.finite s m e).to_rat ≤ ((INT64_MAX : Int) : ℚ)) :
    ∃ n : Int,
      executorch_prim.round_Scalar (.double (.finite s m e)) out = .ok (.int n) ∧
      INT64_MIN ≤ n ∧ n ≤ INT64_MAX ∧
      |(n : ℚ) - (Double.finite s m e).to_rat| ≤ 1 / 2 ∧
      (|(n : ℚ) - (Double.finite s m e).to_rat| = 1 / 2 → n % 2 = 0) := by
  by_cases he : 0 ≤ e
  · obtain ⟨n, h1, h2, h3, h4⟩ := round_Scalar_whole s m e out he hlo hhi
    refine ⟨n, h1, h2, h3, ?_, ?_⟩
    · rw [h4, sub_self, abs_zero]
      norm_num
    · intro h
      rw [h4, sub_self, abs_zero] at h
      norm_num at h
  · obtain ⟨k, hk⟩ : ∃ k : Nat, e = -(k : Int) := ⟨(-e).toNat, by omega⟩
    subst hk
    exact round_Scalar_fraction s m k out hm (by omega) (by omega)

/-- Only one integer is nearest to a rational number and even in a tie. -/
theorem nearest_even_unique (n z : Int) (v : ℚ) (h1 : |(n : ℚ) - v| ≤ 1 / 2)
    (h2 : |(n : ℚ) - v| = 1 / 2 → n % 2 = 0) (hz1 : |(z : ℚ) - v| ≤ 1 / 2)
    (hz2 : |(z : ℚ) - v| = 1 / 2 → z % 2 = 0) : n = z := by
  by_contra hne
  have h3 : |(n : ℚ) - (z : ℚ)| ≤ |(n : ℚ) - v| + |(z : ℚ) - v| := by
    have := abs_sub_le (n : ℚ) v (z : ℚ)
    rw [abs_sub_comm v (z : ℚ)] at this
    exact this
  have h4 : (1 : ℚ) ≤ |(n : ℚ) - (z : ℚ)| := by
    have : (1 : Int) ≤ |n - z| := Int.one_le_abs (sub_ne_zero.mpr hne)
    exact_mod_cast this
  have p1 := h2 (by linarith)
  have p2 := hz2 (by linarith)
  have h5 : |(n : ℚ) - (z : ℚ)| ≤ 1 := by linarith
  have h6 : |n - z| ≤ 1 := by exact_mod_cast h5
  rw [abs_le] at h6
  omega

/-- The result of `round.Scalar` on a `double`, from the integer that is
nearest to it and even in a tie. -/
theorem round_Scalar_value (s : Bool) (m : Nat) (e : Int) (out : EValue) (z : Int)
    (hm : m < 2 ^ 53) (he1 : -1074 ≤ e)
    (hlo : ((INT64_MIN : Int) : ℚ) ≤ (Double.finite s m e).to_rat)
    (hhi : (Double.finite s m e).to_rat ≤ ((INT64_MAX : Int) : ℚ))
    (hz1 : |(z : ℚ) - (Double.finite s m e).to_rat| ≤ 1 / 2)
    (hz2 : |(z : ℚ) - (Double.finite s m e).to_rat| = 1 / 2 → z % 2 = 0) :
    executorch_prim.round_Scalar (.double (.finite s m e)) out = .ok (.int z) := by
  obtain ⟨n, hn, _, _, h1, h2⟩ := round_Scalar_nearest s m e out hm he1 hlo hhi
  rw [hn, nearest_even_unique n z _ h1 h2 hz1 hz2]

theorem to_rat_half : (Double.finite false (2 ^ 52) (-53)).to_rat = 1 / 2 := by
  simp only [Double.to_rat]
  norm_num [zpow_neg]

theorem to_rat_three_halves : (Double.finite false (3 * 2 ^ 51) (-52)).to_rat = 3 / 2 := by
  simp only [Double.to_rat]
  norm_num [zpow_neg]

theorem to_rat_five_halves : (Double.finite false (5 * 2 ^ 50) (-51)).to_rat = 5 / 2 := by
  simp only [Double.to_rat]
  norm_num [zpow_neg]

theorem to_rat_minus_half : (Double.finite true (2 ^ 52) (-53)).to_rat = -(1 / 2) := by
  simp only [Double.to_rat]
  norm_num [zpow_neg]

/-- C31.  For every finite `double` x = ±m * 2 ^ e whose value lies within the
range of a 64-bit integer, `round.Scalar` assigns an Int n to the output with
|n - x| ≤ 1/2, so that n is an integer nearest to x, and with n even when x is
exactly halfway between two integers; on 0.5, 1.5, 2.5 and -0.5 the results
are 0, 2, 2 and 0; and on an operand that is not a Double the entry fails with
`InvalidType` and leaves the output as it was. -/
theorem round_Scalar_half_to_even (s : Bool) (m : Nat) (e : Int) (a out : EValue)
    (hwf : (Double.finite s m e).wf = true)
    (hlo : ((INT64_MIN : Int) : ℚ) ≤ (Double.finite s m e).to_rat)
    (hhi : (Double.finite s m e).to_rat ≤ ((INT64_MAX : Int) : ℚ))
    (ha : a.isDouble = false) :
    (∃ n : Int,
      executorch_prim.round_Scalar (.double (.finite s m e)) out = .ok (.int n) ∧
      INT64_MIN ≤ n ∧ n ≤ INT64_MAX ∧
      |(n : ℚ) - (Double.finite s m e).to_rat| ≤ 1 / 2 ∧
      (|(n : ℚ) - (Double.finite s m e).to_rat| = 1 / 2 → n % 2 = 0)) ∧
    executorch_prim.round_Scalar (.double (.finite false (2 ^ 52) (-53))) out = .ok (.int 0) ∧
    executorch_prim.round_Scalar (.double (.finite false (3 * 2 ^ 51) (-52))) out =
      .ok (.int 2) ∧
    executorch_prim.round_Scalar (.double (.finite false (5 * 2 ^ 50) (-51))) out =
      .ok (.int 2) ∧
    executorch_prim.round_Scalar (.double (.finite true (2 ^ 52) (-53))) out = .ok (.int 0) ∧
    executorch_prim.round_Scalar a out = .fail .InvalidType out := by
  simp only [Double.wf, decide_eq_true_eq] at hwf
  obtain ⟨hm, he1, _, _⟩ := hwf
  refine ⟨round_Scalar_nearest s m e out hm he1 hlo hhi, ?_, ?_, ?_, ?_, ?_⟩
  · apply round_Scalar_value _ _ _ _ _ (by norm_num) (by norm_num) <;> rw [to_rat_half] <;>
      norm_num [INT64_MIN, INT64_MAX, abs_le]
  · apply round_Scalar_value _ _ _ _ _ (by norm_num) (by norm_num) <;>
      rw [to_rat_three_halves] <;> norm_num [INT64_MIN, INT64_MAX, abs_le]
  · apply round_Scalar_value _ _ _ _ _ (by norm_num) (by norm_num) <;>
      rw [to_rat_five_halves] <;> norm_num [INT64_MIN, INT64_MAX, abs_le]
  · apply round_Scalar_value _ _ _ _ _ (by norm_num) (by norm_num) <;>
      rw [to_rat_minus_half] <;> norm_num [INT64_MIN, INT64_MAX, abs_le]
  · cases a <;> simp_all [EValue.isDouble, executorch_prim.round_Scalar]

theorem round_Scalar_half_to_even_witness :
    ∃ n : Int,
      executorch_prim.round_Scalar (.double (.finite false (5 * 2 ^ 50) (-51))) .none =
        .ok (.int n) ∧
      INT64_MIN ≤ n ∧ n ≤ INT64_MAX ∧
      |(n : ℚ) - (Double.finite false (5 * 2 ^ 50) (-51)).to_rat| ≤ 1 / 2 ∧
      (|(n : ℚ) - (Double.finite false (5 * 2 ^ 50) (-51)).to_rat| = 1 / 2 → n % 2 = 0) :=
  (round_Scalar_half_to_even false (5 * 2 ^ 50) (-51) (.int 3) .none (by decide)
    (by norm_num [Double.to_rat, INT64_MIN]) (by norm_num [Double.to_rat, INT64_MAX]) rfl).1

/-! ### The ceiling of a double and its conversion to an unsigned integer -/

end torch.executor.function

namespace vkcompute

open vkapi torch.executor.function

/-! ### The descriptor pool and the safety factor -/

end vkcompute
